import Mathlib

/-!
# VolumeHologramApp: the scattering-matrix engine

A shallow embedding of the C++ sources under `VolumeHologramEvaluationCPP/src`
and a verification of the contract written down for them.

Conventions of the embedding.

* `arma::cx_mat` blocks are square matrices `Matrix ι ι K` over a field `K`
  (exact arithmetic in place of `std::complex<double>`); the index type `ι`
  fixes the dimension, so every matrix of one run has the same size.
  `Fin d` gives the `d x d` blocks, `Fin M ⊕ Fin M` the `2M x 2M` blocks that
  `join_rows` / `join_cols` assemble.
* `double` values are elements of a linearly ordered field `R`.
* A C++ exception (a singular `arma::inv`, a `throw`) is the result `none`.
* `std::map<std::string, V>` is the list of its entries in ascending key order.
-/

namespace rcwa

/-! ## Linear algebra taken from armadillo -/

section Armadillo

variable {ι K : Type} [Fintype ι] [DecidableEq ι] [Field K] [DecidableEq K]

/-- `arma::inv(A)`: the inverse of a square matrix; a singular matrix makes
armadillo throw `std::runtime_error`, here `none`. -/
@[nospecialize]
def armaInv (A : Matrix ι ι K) : Option (Matrix ι ι K) :=
  if A.det = 0 then none else some (A.det⁻¹ • A.adjugate)

end Armadillo

/-! ## ScatterMatrix.h / ScatterMatrix.cpp -/

/-- `struct ScatterMatrix`: four blocks of one dimension. -/
@[ext]
structure ScatterMatrix (ι K : Type) where
  s11 : Matrix ι ι K
  s21 : Matrix ι ι K
  s12 : Matrix ι ι K
  s22 : Matrix ι ι K

namespace ScatterMatrix

variable {ι K : Type} [Fintype ι] [DecidableEq ι] [Field K] [DecidableEq K]

/-- `ScatterMatrix::Unity(dimSij)`; the dimension is the index type. -/
def Unity : ScatterMatrix ι K :=
  { s11 := 0
    s21 := 1
    s12 := 1
    s22 := 0 }

/-- `ScatterMatrix::redhefferStarProduct(sa, sb)`. -/
@[nospecialize]
def redhefferStarProduct (sa sb : ScatterMatrix ι K) : Option (ScatterMatrix ι K) := do
  let i : Matrix ι ι K := 1
  let bracket_1 ← armaInv (i - (sb.s11 * sa.s22))
  let bracket_2 ← armaInv (i - (sa.s22 * sb.s11))
  -- SAB11
  let second := sa.s12 * bracket_1 * (sb.s11 * sa.s21)
  let sab11 := sa.s11 + second
  -- SAB12
  let sab12 := sa.s12 * bracket_1 * sb.s12
  -- SAB21
  let sab21 := sb.s21 * bracket_2 * sa.s21
  -- SAB22
  let second := sb.s21 * bracket_2 * (sa.s22 * sb.s12)
  let sab22 := sb.s22 + second
  pure { s11 := sab11, s12 := sab12, s21 := sab21, s22 := sab22 }

/-- The star product of two results that may have failed: an exception thrown
while an operand was computed propagates. -/
def optStar (a b : Option (ScatterMatrix ι K)) : Option (ScatterMatrix ι K) :=
  a.bind fun sa => b.bind fun sb => redhefferStarProduct sa sb

/-- Straight-line sequential star-combination of `n` copies of `f`: the left
fold seeded with `Unity` (the reference computation of the doubling test). -/
def sequentialStar (f : ScatterMatrix ι K) : ℕ → Option (ScatterMatrix ι K)
  | 0 => some Unity
  | n + 1 => (sequentialStar f n).bind fun acc => redhefferStarProduct acc f

end ScatterMatrix

/-! ## std::map and the library calls on its keys -/

/-- `std::map<std::string, V>`: the entries, in ascending order of the keys
(`std::string::operator<`, the lexicographic order of the characters). -/
abbrev StdMap (V : Type) := List (String × V)

namespace StdMap

variable {V : Type}

/-- The keys of a map, in iteration order. -/
def keys (m : StdMap V) : List String := m.map Prod.fst

/-- The invariant of `std::map`: keys strictly ascending (so pairwise distinct). -/
def Ordered (m : StdMap V) : Prop := (keys m).Sorted (· < ·)

/-- `m[key]` on an entry that is read: the stored value. A missing key makes
`operator[]` insert a default `ScatterMatrix` with empty blocks, which no
product with a block of the run accepts; the model reports `none`. -/
def get (m : StdMap V) (key : String) : Option V := m.lookup key

/-- `m.insert({key, v})`: the entry is placed in key order; an existing key
keeps its old value. -/
def insert : StdMap V → String → V → StdMap V
  | [], key, v => [(key, v)]
  | (k, w) :: rest, key, v =>
    if key < k then (key, v) :: (k, w) :: rest
    else if key = k then (k, w) :: rest
    else (k, w) :: insert rest key v

end StdMap

/-- The value of a string of decimal digits read as a natural number. -/
def digitsValue (cs : List Char) : ℕ :=
  cs.foldl (fun acc c => 10 * acc + (c.toNat - '0'.toNat)) 0

/-- The decimal notation accepted by `std::stod` (through `strtod`): optional
sign, digits with an optional radix point, at least one digit; characters
after the number are ignored. No conversion is performed (`none`, the
`std::invalid_argument` of `stod`) when the text does not start with a number.
Leading white space, exponents, hexadecimal notation, `inf` and `nan` are not
covered: `std::to_string` never writes the first three, and the last two have
no value in exact arithmetic. -/
def stodDecimal (s : String) : Option ℚ :=
  let cs := s.toList
  let (neg, cs) :=
    match cs with
    | '-' :: t => (true, t)
    | '+' :: t => (false, t)
    | _ => (false, cs)
  let intPart := cs.takeWhile Char.isDigit
  let afterInt := cs.dropWhile Char.isDigit
  let fracPart :=
    match afterInt with
    | '.' :: t => t.takeWhile Char.isDigit
    | _ => []
  if intPart.isEmpty && fracPart.isEmpty then none
  else
    let mag : ℚ := (digitsValue intPart : ℚ) + (digitsValue fracPart : ℚ) / (10 : ℚ) ^ fracPart.length
    some (if neg then -mag else mag)

/-! ## HoeWriter.h / HoeWriter.cpp: the periodic hints -/

/-- `struct HoeWriterParameter`. -/
structure HoeWriterParameter (R : Type) where
  lamHoe : R
  thetaDegRec1 : R
  phiDegRec1 : R
  thetaDegRec2 : R
  phiDegRec2 : R
  n : R
  dn : R
  stepsPerCycle : Bool
  thickness : R
  addArLayer : Bool
  thetaDeg : R
  dimZ : R

/-- The data members of `class HoeWriter` that the periodic hints read and
write. `mThicknessRest` is `none` for NaN. A default-constructed writer has an
empty `mThicknessInPowerOfTwoCycles`. -/
structure HoeWriter (R : Type) where
  mWriterParameter : HoeWriterParameter R
  mAngleCoordinateRotation : R
  mGratingVector : Fin 3 → R
  mGratingVectorRot : Fin 3 → R
  mThicknessInPowerOfTwoCycles : List ℕ
  mThicknessRest : Option R
  mDz : R

/-- `int(x)` for a `double` x: truncation toward zero. The conversion is
undefined when the truncated value does not fit a 32-bit `int`; the model
reports `none` there. -/
def doubleToInt {R : Type} [LinearOrderedField R] [FloorRing R] (x : R) : Option ℤ :=
  let t : ℤ := if 0 ≤ x then ⌊x⌋ else ⌈x⌉
  if -(2 : ℤ) ^ 31 ≤ t ∧ t < (2 : ℤ) ^ 31 then some t else none

/-- The `while (more)` loop of `mBuildThicknessInPowerOfTwoCycles`, entered
with `n >= 1`: `x = int(std::log2(n))` is the position of the highest set bit,
it is appended, and `1 << x` is taken off `n` until nothing is left. -/
def powerOfTwoLoop (n : ℕ) (cycles : List ℕ) : List ℕ :=
  if n - 2 ^ Nat.log2 n = 0 then cycles ++ [Nat.log2 n]
  else powerOfTwoLoop (n - 2 ^ Nat.log2 n) (cycles ++ [Nat.log2 n])
termination_by n
decreasing_by
  have hpos : 0 < 2 ^ Nat.log2 n := Nat.two_pow_pos _
  omega

/-- `std::abs` on a `double`. -/
def stdAbs {R : Type} [LinearOrderedField R] (x : R) : R := |x|

namespace HoeWriter

variable {R : Type} [LinearOrderedField R] [FloorRing R]

/-- `HoeWriter::getCycleLengthZDirection`; `pi2` is the constant of
constants.h. The source calls `abs` unqualified on a `double`, and which
function that is depends on the declarations the standard headers leave in the
global namespace: `cabs` is the function the call resolves to, `std::abs` on
`double` (`stdAbs`) where the floating-point overloads are declared there, and
`int abs(int)` on the argument converted to `int` (`intAbs`) where only the C
declaration is. The quotient is taken in exact arithmetic: where `cabs`
returns 0 (with `intAbs`, every `|g_z| < 1`) the source's quotient is
infinite, a value the model does not have. -/
def getCycleLengthZDirection (cabs : R → R) (pi2 : R) (w : HoeWriter R) : R :=
  let gz := cabs (w.mGratingVectorRot 2)
  pi2 / gz

/-- `HoeWriter::getThicknessInPowerOfTwoCycles`. -/
def getThicknessInPowerOfTwoCycles (w : HoeWriter R) : List ℕ :=
  w.mThicknessInPowerOfTwoCycles

/-- `HoeWriter::getBuildThicknessRest`. -/
def getBuildThicknessRest (w : HoeWriter R) : Option R :=
  w.mThicknessRest

/-- `HoeWriter::mBuildThicknessInPowerOfTwoCycles`, as a step on the writer.
A negative `n` reaches `int(std::log2(n))` with a NaN, an undefined
conversion: `none`. -/
def mBuildThicknessInPowerOfTwoCycles (cabs : R → R) (pi2 : R) (w : HoeWriter R) :
    Option (HoeWriter R) :=
  if !w.mWriterParameter.stepsPerCycle then
    some { w with mThicknessInPowerOfTwoCycles := w.mThicknessInPowerOfTwoCycles ++ [0] }
  else do
    let length := w.getCycleLengthZDirection cabs pi2
    let n ← doubleToInt (w.mWriterParameter.thickness / length)
    if n = 0 then
      some w
    else if n < 0 then
      none
    else
      let cycles := powerOfTwoLoop n.toNat w.mThicknessInPowerOfTwoCycles
      some { w with mThicknessInPowerOfTwoCycles := cycles.insertionSort (· ≤ ·) }

/-- `HoeWriter::mBuildThicknessRest`, as a step on the writer. -/
def mBuildThicknessRest (cabs : R → R) (pi2 : R) (w : HoeWriter R) : HoeWriter R :=
  if !w.mWriterParameter.stepsPerCycle then
    { w with mThicknessRest := none }
  else
    let length := w.getCycleLengthZDirection cabs pi2
    let sum : ℕ := w.mThicknessInPowerOfTwoCycles.foldl (fun acc p => acc + 2 ^ p) 0
    { w with mThicknessRest := some (w.mWriterParameter.thickness - (sum : R) * length) }

end HoeWriter

/-! ## VolumeHologram3D.h / VolumeHologram3D.cpp: the stack accumulator -/

/-- `struct VolumeHologram3DParameter`. -/
structure VolumeHologram3DParameter (R K : Type) where
  thetaDeg : R
  phiDeg : R
  lam : R
  harmonicOrder : ℤ
  erTrn : K
  urTrn : K
  lamHoe : R
  thetaDegRec1 : R
  phiDegRec1 : R
  thetaDegRec2 : R
  phiDegRec2 : R
  n : R
  dn : R
  dimZ : ℤ
  stepsPerCycle : Bool
  thickness : R
  addArLayer : Bool

/-- `std::numeric_limits<double>::max()`, the largest finite double. -/
def doubleMax {R : Type} [LinearOrderedField R] : R := 2 ^ 1024 - 2 ^ 971

namespace VolumeHologram3D

open ScatterMatrix

section Power

variable {ι K R : Type} [Fintype ι] [DecidableEq ι] [Field K] [DecidableEq K]
 [LinearOrderedField R] [FloorRing R]

/-- One pass of the `for (x ...)` loop of `mCalcPowerScatterMatrix` on the pair
`(device, temp)`. -/
@[nospecialize]
def powerStep (powers : List ℕ) (state : ScatterMatrix ι K × ScatterMatrix ι K) (x : ℕ) :
    Option (ScatterMatrix ι K × ScatterMatrix ι K) := do
  let (device, temp) := state
  let temp ← if x ≠ 0 then redhefferStarProduct temp temp else pure temp
  let device ← if x ∈ powers then redhefferStarProduct device temp else pure device
  pure (device, temp)

/-- `VolumeHologram3D::mCalcPowerScatterMatrix`; the writer is the
`deviceCreator` of the system. -/
@[nospecialize]
def mCalcPowerScatterMatrix (writer : HoeWriter R) (accumulatedMatrices : StdMap (ScatterMatrix ι K)) :
    Option (ScatterMatrix ι K) := do
  let powers := writer.getThicknessInPowerOfTwoCycles
  let _ ← accumulatedMatrices.get "sRef"
  let device : ScatterMatrix ι K := Unity
  let temp ← accumulatedMatrices.get "full"
  match powers with
  | [] => pure device
  | p :: ps =>
    let maxPower := ps.foldl max p
    let (device, _) ← (List.range (maxPower + 1)).foldlM (powerStep powers) (device, temp)
    pure device

/-- `VolumeHologram3D::mCalcGlobalScatterMatrix`. -/
@[nospecialize]
def mCalcGlobalScatterMatrix (mPram : VolumeHologram3DParameter R K)
    (powerMatrix restMatrix : ScatterMatrix ι K)
    (accumulatedMatrices : StdMap (ScatterMatrix ι K)) : Option (ScatterMatrix ι K) := do
  let sRef ← accumulatedMatrices.get "sRef"
  let sTrn ← accumulatedMatrices.get "sTrn"
  let device ← redhefferStarProduct powerMatrix restMatrix
  let device ←
    if mPram.addArLayer then do
      let sAr ← accumulatedMatrices.get "ar"
      let device ← redhefferStarProduct device sAr
      redhefferStarProduct sAr device
    else pure device
  let device ← redhefferStarProduct device sTrn
  let device ← redhefferStarProduct sRef device
  pure device

end Power

section Closest

variable {V R : Type} [LinearOrderedField R]

/-- `VolumeHologram3D::mIsNumber`: whether `std::stod` converts the text. -/
def mIsNumber (stod : String → Option R) (s : String) : Bool :=
  (stod s).isSome

/-- One pass of the range-for loop of `mFindClosed` on `(bestKey, minDiff)`. -/
def findClosedStep (stod : String → Option R) (rest : R) (state : String × R)
    (entry : String × V) : String × R :=
  let (bestKey, minDiff) := state
  let key := entry.1
  if mIsNumber stod key then
    match stod key with
    | some keyVal =>
      let diff := |keyVal - rest|
      if diff < minDiff then (key, diff) else (bestKey, minDiff)
    | none => (bestKey, minDiff)
  else (bestKey, minDiff)

/-- `VolumeHologram3D::mFindClosed`; `stod` is `std::stod` on the texts it
converts to a finite value. The `throw` on an empty best key is `none`. -/
def mFindClosed (stod : String → Option R) (accumulatedMatrices : StdMap V) (rest : R) :
    Option String :=
  let (bestKey, _) := accumulatedMatrices.foldl (findClosedStep stod rest) ("", doubleMax)
  if bestKey.isEmpty then none else some bestKey

end Closest

variable {ι K R : Type} [Fintype ι] [DecidableEq ι] [Field K] [DecidableEq K]
 [LinearOrderedField R] [FloorRing R]

/-- `VolumeHologram3D::mCalcRestScatterMatrix`. -/
@[nospecialize]
def mCalcRestScatterMatrix (stod : String → Option R) (writer : HoeWriter R)
    (accumulatedMatrices : StdMap (ScatterMatrix ι K)) : Option (ScatterMatrix ι K) :=
  match writer.getBuildThicknessRest with
  | some rest => do
    let closest_key ← mFindClosed stod accumulatedMatrices rest
    accumulatedMatrices.get closest_key
  | none => do
    let _ ← accumulatedMatrices.get "sRef"
    pure Unity

end VolumeHologram3D


/-! ## The numerical library and the data of a run -/

/-- An `arma::cx_mat` whose size is a run-time value (a layer profile): the
element `(r, c)` is read inside the bounds only. -/
structure ArmaMat (K : Type) where
  n_rows : ℕ
  n_cols : ℕ
  elem : ℕ → ℕ → K

/-- The matrix a scalar assignment `M = c` leaves: 1 x 1. -/
def ArmaMat.scalar {K : Type} (c : K) : ArmaMat K :=
  { n_rows := 1, n_cols := 1, elem := fun _ _ => c }

/-- The flattened harmonics of a run with harmonic orders `Nx`, `Ny`
(`harmonicOrderX`, `harmonicOrderY` of `struct Parameter`): row-major in a grid
of `2*Ny+1` rows and `2*Nx+1` columns. -/
abbrev HarmonicIndex (Nx Ny : ℕ) : Type := Fin ((2 * Ny + 1) * (2 * Nx + 1))

/-- The two halves (x and y components) of the `2M` amplitudes. -/
abbrev ModeIndex (Nx Ny : ℕ) : Type := HarmonicIndex Nx Ny ⊕ HarmonicIndex Nx Ny

/-- What the code takes from `<complex>`, `<cmath>` and armadillo besides field
arithmetic, on `std::complex<double>` (`K`) and `double` (`R`). `sqrt` is the
principal square root that `arma::sqrt` applies to each element; `eig_gen`
returns the eigenvalues and eigenvectors or fails. -/
structure Numerics (R K : Type) (Nx Ny : ℕ) where
  real : K → R
  imag : K → R
  ofReal : R → K
  conj : K → K
  abs : K → R
  sqrt : K → K
  sqrtReal : R → R
  fft2 : ArmaMat K → ArmaMat K
  eig_gen : Matrix (ModeIndex Nx Ny) (ModeIndex Nx Ny) K →
    Option ((ModeIndex Nx Ny → K) × Matrix (ModeIndex Nx Ny) (ModeIndex Nx Ny) K)
  expmat : Matrix (ModeIndex Nx Ny) (ModeIndex Nx Ny) K →
    Matrix (ModeIndex Nx Ny) (ModeIndex Nx Ny) K

/-- `struct Parameter` (Parameter.h); the harmonic orders are the indices
`Nx`, `Ny` of the types built from it. -/
structure Parameter (R K : Type) where
  k0 : R
  kxInc : K
  kyInc : K
  kzInc : K
  t1X : R
  t1Y : R
  t2X : R
  t2Y : R
  erRef : K
  urRef : K
  erTrn : K
  urTrn : K

/-- `struct LayerData` (LayerData.h). -/
structure LayerData (R K : Type) where
  er : ArmaMat K
  ur : ArmaMat K
  li : R
  identifier : String

/-- `struct SystemParameters` (SystemParameters.h), without the device creator,
which the callers pass on their own. -/
structure SystemParameters (R K : Type) (Nx Ny : ℕ) where
  param : Parameter R K
  pGrid : Matrix (Fin (2 * Ny + 1)) (Fin (2 * Nx + 1)) ℤ
  qGrid : Matrix (Fin (2 * Ny + 1)) (Fin (2 * Nx + 1)) ℤ
  kxNorm : Matrix (HarmonicIndex Nx Ny) (HarmonicIndex Nx Ny) K
  kyNorm : Matrix (HarmonicIndex Nx Ny) (HarmonicIndex Nx Ny) K
  kzRefNorm : Matrix (HarmonicIndex Nx Ny) (HarmonicIndex Nx Ny) K
  kzTrnNorm : Matrix (HarmonicIndex Nx Ny) (HarmonicIndex Nx Ny) K
  cIncSPol : ModeIndex Nx Ny → K
  cIncPPol : ModeIndex Nx Ny → K

/-- `arma::vectorise(A.t())`: the elements of `A` row after row. -/
def vectoriseT {α : Type} {r c : ℕ} (A : Matrix (Fin r) (Fin c) α) : Fin (r * c) → α :=
  fun i => A (finProdFinEquiv.symm i).1 (finProdFinEquiv.symm i).2

/-- `arma::sign` on a `double`. -/
def armaSign {R : Type} [LinearOrderedField R] (x : R) : R :=
  if x < 0 then -1 else if x = 0 then 0 else 1

/-- `arma::cross` of two 3-vectors. -/
def armaCross {K : Type} [Field K] (a b : Fin 3 → K) : Fin 3 → K :=
  ![a 1 * b 2 - a 2 * b 1, a 2 * b 0 - a 0 * b 2, a 0 * b 1 - a 1 * b 0]

/-- `arma::normalise` of a 3-vector: division by the 2-norm, by 1 when the
norm is zero. -/
def armaNormalise {R K : Type} [LinearOrderedField R] [Field K] {Nx Ny : ℕ}
    (lib : Numerics R K Nx Ny) (v : Fin 3 → K) : Fin 3 → K :=
  let norm_val_a := lib.sqrtReal (∑ i, lib.abs (v i) ^ 2)
  let norm_val_b := if norm_val_a ≠ 0 then norm_val_a else 1
  fun i => v i / lib.ofReal norm_val_b

/-! ## SystemParameters.cpp -/

namespace SystemParameterCreator

variable {R K : Type} [LinearOrderedField R] [Field K] {Nx Ny : ℕ}

/-- `SystemParameterCreator::mBuildGrids`: `(mPGrid, mQGrid)`. -/
def mBuildGrids (x y : ℕ) :
    Matrix (Fin (2 * y + 1)) (Fin (2 * x + 1)) ℤ × Matrix (Fin (2 * y + 1)) (Fin (2 * x + 1)) ℤ :=
  let vx : Fin (2 * x + 1) → ℤ := fun j => -(x : ℤ) + (j : ℕ)
  let vy : Fin (2 * y + 1) → ℤ := fun j => -(y : ℤ) + (j : ℕ)
  (Matrix.of fun _ c => vx c, Matrix.of fun r _ => vy r)

/-- `SystemParameterCreator::mBuildKxyNorm`: `(mKxNorm, mKyNorm)`; the elements
off the diagonal are the zeros of the constructor. -/
def mBuildKxyNorm (lib : Numerics R K Nx Ny) (mParam : Parameter R K)
    (mPGrid mQGrid : Matrix (Fin (2 * Ny + 1)) (Fin (2 * Nx + 1)) ℤ) :
    Matrix (HarmonicIndex Nx Ny) (HarmonicIndex Nx Ny) K ×
      Matrix (HarmonicIndex Nx Ny) (HarmonicIndex Nx Ny) K :=
  let ps : HarmonicIndex Nx Ny → R := fun i => ((vectoriseT mPGrid i : ℤ) : R)
  let qs : HarmonicIndex Nx Ny → R := fun i => ((vectoriseT mQGrid i : ℤ) : R)
  let kxDiag : HarmonicIndex Nx Ny → K := fun i =>
    (mParam.kxInc - lib.ofReal (ps i * mParam.t1X) - lib.ofReal (qs i * mParam.t2X))
      / lib.ofReal mParam.k0
  let kyDiag : HarmonicIndex Nx Ny → K := fun i =>
    (mParam.kyInc - lib.ofReal (ps i * mParam.t1Y) - lib.ofReal (qs i * mParam.t2Y))
      / lib.ofReal mParam.k0
  (Matrix.diagonal kxDiag, Matrix.diagonal kyDiag)

/-- `SystemParameterCreator::mBuildKzNormSqrt`; `arma::square`, `arma::sqrt`
and `arma::conj` act on each element. -/
def mBuildKzNormSqrt (lib : Numerics R K Nx Ny)
    (mKxNorm mKyNorm : Matrix (HarmonicIndex Nx Ny) (HarmonicIndex Nx Ny) K) (preFaktor : K) :
    Matrix (HarmonicIndex Nx Ny) (HarmonicIndex Nx Ny) K :=
  let I : Matrix (HarmonicIndex Nx Ny) (HarmonicIndex Nx Ny) K := 1
  let square : Matrix (HarmonicIndex Nx Ny) (HarmonicIndex Nx Ny) K :=
    Matrix.of fun i j => preFaktor * I i j - (mKxNorm i j ^ 2 + mKyNorm i j ^ 2)
  let sqrt := square.map lib.sqrt
  sqrt.map lib.conj

/-- `SystemParameterCreator::mBuildKzRefTrn`: `(mKzRefNorm, mKzTrnNorm)`. -/
def mBuildKzRefTrn (lib : Numerics R K Nx Ny) (mParam : Parameter R K)
    (mKxNorm mKyNorm : Matrix (HarmonicIndex Nx Ny) (HarmonicIndex Nx Ny) K) :
    Matrix (HarmonicIndex Nx Ny) (HarmonicIndex Nx Ny) K ×
      Matrix (HarmonicIndex Nx Ny) (HarmonicIndex Nx Ny) K :=
  let preFaktor := lib.conj mParam.erRef * lib.conj mParam.urRef
  let mKzRefNorm := -mBuildKzNormSqrt lib mKxNorm mKyNorm preFaktor
  let preFaktor := lib.conj mParam.erTrn * lib.conj mParam.urTrn
  let mKzTrnNorm := mBuildKzNormSqrt lib mKxNorm mKyNorm preFaktor
  (mKzRefNorm, mKzTrnNorm)

/-- `SystemParameterCreator::mCalcSPol`: `(mCIncSPol, mCIncPPol)`. The index
`iX = (dim - 1) / 2` is in the first half of the vector and `iY = iX + dim` in
the second. -/
def mCalcSPol (lib : Numerics R K Nx Ny) (mParam : Parameter R K) :
    (ModeIndex Nx Ny → K) × (ModeIndex Nx Ny → K) :=
  let kx := mParam.kxInc
  let ky := mParam.kyInc
  let kz := mParam.kzInc
  let k : Fin 3 → K := ![kx, ky, kz]
  let ez : Fin 3 → K := ![0, 0, 1]
  let isParallel : Bool := decide (lib.abs kx + lib.abs ky < 1 / 10 ^ 6)
  let sPol : Fin 3 → K :=
    if isParallel then ![0, 1, 0] else armaNormalise lib (armaCross k ez)
  let pPol : Fin 3 → K :=
    if isParallel then ![1, 0, 0] else armaNormalise lib (armaCross k sPol)
  let dim := (2 * Ny + 1) * (2 * Nx + 1)
  let iX := (dim - 1) / 2
  let mCIncSPol : ModeIndex Nx Ny → K := fun s =>
    match s with
    | Sum.inl i => if (i : ℕ) = iX then sPol 0 else 0
    | Sum.inr i => if (i : ℕ) = iX then sPol 1 else 0
  let mCIncPPol : ModeIndex Nx Ny → K := fun s =>
    match s with
    | Sum.inl i => if (i : ℕ) = iX then pPol 0 else 0
    | Sum.inr i => if (i : ℕ) = iX then pPol 1 else 0
  (mCIncSPol, mCIncPPol)

/-- `SystemParameterCreator::createSystemParameters` (with `mBuildMe`). -/
def createSystemParameters (lib : Numerics R K Nx Ny) (pram : Parameter R K) :
    SystemParameters R K Nx Ny :=
  let grids := mBuildGrids Nx Ny
  let kxy := mBuildKxyNorm lib pram grids.1 grids.2
  let kz := mBuildKzRefTrn lib pram kxy.1 kxy.2
  let pol := mCalcSPol lib pram
  { param := pram
    pGrid := grids.1
    qGrid := grids.2
    kxNorm := kxy.1
    kyNorm := kxy.2
    kzRefNorm := kz.1
    kzTrnNorm := kz.2
    cIncSPol := pol.1
    cIncPPol := pol.2 }

end SystemParameterCreator

/-! ## EigenValuesVectors.cpp -/

/-- The data members of `class EigenValuesVectors` after construction. -/
structure EigenValuesVectors (R K : Type) (Nx Ny : ℕ) where
  mLi : R
  mErc : Matrix (HarmonicIndex Nx Ny) (HarmonicIndex Nx Ny) K
  mUrc : Matrix (HarmonicIndex Nx Ny) (HarmonicIndex Nx Ny) K
  mQ : Matrix (ModeIndex Nx Ny) (ModeIndex Nx Ny) K
  mP : Matrix (ModeIndex Nx Ny) (ModeIndex Nx Ny) K
  mOmega2 : Matrix (ModeIndex Nx Ny) (ModeIndex Nx Ny) K
  mV : Matrix (ModeIndex Nx Ny) (ModeIndex Nx Ny) K
  mW : Matrix (ModeIndex Nx Ny) (ModeIndex Nx Ny) K
  mLam : Matrix (ModeIndex Nx Ny) (ModeIndex Nx Ny) K
  mArg : Matrix (ModeIndex Nx Ny) (ModeIndex Nx Ny) K

namespace EigenValuesVectors

variable {R K : Type} [LinearOrderedField R] [Field K] [DecidableEq K] {Nx Ny : ℕ}

/-- `EigenValuesVectors::mFftShift2`: `arma::shift` moves the rows down by
`shift0` and the columns right by `shift1`, circularly. -/
def mFftShift2 (eRuR : ArmaMat K) : ArmaMat K :=
  let shift0 := (eRuR.n_rows - 1) / 2
  let shift1 := (eRuR.n_cols - 1) / 2
  { n_rows := eRuR.n_rows
    n_cols := eRuR.n_cols
    elem := fun r c =>
      eRuR.elem ((r + eRuR.n_rows - shift0 % eRuR.n_rows) % eRuR.n_rows)
        ((c + eRuR.n_cols - shift1 % eRuR.n_cols) % eRuR.n_cols) }

/-- `EigenValuesVectors::mGetRowFromSpectrumForConvolution`: the window of the
spectrum around the harmonic `(p, q)`, row after row, reversed. `submat`
throws when the window leaves the spectrum. -/
def mGetRowFromSpectrumForConvolution (spec : ArmaMat K) (p q : ℤ) :
    Option (HarmonicIndex Nx Ny → K) :=
  let my : ℤ := ((spec.n_rows - 1) / 2 : ℕ)
  let mx : ℤ := ((spec.n_cols - 1) / 2 : ℕ)
  let sy := my + q - Ny
  let sx := mx + p - Nx
  let ey := my + q + Ny
  let ex := mx + p + Nx
  if 0 ≤ sy ∧ 0 ≤ sx ∧ ey < spec.n_rows ∧ ex < spec.n_cols then
    let sub : Matrix (Fin (2 * Ny + 1)) (Fin (2 * Nx + 1)) K :=
      Matrix.of fun r c => spec.elem (sy + (r : ℕ)).toNat (sx + (c : ℕ)).toNat
    let vec : HarmonicIndex Nx Ny → K := vectoriseT sub
    some fun j => vec (Fin.rev j)
  else none

/-- `EigenValuesVectors::mBuildConvolutionMatrixFromErUr`. -/
def mBuildConvolutionMatrixFromErUr (lib : Numerics R K Nx Ny) (mSystem : SystemParameters R K Nx Ny)
    (eRuR : ArmaMat K) : Option (Matrix (HarmonicIndex Nx Ny) (HarmonicIndex Nx Ny) K) :=
  if eRuR.n_rows = 1 ∧ eRuR.n_cols = 1 then
    some ((1 : Matrix (HarmonicIndex Nx Ny) (HarmonicIndex Nx Ny) K).map (· * eRuR.elem 0 0))
  else
    let dim := eRuR.n_rows * eRuR.n_cols
    let fft : ArmaMat K :=
      { n_rows := (lib.fft2 eRuR).n_rows
        n_cols := (lib.fft2 eRuR).n_cols
        elem := fun r c => (lib.fft2 eRuR).elem r c / (dim : K) }
    let spec := mFftShift2 fft
    let ps := vectoriseT mSystem.pGrid
    let qs := vectoriseT mSystem.qGrid
    let rows : HarmonicIndex Nx Ny → Option (HarmonicIndex Nx Ny → K) :=
      fun i => mGetRowFromSpectrumForConvolution spec (ps i) (qs i)
    if h : ∀ i, (rows i).isSome then
      some (Matrix.of fun i j => (rows i).get (h i) j)
    else none

/-- `EigenValuesVectors::mCombineMatrix`. -/
def mCombineMatrix (a00 a01 a10 a11 : Matrix (HarmonicIndex Nx Ny) (HarmonicIndex Nx Ny) K) :
    Matrix (ModeIndex Nx Ny) (ModeIndex Nx Ny) K :=
  Matrix.fromBlocks a00 a01 a10 a11

/-- `EigenValuesVectors::mBuildQPOmega2`: `(mQ, mP, mOmega2)`. -/
def mBuildQPOmega2 (mSystem : SystemParameters R K Nx Ny)
    (mErc mUrc : Matrix (HarmonicIndex Nx Ny) (HarmonicIndex Nx Ny) K) :
    Option (Matrix (ModeIndex Nx Ny) (ModeIndex Nx Ny) K ×
      Matrix (ModeIndex Nx Ny) (ModeIndex Nx Ny) K ×
      Matrix (ModeIndex Nx Ny) (ModeIndex Nx Ny) K) := do
  let ercInv ← armaInv mErc
  let urcInv ← armaInv mUrc
  let q00 := mSystem.kxNorm * urcInv * mSystem.kyNorm
  let q01 := mErc - (mSystem.kxNorm * urcInv * mSystem.kxNorm)
  let q10 := (mSystem.kyNorm * urcInv * mSystem.kyNorm) - mErc
  let q11 := -mSystem.kyNorm * urcInv * mSystem.kxNorm
  let p00 := mSystem.kxNorm * ercInv * mSystem.kyNorm
  let p01 := mUrc - (mSystem.kxNorm * ercInv * mSystem.kxNorm)
  let p10 := (mSystem.kyNorm * ercInv * mSystem.kyNorm) - mUrc
  let p11 := -mSystem.kyNorm * ercInv * mSystem.kxNorm
  let mQ := mCombineMatrix q00 q01 q10 q11
  let mP := mCombineMatrix p00 p01 p10 p11
  let mOmega2 := mP * mQ
  pure (mQ, mP, mOmega2)

/-- `EigenValuesVectors::mSignConventionSqrt`. `arma::sqrt`, `arma::imag` and
`arma::sign` act on each element, `s * (1 - s)` is the matrix product of `s`
with the matrix of the elements `1 - s`, and `%` is the product element by
element. -/
def mSignConventionSqrt (lib : Numerics R K Nx Ny)
    (a : Matrix (ModeIndex Nx Ny) (ModeIndex Nx Ny) K) :
    Matrix (ModeIndex Nx Ny) (ModeIndex Nx Ny) K :=
  let sqrt := a.map lib.sqrt
  let s : Matrix (ModeIndex Nx Ny) (ModeIndex Nx Ny) R := (sqrt.map lib.imag).map armaSign
  let mul : Matrix (ModeIndex Nx Ny) (ModeIndex Nx Ny) R :=
    (s * s.map (1 - ·)).map (1 + ·)
  Matrix.of fun i j => lib.ofReal (-(mul i j)) * sqrt i j

/-- `EigenValuesVectors::mCheckForKzZero`: `true` when the function throws. -/
def mCheckForKzZero (lib : Numerics R K Nx Ny)
    (omega2 : Matrix (ModeIndex Nx Ny) (ModeIndex Nx Ny) K) : Bool :=
  decide (∀ i, lib.abs (omega2 i i) < 1 / 10 ^ 8)

/-- `EigenValuesVectors::mBuildVWLam`: `(mV, mW, mLam, mArg)`. -/
def mBuildVWLam (lib : Numerics R K Nx Ny) (mSystem : SystemParameters R K Nx Ny) (mLi : R)
    (mQ mOmega2 : Matrix (ModeIndex Nx Ny) (ModeIndex Nx Ny) K) :
    Option (Matrix (ModeIndex Nx Ny) (ModeIndex Nx Ny) K ×
      Matrix (ModeIndex Nx Ny) (ModeIndex Nx Ny) K ×
      Matrix (ModeIndex Nx Ny) (ModeIndex Nx Ny) K ×
      Matrix (ModeIndex Nx Ny) (ModeIndex Nx Ny) K) := do
  let accu := (∑ i, ∑ j, lib.abs (mOmega2 i j)) - ∑ i, lib.abs (mOmega2 i i)
  let isDiagonal : Bool := decide (accu < 1 / 10 ^ 9)
  let (diagonal, mW) ←
    if isDiagonal then
      if mCheckForKzZero lib mOmega2 then none
      else some (fun i => mOmega2 i i, (1 : Matrix (ModeIndex Nx Ny) (ModeIndex Nx Ny) K))
    else lib.eig_gen mOmega2
  let lam2 : Matrix (ModeIndex Nx Ny) (ModeIndex Nx Ny) K := Matrix.diagonal diagonal
  let mLam := mSignConventionSqrt lib lam2
  let lamInv ← armaInv mLam
  let mV := mQ * mW * lamInv
  let k0 := mSystem.param.k0
  let mArg : Matrix (ModeIndex Nx Ny) (ModeIndex Nx Ny) K :=
    (-mLam).map (· * lib.ofReal k0 * lib.ofReal mLi)
  pure (mV, mW, mLam, mArg)

/-- The constructor `EigenValuesVectors(system, layerData)` (with `mBuildMe`
and `mBuildConvolutionMatrices`). -/
@[nospecialize]
def create (lib : Numerics R K Nx Ny) (system : SystemParameters R K Nx Ny)
    (layerData : LayerData R K) : Option (EigenValuesVectors R K Nx Ny) := do
  let mLi := layerData.li
  let mErc ← mBuildConvolutionMatrixFromErUr lib system layerData.er
  let mUrc ← mBuildConvolutionMatrixFromErUr lib system layerData.ur
  let (mQ, mP, mOmega2) ← mBuildQPOmega2 system mErc mUrc
  let (mV, mW, mLam, mArg) ← mBuildVWLam lib system mLi mQ mOmega2
  pure { mLi := mLi, mErc := mErc, mUrc := mUrc, mQ := mQ, mP := mP, mOmega2 := mOmega2,
         mV := mV, mW := mW, mLam := mLam, mArg := mArg }

/-- `EigenValuesVectors::getV`. -/
def getV (e : EigenValuesVectors R K Nx Ny) : Matrix (ModeIndex Nx Ny) (ModeIndex Nx Ny) K := e.mV

/-- `EigenValuesVectors::getW`. -/
def getW (e : EigenValuesVectors R K Nx Ny) : Matrix (ModeIndex Nx Ny) (ModeIndex Nx Ny) K := e.mW

/-- `EigenValuesVectors::getLam`. -/
def getLam (e : EigenValuesVectors R K Nx Ny) : Matrix (ModeIndex Nx Ny) (ModeIndex Nx Ny) K :=
  e.mLam

/-- `EigenValuesVectors::getArg`. -/
def getArg (e : EigenValuesVectors R K Nx Ny) : Matrix (ModeIndex Nx Ny) (ModeIndex Nx Ny) K :=
  e.mArg

end EigenValuesVectors

/-! ## CalcAllScatterMatrices.cpp -/

section CalcAllScatterMatrices

variable {R K : Type} [LinearOrderedField R] [Field K] [DecidableEq K] {Nx Ny : ℕ}

/-- `mEigenVectorsVacuumV0W0`: `(v0, w0)`. -/
@[nospecialize]
def mEigenVectorsVacuumV0W0 (lib : Numerics R K Nx Ny) (system : SystemParameters R K Nx Ny) :
    Option (Matrix (ModeIndex Nx Ny) (ModeIndex Nx Ny) K ×
      Matrix (ModeIndex Nx Ny) (ModeIndex Nx Ny) K) := do
  let vac : K := 1
  let layerData : LayerData R K :=
    { er := ArmaMat.scalar vac, ur := ArmaMat.scalar vac, li := 1, identifier := "" }
  let eigen ← EigenValuesVectors.create lib system layerData
  pure (eigen.getV, eigen.getW)

/-- `mCalculateScatterRefTrn`: `(sRef, sTrn)`. -/
@[nospecialize]
def mCalculateScatterRefTrn (lib : Numerics R K Nx Ny) (system : SystemParameters R K Nx Ny)
    (v0 w0 : Matrix (ModeIndex Nx Ny) (ModeIndex Nx Ny) K) :
    Option (ScatterMatrix (ModeIndex Nx Ny) K × ScatterMatrix (ModeIndex Nx Ny) K) := do
  let layerDataRef : LayerData R K :=
    { er := ArmaMat.scalar system.param.erRef, ur := ArmaMat.scalar system.param.urRef,
      li := 1, identifier := "" }
  let eigenRef ← EigenValuesVectors.create lib system layerDataRef
  let layerDataTrn : LayerData R K :=
    { er := ArmaMat.scalar system.param.erTrn, ur := ArmaMat.scalar system.param.urTrn,
      li := 1, identifier := "" }
  let eigenTrn ← EigenValuesVectors.create lib system layerDataTrn
  let vRef := eigenRef.getV
  let wRef := eigenRef.getW
  let vTrn := eigenTrn.getV
  let wTrn := eigenTrn.getW
  let v0Inv ← armaInv v0
  let w0Inv ← armaInv w0
  let aRef := (w0Inv * wRef) + (v0Inv * vRef)
  let bRef := (w0Inv * wRef) - (v0Inv * vRef)
  let aRefInv ← armaInv aRef
  let aTrn := (w0Inv * wTrn) + (v0Inv * vTrn)
  let bTrn := (w0Inv * wTrn) - (v0Inv * vTrn)
  let aTrnInv ← armaInv aTrn
  let sRef : ScatterMatrix (ModeIndex Nx Ny) K :=
    { s11 := -(aRefInv * bRef)
      s12 := (2 : K) • aRefInv
      s21 := (1 / 2 : K) • (aRef - (bRef * aRefInv * bRef))
      s22 := bRef * aRefInv }
  let sTrn : ScatterMatrix (ModeIndex Nx Ny) K :=
    { s11 := bTrn * aTrnInv
      s12 := (1 / 2 : K) • (aTrn - (bTrn * aTrnInv * bTrn))
      s21 := (2 : K) • aTrnInv
      s22 := -(aTrnInv * bTrn) }
  pure (sRef, sTrn)

end CalcAllScatterMatrices

/-! ## CalculatorDiffractionEfficiency.cpp -/

/-- `struct DiffractionEfficiency`: the four grids, `2*Ny+1` rows and `2*Nx+1`
columns each. -/
structure DiffractionEfficiency (R : Type) (Nx Ny : ℕ) where
  RS : Matrix (Fin (2 * Ny + 1)) (Fin (2 * Nx + 1)) R
  RP : Matrix (Fin (2 * Ny + 1)) (Fin (2 * Nx + 1)) R
  TS : Matrix (Fin (2 * Ny + 1)) (Fin (2 * Nx + 1)) R
  TP : Matrix (Fin (2 * Ny + 1)) (Fin (2 * Nx + 1)) R

section CalculatorDiffractionEfficiency

variable {R K : Type} [LinearOrderedField R] [Field K] [DecidableEq K] {Nx Ny : ℕ}

/-- `arma::reshape(v, dimX, dimY).t()`: the vector laid out row after row in
`dimY` rows of `dimX` elements. -/
def reshapeT {α : Type} {r c : ℕ} (v : Fin (r * c) → α) : Matrix (Fin r) (Fin c) α :=
  Matrix.of fun i j => v (finProdFinEquiv (i, j))

/-- `calculateAndFillDiffractionEfficiency`: `(Tout, Rout)`. -/
@[nospecialize]
def calculateAndFillDiffractionEfficiency (lib : Numerics R K Nx Ny)
    (system : SystemParameters R K Nx Ny) (S : ScatterMatrix (ModeIndex Nx Ny) K)
    (cInc : ModeIndex Nx Ny → K) :
    Option (Matrix (Fin (2 * Ny + 1)) (Fin (2 * Nx + 1)) R ×
      Matrix (Fin (2 * Ny + 1)) (Fin (2 * Nx + 1)) R) := do
  let kxn := system.kxNorm
  let kyn := system.kyNorm
  let kZRef := system.kzRefNorm
  let kZTrn := system.kzTrnNorm
  let cRef := S.s11.mulVec cInc
  let cTrn := S.s21.mulVec cInc
  let rX : HarmonicIndex Nx Ny → K := fun i => cRef (Sum.inl i)
  let rY : HarmonicIndex Nx Ny → K := fun i => cRef (Sum.inr i)
  let tX : HarmonicIndex Nx Ny → K := fun i => cTrn (Sum.inl i)
  let tY : HarmonicIndex Nx Ny → K := fun i => cTrn (Sum.inr i)
  let kZRefInv ← armaInv kZRef
  let kZTrnInv ← armaInv kZTrn
  let rZ := (-kZRefInv).mulVec (kxn.mulVec rX + kyn.mulVec rY)
  let tZ := (-kZTrnInv).mulVec (kxn.mulVec tX + kyn.mulVec tY)
  let RTemp : HarmonicIndex Nx Ny → R := fun i =>
    lib.abs (rX i) ^ 2 + lib.abs (rY i) ^ 2 + lib.abs (rZ i) ^ 2
  let TTemp : HarmonicIndex Nx Ny → R := fun i =>
    lib.abs (tX i) ^ 2 + lib.abs (tY i) ^ 2 + lib.abs (tZ i) ^ 2
  let pre : Matrix (HarmonicIndex Nx Ny) (HarmonicIndex Nx Ny) R :=
    (-(kZRef.map (· / system.param.urRef))).map lib.real
  let kznInc := system.param.kzInc / lib.ofReal system.param.k0
  let down := lib.real (kznInc / system.param.urRef)
  let pre := pre.map (· / down)
  let Rout := reshapeT (((100 : R) • pre).mulVec RTemp)
  let pre : Matrix (HarmonicIndex Nx Ny) (HarmonicIndex Nx Ny) R :=
    (kZTrn.map (· / system.param.urTrn)).map lib.real
  let pre := pre.map (· / down)
  let Tout := reshapeT (((100 : R) • pre).mulVec TTemp)
  pure (Tout, Rout)

/-- The statements of `calculateAndFillDiffractionEfficiency` before its two
`arma::reshape` calls: the vectors `100.0 * pre * TTemp` and
`100.0 * pre * RTemp`, whose entry `i` belongs to harmonic `i` (the harmonic of
entry `i` of `kxNorm`, `kyNorm` and of the two halves of `cInc`), as
`(Tvec, Rvec)`. -/
@[nospecialize]
def diffractionEfficiencyVectors (lib : Numerics R K Nx Ny)
    (system : SystemParameters R K Nx Ny) (S : ScatterMatrix (ModeIndex Nx Ny) K)
    (cInc : ModeIndex Nx Ny → K) :
    Option ((HarmonicIndex Nx Ny → R) × (HarmonicIndex Nx Ny → R)) := do
  let kxn := system.kxNorm
  let kyn := system.kyNorm
  let kZRef := system.kzRefNorm
  let kZTrn := system.kzTrnNorm
  let cRef := S.s11.mulVec cInc
  let cTrn := S.s21.mulVec cInc
  let rX : HarmonicIndex Nx Ny → K := fun i => cRef (Sum.inl i)
  let rY : HarmonicIndex Nx Ny → K := fun i => cRef (Sum.inr i)
  let tX : HarmonicIndex Nx Ny → K := fun i => cTrn (Sum.inl i)
  let tY : HarmonicIndex Nx Ny → K := fun i => cTrn (Sum.inr i)
  let kZRefInv ← armaInv kZRef
  let kZTrnInv ← armaInv kZTrn
  let rZ := (-kZRefInv).mulVec (kxn.mulVec rX + kyn.mulVec rY)
  let tZ := (-kZTrnInv).mulVec (kxn.mulVec tX + kyn.mulVec tY)
  let RTemp : HarmonicIndex Nx Ny → R := fun i =>
    lib.abs (rX i) ^ 2 + lib.abs (rY i) ^ 2 + lib.abs (rZ i) ^ 2
  let TTemp : HarmonicIndex Nx Ny → R := fun i =>
    lib.abs (tX i) ^ 2 + lib.abs (tY i) ^ 2 + lib.abs (tZ i) ^ 2
  let pre : Matrix (HarmonicIndex Nx Ny) (HarmonicIndex Nx Ny) R :=
    (-(kZRef.map (· / system.param.urRef))).map lib.real
  let kznInc := system.param.kzInc / lib.ofReal system.param.k0
  let down := lib.real (kznInc / system.param.urRef)
  let pre := pre.map (· / down)
  let Rvec := ((100 : R) • pre).mulVec RTemp
  let pre : Matrix (HarmonicIndex Nx Ny) (HarmonicIndex Nx Ny) R :=
    (kZTrn.map (· / system.param.urTrn)).map lib.real
  let pre := pre.map (· / down)
  let Tvec := ((100 : R) • pre).mulVec TTemp
  pure (Tvec, Rvec)

/-- `calculateDiffractionEfficiency`. -/
@[nospecialize]
def calculateDiffractionEfficiency (lib : Numerics R K Nx Ny)
    (system : SystemParameters R K Nx Ny) (S : ScatterMatrix (ModeIndex Nx Ny) K) :
    Option (DiffractionEfficiency R Nx Ny) := do
  let cIncSPol := system.cIncSPol
  let cIncPPol := system.cIncPPol
  let (TS, RS) ← calculateAndFillDiffractionEfficiency lib system S cIncSPol
  let (TP, RP) ← calculateAndFillDiffractionEfficiency lib system S cIncPPol
  pure { RS := RS, RP := RP, TS := TS, TP := TP }

end CalculatorDiffractionEfficiency

/-- The block matrix `[0, I; -I, 0]`: `Q` and `P` of a homogeneous layer at
`Kx = Ky = 0` are multiples of it. -/
def blockJ (ι K : Type) [DecidableEq ι] [Field K] : Matrix (ι ⊕ ι) (ι ⊕ ι) K :=
  Matrix.fromBlocks 0 1 (-1) 0

/-- The library in exact arithmetic over the complex numbers: real and
imaginary part, conjugate and modulus are those of the complex field, and
`sqrt` is the principal square root. The remaining routines are left as they
are. -/
def Numerics.IsExact {Nx Ny : ℕ} (lib : Numerics ℝ ℂ Nx Ny) : Prop :=
  lib.real = Complex.re ∧ lib.imag = Complex.im ∧ lib.ofReal = Complex.ofReal ∧
  lib.conj = (starRingEnd ℂ) ∧ lib.abs = Complex.abs ∧
  lib.sqrt = (fun z => z ^ (1 / 2 : ℂ)) ∧ lib.sqrtReal = Real.sqrt


/-! ## CalcAllScatterMatrices.cpp: the interior layers -/

/-- `class DeviceCreator` (DeviceCreator.h): the two pure virtual functions.
`fillLayerdata` receives the `LayerData` of the caller and returns it as the
call leaves it. -/
structure DeviceCreator (R K : Type) where
  getIndividuallyLayerCount : ℤ
  fillLayerdata : LayerData R K → ℤ → LayerData R K

section InteriorLayers

variable {R K : Type} [LinearOrderedField R] [Field K] [DecidableEq K] {Nx Ny : ℕ}

/-- `mBuildScatterMatrixInsideVacuum`. -/
@[nospecialize]
def mBuildScatterMatrixInsideVacuum (lib : Numerics R K Nx Ny)
    (eigen : EigenValuesVectors R K Nx Ny)
    (v0 w0 : Matrix (ModeIndex Nx Ny) (ModeIndex Nx Ny) K) :
    Option (ScatterMatrix (ModeIndex Nx Ny) K) := do
  let vi := eigen.getV
  let wi := eigen.getW
  let arg := eigen.getArg
  let viInv ← armaInv vi
  let wiInv ← armaInv wi
  let a := (wiInv * w0) + (viInv * v0)
  let b := (wiInv * w0) - (viInv * v0)
  let aInv ← armaInv a
  let x := lib.expmat arg
  let mul ← armaInv (a - (x * b * aInv * x * b))
  let s11Second := (x * b * aInv * x * a) - b
  let s12Second := x * (a - (b * aInv * b))
  let s11 := mul * s11Second
  let s12 := mul * s12Second
  pure { s11 := s11, s12 := s12, s22 := s11, s21 := s12 }

/-- A default-constructed `LayerData`: empty matrices, `li = 0`, no name. -/
def LayerData.empty : LayerData R K :=
  { er := { n_rows := 0, n_cols := 0, elem := fun _ _ => 0 }
    ur := { n_rows := 0, n_cols := 0, elem := fun _ _ => 0 }
    li := 0
    identifier := "" }

/-- One pass of the loop of `calcAllScatterMatricesOfSystem` on
`(layerData, matrices)`. -/
@[nospecialize]
def calcAllStep (lib : Numerics R K Nx Ny) (system : SystemParameters R K Nx Ny)
    (deviceCreator : DeviceCreator R K)
    (v0 w0 : Matrix (ModeIndex Nx Ny) (ModeIndex Nx Ny) K)
    (state : LayerData R K × StdMap (ScatterMatrix (ModeIndex Nx Ny) K)) (i : ℕ) :
    Option (LayerData R K × StdMap (ScatterMatrix (ModeIndex Nx Ny) K)) := do
  let (layerData, matrices) := state
  let layerData := deviceCreator.fillLayerdata layerData i
  let eigen ← EigenValuesVectors.create lib system layerData
  let identifier := layerData.identifier
  let t ← mBuildScatterMatrixInsideVacuum lib eigen v0 w0
  pure (layerData, matrices.insert identifier t)

/-- `calcAllScatterMatricesOfSystem`; the device creator of the system is
passed on its own. -/
@[nospecialize]
def calcAllScatterMatricesOfSystem (lib : Numerics R K Nx Ny)
    (system : SystemParameters R K Nx Ny) (deviceCreator : DeviceCreator R K) :
    Option (StdMap (ScatterMatrix (ModeIndex Nx Ny) K)) := do
  let (v0, w0) ← mEigenVectorsVacuumV0W0 lib system
  let matrices : StdMap (ScatterMatrix (ModeIndex Nx Ny) K) := []
  let num := deviceCreator.getIndividuallyLayerCount
  let layerData : LayerData R K := LayerData.empty
  let (_, matrices) ←
    (List.range num.toNat).foldlM (calcAllStep lib system deviceCreator v0 w0)
      (layerData, matrices)
  let (sRef, sTrn) ← mCalculateScatterRefTrn lib system v0 w0
  let matrices := matrices.insert "sRef" sRef
  let matrices := matrices.insert "sTrn" sTrn
  pure matrices

end InteriorLayers

/-! ## VolumeHologram3D.cpp: one run -/

/-- What the run takes from `<cmath>` on `double` besides arithmetic. -/
structure CMath (R : Type) where
  sin : R → R
  cos : R → R

namespace VolumeHologram3D

open ScatterMatrix

variable {ι R K : Type} [Fintype ι] [DecidableEq ι] [LinearOrderedField R] [FloorRing R]
  [Field K] [DecidableEq K] {Nx : ℕ}

/-- One pass of the loop of `mCalcPowerScatterMatrix` (`powerStep`) that also
counts the calls of `redhefferStarProduct`: the state is
`(device, temp, selfCombinations, accumulations)`. -/
@[nospecialize]
def powerStepCounted (powers : List ℕ)
    (state : ScatterMatrix ι K × ScatterMatrix ι K × ℕ × ℕ) (x : ℕ) :
    Option (ScatterMatrix ι K × ScatterMatrix ι K × ℕ × ℕ) := do
  let (device, temp, selfCombinations, accumulations) := state
  let (temp, selfCombinations) ←
    if x ≠ 0 then (redhefferStarProduct temp temp).map fun t => (t, selfCombinations + 1)
    else pure (temp, selfCombinations)
  let (device, accumulations) ←
    if x ∈ powers then (redhefferStarProduct device temp).map fun t => (t, accumulations + 1)
    else pure (device, accumulations)
  pure (device, temp, selfCombinations, accumulations)

/-- `VolumeHologram3D::mCalcPowerScatterMatrix` with the count of its calls of
`redhefferStarProduct`: the result, the number of self-combinations
`temp = temp * temp` and the number of accumulating combinations
`device = device * temp`. -/
@[nospecialize]
def mCalcPowerScatterMatrixCounted (writer : HoeWriter R)
    (accumulatedMatrices : StdMap (ScatterMatrix ι K)) :
    Option (ScatterMatrix ι K × ℕ × ℕ) := do
  let powers := writer.getThicknessInPowerOfTwoCycles
  let _ ← accumulatedMatrices.get "sRef"
  let device : ScatterMatrix ι K := Unity
  let temp ← accumulatedMatrices.get "full"
  match powers with
  | [] => pure (device, 0, 0)
  | p :: ps =>
    let maxPower := ps.foldl max p
    let (device, _, selfCombinations, accumulations) ←
      (List.range (maxPower + 1)).foldlM (powerStepCounted powers) (device, temp, 0, 0)
    pure (device, selfCombinations, accumulations)

/-- `VolumeHologram3D::mGetSystemParameter`; `writer` is the writer that
`mGetHoeWriter` returns, `pi2` and `degToRad` are the constants of
constants.h, and `Nx` is `mPram.harmonicOrder` (`harmonicOrderY` is 0). -/
def mGetSystemParameter (lib : Numerics R K Nx 0) (cmath : CMath R) (pi2 degToRad : R)
    (mPram : VolumeHologram3DParameter R K) (writer : HoeWriter R) :
    SystemParameters R K Nx 0 :=
  let anglePhiRotation := writer.mAngleCoordinateRotation
  let k0 := pi2 / mPram.lam
  let phiRot := mPram.phiDeg - anglePhiRotation
  let kxInc : K :=
    lib.ofReal (k0 * cmath.sin (degToRad * mPram.thetaDeg) * cmath.cos (degToRad * phiRot))
  let kyInc : K :=
    lib.ofReal (k0 * cmath.sin (degToRad * mPram.thetaDeg) * cmath.sin (degToRad * phiRot))
  let kzInc : K := lib.ofReal (k0 * cmath.cos (degToRad * mPram.thetaDeg))
  let vec := writer.mGratingVectorRot
  let pram : Parameter R K :=
    { k0 := k0
      kxInc := kxInc
      kyInc := kyInc
      kzInc := kzInc
      t1X := |vec 0|
      t1Y := 0
      t2X := 0
      t2Y := 0
      erRef := 1
      urRef := 1
      erTrn := 1
      urTrn := 1 }
  SystemParameterCreator.createSystemParameters lib pram

/-- One pass of the loop of `mGetAccumulatedScatterMatrices` on
`(device, length, accumulatedMatrices)`; `to_string` is `std::to_string` on a
`double`, and on the `int` `i` it is the decimal notation. -/
@[nospecialize]
def accumulateStep (to_string : R → String) (dz : R)
    (allMatrices : StdMap (ScatterMatrix ι K))
    (state : ScatterMatrix ι K × R × StdMap (ScatterMatrix ι K)) (i : ℕ) :
    Option (ScatterMatrix ι K × R × StdMap (ScatterMatrix ι K)) := do
  let (device, length, accumulatedMatrices) := state
  let key := toString i
  let next ← allMatrices.get key
  let device ← redhefferStarProduct device next
  let length := length + dz
  pure (device, length, accumulatedMatrices.insert (to_string length) device)

/-- The statements of `mGetAccumulatedScatterMatrices` after the call of
`calcAllScatterMatricesOfSystem`, on its result `allMatrices`. -/
@[nospecialize]
def accumulate (to_string : R → String) (mPram : VolumeHologram3DParameter R K) (dz : R)
    (allMatrices : StdMap (ScatterMatrix ι K)) : Option (StdMap (ScatterMatrix ι K)) := do
  let accumulatedMatrices : StdMap (ScatterMatrix ι K) := []
  let sRef ← allMatrices.get "sRef"
  let accumulatedMatrices := accumulatedMatrices.insert "sRef" sRef
  let sTrn ← allMatrices.get "sTrn"
  let accumulatedMatrices := accumulatedMatrices.insert "sTrn" sTrn
  let accumulatedMatrices ←
    if mPram.addArLayer then do
      let sAr ← allMatrices.get "ar"
      pure (accumulatedMatrices.insert "ar" sAr)
    else pure accumulatedMatrices
  let device : ScatterMatrix ι K := Unity
  let length : R := 0
  let accumulatedMatrices := accumulatedMatrices.insert (to_string length) device
  let (device, _, accumulatedMatrices) ←
    (List.range mPram.dimZ.toNat).foldlM (accumulateStep to_string dz allMatrices)
      (device, length, accumulatedMatrices)
  let accumulatedMatrices := accumulatedMatrices.insert "full" device
  pure accumulatedMatrices

/-- `VolumeHologram3D::mGetAccumulatedScatterMatrices`. -/
@[nospecialize]
def mGetAccumulatedScatterMatrices (lib : Numerics R K Nx 0) (to_string : R → String)
    (mPram : VolumeHologram3DParameter R K) (writer : HoeWriter R)
    (deviceCreator : DeviceCreator R K) (system : SystemParameters R K Nx 0) :
    Option (StdMap (ScatterMatrix (ModeIndex Nx 0) K)) := do
  let dz := writer.mDz
  let allMatrices ← calcAllScatterMatricesOfSystem lib system deviceCreator
  accumulate to_string mPram dz allMatrices

/-- `VolumeHologram3D::calculateRCWA`; `writer` is the writer of
`mGetHoeWriter` and `deviceCreator` the same object as a `DeviceCreator`. -/
@[nospecialize]
def calculateRCWA (lib : Numerics R K Nx 0) (cmath : CMath R) (pi2 degToRad : R)
    (to_string : R → String) (stod : String → Option R)
    (mPram : VolumeHologram3DParameter R K) (writer : HoeWriter R)
    (deviceCreator : DeviceCreator R K) : Option (DiffractionEfficiency R Nx 0) := do
  let system := mGetSystemParameter lib cmath pi2 degToRad mPram writer
  let accumulatedMatrices ←
    mGetAccumulatedScatterMatrices lib to_string mPram writer deviceCreator system
  let powerMatrix ← mCalcPowerScatterMatrix writer accumulatedMatrices
  let restMatrix ← mCalcRestScatterMatrix stod writer accumulatedMatrices
  let globalMatrix ← mCalcGlobalScatterMatrix mPram powerMatrix restMatrix accumulatedMatrices
  calculateDiffractionEfficiency lib system globalMatrix

/-- `VolumeHologram3D::calculateRCWAAsRow`; the `arma::rowvec` is the list of
its elements, `arma::join_horiz` appends, and `vectorise(M.t()).t()` is `M` row
after row. -/
def calculateRCWAAsRow (lib : Numerics R K Nx 0) (cmath : CMath R) (pi2 degToRad : R)
    (to_string : R → String) (stod : String → Option R)
    (mPram : VolumeHologram3DParameter R K) (writer : HoeWriter R)
    (deviceCreator : DeviceCreator R K) : Option (List R) := do
  let efficieny ←
    calculateRCWA lib cmath pi2 degToRad to_string stod mPram writer deviceCreator
  let vec : List R := []
  let vec := vec ++ List.ofFn (vectoriseT efficieny.RS)
  let vec := vec ++ List.ofFn (vectoriseT efficieny.RP)
  let vec := vec ++ List.ofFn (vectoriseT efficieny.TS)
  let vec := vec ++ List.ofFn (vectoriseT efficieny.TP)
  pure vec

end VolumeHologram3D

/-! ## Quantities the claims are stated with -/

/-- The number of set bits of `n`; no bit above `floor(log2 n)` is set. -/
def popcount (n : ℕ) : ℕ :=
  ((List.range (Nat.log2 n + 1)).filter fun x => n.testBit x).length

/-- The left fold `Unity * S 0 * ... * S (k-1)` of the first `k` layer
matrices, `*` being `redhefferStarProduct`. -/
def starFold {ι K : Type} [Fintype ι] [DecidableEq ι] [Field K] [DecidableEq K]
    (S : ℕ → ScatterMatrix ι K) : ℕ → Option (ScatterMatrix ι K)
  | 0 => some ScatterMatrix.Unity
  | k + 1 => (starFold S k).bind fun acc => ScatterMatrix.redhefferStarProduct acc (S k)

/-! ## std::to_string on a double -/

/-- The character of the decimal digit `d < 10`. -/
def digitChar (d : ℕ) : Char := Char.ofNat ('0'.toNat + d)

/-- The last `w` decimal digits of `n`, most significant first. -/
def fixedDigits : ℕ → ℕ → List Char
  | 0, _ => []
  | w + 1, n => fixedDigits w (n / 10) ++ [digitChar (n % 10)]

/-- The decimal notation of `n` without leading zeros (`0` is "0"); `fuel`
bounds the number of digits. -/
def natDigits : ℕ → ℕ → List Char
  | 0, n => [digitChar (n % 10)]
  | fuel + 1, n => if n < 10 then [digitChar n] else natDigits fuel (n / 10) ++ [digitChar (n % 10)]

/-- Rounding to the nearest integer, a tie to the even one (the default
rounding of the conversion `%f`). -/
def roundHalfEven {R : Type} [LinearOrderedField R] [FloorRing R] (y : R) : ℤ :=
  if y - ⌊y⌋ < 1 / 2 then ⌊y⌋
  else if 1 / 2 < y - ⌊y⌋ then ⌊y⌋ + 1
  else if ⌊y⌋ % 2 = 0 then ⌊y⌋ else ⌊y⌋ + 1

/-- `std::to_string(double)` on a finite value: the text of `sprintf` with
`%f`, that is the sign, the integer part, a point and six decimals, rounded to
the nearest. -/
def to_string_double {R : Type} [LinearOrderedField R] [FloorRing R] (x : R) : String :=
  let q : ℕ := (roundHalfEven (|x| * 10 ^ 6)).toNat
  let sign : List Char := if x < 0 then ['-'] else []
  String.mk (sign ++ natDigits (q / 10 ^ 6) (q / 10 ^ 6) ++ '.' :: fixedDigits 6 (q % 10 ^ 6))

/-! ## HoeWriter.cpp: the sample grid and the slice thickness -/

namespace HoeWriter

variable {R : Type} [LinearOrderedField R] [FloorRing R]

/-- `HoeWriter::mBuildGrid`, as a step on the writer: the writer with its
`mDz`, and `mXYGrid`, whose elements are real, as the matrix of their real
parts (3 rows of the `nx` abscissae `0, dx, 2*dx, ...`). The `throw` on a
grating vector without a z component is `none`. -/
def mBuildGrid (pi2 : R) (w : HoeWriter R) : Option (HoeWriter R × ArmaMat R) := do
  let g := w.mGratingVectorRot
  let (nx, dx) : ℕ × R :=
    if |g 0| < 1 / 10 ^ 8 then (3, 100 * w.mWriterParameter.lamHoe / 3)
    else (101, |pi2 / g 0| / 101)
  let mDz ←
    if w.mWriterParameter.stepsPerCycle then
      if |g 2| < 1 / 10 ^ 8 then none
      else some (|pi2 / g 2| / w.mWriterParameter.dimZ)
    else some (w.mWriterParameter.thickness / w.mWriterParameter.dimZ)
  let mXYGrid : ArmaMat R := { n_rows := 3, n_cols := nx, elem := fun _ c => (c : R) * dx }
  pure ({ w with mDz := mDz }, mXYGrid)

end HoeWriter

/-! ## HoeWriter.cpp: building the writer, and the writer as device creator -/

/-- What `HoeWriter` takes from `<cmath>` on `double` besides arithmetic:
`sin` and `cos` as in `CMath`, `sqrt` and `atan2`, and `abs`, the function
that the unqualified call `abs(mGratingVectorRot[2])` of
`getCycleLengthZDirection` resolves to (`stdAbs` or `intAbs`). The calls
written `std::abs` are the absolute value. -/
structure CMathWriter (R : Type) extends CMath R where
  sqrt : R → R
  atan2 : R → R → R
  abs : R → R

namespace HoeWriter

variable {R K : Type} [LinearOrderedField R] [FloorRing R] {Nx : ℕ}

/-- The default constructor `HoeWriter()`: the parameters have their default
member initialisers and the exponent list is empty. The constructor leaves
`dimZ` and the other members of type `double` without a value; `mBuildMe`
assigns every one of them before it is read, and they are 0 here. -/
def init : HoeWriter R :=
  { mWriterParameter :=
      { lamHoe := 1 / 2
        thetaDegRec1 := 30
        phiDegRec1 := 0
        thetaDegRec2 := 60
        phiDegRec2 := 0
        n := 3 / 2
        dn := 1 / 1000
        stepsPerCycle := true
        thickness := 100
        addArLayer := true
        thetaDeg := 45
        dimZ := 0 }
    mAngleCoordinateRotation := 0
    mGratingVector := fun _ => 0
    mGratingVectorRot := fun _ => 0
    mThicknessInPowerOfTwoCycles := []
    mThicknessRest := none
    mDz := 0 }

/-- `HoeWriter::mCalcKInMaterie`. -/
def mCalcKInMaterie (m : CMathWriter R) (pi2 degToRad : R) (w : HoeWriter R)
    (thetaDeg phiDeg : R) : Fin 3 → R :=
  let k0 := pi2 / w.mWriterParameter.lamHoe
  let kx := k0 * m.sin (degToRad * thetaDeg) * m.cos (degToRad * phiDeg)
  let ky := k0 * m.sin (degToRad * thetaDeg) * m.sin (degToRad * phiDeg)
  let kz := m.sqrt ((w.mWriterParameter.n * w.mWriterParameter.n * k0 * k0) - (kx * kx)
    - (ky * ky))
  ![kx, ky, kz]

/-- `HoeWriter::mBuildGratingVectors`, as a step on the writer. -/
def mBuildGratingVectors (m : CMathWriter R) (pi2 degToRad : R) (w : HoeWriter R) :
    HoeWriter R :=
  let k1 := mCalcKInMaterie m pi2 degToRad w w.mWriterParameter.thetaDegRec1
    w.mWriterParameter.phiDegRec1
  let k2 := mCalcKInMaterie m pi2 degToRad w w.mWriterParameter.thetaDegRec2
    w.mWriterParameter.phiDegRec2
  let mGratingVector : Fin 3 → R := fun i => k1 i - k2 i
  let gx := mGratingVector 0
  let gy := mGratingVector 1
  let gz := mGratingVector 2
  let gPre := m.sqrt ((gx * gx) + (gy * gy))
  { w with mGratingVector := mGratingVector, mGratingVectorRot := ![gPre, 0, gz] }

/-- `HoeWriter::mBuildAngleCoordinateRotation`, as a step on the writer. -/
def mBuildAngleCoordinateRotation (m : CMathWriter R) (degToRad : R) (w : HoeWriter R) :
    HoeWriter R :=
  let g := w.mGratingVector
  let rad := m.atan2 (g 1) (g 0)
  { w with mAngleCoordinateRotation := rad / degToRad }

/-- `HoeWriter::mBuildMe`: the writer and its `mXYGrid` after the five steps.
A step that throws, or whose conversion to `int` is undefined, gives `none`. -/
def mBuildMe (m : CMathWriter R) (pi2 degToRad : R) (w : HoeWriter R) :
    Option (HoeWriter R × ArmaMat R) := do
  let w := mBuildGratingVectors m pi2 degToRad w
  let w := mBuildAngleCoordinateRotation m degToRad w
  let (w, mXYGrid) ← w.mBuildGrid pi2
  let w ← w.mBuildThicknessInPowerOfTwoCycles m.abs pi2
  let w := w.mBuildThicknessRest m.abs pi2
  pure (w, mXYGrid)

/-- `HoeWriter::setWriterParameter` on the writer `w`. The `mXYGrid` of `w` is
not read: `mBuildGrid` assigns it anew. -/
def setWriterParameter (m : CMathWriter R) (pi2 degToRad : R) (w : HoeWriter R)
    (writerParameter : HoeWriterParameter R) : Option (HoeWriter R × ArmaMat R) :=
  mBuildMe m pi2 degToRad { w with mWriterParameter := writerParameter }

/-- `HoeWriter::getIndividuallyLayerCount`: the `double` converted to the
`int` that the function returns. -/
def getIndividuallyLayerCount (w : HoeWriter R) : Option ℤ :=
  if w.mWriterParameter.addArLayer then doubleToInt (w.mWriterParameter.dimZ + 1)
  else doubleToInt w.mWriterParameter.dimZ

variable [Field K]

/-- `HoeWriter::mfillLayerdataAr`. -/
def mfillLayerdataAr (lib : Numerics R K Nx 0) (m : CMathWriter R) (degToRad : R)
    (w : HoeWriter R) (layerData : LayerData R K) : LayerData R K :=
  let nAr := m.sqrt w.mWriterParameter.n
  let theta := w.mWriterParameter.thetaDeg * degToRad
  let sinAr := m.sin theta / nAr
  let cosAr := m.sqrt (1 - (sinAr * sinAr))
  let l := w.mWriterParameter.lamHoe / (4 * nAr * cosAr)
  let nArC : K := lib.ofReal nAr
  { layerData with er := ArmaMat.scalar (nArC * nArC), li := l, identifier := "ar" }

/-- `HoeWriter::fillLayerdata` on the writer and its `mXYGrid`: the
`LayerData` as the call leaves it. The elements of `mXYGrid` have no imaginary
part, and `arma::cos` and `arma::pow` act on their real parts. -/
def fillLayerdata (lib : Numerics R K Nx 0) (m : CMathWriter R) (degToRad : R)
    (w : HoeWriter R) (mXYGrid : ArmaMat R) (layerData : LayerData R K) (index : ℤ) :
    Option (LayerData R K) := do
  let count ← w.getIndividuallyLayerCount
  if index < 0 then pure layerData
  else if index ≥ count then pure layerData
  else
    let layerData : LayerData R K :=
      { layerData with
        ur := { n_rows := mXYGrid.n_rows, n_cols := mXYGrid.n_cols, elem := fun _ _ => 1 } }
    if index = count - 1 ∧ w.mWriterParameter.addArLayer = true then
      pure (mfillLayerdataAr lib m degToRad w layerData)
    else
      let zKz := (index : R) * w.mDz * w.mGratingVectorRot 2
      pure { layerData with
        er :=
          { n_rows := mXYGrid.n_rows
            n_cols := mXYGrid.n_cols
            elem := fun r c =>
              lib.ofReal ((w.mWriterParameter.dn
                * m.cos (mXYGrid.elem r c * w.mGratingVectorRot 0 + zKz)
                + w.mWriterParameter.n) ^ 2) }
        identifier := toString index
        li := w.mDz }

/-- The writer with its `mXYGrid` seen as the `DeviceCreator` that the system
holds. -/
def toDeviceCreator (lib : Numerics R K Nx 0) (m : CMathWriter R) (degToRad : R)
    (w : HoeWriter R) (mXYGrid : ArmaMat R) : Option (DeviceCreator R K) := do
  let count ← w.getIndividuallyLayerCount
  pure
    { getIndividuallyLayerCount := count
      fillLayerdata := fun layerData index =>
        (fillLayerdata lib m degToRad w mXYGrid layerData index).getD layerData }

end HoeWriter

namespace VolumeHologram3D

variable {R K : Type} [LinearOrderedField R] [FloorRing R] [Field K] [DecidableEq K] {Nx : ℕ}

/-- `VolumeHologram3D::mGetHoeWriter`: the writer and its `mXYGrid`. -/
def mGetHoeWriter (m : CMathWriter R) (pi2 degToRad : R)
    (mPram : VolumeHologram3DParameter R K) : Option (HoeWriter R × ArmaMat R) :=
  let writer : HoeWriter R := HoeWriter.init
  let pramWriter : HoeWriterParameter R :=
    { dimZ := (mPram.dimZ : R)
      lamHoe := mPram.lamHoe
      thetaDegRec1 := mPram.thetaDegRec1
      phiDegRec1 := mPram.phiDegRec1
      thetaDegRec2 := mPram.thetaDegRec2
      phiDegRec2 := mPram.phiDegRec2
      n := mPram.n
      dn := mPram.dn
      stepsPerCycle := mPram.stepsPerCycle
      thickness := mPram.thickness
      addArLayer := mPram.addArLayer
      thetaDeg := mPram.thetaDeg }
  writer.setWriterParameter m pi2 degToRad pramWriter

/-- `VolumeHologram3D(pram).calculateRCWA()`: the run on the object that the
constructor leaves. `mGetSystemParameter` calls `mGetHoeWriter` and hands the
writer to the system as its device creator. -/
@[nospecialize]
def calculateRCWAOfParameter (lib : Numerics R K Nx 0) (m : CMathWriter R)
    (pi2 degToRad : R) (to_string : R → String) (stod : String → Option R)
    (mPram : VolumeHologram3DParameter R K) : Option (DiffractionEfficiency R Nx 0) := do
  let (writer, mXYGrid) ← mGetHoeWriter m pi2 degToRad mPram
  let deviceCreator ← writer.toDeviceCreator lib m degToRad mXYGrid
  calculateRCWA lib m.toCMath pi2 degToRad to_string stod mPram writer deviceCreator

end VolumeHologram3D

/-! # Verification -/

/-! ## `arma::inv` -/

section ArmadilloLemmas

variable {ι K : Type} [Fintype ι] [DecidableEq ι] [Field K] [DecidableEq K]

theorem armaInv_of_det_ne_zero {A : Matrix ι ι K} (h : A.det ≠ 0) :
    armaInv A = some A⁻¹ := by
  simp [armaInv, h, Matrix.inv_def, Ring.inverse_eq_inv']

theorem armaInv_of_det_eq_zero {A : Matrix ι ι K} (h : A.det = 0) :
    armaInv A = none := by
  simp [armaInv, h]

theorem armaInv_eq_some_iff {A B : Matrix ι ι K} :
    armaInv A = some B ↔ A * B = 1 := by
  constructor
  · intro h
    by_cases hd : A.det = 0
    · simp [armaInv, hd] at h
    · rw [armaInv_of_det_ne_zero hd] at h
      cases h
      exact Matrix.mul_nonsing_inv A (isUnit_iff_ne_zero.mpr hd)
  · intro h
    have hd : A.det ≠ 0 := by
      intro h0
      have := congrArg Matrix.det h
      simp [Matrix.det_mul, h0] at this
    rw [armaInv_of_det_ne_zero hd, Matrix.inv_eq_right_inv h]

theorem armaInv_mul_cancel {A B : Matrix ι ι K} (h : armaInv A = some B) : A * B = 1 :=
  armaInv_eq_some_iff.mp h

theorem armaInv_cancel_mul {A B : Matrix ι ι K} (h : armaInv A = some B) : B * A = 1 :=
  Matrix.mul_eq_one_comm.mp (armaInv_eq_some_iff.mp h)

theorem armaInv_one : armaInv (1 : Matrix ι ι K) = some 1 :=
  armaInv_eq_some_iff.mpr (one_mul 1)

theorem armaInv_isSome_iff {A : Matrix ι ι K} : (armaInv A).isSome ↔ A.det ≠ 0 := by
  by_cases hd : A.det = 0
  · simp [armaInv, hd]
  · simp [armaInv, hd]

omit [DecidableEq K] in
/-- Both brackets of the star product are invertible together. -/
theorem det_bracket_comm (X Y : Matrix ι ι K) : (1 - X * Y).det = (1 - Y * X).det :=
  Matrix.det_one_sub_mul_comm X Y

end ArmadilloLemmas

/-! ## The star product: blocks and identity -/

namespace ScatterMatrix

variable {ι K : Type} [Fintype ι] [DecidableEq ι] [Field K] [DecidableEq K]

theorem redhefferStarProduct_eq_some_iff {sa sb s : ScatterMatrix ι K} :
    redhefferStarProduct sa sb = some s ↔
      ∃ b1 b2 : Matrix ι ι K,
        (1 - sb.s11 * sa.s22) * b1 = 1 ∧ (1 - sa.s22 * sb.s11) * b2 = 1 ∧
        s.s11 = sa.s11 + sa.s12 * b1 * (sb.s11 * sa.s21) ∧
        s.s12 = sa.s12 * b1 * sb.s12 ∧
        s.s21 = sb.s21 * b2 * sa.s21 ∧
        s.s22 = sb.s22 + sb.s21 * b2 * (sa.s22 * sb.s12) := by
  constructor
  · intro h
    simp only [redhefferStarProduct, bind, Option.bind_eq_some, pure, Option.some.injEq] at h
    obtain ⟨b1, h1, b2, h2, rfl⟩ := h
    exact ⟨b1, b2, armaInv_mul_cancel h1, armaInv_mul_cancel h2, rfl, rfl, rfl, rfl⟩
  · rintro ⟨b1, b2, h1, h2, e11, e12, e21, e22⟩
    simp only [redhefferStarProduct, bind, Option.bind_eq_some, pure, Option.some.injEq]
    refine ⟨b1, armaInv_eq_some_iff.mpr h1, b2, armaInv_eq_some_iff.mpr h2, ?_⟩
    ext i j <;> simp [e11, e12, e21, e22]

theorem redhefferStarProduct_isSome_iff {sa sb : ScatterMatrix ι K} :
    (redhefferStarProduct sa sb).isSome ↔ (1 - sb.s11 * sa.s22).det ≠ 0 := by
  constructor
  · intro h
    obtain ⟨s, hs⟩ := Option.isSome_iff_exists.mp h
    obtain ⟨b1, -, h1, -⟩ := redhefferStarProduct_eq_some_iff.mp hs
    intro h0
    have := congrArg Matrix.det h1
    simp [Matrix.det_mul, h0] at this
  · intro h
    have h2 : (1 - sa.s22 * sb.s11).det ≠ 0 := by rwa [← det_bracket_comm]
    simp [redhefferStarProduct, bind, armaInv_of_det_ne_zero h, armaInv_of_det_ne_zero h2]

theorem Unity_redhefferStarProduct (x : ScatterMatrix ι K) :
    redhefferStarProduct Unity x = some x := by
  refine redhefferStarProduct_eq_some_iff.mpr ⟨1, 1, ?_⟩
  simp [Unity]

theorem redhefferStarProduct_Unity (x : ScatterMatrix ι K) :
    redhefferStarProduct x Unity = some x := by
  refine redhefferStarProduct_eq_some_iff.mpr ⟨1, 1, ?_⟩
  simp [Unity]

end ScatterMatrix

/-! ## Associativity of the star product

The identities are proved in an arbitrary ring, from two-sided inverses of the
brackets; `a` stands for `A.s22`, `bij` for the blocks of `B`, `c` for `C.s11`,
`D1, D2` for the brackets of `A * B`, `F1, F2` for those of `B * C`, `E1, E2`
for those of `(A * B) * C` and `G1, G2` for those of `A * (B * C)`. -/

section RingLemmas

variable {S : Type} [Ring S]

theorem push_through {x y u v : S} (hu : u * (1 - x * y) = 1) (hv : (1 - y * x) * v = 1) :
    u * x = x * v := by
  calc u * x = u * x * ((1 - y * x) * v) := by rw [hv, mul_one]
    _ = (u * (1 - x * y)) * x * v := by noncomm_ring
    _ = x * v := by rw [hu, one_mul]

theorem bracket_left {a b11 b12 b21 c D1 F1 : S} (hD1 : (1 - b11 * a) * D1 = 1) :
    (1 - (b11 + b12 * F1 * (c * b21)) * a) * D1 = 1 - b12 * (F1 * c * b21 * (a * D1)) := by
  calc (1 - (b11 + b12 * F1 * (c * b21)) * a) * D1
      = (1 - b11 * a) * D1 - b12 * (F1 * c * b21 * (a * D1)) := by noncomm_ring
    _ = _ := by rw [hD1]

theorem bracket_right {a b12 b21 b22 c D2 F1 : S} (hF1 : F1 * (1 - c * b22) = 1) :
    F1 * (1 - c * (b22 + b21 * D2 * (a * b12))) = 1 - F1 * c * b21 * (D2 * a) * b12 := by
  calc F1 * (1 - c * (b22 + b21 * D2 * (a * b12)))
      = F1 * (1 - c * b22) - F1 * c * b21 * (D2 * a) * b12 := by noncomm_ring
    _ = _ := by rw [hF1]

theorem assoc_core {a b11 b22 c D1 D2 F1 : S} (b12 b21 : S)
    (hD1 : (1 - b11 * a) * D1 = 1) (hD2 : D2 * (1 - a * b11) = 1)
    (hF1 : F1 * (1 - c * b22) = 1) :
    (1 - (b11 + b12 * F1 * (c * b21)) * a) * D1 * b12
      = b12 * F1 * (1 - c * (b22 + b21 * D2 * (a * b12))) := by
  have hpt : D2 * a = a * D1 := push_through hD2 hD1
  calc (1 - (b11 + b12 * F1 * (c * b21)) * a) * D1 * b12
      = (1 - b12 * (F1 * c * b21 * (a * D1))) * b12 := by rw [bracket_left hD1]
    _ = b12 * (1 - F1 * c * b21 * (D2 * a) * b12) := by rw [hpt]; noncomm_ring
    _ = b12 * (F1 * (1 - c * (b22 + b21 * D2 * (a * b12)))) := by rw [bracket_right hF1]
    _ = _ := (mul_assoc _ _ _).symm

theorem assoc_core_mirror {a b11 b22 c D2 F1 F2 : S} (b12 b21 : S)
    (hD2 : D2 * (1 - a * b11) = 1) (hF1 : F1 * (1 - c * b22) = 1)
    (hF2 : (1 - b22 * c) * F2 = 1) :
    b21 * D2 * (1 - a * (b11 + b12 * F1 * (c * b21)))
      = (1 - (b22 + b21 * D2 * (a * b12)) * c) * F2 * b21 := by
  have hpt : F1 * c = c * F2 := push_through hF1 hF2
  have h1 : D2 * (1 - a * (b11 + b12 * F1 * (c * b21)))
      = 1 - D2 * a * b12 * (F1 * c) * b21 := by
    calc D2 * (1 - a * (b11 + b12 * F1 * (c * b21)))
        = D2 * (1 - a * b11) - D2 * a * b12 * (F1 * c) * b21 := by noncomm_ring
      _ = _ := by rw [hD2]
  have h2 : (1 - (b22 + b21 * D2 * (a * b12)) * c) * F2
      = 1 - b21 * (D2 * a * b12 * (c * F2)) := by
    calc (1 - (b22 + b21 * D2 * (a * b12)) * c) * F2
        = (1 - b22 * c) * F2 - b21 * (D2 * a * b12 * (c * F2)) := by noncomm_ring
      _ = _ := by rw [hF2]
  calc b21 * D2 * (1 - a * (b11 + b12 * F1 * (c * b21)))
      = b21 * (D2 * (1 - a * (b11 + b12 * F1 * (c * b21)))) := mul_assoc _ _ _
    _ = b21 * (1 - D2 * a * b12 * (F1 * c) * b21) := by rw [h1]
    _ = (1 - b21 * (D2 * a * b12 * (c * F2))) * b21 := by rw [hpt]; noncomm_ring
    _ = _ := by rw [h2]

/-- Block 12: `D1 b12 E1 = G1 b12 F1`. -/
theorem assoc_block12 {a b11 b12 b21 b22 c D1 D2 F1 E1 G1 : S}
    (hD1 : (1 - b11 * a) * D1 = 1) (hD2 : D2 * (1 - a * b11) = 1)
    (hF1 : F1 * (1 - c * b22) = 1)
    (hE1 : (1 - c * (b22 + b21 * D2 * (a * b12))) * E1 = 1)
    (hG1 : G1 * (1 - (b11 + b12 * F1 * (c * b21)) * a) = 1) :
    D1 * b12 * E1 = G1 * b12 * F1 := by
  have core := assoc_core b12 b21 hD1 hD2 hF1
  calc D1 * b12 * E1
      = G1 * (1 - (b11 + b12 * F1 * (c * b21)) * a) * (D1 * b12 * E1) := by rw [hG1, one_mul]
    _ = G1 * ((1 - (b11 + b12 * F1 * (c * b21)) * a) * D1 * b12) * E1 := by noncomm_ring
    _ = G1 * (b12 * F1 * (1 - c * (b22 + b21 * D2 * (a * b12)))) * E1 := by rw [core]
    _ = G1 * b12 * F1 * ((1 - c * (b22 + b21 * D2 * (a * b12))) * E1) := by noncomm_ring
    _ = G1 * b12 * F1 := by rw [hE1, mul_one]

/-- Block 21: `E2 b21 D2 = F2 b21 G2`. -/
theorem assoc_block21 {a b11 b21 b22 c D2 F1 F2 E2 G2 : S} (b12 : S)
    (hD2 : D2 * (1 - a * b11) = 1) (hF1 : F1 * (1 - c * b22) = 1)
    (hF2 : (1 - b22 * c) * F2 = 1)
    (hE2 : E2 * (1 - (b22 + b21 * D2 * (a * b12)) * c) = 1)
    (hG2 : (1 - a * (b11 + b12 * F1 * (c * b21))) * G2 = 1) :
    E2 * b21 * D2 = F2 * b21 * G2 := by
  have core := assoc_core_mirror b12 b21 hD2 hF1 hF2
  calc E2 * b21 * D2
      = E2 * b21 * D2 * ((1 - a * (b11 + b12 * F1 * (c * b21))) * G2) := by rw [hG2, mul_one]
    _ = E2 * (b21 * D2 * (1 - a * (b11 + b12 * F1 * (c * b21)))) * G2 := by noncomm_ring
    _ = E2 * ((1 - (b22 + b21 * D2 * (a * b12)) * c) * F2 * b21) * G2 := by rw [core]
    _ = (E2 * (1 - (b22 + b21 * D2 * (a * b12)) * c)) * F2 * b21 * G2 := by noncomm_ring
    _ = F2 * b21 * G2 := by rw [hE2, one_mul]

/-- Block 11: `D1 b11 + D1 b12 E1 c b21 D2 = G1 (b11 + b12 F1 c b21)`. -/
theorem assoc_block11 {a b11 b12 b21 b22 c D1 D2 F1 E1 G1 : S}
    (hD1 : (1 - b11 * a) * D1 = 1) (hD2 : D2 * (1 - a * b11) = 1)
    (hF1 : F1 * (1 - c * b22) = 1)
    (hE1 : (1 - c * (b22 + b21 * D2 * (a * b12))) * E1 = 1)
    (hG1 : G1 * (1 - (b11 + b12 * F1 * (c * b21)) * a) = 1) :
    D1 * b11 + D1 * b12 * E1 * (c * (b21 * D2)) = G1 * (b11 + b12 * F1 * (c * b21)) := by
  have h12 := assoc_block12 hD1 hD2 hF1 hE1 hG1
  have hpt : D2 * a = a * D1 := push_through hD2 hD1
  have hadb : a * D1 * b11 = D2 - 1 := by
    calc a * D1 * b11 = D2 * a * b11 := by rw [hpt]
      _ = D2 - D2 * (1 - a * b11) := by noncomm_ring
      _ = D2 - 1 := by rw [hD2]
  have hg : (1 - (b11 + b12 * F1 * (c * b21)) * a) * D1 * b11
      = b11 + b12 * F1 * (c * b21) - b12 * F1 * (c * b21) * D2 := by
    calc (1 - (b11 + b12 * F1 * (c * b21)) * a) * D1 * b11
        = (1 - b12 * (F1 * c * b21 * (a * D1))) * b11 := by rw [bracket_left hD1]
      _ = b11 - b12 * F1 * (c * b21) * (a * D1 * b11) := by noncomm_ring
      _ = b11 - b12 * F1 * (c * b21) * (D2 - 1) := by rw [hadb]
      _ = _ := by noncomm_ring
  have hD1b : D1 * b11 = G1 * (b11 + b12 * F1 * (c * b21) - b12 * F1 * (c * b21) * D2) := by
    calc D1 * b11 = G1 * (1 - (b11 + b12 * F1 * (c * b21)) * a) * (D1 * b11) := by
          rw [hG1, one_mul]
      _ = G1 * ((1 - (b11 + b12 * F1 * (c * b21)) * a) * D1 * b11) := by noncomm_ring
      _ = _ := by rw [hg]
  rw [h12, hD1b]
  noncomm_ring

/-- Block 22: `E2 (b22 + b21 D2 a b12) = F2 b22 + F2 b21 G2 a b12 F1`. -/
theorem assoc_block22 {a b11 b21 b22 c D2 F1 F2 E2 G2 : S} (b12 : S)
    (hD2 : D2 * (1 - a * b11) = 1) (hF1 : F1 * (1 - c * b22) = 1)
    (hF2 : (1 - b22 * c) * F2 = 1)
    (hE2 : E2 * (1 - (b22 + b21 * D2 * (a * b12)) * c) = 1)
    (hG2 : (1 - a * (b11 + b12 * F1 * (c * b21))) * G2 = 1) :
    E2 * (b22 + b21 * D2 * (a * b12)) = F2 * b22 + F2 * b21 * G2 * (a * (b12 * F1)) := by
  have h21 := assoc_block21 b12 hD2 hF1 hF2 hE2 hG2
  have hpt : F1 * c = c * F2 := push_through hF1 hF2
  have hcfb : c * F2 * b22 = F1 - 1 := by
    calc c * F2 * b22 = F1 * c * b22 := by rw [hpt]
      _ = F1 - F1 * (1 - c * b22) := by noncomm_ring
      _ = F1 - 1 := by rw [hF1]
  have he : (1 - (b22 + b21 * D2 * (a * b12)) * c) * F2 * b22
      = b22 + b21 * D2 * (a * b12) - b21 * D2 * (a * b12) * F1 := by
    calc (1 - (b22 + b21 * D2 * (a * b12)) * c) * F2 * b22
        = (1 - b22 * c) * F2 * b22 - b21 * D2 * (a * b12) * (c * F2 * b22) := by noncomm_ring
      _ = b22 - b21 * D2 * (a * b12) * (F1 - 1) := by rw [hF2, hcfb, one_mul]
      _ = _ := by noncomm_ring
  have hF2b : F2 * b22 = E2 * (b22 + b21 * D2 * (a * b12) - b21 * D2 * (a * b12) * F1) := by
    calc F2 * b22 = E2 * (1 - (b22 + b21 * D2 * (a * b12)) * c) * (F2 * b22) := by
          rw [hE2, one_mul]
      _ = E2 * ((1 - (b22 + b21 * D2 * (a * b12)) * c) * F2 * b22) := by noncomm_ring
      _ = _ := by rw [he]
  rw [← h21, hF2b]
  noncomm_ring

end RingLemmas

namespace ScatterMatrix

variable {ι K : Type} [Fintype ι] [DecidableEq ι] [Field K] [DecidableEq K]

omit [DecidableEq K] in
theorem det_ne_zero_of_mul_eq_one {X Y : Matrix ι ι K} (h : X * Y = 1) : X.det ≠ 0 := by
  intro h0
  have := congrArg Matrix.det h
  simp [Matrix.det_mul, h0] at this

omit [DecidableEq K] in
theorem det_ne_zero_of_mul_eq_one_right {X Y : Matrix ι ι K} (h : X * Y = 1) : Y.det ≠ 0 := by
  intro h0
  have := congrArg Matrix.det h
  simp [Matrix.det_mul, h0] at this

/-- When `A * B`, `B * C` and `(A * B) * C` are defined, `A * (B * C)` is
defined and is the same matrix. -/
theorem redhefferStarProduct_assoc_right {A B C AB BC L : ScatterMatrix ι K}
    (hAB : redhefferStarProduct A B = some AB) (hBC : redhefferStarProduct B C = some BC)
    (hL : redhefferStarProduct AB C = some L) :
    redhefferStarProduct A BC = some L := by
  obtain ⟨D1, D2, hD1, hD2, ab11, ab12, ab21, ab22⟩ := redhefferStarProduct_eq_some_iff.mp hAB
  obtain ⟨F1, F2, hF1, hF2, bc11, bc12, bc21, bc22⟩ := redhefferStarProduct_eq_some_iff.mp hBC
  obtain ⟨E1, E2, hE1, hE2, l11, l12, l21, l22⟩ := redhefferStarProduct_eq_some_iff.mp hL
  have hD1' : D1 * (1 - B.s11 * A.s22) = 1 := Matrix.mul_eq_one_comm.mp hD1
  have hD2' : D2 * (1 - A.s22 * B.s11) = 1 := Matrix.mul_eq_one_comm.mp hD2
  have hF1' : F1 * (1 - C.s11 * B.s22) = 1 := Matrix.mul_eq_one_comm.mp hF1
  have hF2' : F2 * (1 - B.s22 * C.s11) = 1 := Matrix.mul_eq_one_comm.mp hF2
  rw [ab22] at hE1 hE2
  have hE2' := Matrix.mul_eq_one_comm.mp hE2
  -- the left bracket of `A * (B * C)` is invertible
  have hpt : D2 * A.s22 = A.s22 * D1 := push_through hD2' hD1
  have hgD : (1 - (B.s11 + B.s12 * F1 * (C.s11 * B.s21)) * A.s22) * D1
      = 1 - B.s12 * (F1 * C.s11 * B.s21 * (A.s22 * D1)) := bracket_left hD1
  have hFe : F1 * (1 - C.s11 * (B.s22 + B.s21 * D2 * (A.s22 * B.s12)))
      = 1 - F1 * C.s11 * B.s21 * (A.s22 * D1) * B.s12 := by
    rw [bracket_right hF1', hpt]
  have hdet : (1 - (B.s11 + B.s12 * F1 * (C.s11 * B.s21)) * A.s22).det * D1.det
      = F1.det * (1 - C.s11 * (B.s22 + B.s21 * D2 * (A.s22 * B.s12))).det := by
    rw [← Matrix.det_mul, ← Matrix.det_mul, hgD, hFe, Matrix.det_one_sub_mul_comm]
  have hg : (1 - BC.s11 * A.s22).det ≠ 0 := by
    rw [bc11]
    intro h0
    rw [h0, zero_mul] at hdet
    exact mul_ne_zero (det_ne_zero_of_mul_eq_one hF1') (det_ne_zero_of_mul_eq_one hE1) hdet.symm
  have hg2 : (1 - A.s22 * BC.s11).det ≠ 0 := by rwa [← det_bracket_comm]
  have hG1 := Matrix.nonsing_inv_mul _ (isUnit_iff_ne_zero.mpr hg)
  have hG2 := Matrix.mul_nonsing_inv _ (isUnit_iff_ne_zero.mpr hg2)
  rw [bc11] at hG1 hG2
  refine redhefferStarProduct_eq_some_iff.mpr
    ⟨(1 - BC.s11 * A.s22)⁻¹, (1 - A.s22 * BC.s11)⁻¹,
      Matrix.mul_nonsing_inv _ (isUnit_iff_ne_zero.mpr hg),
      Matrix.mul_nonsing_inv _ (isUnit_iff_ne_zero.mpr hg2), ?_, ?_, ?_, ?_⟩
  · have h := assoc_block11 hD1 hD2' hF1' hE1 hG1
    rw [l11, ab11, ab12, ab21, bc11]
    calc A.s11 + A.s12 * D1 * (B.s11 * A.s21)
          + A.s12 * D1 * B.s12 * E1 * (C.s11 * (B.s21 * D2 * A.s21))
        = A.s11 + A.s12 * (D1 * B.s11 + D1 * B.s12 * E1 * (C.s11 * (B.s21 * D2))) * A.s21 := by
          noncomm_ring
      _ = _ := by rw [h]; noncomm_ring
  · have h := assoc_block12 hD1 hD2' hF1' hE1 hG1
    rw [l12, ab12, bc11, bc12]
    calc A.s12 * D1 * B.s12 * E1 * C.s12 = A.s12 * (D1 * B.s12 * E1) * C.s12 := by noncomm_ring
      _ = _ := by rw [h]; noncomm_ring
  · have h := assoc_block21 B.s12 hD2' hF1' hF2 hE2' hG2
    rw [l21, ab21, bc11, bc21]
    calc C.s21 * E2 * (B.s21 * D2 * A.s21) = C.s21 * (E2 * B.s21 * D2) * A.s21 := by noncomm_ring
      _ = _ := by rw [h]; noncomm_ring
  · have h := assoc_block22 B.s12 hD2' hF1' hF2 hE2' hG2
    rw [l22, ab22, bc11, bc12, bc21, bc22]
    calc C.s22 + C.s21 * E2 * ((B.s22 + B.s21 * D2 * (A.s22 * B.s12)) * C.s12)
        = C.s22 + C.s21 * (E2 * (B.s22 + B.s21 * D2 * (A.s22 * B.s12))) * C.s12 := by
          noncomm_ring
      _ = _ := by rw [h]; noncomm_ring

end ScatterMatrix

/-! ## The sequential fold and the doubling loop -/

namespace ScatterMatrix

variable {ι K : Type} [Fintype ι] [DecidableEq ι] [Field K] [DecidableEq K]

theorem sequentialStar_succ_eq_some {f s : ScatterMatrix ι K} {n : ℕ}
    (h : sequentialStar f (n + 1) = some s) :
    ∃ t, sequentialStar f n = some t ∧ redhefferStarProduct t f = some s := by
  simpa [sequentialStar, Option.bind_eq_some] using h

theorem sequentialStar_one (f : ScatterMatrix ι K) : sequentialStar f 1 = some f := by
  simp [sequentialStar, Unity_redhefferStarProduct]

/-- A defined fold of `n` copies has every shorter fold defined. -/
theorem sequentialStar_isSome_of_le {f : ScatterMatrix ι K} {m n : ℕ} (hmn : m ≤ n)
    (h : (sequentialStar f n).isSome) : (sequentialStar f m).isSome := by
  induction n with
  | zero =>
    have : m = 0 := Nat.le_zero.mp hmn
    subst this
    exact h
  | succ n ih =>
    rcases Nat.lt_or_ge m (n + 1) with hlt | hge
    · obtain ⟨s, hs⟩ := Option.isSome_iff_exists.mp h
      obtain ⟨t, ht, -⟩ := sequentialStar_succ_eq_some hs
      exact ih (Nat.lt_succ_iff.mp hlt) (by simp [ht])
    · have : m = n + 1 := Nat.le_antisymm hmn hge
      subst this
      exact h

/-- The fold of `j + k` copies is the product of the folds of `j` and of `k`
copies, once it is defined. -/
theorem sequentialStar_add {f : ScatterMatrix ι K} (j : ℕ) :
    ∀ (k : ℕ) (s : ScatterMatrix ι K), sequentialStar f (j + k) = some s →
      ∃ sj sk, sequentialStar f j = some sj ∧ sequentialStar f k = some sk ∧
        redhefferStarProduct sj sk = some s := by
  intro k
  induction k with
  | zero =>
    intro s h
    exact ⟨s, Unity, h, rfl, redhefferStarProduct_Unity s⟩
  | succ k ih =>
    intro s h
    obtain ⟨t, ht, hts⟩ := sequentialStar_succ_eq_some (n := j + k) h
    obtain ⟨sj, sk, hj, hk, hjk⟩ := ih t ht
    have hdef : (sequentialStar f (k + 1)).isSome :=
      sequentialStar_isSome_of_le (Nat.le_add_left (k + 1) j) (by rw [h]; rfl)
    obtain ⟨sk', hk'⟩ := Option.isSome_iff_exists.mp hdef
    obtain ⟨t', ht', hk'f⟩ := sequentialStar_succ_eq_some hk'
    rw [hk] at ht'
    cases ht'
    exact ⟨sj, sk', hj, hk', redhefferStarProduct_assoc_right hjk hk'f hts⟩

end ScatterMatrix

namespace VolumeHologram3D

open ScatterMatrix

variable {ι K : Type} [Fintype ι] [DecidableEq ι] [Field K] [DecidableEq K]

/-- `std::max_element` by a left scan: the value is in the list and bounds it. -/
theorem foldl_max_spec (ps : List ℕ) (p : ℕ) :
    ps.foldl max p ∈ p :: ps ∧ ∀ x ∈ p :: ps, x ≤ ps.foldl max p := by
  induction ps generalizing p with
  | nil => simp
  | cons q qs ih =>
    obtain ⟨hmem, hle⟩ := ih (max p q)
    simp only [List.foldl_cons]
    constructor
    · rcases List.mem_cons.mp hmem with h | h
      · rw [h]
        rcases max_choice p q with hc | hc <;> simp [hc]
      · simp [h]
    · intro x hx
      rcases List.mem_cons.mp hx with h | h
      · subst h
        exact (le_max_left x q).trans (hle _ (List.mem_cons_self _ _))
      · rcases List.mem_cons.mp h with h | h
        · subst h
          exact (le_max_right p x).trans (hle _ (List.mem_cons_self _ _))
        · exact hle _ (List.mem_cons_of_mem _ h)

theorem mod_two_pow_succ_of_testBit {n k : ℕ} (h : n.testBit k = true) :
    n % 2 ^ (k + 1) = n % 2 ^ k + 2 ^ k := by
  rw [Nat.mod_pow_succ]
  have : n / 2 ^ k % 2 = 1 := by simpa [Nat.testBit_to_div_mod] using h
  rw [this, Nat.mul_one]

theorem mod_two_pow_succ_of_not_testBit {n k : ℕ} (h : ¬ n.testBit k = true) :
    n % 2 ^ (k + 1) = n % 2 ^ k := by
  rw [Nat.mod_pow_succ]
  have : n / 2 ^ k % 2 = 0 := by
    have h' : ¬ (n / 2 ^ k % 2 = 1) := by simpa [Nat.testBit_to_div_mod] using h
    omega
  rw [this, Nat.mul_zero, Nat.add_zero]

/-- The state of the doubling loop after the passes `x = 0 .. k`: `temp` holds
`2 ^ k` copies and `device` the copies counted by the low `k + 1` bits of `n`. -/
theorem powerStep_invariant {n : ℕ} {powers : List ℕ}
    (hbits : ∀ x, x ∈ powers ↔ n.testBit x = true)
    {f s : ScatterMatrix ι K} (hs : sequentialStar f n = some s) :
    ∀ k, 2 ^ k ≤ n →
      ∃ device temp, (List.range (k + 1)).foldlM (powerStep powers) (Unity, f) = some (device, temp) ∧
        sequentialStar f (n % 2 ^ (k + 1)) = some device ∧
        sequentialStar f (2 ^ k) = some temp := by
  have hdef : ∀ m, m ≤ n → ∃ t, sequentialStar f m = some t := fun m hm =>
    Option.isSome_iff_exists.mp (sequentialStar_isSome_of_le hm (by rw [hs]; rfl))
  intro k
  induction k with
  | zero =>
    intro _
    by_cases h0 : 0 ∈ powers
    · refine ⟨f, f, ?_, ?_, sequentialStar_one f⟩
      · simp [List.range_succ, powerStep, h0, Unity_redhefferStarProduct]
      · rw [mod_two_pow_succ_of_testBit ((hbits 0).mp h0)]
        simpa [Nat.mod_one] using sequentialStar_one f
    · refine ⟨Unity, f, ?_, ?_, sequentialStar_one f⟩
      · simp [List.range_succ, powerStep, h0]
      · rw [mod_two_pow_succ_of_not_testBit (fun h => h0 ((hbits 0).mpr h))]
        simp [Nat.mod_one, sequentialStar]
  | succ k ih =>
    intro hk
    have hk' : 2 ^ k ≤ n := le_trans (Nat.pow_le_pow_right (by decide) (Nat.le_succ k)) hk
    obtain ⟨device, temp, hfold, hdev, htemp⟩ := ih hk'
    -- the doubling of `temp`
    obtain ⟨t2, ht2⟩ := hdef (2 ^ k + 2 ^ k) (by rw [← Nat.two_mul, ← Nat.pow_succ']; exact hk)
    obtain ⟨sj, sk, hj, hk2, hjk⟩ := sequentialStar_add (2 ^ k) (2 ^ k) t2 ht2
    rw [htemp] at hj hk2
    cases hj
    cases hk2
    have ht2' : sequentialStar f (2 ^ (k + 1)) = some t2 := by
      rw [Nat.pow_succ', Nat.two_mul]; exact ht2
    by_cases hmem : k + 1 ∈ powers
    · have hmod := mod_two_pow_succ_of_testBit ((hbits (k + 1)).mp hmem)
      obtain ⟨d2, hd2⟩ := hdef (n % 2 ^ (k + 1) + 2 ^ (k + 1)) (by
        rw [← hmod]; exact Nat.mod_le _ _)
      obtain ⟨sj, sk, hj, hk2, hjk2⟩ := sequentialStar_add _ _ d2 hd2
      rw [hdev] at hj
      rw [ht2'] at hk2
      cases hj
      cases hk2
      refine ⟨d2, t2, ?_, ?_, ht2'⟩
      · rw [List.range_succ, List.foldlM_append, hfold]
        simp [powerStep, hmem, hjk, hjk2]
      · rw [hmod]; exact hd2
    · have hmod := mod_two_pow_succ_of_not_testBit (fun h => hmem ((hbits (k + 1)).mpr h))
      refine ⟨device, t2, ?_, ?_, ht2'⟩
      · rw [List.range_succ, List.foldlM_append, hfold]
        simp [powerStep, hmem, hjk]
      · rw [hmod]; exact hdev

/-- The doubling loop over the set-bit positions of `n >= 1` computes the
sequential fold of `n` copies of the full-period matrix. -/
theorem mCalcPowerScatterMatrix_eq_sequentialStar {R : Type} [LinearOrderedField R] [FloorRing R]
    {n : ℕ} (hn : 1 ≤ n) (writer : HoeWriter R)
    (hbits : ∀ x, x ∈ writer.getThicknessInPowerOfTwoCycles ↔ n.testBit x = true)
    (m : StdMap (ScatterMatrix ι K)) {sRef f s : ScatterMatrix ι K}
    (hRef : m.get "sRef" = some sRef) (hfull : m.get "full" = some f)
    (hs : sequentialStar f n = some s) :
    mCalcPowerScatterMatrix writer m = some s := by
  unfold mCalcPowerScatterMatrix
  simp only [hRef, hfull, bind, Option.bind, pure]
  cases hp : writer.getThicknessInPowerOfTwoCycles with
  | nil =>
    exfalso
    have hall : ∀ i, i ≥ 0 → n.testBit i = false := by
      intro i _
      by_contra hc
      have := (hbits i).mpr (by simpa using hc)
      rw [hp] at this
      exact List.not_mem_nil _ this
    have := Nat.lt_pow_two_of_testBit n hall
    omega
  | cons p ps =>
    obtain ⟨hmem, hle⟩ := foldl_max_spec ps p
    rw [← hp] at hmem hle
    have hpow : 2 ^ ps.foldl max p ≤ n := Nat.testBit_implies_ge ((hbits _).mp hmem)
    have hlt : n < 2 ^ (ps.foldl max p + 1) := by
      apply Nat.lt_pow_two_of_testBit
      intro i hi
      by_contra hc
      have := hle i ((hbits i).mpr (by simpa using hc))
      omega
    obtain ⟨device, temp, hfold, hdev, -⟩ := powerStep_invariant hbits hs _ hpow
    rw [Nat.mod_eq_of_lt hlt, hs] at hdev
    cases hdev
    rw [hp] at hfold
    simp only [hfold]

end VolumeHologram3D

/-! ## Concrete evaluation helpers -/

namespace ScatterMatrix

variable {ι K : Type} [Fintype ι] [DecidableEq ι] [Field K] [DecidableEq K]

/-- With nothing reflected back by `sa` (`sa.s22 = 0`) the brackets are the
identity and the product is polynomial in the blocks. -/
theorem redhefferStarProduct_of_s22_eq_zero (sa sb : ScatterMatrix ι K) (h : sa.s22 = 0) :
    redhefferStarProduct sa sb = some
      { s11 := sa.s11 + sa.s12 * (sb.s11 * sa.s21)
        s21 := sb.s21 * sa.s21
        s12 := sa.s12 * sb.s12
        s22 := sb.s22 } := by
  refine redhefferStarProduct_eq_some_iff.mpr ⟨1, 1, ?_⟩
  simp [h]

end ScatterMatrix

theorem mem_bits_three (x : ℕ) : x ∈ [0, 1] ↔ Nat.testBit 3 x = true := by
  rcases Nat.lt_or_ge x 2 with h | h
  · interval_cases x <;> decide
  · have h3 : (3 : ℕ) < 2 ^ x :=
      lt_of_lt_of_le (by decide) (Nat.pow_le_pow_right (by decide) h)
    have hx : x ∉ [0, 1] := by
      simp only [List.mem_cons, List.mem_singleton, List.not_mem_nil, or_false]
      omega
    simp [Nat.testBit_lt_two_pow h3, hx]

open ScatterMatrix in
/-- Three copies of a 1 x 1 matrix over the rationals, combined in sequence. -/
theorem sequentialStar_three :
    sequentialStar (⟨0, !![3], !![2], 0⟩ : ScatterMatrix (Fin 1) ℚ) 3
      = some ⟨0, !![3] * (!![3] * (!![3] * 1)), 1 * !![2] * !![2] * !![2], 0⟩ := by
  rw [sequentialStar, sequentialStar, sequentialStar, sequentialStar, Option.some_bind,
    redhefferStarProduct_of_s22_eq_zero _ _ rfl, Option.some_bind,
    redhefferStarProduct_of_s22_eq_zero _ _ rfl, Option.some_bind,
    redhefferStarProduct_of_s22_eq_zero _ _ rfl]
  simp [Unity]

/-! ## The binary decomposition of the writer -/

/-- The loop appends to `cycles` a strictly descending list of exponents, none
above the highest set bit of `n`, whose powers of two add up to `n`. -/
theorem powerOfTwoLoop_spec (n : ℕ) :
    1 ≤ n → ∀ cycles : List ℕ, ∃ l : List ℕ, powerOfTwoLoop n cycles = cycles ++ l ∧
      l.Sorted (· > ·) ∧ (∀ x ∈ l, x ≤ Nat.log2 n) ∧ (l.map (2 ^ ·)).sum = n := by
  induction n using Nat.strong_induction_on with
  | _ n ih =>
    intro hn cycles
    have hle : 2 ^ Nat.log2 n ≤ n := Nat.log2_self_le (by omega)
    have hlt : n < 2 ^ (Nat.log2 n + 1) := Nat.lt_log2_self
    rw [powerOfTwoLoop]
    by_cases h0 : n - 2 ^ Nat.log2 n = 0
    · refine ⟨[Nat.log2 n], by simp [h0], by simp, by simp, ?_⟩
      simp only [List.map_cons, List.map_nil, List.sum_cons, List.sum_nil]
      omega
    · have h1 : 1 ≤ n - 2 ^ Nat.log2 n := by omega
      have hsmall : n - 2 ^ Nat.log2 n < 2 ^ Nat.log2 n := by
        rw [Nat.pow_succ] at hlt
        omega
      have hlog : Nat.log2 (n - 2 ^ Nat.log2 n) < Nat.log2 n :=
        (Nat.log2_lt (by omega)).mpr hsmall
      obtain ⟨l, hl, hsorted, hbound, hsum⟩ :=
        ih (n - 2 ^ Nat.log2 n) (by omega) h1 (cycles ++ [Nat.log2 n])
      refine ⟨Nat.log2 n :: l, by simp [h0, hl], ?_, ?_, ?_⟩
      · refine List.sorted_cons.mpr ⟨fun b hb => ?_, hsorted⟩
        exact lt_of_le_of_lt (hbound b hb) hlog
      · intro x hx
        rcases List.mem_cons.mp hx with h | h
        · exact h.le
        · exact (hbound x h).trans hlog.le
      · simp only [List.map_cons, List.sum_cons, hsum]
        omega

/-- On a non-negative value truncation toward zero is the floor. -/
theorem doubleToInt_of_floor {R : Type} [LinearOrderedField R] [FloorRing R] {x : R} {n : ℤ}
    (hfloor : ⌊x⌋ = n) (h1 : 1 ≤ n) (hint : n < 2 ^ 31) : doubleToInt x = some n := by
  have hx : 0 ≤ x := by
    have : (0 : ℤ) ≤ ⌊x⌋ := by omega
    exact Int.floor_nonneg.mp this
  have hrange : -(2 : ℤ) ^ 31 ≤ n ∧ n < (2 : ℤ) ^ 31 := ⟨by omega, hint⟩
  simp only [doubleToInt, hx, if_true, hfloor]
  rw [if_pos hrange]

theorem sum_map_two_pow_perm {l₁ l₂ : List ℕ} (h : l₁.Perm l₂) :
    (l₁.map (2 ^ ·)).sum = (l₂.map (2 ^ ·)).sum :=
  (h.map _).sum_eq

/-! ## The closest-key lookup -/

namespace VolumeHologram3D

variable {V R : Type} [LinearOrderedField R]

theorem doubleMax_pos : (0 : R) < doubleMax := by
  unfold doubleMax
  have h : (2 : R) ^ 971 < 2 ^ 1024 := pow_lt_pow_right₀ (by norm_num) (by norm_num)
  linarith

theorem findClosedStep_of_not_closer (stod : String → Option R) (rest : R) (state : String × R)
    (entry : String × V)
    (h : ∀ ev, stod entry.1 = some ev → state.2 ≤ |ev - rest|) :
    findClosedStep stod rest state entry = state := by
  obtain ⟨bestKey, minDiff⟩ := state
  unfold findClosedStep
  cases hs : stod entry.1 with
  | none => simp [mIsNumber, hs]
  | some ev =>
    have := h ev hs
    simp [mIsNumber, hs, not_lt.mpr this]

theorem findClosedStep_of_closer (stod : String → Option R) (rest : R) (state : String × R)
    (entry : String × V) {ev : R} (hs : stod entry.1 = some ev) (h : |ev - rest| < state.2) :
    findClosedStep stod rest state entry = (entry.1, |ev - rest|) := by
  obtain ⟨bestKey, minDiff⟩ := state
  unfold findClosedStep
  simp [mIsNumber, hs, h]

/-- What the loop of `mFindClosed` leaves: either nothing was closer than the
initial `minDiff`, or the state names the first entry, in iteration order,
among those of least distance to `rest`. -/
theorem findClosed_fold_spec (stod : String → Option R) (rest : R) (m : StdMap V) :
    ∀ state : String × R,
      (m.foldl (findClosedStep stod rest) state = state ∧
        ∀ e ∈ m, ∀ ev, stod e.1 = some ev → state.2 ≤ |ev - rest|) ∨
      ∃ (l1 : StdMap V) (k : String) (v : V) (l2 : StdMap V) (kv : R),
        m = l1 ++ (k, v) :: l2 ∧ stod k = some kv ∧
        m.foldl (findClosedStep stod rest) state = (k, |kv - rest|) ∧
        |kv - rest| < state.2 ∧
        (∀ e ∈ l1, ∀ ev, stod e.1 = some ev → |kv - rest| < |ev - rest|) ∧
        (∀ e ∈ l2, ∀ ev, stod e.1 = some ev → |kv - rest| ≤ |ev - rest|) := by
  induction m with
  | nil =>
    intro state
    exact Or.inl ⟨rfl, fun e he => absurd he (List.not_mem_nil e)⟩
  | cons e t ih =>
    intro state
    rw [List.foldl_cons]
    by_cases hcl : ∃ ev, stod e.1 = some ev ∧ |ev - rest| < state.2
    · obtain ⟨ev, hev, hlt⟩ := hcl
      rw [findClosedStep_of_closer stod rest state e hev hlt]
      rcases ih (e.1, |ev - rest|) with ⟨hfold, hall⟩ | ⟨l1, k, v, l2, kv, hm, hk, hfold, hlt2, h1, h2⟩
      · refine Or.inr ⟨[], e.1, e.2, t, ev, rfl, hev, hfold, hlt, ?_, hall⟩
        intro x hx
        exact absurd hx (List.not_mem_nil x)
      · refine Or.inr ⟨e :: l1, k, v, l2, kv, by rw [hm]; rfl, hk, hfold, hlt2.trans hlt, ?_, h2⟩
        intro x hx xv hxv
        rcases List.mem_cons.mp hx with h | h
        · subst h
          rw [hev] at hxv
          cases hxv
          exact hlt2
        · exact h1 x h xv hxv
    · have hnot : ∀ ev, stod e.1 = some ev → state.2 ≤ |ev - rest| := by
        intro ev hev
        by_contra hc
        exact hcl ⟨ev, hev, not_le.mp hc⟩
      rw [findClosedStep_of_not_closer stod rest state e hnot]
      rcases ih state with ⟨hfold, hall⟩ | ⟨l1, k, v, l2, kv, hm, hk, hfold, hlt2, h1, h2⟩
      · refine Or.inl ⟨hfold, ?_⟩
        intro x hx xv hxv
        rcases List.mem_cons.mp hx with h | h
        · subst h
          exact hnot xv hxv
        · exact hall x h xv hxv
      · refine Or.inr ⟨e :: l1, k, v, l2, kv, by rw [hm]; rfl, hk, hfold, hlt2, ?_, h2⟩
        intro x hx xv hxv
        rcases List.mem_cons.mp hx with h | h
        · subst h
          exact lt_of_lt_of_le hlt2 (hnot xv hxv)
        · exact h1 x h xv hxv

theorem isEmpty_eq_false_of_ne {s : String} (h : s ≠ "") : s.isEmpty = false := by
  cases hs : s.isEmpty with
  | false => rfl
  | true => exact absurd ((String.isEmpty_iff s).mp hs) h

/-- The result of `mFindClosed` when some convertible key lies within less than
`doubleMax` of `rest`: the first entry of least distance. -/
theorem mFindClosed_spec (stod : String → Option R) (hempty : stod "" = none)
    (m : StdMap V) (rest : R)
    (hex : ∃ e ∈ m, ∃ ev, stod e.1 = some ev ∧ |ev - rest| < doubleMax) :
    ∃ (l1 : StdMap V) (k : String) (v : V) (l2 : StdMap V) (kv : R),
      m = l1 ++ (k, v) :: l2 ∧ stod k = some kv ∧ mFindClosed stod m rest = some k ∧
      (∀ e ∈ l1, ∀ ev, stod e.1 = some ev → |kv - rest| < |ev - rest|) ∧
      (∀ e ∈ l2, ∀ ev, stod e.1 = some ev → |kv - rest| ≤ |ev - rest|) := by
  rcases findClosed_fold_spec stod rest m ("", doubleMax) with
    ⟨-, hall⟩ | ⟨l1, k, v, l2, kv, hm, hk, hfold, -, h1, h2⟩
  · obtain ⟨e, he, ev, hev, hlt⟩ := hex
    exact absurd (hall e he ev hev) (not_le.mpr hlt)
  · refine ⟨l1, k, v, l2, kv, hm, hk, ?_, h1, h2⟩
    have hne : k ≠ "" := by
      intro h0
      rw [h0, hempty] at hk
      cases hk
    simp [mFindClosed, hfold, isEmpty_eq_false_of_ne hne]

/-- Without a convertible key within less than `doubleMax` of `rest` the best
key stays empty and `mFindClosed` throws. -/
theorem mFindClosed_eq_none (stod : String → Option R) (m : StdMap V) (rest : R)
    (hall : ∀ e ∈ m, ∀ ev, stod e.1 = some ev → doubleMax ≤ |ev - rest|) :
    mFindClosed stod m rest = none := by
  rcases findClosed_fold_spec stod rest m ("", doubleMax) with
    ⟨hfold, -⟩ | ⟨l1, k, v, l2, kv, hm, hk, -, hlt, -, -⟩
  · have hE : ("" : String).isEmpty = true := (String.isEmpty_iff "").mpr rfl
    simp [mFindClosed, hfold, hE]
  · have hmem : (k, v) ∈ m := by rw [hm]; simp
    exact absurd (hall (k, v) hmem kv hk) (not_le.mpr hlt)

end VolumeHologram3D

/-! ## Homogeneous layers at normal incidence -/

section ScalarMatrices

variable {ι K : Type} [Fintype ι] [DecidableEq ι] [Field K] [DecidableEq K]

theorem armaInv_smul_one {c : K} (hc : c ≠ 0) :
    armaInv (c • (1 : Matrix ι ι K)) = some (c⁻¹ • (1 : Matrix ι ι K)) := by
  apply armaInv_eq_some_iff.mpr
  rw [smul_mul_smul_comm, mul_one, mul_inv_cancel₀ hc, one_smul]

/-- The matrix `J = [0, 1; -1, 0]` of the blocks of `Q` and `P`. -/
theorem fromBlocks_J_mul_J :
    blockJ ι K * blockJ ι K = -(1 : Matrix (ι ⊕ ι) (ι ⊕ ι) K) := by
  unfold blockJ
  rw [Matrix.fromBlocks_multiply]
  simp only [mul_zero, zero_mul, mul_one, one_mul, mul_neg, neg_mul, zero_add, add_zero]
  rw [neg_zero, ← Matrix.fromBlocks_one, Matrix.fromBlocks_neg, neg_zero]

theorem fromBlocks_smul_J (e : K) :
    Matrix.fromBlocks (0 : Matrix ι ι K) (e • (1 : Matrix ι ι K)) (-(e • (1 : Matrix ι ι K))) 0
      = e • blockJ ι K := by
  unfold blockJ
  rw [Matrix.fromBlocks_smul]
  simp

end ScalarMatrices

namespace EigenValuesVectors

variable {R K : Type} [LinearOrderedField R] [Field K] [DecidableEq K] {Nx Ny : ℕ}

theorem mBuildConvolutionMatrixFromErUr_scalar (lib : Numerics R K Nx Ny)
    (system : SystemParameters R K Nx Ny) (c : K) :
    mBuildConvolutionMatrixFromErUr lib system (ArmaMat.scalar c)
      = some (c • (1 : Matrix (HarmonicIndex Nx Ny) (HarmonicIndex Nx Ny) K)) := by
  simp only [mBuildConvolutionMatrixFromErUr, ArmaMat.scalar, and_self, if_true]
  congr 1
  ext i j
  by_cases h : i = j <;> simp [Matrix.one_apply, h]

/-- `Q`, `P` and `Omega^2` of a homogeneous layer when `Kx = Ky = 0`. -/
theorem mBuildQPOmega2_scalar (system : SystemParameters R K Nx Ny)
    (hkx : system.kxNorm = 0) (hky : system.kyNorm = 0) {e u : K} (he : e ≠ 0) (hu : u ≠ 0) :
    mBuildQPOmega2 system (e • 1) (u • 1)
      = some (e • blockJ (HarmonicIndex Nx Ny) K, u • blockJ (HarmonicIndex Nx Ny) K,
          (-(u * e)) • (1 : Matrix (ModeIndex Nx Ny) (ModeIndex Nx Ny) K)) := by
  simp only [mBuildQPOmega2, armaInv_smul_one he, armaInv_smul_one hu, hkx, hky, bind, pure,
    Option.some_bind, mCombineMatrix, zero_mul, mul_zero, sub_zero, zero_sub, neg_zero]
  rw [fromBlocks_smul_J, fromBlocks_smul_J, smul_mul_smul_comm, fromBlocks_J_mul_J, smul_neg,
    neg_smul]

end EigenValuesVectors

namespace EigenValuesVectors

variable {R K : Type} [LinearOrderedField R] [Field K] [DecidableEq K] {Nx Ny : ℕ}

theorem armaSign_zero : armaSign (0 : R) = 0 := by
  simp [armaSign]

theorem armaSign_of_pos {x : R} (h : 0 < x) : armaSign x = 1 := by
  simp [armaSign, not_lt.mpr h.le, h.ne']

/-- The sign convention on a diagonal matrix: the matrix product `s * (1 - s)`
only meets the diagonal of `s`, so each diagonal element is treated on its own
and the zeros stay zeros. -/
theorem mSignConventionSqrt_diagonal (lib : Numerics R K Nx Ny)
    (hsqrt0 : lib.sqrt 0 = 0) (himag0 : lib.imag 0 = 0) (d : ModeIndex Nx Ny → K) :
    mSignConventionSqrt lib (Matrix.diagonal d) = Matrix.diagonal fun i =>
      lib.ofReal (-(1 + armaSign (lib.imag (lib.sqrt (d i))) *
        (1 - armaSign (lib.imag (lib.sqrt (d i)))))) * lib.sqrt (d i) := by
  ext i j
  simp only [mSignConventionSqrt, Matrix.of_apply, Matrix.map_apply, Matrix.mul_apply,
    Matrix.diagonal_apply]
  by_cases hij : i = j
  · subst hij
    simp only [if_true]
    congr 3
    rw [Finset.sum_eq_single i]
    · simp
    · intro k _ hk
      simp [Ne.symm hk, hsqrt0, himag0, armaSign_zero]
    · intro h
      exact absurd (Finset.mem_univ i) h
  · simp [hij, hsqrt0]

theorem sum_abs_smul_one (lib : Numerics R K Nx Ny) (habs0 : lib.abs 0 = 0) (c : K) :
    (∑ i, ∑ j, lib.abs ((c • (1 : Matrix (ModeIndex Nx Ny) (ModeIndex Nx Ny) K)) i j))
      - ∑ i, lib.abs ((c • (1 : Matrix (ModeIndex Nx Ny) (ModeIndex Nx Ny) K)) i i) = 0 := by
  rw [sub_eq_zero]
  apply Finset.sum_congr rfl
  intro i _
  rw [Finset.sum_eq_single i]
  · intro j _ hj
    simp [Matrix.one_apply, Ne.symm hj, habs0]
  · intro h
    exact absurd (Finset.mem_univ i) h

/-- `mBuildVWLam` on `Omega^2 = c I`: the diagonal path, `W = I`, and
`Lambda = lam I` with `lam` the signed square root of `c`. -/
theorem mBuildVWLam_scalar (lib : Numerics R K Nx Ny) (system : SystemParameters R K Nx Ny)
    (li : R) (Q : Matrix (ModeIndex Nx Ny) (ModeIndex Nx Ny) K) (c lam : K)
    (hsqrt0 : lib.sqrt 0 = 0) (himag0 : lib.imag 0 = 0) (habs0 : lib.abs 0 = 0)
    (hcheck : ¬ lib.abs c < 1 / 10 ^ 8)
    (hlam : lam = lib.ofReal (-(1 + armaSign (lib.imag (lib.sqrt c)) *
        (1 - armaSign (lib.imag (lib.sqrt c))))) * lib.sqrt c)
    (hlam0 : lam ≠ 0) :
    mBuildVWLam lib system li Q (c • 1)
      = some (lam⁻¹ • Q, 1, lam • 1,
          (-(lam • (1 : Matrix (ModeIndex Nx Ny) (ModeIndex Nx Ny) K))).map
            (· * lib.ofReal system.param.k0 * lib.ofReal li)) := by
  have hdiag : (fun i => (c • (1 : Matrix (ModeIndex Nx Ny) (ModeIndex Nx Ny) K)) i i)
      = fun _ => c := by
    funext i
    simp
  have hcheck' : mCheckForKzZero lib (c • (1 : Matrix (ModeIndex Nx Ny) (ModeIndex Nx Ny) K))
      = false := by
    simp only [mCheckForKzZero, decide_eq_false_iff_not]
    intro hall
    have := hall (Sum.inl ⟨0, Nat.mul_pos (Nat.succ_pos _) (Nat.succ_pos _)⟩)
    simp only [Matrix.smul_apply, Matrix.one_apply_eq, smul_eq_mul, mul_one] at this
    exact hcheck this
  have hLam : mSignConventionSqrt lib (Matrix.diagonal fun _ : ModeIndex Nx Ny => c)
      = lam • (1 : Matrix (ModeIndex Nx Ny) (ModeIndex Nx Ny) K) := by
    rw [mSignConventionSqrt_diagonal lib hsqrt0 himag0, ← hlam]
    ext i j
    by_cases hij : i = j <;> simp [Matrix.diagonal_apply, Matrix.one_apply, hij]
  have hpos : (0 : R) < 1 / 10 ^ 9 := by positivity
  simp only [mBuildVWLam, sum_abs_smul_one lib habs0 c, hpos, decide_True, if_true, hcheck',
    Bool.false_eq_true, if_false, bind, pure, Option.some_bind, hdiag, hLam,
    armaInv_smul_one hlam0, mul_one, Matrix.mul_smul]

end EigenValuesVectors

/-! ## The exact library over the complex numbers -/

namespace Numerics.IsExact

variable {Nx Ny : ℕ} {lib : Numerics ℝ ℂ Nx Ny}

theorem sqrt_zero (h : lib.IsExact) : lib.sqrt 0 = 0 := by
  rw [h.2.2.2.2.2.1]
  exact Complex.zero_cpow (by norm_num)

theorem imag_zero (h : lib.IsExact) : lib.imag 0 = 0 := by
  rw [h.2.1]
  rfl

theorem abs_zero (h : lib.IsExact) : lib.abs 0 = 0 := by
  rw [h.2.2.2.2.1]
  exact map_zero _

/-- The principal square root of the square of a positive real. -/
theorem sqrt_sq_of_pos (h : lib.IsExact) {r : ℝ} (hr : 0 < r) : lib.sqrt ((r : ℂ) ^ 2) = r := by
  rw [h.2.2.2.2.2.1]
  have := Complex.pow_cpow_nat_inv (x := (r : ℂ)) (n := 2) (by norm_num)
    (by rw [Complex.arg_ofReal_of_nonneg hr.le]; simp; positivity)
    (by rw [Complex.arg_ofReal_of_nonneg hr.le]; positivity)
  simpa using this

/-- The principal square root of a negative real: on the positive imaginary axis. -/
theorem sqrt_neg_sq_of_pos (h : lib.IsExact) {r : ℝ} (hr : 0 < r) :
    lib.sqrt (-((r : ℂ) ^ 2)) = r * Complex.I := by
  rw [h.2.2.2.2.2.1]
  have harg : ((r : ℂ) * Complex.I).arg = Real.pi / 2 := by
    rw [Complex.arg_real_mul _ hr, Complex.arg_I]
  have := Complex.pow_cpow_nat_inv (x := ((r : ℂ) * Complex.I)) (n := 2) (by norm_num)
    (by rw [harg]; simp; linarith [Real.pi_pos]) (by rw [harg]; simp)
  rw [mul_pow, Complex.I_sq] at this
  simpa using this

end Numerics.IsExact

namespace EigenValuesVectors

/-- The eigen-solution of a homogeneous non-magnetic layer of refractive index
`n` (permittivity `n^2`) when `Kx = Ky = 0`: `W = I` and `V = (n i) J`. The
zero-wavevector check passes because `n^2` is not below `1e-8`. -/
theorem create_dielectric {Nx Ny : ℕ} (lib : Numerics ℝ ℂ Nx Ny) (hlib : lib.IsExact)
    (system : SystemParameters ℝ ℂ Nx Ny) (hkx : system.kxNorm = 0) (hky : system.kyNorm = 0)
    (n : ℝ) (hn : 0 < n) (hbig : ¬ n ^ 2 < 1 / 10 ^ 8) (e : ℂ) (he : e = (n : ℂ) ^ 2)
    (li : ℝ) (identifier : String) :
    ∃ ev : EigenValuesVectors ℝ ℂ Nx Ny,
      create lib system ⟨ArmaMat.scalar e, ArmaMat.scalar 1, li, identifier⟩ = some ev ∧
      ev.getV = ((n : ℂ) * Complex.I) •
        blockJ (HarmonicIndex Nx Ny) ℂ ∧
      ev.getW = 1 := by
  have hnC : (n : ℂ) ≠ 0 := Complex.ofReal_ne_zero.mpr hn.ne'
  have he0 : e ≠ 0 := by rw [he]; exact pow_ne_zero 2 hnC
  have hc : -(1 * e) = -((n : ℂ) ^ 2) := by rw [he, one_mul]
  have hsq := hlib.sqrt_neg_sq_of_pos hn
  have him : lib.imag (lib.sqrt (-(1 * e))) = n := by
    rw [hc, hsq, hlib.2.1]
    simp
  have hlam : -((n : ℂ) * Complex.I) = lib.ofReal (-(1 + armaSign (lib.imag (lib.sqrt (-(1 * e)))) *
      (1 - armaSign (lib.imag (lib.sqrt (-(1 * e))))))) * lib.sqrt (-(1 * e)) := by
    rw [him, armaSign_of_pos hn, hc, hsq, hlib.2.2.1]
    simp
  have hlam0 : -((n : ℂ) * Complex.I) ≠ 0 :=
    neg_ne_zero.mpr (mul_ne_zero hnC Complex.I_ne_zero)
  have habs : ¬ lib.abs (-(1 * e)) < 1 / 10 ^ 8 := by
    rw [hc, hlib.2.2.2.2.1, map_neg_eq_map, map_pow, Complex.abs_ofReal, abs_of_pos hn]
    exact hbig
  have hV := mBuildVWLam_scalar lib system li
    (e • blockJ (HarmonicIndex Nx Ny) ℂ)
    (-(1 * e)) (-((n : ℂ) * Complex.I)) hlib.sqrt_zero hlib.imag_zero hlib.abs_zero habs hlam hlam0
  have hcreate : create lib system ⟨ArmaMat.scalar e, ArmaMat.scalar 1, li, identifier⟩
      = some
        { mLi := li
          mErc := e • 1
          mUrc := (1 : ℂ) • 1
          mQ := e • blockJ (HarmonicIndex Nx Ny) ℂ
          mP := (1 : ℂ) • blockJ (HarmonicIndex Nx Ny) ℂ
          mOmega2 := (-(1 * e)) • 1
          mV := (-((n : ℂ) * Complex.I))⁻¹ • e • blockJ (HarmonicIndex Nx Ny) ℂ
          mW := 1
          mLam := (-((n : ℂ) * Complex.I)) • 1
          mArg := (-((-((n : ℂ) * Complex.I)) •
              (1 : Matrix (ModeIndex Nx Ny) (ModeIndex Nx Ny) ℂ))).map
            (· * lib.ofReal system.param.k0 * lib.ofReal li) } := by
    simp only [create, mBuildConvolutionMatrixFromErUr_scalar,
      mBuildQPOmega2_scalar system hkx hky he0 one_ne_zero, hV, bind, pure, Option.some_bind]
  refine ⟨_, hcreate, ?_, rfl⟩
  simp only [getV, smul_smul]
  congr 1
  rw [he]
  field_simp
  ring_nf
  rw [Complex.I_sq]
  ring

end EigenValuesVectors

namespace EigenValuesVectors

/-- Below the threshold of `mCheckForKzZero` the constructor throws. -/
theorem create_dielectric_throws {Nx Ny : ℕ} (lib : Numerics ℝ ℂ Nx Ny) (hlib : lib.IsExact)
    (system : SystemParameters ℝ ℂ Nx Ny) (hkx : system.kxNorm = 0) (hky : system.kyNorm = 0)
    (n : ℝ) (hn : 0 < n) (hsmall : n ^ 2 < 1 / 10 ^ 8) (e : ℂ) (he : e = (n : ℂ) ^ 2)
    (li : ℝ) (identifier : String) :
    create lib system ⟨ArmaMat.scalar e, ArmaMat.scalar 1, li, identifier⟩ = none := by
  have hnC : (n : ℂ) ≠ 0 := Complex.ofReal_ne_zero.mpr hn.ne'
  have he0 : e ≠ 0 := by rw [he]; exact pow_ne_zero 2 hnC
  have habs : lib.abs (-(1 * e)) < 1 / 10 ^ 8 := by
    rw [he, one_mul, hlib.2.2.2.2.1, map_neg_eq_map, map_pow, Complex.abs_ofReal, abs_of_pos hn]
    exact hsmall
  have hcheck : mCheckForKzZero lib
      ((-(1 * e)) • (1 : Matrix (ModeIndex Nx Ny) (ModeIndex Nx Ny) ℂ)) = true := by
    simp only [mCheckForKzZero, decide_eq_true_eq]
    intro i
    simpa using habs
  have hpos : (0 : ℝ) < 1 / 10 ^ 9 := by positivity
  simp only [create, mBuildConvolutionMatrixFromErUr_scalar,
    mBuildQPOmega2_scalar system hkx hky he0 one_ne_zero, bind, pure, Option.some_bind,
    mBuildVWLam, sum_abs_smul_one lib hlib.abs_zero, hpos, decide_True, if_true, hcheck,
    Option.none_bind]

end EigenValuesVectors

section Boundary

variable {Nx Ny : ℕ}

theorem smul_J_mul_smul_J (a b : ℂ) :
    (a • blockJ (HarmonicIndex Nx Ny) ℂ) *
      (b • blockJ (HarmonicIndex Nx Ny) ℂ)
      = (-(a * b)) • (1 : Matrix (ModeIndex Nx Ny) (ModeIndex Nx Ny) ℂ) := by
  rw [smul_mul_smul_comm, fromBlocks_J_mul_J, smul_neg, neg_smul]

/-- The free-space reference at normal incidence: `V0 = i J`, `W0 = I`. -/
theorem mEigenVectorsVacuumV0W0_normal (lib : Numerics ℝ ℂ Nx Ny) (hlib : lib.IsExact)
    (system : SystemParameters ℝ ℂ Nx Ny) (hkx : system.kxNorm = 0) (hky : system.kyNorm = 0) :
    mEigenVectorsVacuumV0W0 lib system = some
      (Complex.I • blockJ (HarmonicIndex Nx Ny) ℂ, 1) := by
  obtain ⟨ev, hev, hV, hW⟩ := EigenValuesVectors.create_dielectric lib hlib system hkx hky 1
    one_pos (by norm_num) 1 (by simp) 1 ""
  simp only [mEigenVectorsVacuumV0W0, hev, bind, pure, Option.some_bind, hV, hW]
  simp

/-- The boundary matrices at normal incidence between vacuum and a medium of
refractive index `n`: the reflection side is transparent and the transmission
side carries the Fresnel coefficients. -/
theorem mCalculateScatterRefTrn_normal (lib : Numerics ℝ ℂ Nx Ny) (hlib : lib.IsExact)
    (system : SystemParameters ℝ ℂ Nx Ny) (hkx : system.kxNorm = 0) (hky : system.kyNorm = 0)
    (n : ℝ) (hn : 0 < n) (hbig : ¬ n ^ 2 < 1 / 10 ^ 8)
    (herRef : system.param.erRef = 1) (hurRef : system.param.urRef = 1)
    (herTrn : system.param.erTrn = (n : ℂ) ^ 2) (hurTrn : system.param.urTrn = 1) :
    mCalculateScatterRefTrn lib system
      (Complex.I • blockJ (HarmonicIndex Nx Ny) ℂ) 1
      = some (ScatterMatrix.Unity,
          { s11 := (((1 : ℂ) - n) / (1 + n)) • 1
            s21 := ((2 : ℂ) / (1 + n)) • 1
            s12 := ((2 : ℂ) * n / (1 + n)) • 1
            s22 := (-(((1 : ℂ) - n) / (1 + n))) • 1 }) := by
  obtain ⟨evR, hevR, hVR, hWR⟩ := EigenValuesVectors.create_dielectric lib hlib system hkx hky 1
    one_pos (by norm_num) 1 (by simp) 1 ""
  obtain ⟨evT, hevT, hVT, hWT⟩ := EigenValuesVectors.create_dielectric lib hlib system hkx hky n
    hn hbig ((n : ℂ) ^ 2) rfl 1 ""
  have h1n : (1 : ℂ) + n ≠ 0 := by
    have : (0 : ℝ) < 1 + n := by linarith
    exact_mod_cast this.ne'
  have hv0inv : armaInv (Complex.I •
      blockJ (HarmonicIndex Nx Ny) ℂ)
      = some (Complex.I • blockJ (HarmonicIndex Nx Ny) ℂ) := by
    apply armaInv_eq_some_iff.mpr
    rw [smul_J_mul_smul_J, Complex.I_mul_I, neg_neg, one_smul]
  have haRef : (1 : Matrix (ModeIndex Nx Ny) (ModeIndex Nx Ny) ℂ) * 1 +
      (Complex.I • blockJ (HarmonicIndex Nx Ny) ℂ) *
        ((((1 : ℝ) : ℂ) * Complex.I) • blockJ (HarmonicIndex Nx Ny) ℂ) = (2 : ℂ) • 1 := by
    rw [smul_J_mul_smul_J]
    simp only [Complex.ofReal_one, one_mul, Complex.I_mul_I, neg_neg, mul_one, one_smul]
    rw [two_smul]
  have hbRef : (1 : Matrix (ModeIndex Nx Ny) (ModeIndex Nx Ny) ℂ) * 1 -
      (Complex.I • blockJ (HarmonicIndex Nx Ny) ℂ) *
        ((((1 : ℝ) : ℂ) * Complex.I) • blockJ (HarmonicIndex Nx Ny) ℂ) = 0 := by
    rw [smul_J_mul_smul_J]
    simp
  have haTrn : (1 : Matrix (ModeIndex Nx Ny) (ModeIndex Nx Ny) ℂ) * 1 +
      (Complex.I • blockJ (HarmonicIndex Nx Ny) ℂ) *
        (((n : ℂ) * Complex.I) • blockJ (HarmonicIndex Nx Ny) ℂ) = ((1 : ℂ) + n) • 1 := by
    rw [smul_J_mul_smul_J, add_smul, one_smul, mul_one]
    congr 2
    rw [mul_comm (n : ℂ), ← mul_assoc, Complex.I_mul_I]
    ring
  have hbTrn : (1 : Matrix (ModeIndex Nx Ny) (ModeIndex Nx Ny) ℂ) * 1 -
      (Complex.I • blockJ (HarmonicIndex Nx Ny) ℂ) *
        (((n : ℂ) * Complex.I) • blockJ (HarmonicIndex Nx Ny) ℂ) = ((1 : ℂ) - n) • 1 := by
    rw [smul_J_mul_smul_J, sub_smul, one_smul, mul_one]
    congr 2
    rw [mul_comm (n : ℂ), ← mul_assoc, Complex.I_mul_I]
    ring
  simp only [mCalculateScatterRefTrn, herRef, hurRef, herTrn, hurTrn, hevR, hevT, bind, pure,
    Option.some_bind, hVR, hWR, hVT, hWT, hv0inv, armaInv_one, haRef, hbRef, haTrn, hbTrn,
    armaInv_smul_one (two_ne_zero' ℂ), armaInv_smul_one h1n]
  congr 1
  refine Prod.ext ?_ ?_
  · ext i j <;> simp [ScatterMatrix.Unity]
  · ext i j
    · simp only [smul_mul_smul_comm, mul_one, Matrix.smul_apply, smul_eq_mul]
      ring
    · simp only [Matrix.smul_apply, smul_smul, smul_eq_mul]
      ring
    · simp only [smul_mul_smul_comm, mul_one, Matrix.smul_apply, smul_eq_mul, Matrix.sub_apply]
      field_simp
      ring
    · simp only [smul_mul_smul_comm, mul_one, Matrix.smul_apply, smul_eq_mul, Matrix.neg_apply]
      ring

end Boundary

/-! ## The context at harmonic order 0 and normal incidence -/

namespace SystemParameterCreator

theorem harmonicIndex_zero_val (i : HarmonicIndex 0 0) : (i : ℕ) = 0 := by
  have := i.isLt
  omega

theorem vectoriseT_mBuildGrids_zero (i : HarmonicIndex 0 0) :
    vectoriseT (mBuildGrids 0 0).1 i = 0 ∧ vectoriseT (mBuildGrids 0 0).2 i = 0 := by
  have h1 := (finProdFinEquiv.symm i).1.isLt
  have h2 := (finProdFinEquiv.symm i).2.isLt
  constructor
  · simp only [vectoriseT, mBuildGrids, Matrix.of_apply]
    omega
  · simp only [vectoriseT, mBuildGrids, Matrix.of_apply]
    omega

theorem mBuildKxyNorm_zero (lib : Numerics ℝ ℂ 0 0) (hlib : lib.IsExact) (pram : Parameter ℝ ℂ)
    (hkx : pram.kxInc = 0) (hky : pram.kyInc = 0) :
    mBuildKxyNorm lib pram (mBuildGrids 0 0).1 (mBuildGrids 0 0).2 = (0, 0) := by
  have hof : lib.ofReal = Complex.ofReal := hlib.2.2.1
  simp only [mBuildKxyNorm, hkx, hky, hof]
  refine Prod.ext ?_ ?_
  · ext i j
    simp [Matrix.diagonal_apply, (vectoriseT_mBuildGrids_zero _).1,
      (vectoriseT_mBuildGrids_zero _).2]
  · ext i j
    simp [Matrix.diagonal_apply, (vectoriseT_mBuildGrids_zero _).1,
      (vectoriseT_mBuildGrids_zero _).2]

/-- With `Kx = Ky = 0` the longitudinal wavevector of a medium with
`conj(er) conj(ur) = r^2`, `r > 0`, is `r I`. -/
theorem mBuildKzNormSqrt_zero {Nx Ny : ℕ} (lib : Numerics ℝ ℂ Nx Ny) (hlib : lib.IsExact)
    {r : ℝ} (hr : 0 < r) :
    mBuildKzNormSqrt lib 0 0 ((r : ℂ) ^ 2)
      = (r : ℂ) • (1 : Matrix (HarmonicIndex Nx Ny) (HarmonicIndex Nx Ny) ℂ) := by
  ext i j
  simp only [mBuildKzNormSqrt, Matrix.map_apply, Matrix.of_apply, Matrix.zero_apply,
    Matrix.smul_apply, smul_eq_mul]
  by_cases hij : i = j
  · subst hij
    simp only [Matrix.one_apply_eq, mul_one, ne_eq, OfNat.ofNat_ne_zero, not_false_eq_true,
      zero_pow, add_zero, sub_zero]
    rw [hlib.sqrt_sq_of_pos hr, hlib.2.2.2.1]
    simp
  · simp only [Matrix.one_apply_ne hij, mul_zero, ne_eq, OfNat.ofNat_ne_zero, not_false_eq_true,
      zero_pow, add_zero, sub_zero]
    rw [hlib.sqrt_zero, hlib.2.2.2.1]
    simp

/-- The context of the Fresnel case: harmonic order 0, normal incidence, vacuum
on the reflection side and a medium of refractive index `n` behind. -/
theorem createSystemParameters_fresnel (lib : Numerics ℝ ℂ 0 0) (hlib : lib.IsExact)
    (k0 n t1X t1Y t2X t2Y : ℝ) (hn : 0 < n) :
    createSystemParameters lib ⟨k0, 0, 0, k0, t1X, t1Y, t2X, t2Y, 1, 1, (n : ℂ) ^ 2, 1⟩
      = { param := ⟨k0, 0, 0, k0, t1X, t1Y, t2X, t2Y, 1, 1, (n : ℂ) ^ 2, 1⟩
          pGrid := (mBuildGrids 0 0).1
          qGrid := (mBuildGrids 0 0).2
          kxNorm := 0
          kyNorm := 0
          kzRefNorm := (-1 : ℂ) • 1
          kzTrnNorm := (n : ℂ) • 1
          cIncSPol := fun s => Sum.elim (fun _ => 0) (fun _ => 1) s
          cIncPPol := fun s => Sum.elim (fun _ => 1) (fun _ => 0) s } := by
  have hconj : lib.conj = starRingEnd ℂ := hlib.2.2.2.1
  have hkxy := mBuildKxyNorm_zero lib hlib ⟨k0, 0, 0, k0, t1X, t1Y, t2X, t2Y, 1, 1, (n : ℂ) ^ 2, 1⟩
    rfl rfl
  have hpar : lib.abs (0 : ℂ) + lib.abs (0 : ℂ) < 1 / 10 ^ 6 := by
    rw [hlib.abs_zero]
    norm_num
  have hRef : mBuildKzNormSqrt lib (0 : Matrix (HarmonicIndex 0 0) (HarmonicIndex 0 0) ℂ) 0
      (lib.conj 1 * lib.conj 1) = (1 : ℂ) • 1 := by
    have := mBuildKzNormSqrt_zero lib hlib one_pos
    simpa [hconj] using this
  have hTrn : mBuildKzNormSqrt lib (0 : Matrix (HarmonicIndex 0 0) (HarmonicIndex 0 0) ℂ) 0
      (lib.conj ((n : ℂ) ^ 2) * lib.conj 1) = (n : ℂ) • 1 := by
    have := mBuildKzNormSqrt_zero lib hlib hn
    simpa [hconj] using this
  simp only [createSystemParameters, hkxy, mBuildKzRefTrn, hRef, hTrn, mCalcSPol, hpar,
    decide_True, if_true]
  congr 1
  · simp
  · funext s
    cases s with
    | inl i => simp
    | inr i => simp [harmonicIndex_zero_val]
  · funext s
    cases s with
    | inl i => simp [harmonicIndex_zero_val]
    | inr i => simp

end SystemParameterCreator

/-! ## The efficiencies of a scalar response -/

section Efficiency

variable {Nx Ny : ℕ}

theorem real_pre_eq_smul_one (lib : Numerics ℝ ℂ Nx Ny) (hlib : lib.IsExact) (a : ℝ) :
    (((a : ℂ) • (1 : Matrix (HarmonicIndex Nx Ny) (HarmonicIndex Nx Ny) ℂ)).map
        (· / (1 : ℂ))).map lib.real
      = a • (1 : Matrix (HarmonicIndex Nx Ny) (HarmonicIndex Nx Ny) ℝ) := by
  ext i j
  rw [hlib.1]
  by_cases hij : i = j
  · subst hij
    simp
  · simp [Matrix.one_apply_ne hij]

/-- `calculateAndFillDiffractionEfficiency` when `Kx = Ky = 0`, the boundary
wavevectors are `-I` and `n I`, and the response is scalar: `s11 = rho I`,
`s21 = tau I`. -/
theorem calculateAndFillDiffractionEfficiency_scalar (lib : Numerics ℝ ℂ Nx Ny)
    (hlib : lib.IsExact) (system : SystemParameters ℝ ℂ Nx Ny)
    (hkx : system.kxNorm = 0) (hky : system.kyNorm = 0) (n : ℝ) (hn : 0 < n)
    (hkzRef : system.kzRefNorm = (-1 : ℂ) • 1) (hkzTrn : system.kzTrnNorm = (n : ℂ) • 1)
    (hurRef : system.param.urRef = 1) (hurTrn : system.param.urTrn = 1)
    (hk0 : system.param.k0 ≠ 0) (hkz : system.param.kzInc = (system.param.k0 : ℂ))
    (S : ScatterMatrix (ModeIndex Nx Ny) ℂ) (rho tau : ℝ)
    (h11 : S.s11 = (rho : ℂ) • 1) (h21 : S.s21 = (tau : ℂ) • 1) (cInc : ModeIndex Nx Ny → ℂ) :
    calculateAndFillDiffractionEfficiency lib system S cInc = some
      (reshapeT fun i => 100 * n * (tau ^ 2 *
          (Complex.abs (cInc (Sum.inl i)) ^ 2 + Complex.abs (cInc (Sum.inr i)) ^ 2)),
       reshapeT fun i => 100 * (rho ^ 2 *
          (Complex.abs (cInc (Sum.inl i)) ^ 2 + Complex.abs (cInc (Sum.inr i)) ^ 2))) := by
  have hnC : (n : ℂ) ≠ 0 := Complex.ofReal_ne_zero.mpr hn.ne'
  have hk0C : (system.param.k0 : ℂ) ≠ 0 := Complex.ofReal_ne_zero.mpr hk0
  have hdown : lib.real (system.param.kzInc / lib.ofReal system.param.k0 / 1) = 1 := by
    rw [hlib.1, hlib.2.2.1, hkz, div_self hk0C]
    simp
  have hpreR : ((-(((-1 : ℂ) • (1 : Matrix (HarmonicIndex Nx Ny) (HarmonicIndex Nx Ny) ℂ)).map
      (· / (1 : ℂ)))).map lib.real).map (· / (1 : ℝ))
      = (1 : Matrix (HarmonicIndex Nx Ny) (HarmonicIndex Nx Ny) ℝ) := by
    ext i j
    rw [hlib.1]
    by_cases hij : i = j
    · subst hij
      simp
    · simp [Matrix.one_apply_ne hij]
  have hpreT : ((((n : ℂ) • (1 : Matrix (HarmonicIndex Nx Ny) (HarmonicIndex Nx Ny) ℂ)).map
      (· / (1 : ℂ))).map lib.real).map (· / (1 : ℝ))
      = n • (1 : Matrix (HarmonicIndex Nx Ny) (HarmonicIndex Nx Ny) ℝ) := by
    rw [real_pre_eq_smul_one lib hlib n]
    ext i j
    simp
  simp only [calculateAndFillDiffractionEfficiency, hkx, hky, hkzRef, hkzTrn, hurRef, hurTrn,
    h11, h21, armaInv_smul_one (neg_ne_zero.mpr (one_ne_zero' ℂ)), armaInv_smul_one hnC, bind,
    pure, Option.some_bind, hdown, hpreR, hpreT, Matrix.zero_mulVec, add_zero,
    Matrix.mulVec_zero, Pi.zero_apply, hlib.2.2.2.2.1, map_zero]
  have hT : ((100 : ℝ) • n • (1 : Matrix (HarmonicIndex Nx Ny) (HarmonicIndex Nx Ny) ℝ)).mulVec
      (fun i => Complex.abs (((tau : ℂ) • (1 : Matrix (ModeIndex Nx Ny) (ModeIndex Nx Ny) ℂ)).mulVec
          cInc (Sum.inl i)) ^ 2 +
        Complex.abs (((tau : ℂ) • (1 : Matrix (ModeIndex Nx Ny) (ModeIndex Nx Ny) ℂ)).mulVec
          cInc (Sum.inr i)) ^ 2 + 0 ^ 2)
      = fun i => 100 * n * (tau ^ 2 *
          (Complex.abs (cInc (Sum.inl i)) ^ 2 + Complex.abs (cInc (Sum.inr i)) ^ 2)) := by
    funext i
    simp only [smul_smul, Matrix.smul_mulVec_assoc, Matrix.one_mulVec, Pi.smul_apply,
      smul_eq_mul, map_mul, Complex.abs_ofReal, sq_abs, mul_pow]
    ring
  have hR : ((100 : ℝ) • (1 : Matrix (HarmonicIndex Nx Ny) (HarmonicIndex Nx Ny) ℝ)).mulVec
      (fun i => Complex.abs (((rho : ℂ) • (1 : Matrix (ModeIndex Nx Ny) (ModeIndex Nx Ny) ℂ)).mulVec
          cInc (Sum.inl i)) ^ 2 +
        Complex.abs (((rho : ℂ) • (1 : Matrix (ModeIndex Nx Ny) (ModeIndex Nx Ny) ℂ)).mulVec
          cInc (Sum.inr i)) ^ 2 + 0 ^ 2)
      = fun i => 100 * (rho ^ 2 *
          (Complex.abs (cInc (Sum.inl i)) ^ 2 + Complex.abs (cInc (Sum.inr i)) ^ 2)) := by
    funext i
    simp only [Matrix.smul_mulVec_assoc, Matrix.one_mulVec, Pi.smul_apply,
      smul_eq_mul, map_mul, Complex.abs_ofReal, sq_abs, mul_pow]
    ring
  rw [hT, hR]

end Efficiency

/-! ## The diagonal path of `mBuildVWLam` -/

namespace EigenValuesVectors

variable {R K : Type} [LinearOrderedField R] [Field K] [DecidableEq K] {Nx Ny : ℕ}

/-- A diagonal matrix has no magnitude off its diagonal. -/
theorem accu_diagonal (lib : Numerics R K Nx Ny) (habs0 : lib.abs 0 = 0)
    (d : ModeIndex Nx Ny → K) :
    (∑ i, ∑ j, lib.abs ((Matrix.diagonal d) i j))
      - ∑ i, lib.abs ((Matrix.diagonal d) i i) = 0 := by
  rw [sub_eq_zero]
  apply Finset.sum_congr rfl
  intro i _
  rw [Finset.sum_eq_single i]
  · intro j _ hj
    simp [Matrix.diagonal_apply, Ne.symm hj, habs0]
  · intro h
    exact absurd (Finset.mem_univ i) h

end EigenValuesVectors

/-! ## The periodic hints of a fresh writer -/

namespace HoeWriter

variable {R : Type} [LinearOrderedField R] [FloorRing R]

/-- The `std::accumulate` of `mBuildThicknessRest`. -/
theorem foldl_add_two_pow (l : List ℕ) (a : ℕ) :
    l.foldl (fun acc p => acc + 2 ^ p) a = a + (l.map (2 ^ ·)).sum := by
  induction l generalizing a with
  | nil => simp
  | cons x xs ih => simp [ih, add_assoc]

end HoeWriter

/-! ## The sign convention of `Lambda` -/

namespace EigenValuesVectors

/-- In exact arithmetic each diagonal element of `Lambda` is the principal
square root `r` of the eigenvalue with the sign turned: `-r` when `Im r >= 0`
and `r` when `Im r < 0`. -/
theorem mSignConventionSqrt_diagonal_exact {Nx Ny : ℕ} (lib : Numerics ℝ ℂ Nx Ny)
    (hlib : lib.IsExact) (d : ModeIndex Nx Ny → ℂ) (i : ModeIndex Nx Ny) :
    (0 ≤ ((d i) ^ (1 / 2 : ℂ)).im →
      mSignConventionSqrt lib (Matrix.diagonal d) i i = -((d i) ^ (1 / 2 : ℂ))) ∧
    (((d i) ^ (1 / 2 : ℂ)).im < 0 →
      mSignConventionSqrt lib (Matrix.diagonal d) i i = (d i) ^ (1 / 2 : ℂ)) := by
  rw [mSignConventionSqrt_diagonal lib hlib.sqrt_zero hlib.imag_zero, Matrix.diagonal_apply_eq]
  obtain ⟨-, him, hof, -, -, hsqrt, -⟩ := hlib
  rw [him, hof, hsqrt]
  constructor
  · intro h
    rcases h.lt_or_eq with hpos | hzero
    · rw [armaSign_of_pos hpos]
      simp
    · rw [← hzero, armaSign_zero]
      simp
  · intro h
    have hs : armaSign ((d i) ^ (1 / 2 : ℂ)).im = -1 := by
      unfold armaSign
      rw [if_pos h]
    rw [hs]
    norm_num

end EigenValuesVectors

/-! ## The cost of the doubling loop -/

namespace VolumeHologram3D

open ScatterMatrix

variable {ι K R : Type} [Fintype ι] [DecidableEq ι] [Field K] [DecidableEq K]
  [LinearOrderedField R] [FloorRing R]

/-- The counting pass computes what the pass of the code computes. -/
theorem powerStepCounted_eq (powers : List ℕ) (device temp : ScatterMatrix ι K) (a b x : ℕ) :
    powerStepCounted powers (device, temp, a, b) x
      = (powerStep powers (device, temp) x).map fun s =>
          (s.1, s.2, a + (if x ≠ 0 then 1 else 0), b + (if x ∈ powers then 1 else 0)) := by
  simp only [powerStepCounted, powerStep, bind, pure]
  by_cases hx : x ≠ 0 <;> by_cases hp : x ∈ powers
  · simp only [hx, hp, if_true, ne_eq, not_false_eq_true]
    cases redhefferStarProduct temp temp with
    | none => rfl
    | some t =>
      simp only [Option.map_some', Option.some_bind]
      cases redhefferStarProduct device t <;> rfl
  · simp only [hx, hp, if_true, if_false, ne_eq, not_false_eq_true]
    cases redhefferStarProduct temp temp <;> rfl
  · simp only [hx, hp, if_true, if_false]
    simp only [Option.some_bind]
    cases redhefferStarProduct device temp <;> rfl
  · simp only [hx, hp, if_false]
    rfl

/-- The counting loop computes what the loop of the code computes, and counts
one self-combination for every `x ≠ 0` and one accumulation for every listed
`x`. -/
theorem foldlM_powerStepCounted (powers : List ℕ) (xs : List ℕ)
    (device temp : ScatterMatrix ι K) (a b : ℕ) :
    xs.foldlM (powerStepCounted powers) (device, temp, a, b)
      = (xs.foldlM (powerStep powers) (device, temp)).map fun s =>
          (s.1, s.2, a + (xs.filter fun x => x ≠ 0).length,
            b + (xs.filter fun x => x ∈ powers).length) := by
  induction xs generalizing device temp a b with
  | nil => simp
  | cons x xs ih =>
    simp only [List.foldlM_cons, powerStepCounted_eq]
    cases hstep : powerStep powers (device, temp) x with
    | none => simp
    | some s =>
      obtain ⟨d', t'⟩ := s
      simp only [Option.map_some', Option.some_bind, ih, Option.bind_eq_bind]
      congr 1
      funext s
      by_cases hx : x ≠ 0 <;> by_cases hp : x ∈ powers <;>
        simp [hx, hp, List.filter_cons, add_assoc, add_comm]

theorem filter_ne_zero_range (k : ℕ) :
    ((List.range (k + 1)).filter fun x => x ≠ 0).length = k := by
  induction k with
  | zero => rfl
  | succ k ih =>
    rw [List.range_succ, List.filter_append, List.length_append, ih]
    simp

/-- The counted run returns the result of `mCalcPowerScatterMatrix`. -/
theorem mCalcPowerScatterMatrixCounted_fst (writer : HoeWriter R)
    (m : StdMap (ScatterMatrix ι K)) :
    (mCalcPowerScatterMatrixCounted writer m).map (fun r => r.1)
      = mCalcPowerScatterMatrix writer m := by
  unfold mCalcPowerScatterMatrixCounted mCalcPowerScatterMatrix
  cases m.get "sRef" with
  | none => rfl
  | some sRef =>
    cases m.get "full" with
    | none => rfl
    | some f =>
      simp only [bind, Option.some_bind, pure]
      cases writer.getThicknessInPowerOfTwoCycles with
      | nil => rfl
      | cons p ps =>
        simp only [foldlM_powerStepCounted]
        cases (List.range (ps.foldl max p + 1)).foldlM (powerStep (p :: ps)) (Unity, f) <;> rfl

/-- The counts of a run on the exponent list of `n >= 1`. -/
theorem mCalcPowerScatterMatrixCounted_of_bits {n : ℕ} (hn : 1 ≤ n) (writer : HoeWriter R)
    (hbits : ∀ x, x ∈ writer.getThicknessInPowerOfTwoCycles ↔ n.testBit x = true)
    (m : StdMap (ScatterMatrix ι K)) {s : ScatterMatrix ι K}
    (hs : mCalcPowerScatterMatrix writer m = some s) :
    mCalcPowerScatterMatrixCounted writer m = some (s, Nat.log2 n, popcount n) := by
  unfold mCalcPowerScatterMatrix at hs
  unfold mCalcPowerScatterMatrixCounted
  cases hRef : m.get "sRef" with
  | none => simp [hRef] at hs
  | some sRef =>
    cases hfull : m.get "full" with
    | none => simp [hRef, hfull] at hs
    | some f =>
      simp only [hRef, hfull, bind, Option.some_bind, pure] at hs ⊢
      cases hp : writer.getThicknessInPowerOfTwoCycles with
      | nil =>
        exfalso
        have hall : ∀ i, i ≥ 0 → n.testBit i = false := by
          intro i _
          by_contra hc
          have := (hbits i).mpr (by simpa using hc)
          rw [hp] at this
          exact List.not_mem_nil _ this
        have := Nat.lt_pow_two_of_testBit n hall
        omega
      | cons p ps =>
        rw [hp] at hs
        obtain ⟨hmem, hle⟩ := foldl_max_spec ps p
        rw [← hp] at hmem hle
        have hpow : 2 ^ ps.foldl max p ≤ n := Nat.testBit_implies_ge ((hbits _).mp hmem)
        have hlt : n < 2 ^ (ps.foldl max p + 1) := by
          apply Nat.lt_pow_two_of_testBit
          intro i hi
          by_contra hc
          have := hle i ((hbits i).mpr (by simpa using hc))
          omega
        have hn0 : n ≠ 0 := by omega
        have hlog : Nat.log2 n = ps.foldl max p := by
          have h1 : ps.foldl max p ≤ Nat.log2 n := (Nat.le_log2 hn0).mpr hpow
          have h2 : Nat.log2 n < ps.foldl max p + 1 := (Nat.log2_lt hn0).mpr hlt
          omega
        have hcount : ((List.range (ps.foldl max p + 1)).filter fun x => x ∈ p :: ps).length
            = popcount n := by
          unfold popcount
          rw [hlog]
          congr 1
          apply List.filter_congr
          intro x _
          rw [← hp]
          cases hb : n.testBit x with
          | true => exact decide_eq_true ((hbits x).mpr hb)
          | false =>
            apply decide_eq_false
            intro hx
            rw [(hbits x).mp hx] at hb
            exact Bool.noConfusion hb
        simp only [foldlM_powerStepCounted, filter_ne_zero_range, hcount, zero_add]
        cases hfold : (List.range (ps.foldl max p + 1)).foldlM (powerStep (p :: ps)) (Unity, f) with
        | none => simp [hfold] at hs
        | some r =>
          simp only [hfold, Option.some_bind, Option.some.injEq] at hs
          rw [hlog, ← hs]
          rfl

theorem popcount_le (n : ℕ) : popcount n ≤ Nat.log2 n + 1 := by
  unfold popcount
  calc ((List.range (Nat.log2 n + 1)).filter fun x => n.testBit x).length
      ≤ (List.range (Nat.log2 n + 1)).length := List.length_filter_le _ _
    _ = Nat.log2 n + 1 := List.length_range _

end VolumeHologram3D

/-! ## std::map: reading after inserting -/

namespace StdMap

variable {V : Type}

theorem get_insert_of_ne (m : StdMap V) {k k' : String} (h : k' ≠ k) (v : V) :
    (m.insert k v).get k' = m.get k' := by
  have hb : (k' == k) = false := by simpa using h
  induction m with
  | nil => simp [insert, get, List.lookup, hb]
  | cons e rest ih =>
    obtain ⟨k1, w⟩ := e
    simp only [insert]
    by_cases h1 : k < k1
    · simp [h1, get, List.lookup, hb]
    · by_cases h2 : k = k1
      · simp [h1, h2]
      · simp only [h1, h2, if_false, get, List.lookup] at ih ⊢
        cases hk : k' == k1 with
        | true => rfl
        | false => exact ih

theorem get_insert_self_of_none (m : StdMap V) {k : String} (h : m.get k = none) (v : V) :
    (m.insert k v).get k = some v := by
  induction m with
  | nil => simp [insert, get, List.lookup]
  | cons e rest ih =>
    obtain ⟨k1, w⟩ := e
    simp only [get, List.lookup] at h
    cases hk : k == k1 with
    | true => simp [hk] at h
    | false =>
      simp only [hk] at h
      have hne : k ≠ k1 := by
        intro he
        rw [he] at hk
        simp at hk
      simp only [insert]
      by_cases h1 : k < k1
      · simp [h1, get, List.lookup]
      · simp only [h1, hne, if_false, get, List.lookup, hk]
        exact ih h

end StdMap

/-! ## The accumulation loop -/

/-- A defined fold has defined prefixes. -/
theorem starFold_isSome_of_le {ι K : Type} [Fintype ι] [DecidableEq ι] [Field K] [DecidableEq K]
    (S : ℕ → ScatterMatrix ι K) {j n : ℕ} (hjn : j ≤ n) (h : (starFold S n).isSome) :
    (starFold S j).isSome := by
  induction n with
  | zero =>
    have : j = 0 := by omega
    rw [this]; rfl
  | succ n ih =>
    rcases Nat.lt_or_ge j (n + 1) with hlt | hge
    · apply ih (by omega)
      simp only [starFold] at h
      cases hn : starFold S n with
      | none => simp [hn] at h
      | some _ => rfl
    · have : j = n + 1 := by omega
      rw [this]; exact h

namespace VolumeHologram3D

open ScatterMatrix

variable {ι R K : Type} [Fintype ι] [DecidableEq ι] [LinearOrderedField R] [FloorRing R]
  [Field K] [DecidableEq K]

/-- The state of the loop of `mGetAccumulatedScatterMatrices` after `i`
passes: the running matrix is the fold of the first `i` layers, the length is
`i * dz`, every cumulative key written so far holds its fold, and no other key
has been added to the map the loop started with. -/
theorem accumulate_loop (to_string : R → String) (dz : R)
    (allMatrices : StdMap (ScatterMatrix ι K)) (S : ℕ → ScatterMatrix ι K) (n : ℕ)
    (hS : ∀ i, i < n → allMatrices.get (toString i) = some (S i))
    (hF : (starFold S n).isSome)
    (hdist : ∀ j k, j ≤ n → k ≤ n → j ≠ k → to_string (j * dz) ≠ to_string (k * dz))
    (map0 : StdMap (ScatterMatrix ι K))
    (h0 : map0.get (to_string 0) = some Unity)
    (hnone : ∀ k, 1 ≤ k → k ≤ n → map0.get (to_string (k * dz)) = none) :
    ∀ i, i ≤ n → ∃ Fi mapi, starFold S i = some Fi ∧
      (List.range i).foldlM (accumulateStep to_string dz allMatrices) (Unity, 0, map0)
        = some (Fi, (i : R) * dz, mapi) ∧
      (∀ j, j ≤ i → ∃ Fj, starFold S j = some Fj ∧ mapi.get (to_string (j * dz)) = some Fj) ∧
      (∀ s, (∀ j, j ≤ i → s ≠ to_string (j * dz)) → mapi.get s = map0.get s) := by
  intro i
  induction i with
  | zero =>
    intro _
    refine ⟨Unity, map0, rfl, by simp, ?_, fun s _ => rfl⟩
    intro j hj
    have : j = 0 := by omega
    subst this
    exact ⟨Unity, rfl, by simpa using h0⟩
  | succ i ih =>
    intro hi
    obtain ⟨Fi, mapi, hFi, hfold, hrec, hother⟩ := ih (by omega)
    obtain ⟨Fi1, hFi1⟩ := Option.isSome_iff_exists.mp (starFold_isSome_of_le S hi hF)
    have hstar : redhefferStarProduct Fi (S i) = some Fi1 := by
      have := hFi1
      simp only [starFold, hFi, Option.some_bind] at this
      exact this
    have hlen : (i : R) * dz + dz = ((i + 1 : ℕ) : R) * dz := by push_cast; ring
    have hfresh : mapi.get (to_string (((i + 1 : ℕ) : R) * dz)) = none := by
      rw [hother _ (fun j hj => hdist (i + 1) j hi (by omega) (by omega))]
      exact hnone (i + 1) (by omega) hi
    refine ⟨Fi1, mapi.insert (to_string (((i + 1 : ℕ) : R) * dz)) Fi1, hFi1, ?_, ?_, ?_⟩
    · rw [List.range_succ, List.foldlM_append, hfold]
      simp only [Option.some_bind, Option.bind_eq_bind, List.foldlM_cons, List.foldlM_nil,
        accumulateStep, bind, pure, hS i (by omega), hstar, hlen]
    · intro j hj
      rcases Nat.lt_or_ge j (i + 1) with hlt | hge
      · obtain ⟨Fj, hFj, hget⟩ := hrec j (by omega)
        refine ⟨Fj, hFj, ?_⟩
        rw [StdMap.get_insert_of_ne _ (hdist j (i + 1) (by omega) hi (by omega))]
        exact hget
      · have : j = i + 1 := by omega
        subst this
        exact ⟨Fi1, hFi1, StdMap.get_insert_self_of_none _ hfresh _⟩
    · intro s hs
      rw [StdMap.get_insert_of_ne _ (hs (i + 1) le_rfl)]
      exact hother s (fun j hj => hs j (by omega))

/-- `accumulate` on layers whose fold is defined and whose cumulative keys are
pairwise distinct and no names of the map. -/
theorem accumulate_spec (to_string : R → String) (mPram : VolumeHologram3DParameter R K)
    (dz : R) (allMatrices : StdMap (ScatterMatrix ι K)) (S : ℕ → ScatterMatrix ι K)
    (sRef sTrn F : ScatterMatrix ι K)
    (hRef : allMatrices.get "sRef" = some sRef) (hTrn : allMatrices.get "sTrn" = some sTrn)
    (hAr : mPram.addArLayer = true → (allMatrices.get "ar").isSome)
    (hS : ∀ i, i < mPram.dimZ.toNat → allMatrices.get (toString i) = some (S i))
    (hF : starFold S mPram.dimZ.toNat = some F)
    (hdist : ∀ j k, j ≤ mPram.dimZ.toNat → k ≤ mPram.dimZ.toNat → j ≠ k →
      to_string (j * dz) ≠ to_string (k * dz))
    (hname : ∀ k, k ≤ mPram.dimZ.toNat →
      to_string (k * dz) ∉ ["sRef", "sTrn", "ar", "full"]) :
    ∃ acc, accumulate to_string mPram dz allMatrices = some acc ∧
      (∀ k, k ≤ mPram.dimZ.toNat →
        ∃ Fk, starFold S k = some Fk ∧ acc.get (to_string (k * dz)) = some Fk) ∧
      acc.get "full" = some F ∧ acc.get "sRef" = some sRef ∧ acc.get "sTrn" = some sTrn := by
  have hkey0 : to_string 0 = to_string (((0 : ℕ) : R) * dz) := by simp
  have hn0 := hname 0 (Nat.zero_le _)
  rw [← hkey0] at hn0
  simp only [List.mem_cons, List.mem_singleton, List.not_mem_nil, or_false, not_or] at hn0
  obtain ⟨h0R, h0T, h0A, h0F⟩ := hn0
  have hnk : ∀ k, k ≤ mPram.dimZ.toNat → to_string (k * dz) ≠ "sRef" ∧
      to_string (k * dz) ≠ "sTrn" ∧ to_string (k * dz) ≠ "ar" ∧ to_string (k * dz) ≠ "full" := by
    intro k hk
    have := hname k hk
    simpa only [List.mem_cons, List.mem_singleton, List.not_mem_nil, or_false, not_or]
      using this
  -- the loop and the last insertion, from any map holding the names only
  have tail : ∀ mapA : StdMap (ScatterMatrix ι K),
      mapA.get "sRef" = some sRef → mapA.get "sTrn" = some sTrn →
      (∀ s, s ≠ "sRef" → s ≠ "sTrn" → s ≠ "ar" → mapA.get s = none) →
      ∃ acc, ((List.range mPram.dimZ.toNat).foldlM (accumulateStep to_string dz allMatrices)
            (Unity, 0, mapA.insert (to_string 0) Unity)).bind
          (fun a => some (a.2.2.insert "full" a.1)) = some acc ∧
        (∀ k, k ≤ mPram.dimZ.toNat →
          ∃ Fk, starFold S k = some Fk ∧ acc.get (to_string (k * dz)) = some Fk) ∧
        acc.get "full" = some F ∧ acc.get "sRef" = some sRef ∧ acc.get "sTrn" = some sTrn := by
    intro mapA hA1 hA2 hA3
    have hloop := accumulate_loop to_string dz allMatrices S mPram.dimZ.toNat hS
      (by rw [hF]; rfl) hdist (mapA.insert (to_string 0) Unity)
      (StdMap.get_insert_self_of_none _ (hA3 _ h0R h0T h0A) _)
      (by
        intro k hk1 hk
        obtain ⟨hR, hT, hA, -⟩ := hnk k hk
        have hne : to_string ((k : R) * dz) ≠ to_string 0 := by
          rw [hkey0]
          exact hdist k 0 hk (Nat.zero_le _) (by omega)
        rw [StdMap.get_insert_of_ne _ hne]
        exact hA3 _ hR hT hA)
      mPram.dimZ.toNat le_rfl
    obtain ⟨Fn, mapn, hFn, hfold, hrec, hother⟩ := hloop
    rw [hF] at hFn
    cases hFn
    have hfullne : ∀ j, j ≤ mPram.dimZ.toNat → "full" ≠ to_string ((j : R) * dz) :=
      fun j hj => (hnk j hj).2.2.2.symm
    have hfullnone : mapn.get "full" = none := by
      rw [hother "full" hfullne, StdMap.get_insert_of_ne _ (Ne.symm h0F)]
      exact hA3 _ (by decide) (by decide) (by decide)
    refine ⟨mapn.insert "full" F, by rw [hfold]; rfl, ?_,
      StdMap.get_insert_self_of_none _ hfullnone _, ?_, ?_⟩
    · intro k hk
      obtain ⟨Fk, hFk, hget⟩ := hrec k hk
      refine ⟨Fk, hFk, ?_⟩
      rw [StdMap.get_insert_of_ne _ (hnk k hk).2.2.2]
      exact hget
    · rw [StdMap.get_insert_of_ne _ (by decide),
        hother "sRef" (fun j hj => (hnk j hj).1.symm), StdMap.get_insert_of_ne _ (Ne.symm h0R)]
      exact hA1
    · rw [StdMap.get_insert_of_ne _ (by decide),
        hother "sTrn" (fun j hj => (hnk j hj).2.1.symm), StdMap.get_insert_of_ne _ (Ne.symm h0T)]
      exact hA2
  -- the map before the loop
  have hbase1 : StdMap.get (StdMap.insert (StdMap.insert ([] : StdMap (ScatterMatrix ι K))
      "sRef" sRef) "sTrn" sTrn) "sRef" = some sRef := by
    rw [StdMap.get_insert_of_ne _ (by decide)]
    exact StdMap.get_insert_self_of_none []
      (show StdMap.get ([] : StdMap (ScatterMatrix ι K)) "sRef" = none from rfl) sRef
  have hbase2 : StdMap.get (StdMap.insert (StdMap.insert ([] : StdMap (ScatterMatrix ι K))
      "sRef" sRef) "sTrn" sTrn) "sTrn" = some sTrn :=
    StdMap.get_insert_self_of_none _ (by rw [StdMap.get_insert_of_ne _ (by decide)]; rfl) _
  have hbase3 : ∀ s, s ≠ "sRef" → s ≠ "sTrn" →
      StdMap.get (StdMap.insert (StdMap.insert ([] : StdMap (ScatterMatrix ι K))
        "sRef" sRef) "sTrn" sTrn) s = none := by
    intro s h1 h2
    rw [StdMap.get_insert_of_ne _ h2, StdMap.get_insert_of_ne _ h1]
    rfl
  by_cases har : mPram.addArLayer = true
  · obtain ⟨sAr, hsAr⟩ := Option.isSome_iff_exists.mp (hAr har)
    simp only [accumulate, hRef, hTrn, bind, Option.some_bind, pure, har, if_true, hsAr]
    apply tail
    · rw [StdMap.get_insert_of_ne _ (by decide)]; exact hbase1
    · rw [StdMap.get_insert_of_ne _ (by decide)]; exact hbase2
    · intro s h1 h2 h3
      rw [StdMap.get_insert_of_ne _ h3]
      exact hbase3 s h1 h2
  · simp only [accumulate, hRef, hTrn, bind, Option.some_bind, pure, har, Bool.false_eq_true,
      if_false]
    exact tail _ hbase1 hbase2 (fun s h1 h2 _ => hbase3 s h1 h2)

end VolumeHologram3D

/-! ## std::to_string and std::stod on the cumulative keys -/

section ToString

theorem digitChar_isDigit {d : ℕ} (hd : d < 10) : (digitChar d).isDigit = true := by
  interval_cases d <;> rfl

theorem digitChar_value {d : ℕ} (hd : d < 10) : (digitChar d).toNat - '0'.toNat = d := by
  interval_cases d <;> rfl

theorem digitsValue_append_singleton (l : List Char) (c : Char) :
    digitsValue (l ++ [c]) = 10 * digitsValue l + (c.toNat - '0'.toNat) := by
  simp [digitsValue, List.foldl_append]

theorem fixedDigits_length (w n : ℕ) : (fixedDigits w n).length = w := by
  induction w generalizing n with
  | zero => rfl
  | succ w ih => simp [fixedDigits, ih]

theorem fixedDigits_isDigit (w n : ℕ) : ∀ c ∈ fixedDigits w n, c.isDigit = true := by
  induction w generalizing n with
  | zero => simp [fixedDigits]
  | succ w ih =>
    intro c hc
    simp only [fixedDigits, List.mem_append, List.mem_singleton] at hc
    rcases hc with h | h
    · exact ih _ c h
    · rw [h]; exact digitChar_isDigit (Nat.mod_lt _ (by norm_num))

theorem digitsValue_fixedDigits (w n : ℕ) : digitsValue (fixedDigits w n) = n % 10 ^ w := by
  induction w generalizing n with
  | zero => simp [fixedDigits, digitsValue, Nat.mod_one]
  | succ w ih =>
    rw [fixedDigits, digitsValue_append_singleton, ih,
      digitChar_value (Nat.mod_lt _ (by norm_num)), pow_succ, mul_comm (10 ^ w) 10, Nat.mod_mul]
    omega

theorem natDigits_isDigit (fuel n : ℕ) : ∀ c ∈ natDigits fuel n, c.isDigit = true := by
  induction fuel generalizing n with
  | zero =>
    intro c hc
    simp only [natDigits, List.mem_singleton] at hc
    rw [hc]; exact digitChar_isDigit (Nat.mod_lt _ (by norm_num))
  | succ fuel ih =>
    intro c hc
    simp only [natDigits] at hc
    split at hc
    · rename_i h
      simp only [List.mem_singleton] at hc
      rw [hc]; exact digitChar_isDigit h
    · simp only [List.mem_append, List.mem_singleton] at hc
      rcases hc with h | h
      · exact ih _ c h
      · rw [h]; exact digitChar_isDigit (Nat.mod_lt _ (by norm_num))

theorem natDigits_ne_nil (fuel n : ℕ) : natDigits fuel n ≠ [] := by
  cases fuel with
  | zero => simp [natDigits]
  | succ fuel =>
    simp only [natDigits]
    split <;> simp

theorem digitsValue_natDigits (fuel n : ℕ) (h : n < 10 ^ (fuel + 1)) :
    digitsValue (natDigits fuel n) = n := by
  induction fuel generalizing n with
  | zero =>
    have hn : n < 10 := by simpa using h
    simp only [natDigits, Nat.mod_eq_of_lt hn, digitsValue, List.foldl_cons, List.foldl_nil,
      digitChar_value hn]
    omega
  | succ fuel ih =>
    simp only [natDigits]
    split
    · rename_i hn
      simp only [digitsValue, List.foldl_cons, List.foldl_nil, digitChar_value hn]
      omega
    · have hdiv : n / 10 < 10 ^ (fuel + 1) := by
        rw [pow_succ] at h
        exact Nat.div_lt_of_lt_mul (by rw [mul_comm]; exact h)
      rw [digitsValue_append_singleton, ih _ hdiv, digitChar_value (Nat.mod_lt _ (by norm_num))]
      omega

theorem lt_ten_pow_succ_self (n : ℕ) : n < 10 ^ (n + 1) :=
  lt_of_lt_of_le (Nat.lt_pow_self (by norm_num) n) (Nat.pow_le_pow_right (by norm_num) (by omega))

theorem takeWhile_append_of_stop {α : Type} (p : α → Bool) (l r : List α) (d : α)
    (hl : ∀ c ∈ l, p c = true) (hd : p d = false) :
    (l ++ d :: r).takeWhile p = l ∧ (l ++ d :: r).dropWhile p = d :: r := by
  induction l with
  | nil => simp [List.takeWhile, List.dropWhile, hd]
  | cons c l ih =>
    have hc : p c = true := hl c (List.mem_cons_self _ _)
    obtain ⟨h1, h2⟩ := ih (fun x hx => hl x (List.mem_cons_of_mem _ hx))
    simp [List.takeWhile, List.dropWhile, hc, h1, h2]

theorem takeWhile_of_all {α : Type} (p : α → Bool) (l : List α) (hl : ∀ c ∈ l, p c = true) :
    l.takeWhile p = l := by
  induction l with
  | nil => rfl
  | cons c l ih =>
    simp [List.takeWhile, hl c (List.mem_cons_self _ _),
      ih (fun x hx => hl x (List.mem_cons_of_mem _ hx))]

/-- `std::stod` on digits, a point and digits. -/
theorem stodDecimal_digits (a b : List Char) (ha : ∀ c ∈ a, c.isDigit = true) (ha0 : a ≠ [])
    (hb : ∀ c ∈ b, c.isDigit = true) :
    stodDecimal (String.mk (a ++ '.' :: b))
      = some ((digitsValue a : ℚ) + (digitsValue b : ℚ) / (10 : ℚ) ^ b.length) := by
  obtain ⟨h1, h2⟩ := takeWhile_append_of_stop Char.isDigit a b '.' ha (by rfl)
  have h3 := takeWhile_of_all Char.isDigit b hb
  cases a with
  | nil => exact absurd rfl ha0
  | cons c a' =>
    have hc : c.isDigit = true := ha c (List.mem_cons_self _ _)
    have hm : c ≠ '-' := by
      intro h; rw [h] at hc; exact Bool.noConfusion hc
    have hp : c ≠ '+' := by
      intro h; rw [h] at hc; exact Bool.noConfusion hc
    simp only [List.cons_append] at h1 h2 ⊢
    have hsign : stodDecimal.match_1 (fun _ => Bool × List Char) (c :: (a' ++ '.' :: b))
        (fun t => (true, t)) (fun t => (false, t)) (fun _ => (false, c :: (a' ++ '.' :: b)))
        = (false, c :: (a' ++ '.' :: b)) := by
      split
      · rename_i heq
        simp only [List.cons.injEq] at heq
        exact absurd heq.1 hm
      · rename_i heq
        simp only [List.cons.injEq] at heq
        exact absurd heq.1 hp
      · rfl
    simp only [stodDecimal, String.toList, hsign, h1, h2, h3]
    simp

theorem stodDecimal_names :
    stodDecimal "sRef" = none ∧ stodDecimal "sTrn" = none ∧ stodDecimal "ar" = none ∧
      stodDecimal "full" = none := by
  refine ⟨?_, ?_, ?_, ?_⟩ <;> simp [stodDecimal]

variable {R : Type} [LinearOrderedField R] [FloorRing R]

theorem roundHalfEven_bounds (y : R) :
    ⌊y⌋ ≤ roundHalfEven y ∧ roundHalfEven y ≤ ⌊y⌋ + 1 := by
  unfold roundHalfEven
  split
  · omega
  · split
    · omega
    · split <;> omega

theorem roundHalfEven_intCast (n : ℤ) : roundHalfEven (n : R) = n := by
  unfold roundHalfEven
  simp

theorem roundHalfEven_nonneg {y : R} (hy : 0 ≤ y) : 0 ≤ roundHalfEven y :=
  le_trans (Int.floor_nonneg.mpr hy) (roundHalfEven_bounds y).1

/-- Two values more than one apart are rounded to different integers. -/
theorem roundHalfEven_lt_of_add_one_lt {y z : R} (h : y + 1 < z) :
    roundHalfEven y < roundHalfEven z := by
  have hfl : ⌊y⌋ + 1 ≤ ⌊z⌋ := by
    have : ⌊y + 1⌋ ≤ ⌊z⌋ := Int.floor_mono h.le
    rwa [Int.floor_add_one] at this
  obtain ⟨hz1, -⟩ := roundHalfEven_bounds z
  obtain ⟨-, hy2⟩ := roundHalfEven_bounds y
  by_cases hcase : ⌊y⌋ + 2 ≤ ⌊z⌋
  · omega
  · have hzf : ⌊z⌋ = ⌊y⌋ + 1 := by omega
    by_cases hy : y - ⌊y⌋ < 1 / 2
    · have : roundHalfEven y = ⌊y⌋ := by
        unfold roundHalfEven
        rw [if_pos hy]
      omega
    · have hzfrac : 1 / 2 < z - ⌊z⌋ := by
        rw [hzf]
        push_cast
        push_neg at hy
        linarith
      have : roundHalfEven z = ⌊z⌋ + 1 := by
        unfold roundHalfEven
        rw [if_neg (not_lt.mpr hzfrac.le), if_pos hzfrac]
      omega

/-- A value at least one above an integer is rounded above it. -/
theorem roundHalfEven_intCast_lt {n : ℤ} {z : R} (h : (n : R) + 1 ≤ z) :
    roundHalfEven (n : R) < roundHalfEven z := by
  rw [roundHalfEven_intCast]
  have : n + 1 ≤ ⌊z⌋ := by
    rw [Int.le_floor]
    push_cast
    exact h
  have := (roundHalfEven_bounds z).1
  omega

/-- `std::stod` reads a key of `std::to_string` back as the rounded value. -/
theorem stodDecimal_to_string_double {x : R} (hx : 0 ≤ x) :
    stodDecimal (to_string_double x)
      = some (((roundHalfEven (x * 10 ^ 6)).toNat : ℚ) / 10 ^ 6) := by
  have hneg : ¬ x < 0 := not_lt.mpr hx
  simp only [to_string_double, abs_of_nonneg hx, hneg, if_false, List.nil_append]
  rw [stodDecimal_digits _ _ (natDigits_isDigit _ _) (natDigits_ne_nil _ _)
    (fixedDigits_isDigit _ _), digitsValue_natDigits _ _ (lt_ten_pow_succ_self _),
    digitsValue_fixedDigits, fixedDigits_length]
  congr 1
  have hsplit := Nat.div_add_mod (roundHalfEven (x * 10 ^ 6)).toNat (10 ^ 6)
  have hq : (((roundHalfEven (x * 10 ^ 6)).toNat : ℕ) : ℚ)
      = (10 ^ 6 : ℚ) * (((roundHalfEven (x * 10 ^ 6)).toNat / 10 ^ 6 : ℕ) : ℚ)
        + (((roundHalfEven (x * 10 ^ 6)).toNat % 10 ^ 6 : ℕ) : ℚ) := by
    exact_mod_cast hsplit.symm
  rw [hq]
  field_simp
  ring

/-- The keys of two values at least `dz >= 1e-6` apart, the smaller a multiple
of `dz`, are read back in their order. -/
theorem key_values_lt {dz : R} (hdz : 1 / 10 ^ 6 ≤ dz) {j k : ℕ} (hjk : j < k) :
    ∃ vj vk : ℚ, stodDecimal (to_string_double ((j : R) * dz)) = some vj ∧
      stodDecimal (to_string_double ((k : R) * dz)) = some vk ∧ vj < vk := by
  have hdz0 : 0 < dz := lt_of_lt_of_le (by positivity) hdz
  have hD : 1 ≤ dz * 10 ^ 6 := by
    have := mul_le_mul_of_nonneg_right hdz (by positivity : (0 : R) ≤ 10 ^ 6)
    simpa using this
  have hj0 : 0 ≤ (j : R) * dz := by positivity
  have hk0 : 0 ≤ (k : R) * dz := by positivity
  refine ⟨_, _, stodDecimal_to_string_double hj0, stodDecimal_to_string_double hk0, ?_⟩
  have hkj : (j : R) + 1 ≤ k := by exact_mod_cast hjk
  have hlt : roundHalfEven ((j : R) * dz * 10 ^ 6) < roundHalfEven ((k : R) * dz * 10 ^ 6) := by
    rcases hD.lt_or_eq with hgt | heq
    · apply roundHalfEven_lt_of_add_one_lt
      have h1 : (j : R) * dz * 10 ^ 6 + dz * 10 ^ 6 ≤ (k : R) * dz * 10 ^ 6 := by
        have := mul_le_mul_of_nonneg_right hkj (by positivity : (0 : R) ≤ dz * 10 ^ 6)
        linarith
      linarith
    · have hjy : (j : R) * dz * 10 ^ 6 = ((j : ℤ) : R) := by
        rw [mul_assoc, ← heq]; simp
      rw [hjy]
      apply roundHalfEven_intCast_lt
      have hkz : (k : R) * dz * 10 ^ 6 = (k : R) := by rw [mul_assoc, ← heq]; simp
      rw [hkz]
      exact_mod_cast hkj
  have hjn := roundHalfEven_nonneg (mul_nonneg hj0 (by positivity : (0 : R) ≤ 10 ^ 6))
  have hnat : (roundHalfEven ((j : R) * dz * 10 ^ 6)).toNat
      < (roundHalfEven ((k : R) * dz * 10 ^ 6)).toNat := by omega
  have hq : (((roundHalfEven ((j : R) * dz * 10 ^ 6)).toNat : ℕ) : ℚ)
      < (((roundHalfEven ((k : R) * dz * 10 ^ 6)).toNat : ℕ) : ℚ) := by exact_mod_cast hnat
  exact div_lt_div_of_pos_right hq (by positivity)

/-- A key of `std::to_string` is no name of the map. -/
theorem to_string_double_not_name {x : R} (hx : 0 ≤ x) :
    to_string_double x ∉ ["sRef", "sTrn", "ar", "full"] := by
  have hv := stodDecimal_to_string_double hx
  obtain ⟨h1, h2, h3, h4⟩ := stodDecimal_names
  intro hmem
  simp only [List.mem_cons, List.mem_singleton, List.not_mem_nil, or_false] at hmem
  rcases hmem with h | h | h | h <;> rw [h] at hv
  · rw [h1] at hv; cases hv
  · rw [h2] at hv; cases hv
  · rw [h3] at hv; cases hv
  · rw [h4] at hv; cases hv

end ToString

/-! ## The layout of the result row -/

section RowLayout

/-- `vectorise(M.t())` after `reshape(v, dimX, dimY).t()` gives `v` back. -/
theorem vectoriseT_reshapeT {α : Type} {r c : ℕ} (v : Fin (r * c) → α) :
    vectoriseT (reshapeT v) = v := by
  funext i
  show v (finProdFinEquiv ((finProdFinEquiv.symm i).1, (finProdFinEquiv.symm i).2)) = v i
  rw [Prod.mk.eta, Equiv.apply_symm_apply]

/-- In a grid of one row the flattened index is the column. -/
theorem vectoriseT_one_row {α : Type} {c : ℕ} (A : Matrix (Fin (2 * 0 + 1)) (Fin c) α)
    (i : Fin ((2 * 0 + 1) * c)) :
    vectoriseT A i = A 0 ⟨i.val, by have := i.isLt; omega⟩ := by
  have h1 := (finProdFinEquiv.symm i).1.isLt
  have hi := i.isLt
  have hrow : (finProdFinEquiv.symm i).1 = 0 := by
    apply Fin.ext
    simp only [Fin.val_zero]
    omega
  have hcol : ((finProdFinEquiv.symm i).2 : ℕ) = i.val := by
    simp only [finProdFinEquiv_symm_apply, Fin.coe_modNat]
    exact Nat.mod_eq_of_lt (by omega)
  simp only [vectoriseT, hrow]
  congr 1
  exact Fin.ext hcol

/-- With `harmonicOrderY = 0` the harmonic at the flattened index `j` is the
diffraction order `p = j - Nx`. -/
theorem vectoriseT_pGrid (Nx : ℕ) (j : HarmonicIndex Nx 0) :
    vectoriseT (SystemParameterCreator.mBuildGrids Nx 0).1 j = (j.val : ℤ) - Nx := by
  rw [vectoriseT_one_row]
  simp only [SystemParameterCreator.mBuildGrids, Matrix.of_apply]
  ring

end RowLayout

open ScatterMatrix in
/-- Three periods of a 1 x 1 matrix over the rationals: the power matrix. -/
theorem mCalcPowerScatterMatrix_three :
    VolumeHologram3D.mCalcPowerScatterMatrix
      (⟨⟨1, 0, 0, 0, 0, 1, 0, true, 3, false, 0, 1⟩, 0, ![0, 0, 1], ![0, 0, 1], [0, 1], none, 1⟩ :
        HoeWriter ℚ)
      ([("full", ⟨0, !![3], !![2], 0⟩), ("sRef", Unity)] : StdMap (ScatterMatrix (Fin 1) ℚ))
      = some ⟨0, !![3] * (!![3] * (!![3] * 1)), 1 * !![2] * !![2] * !![2], 0⟩ := by
  have hRef : StdMap.get
      ([("full", ⟨0, !![3], !![2], 0⟩), ("sRef", Unity)] : StdMap (ScatterMatrix (Fin 1) ℚ))
      "sRef" = some Unity := by rfl
  have hfull : StdMap.get
      ([("full", ⟨0, !![3], !![2], 0⟩), ("sRef", Unity)] : StdMap (ScatterMatrix (Fin 1) ℚ))
      "full" = some ⟨0, !![3], !![2], 0⟩ := by rfl
  exact VolumeHologram3D.mCalcPowerScatterMatrix_eq_sequentialStar (by decide : 1 ≤ 3)
    ⟨⟨1, 0, 0, 0, 0, 1, 0, true, 3, false, 0, 1⟩, 0, ![0, 0, 1], ![0, 0, 1], [0, 1], none, 1⟩
    mem_bits_three _ hRef hfull sequentialStar_three

/-! ## The cumulative keys -/

section Keys

variable {R : Type} [LinearOrderedField R] [FloorRing R]

/-- A key of `std::to_string` is no name of the map, whatever its sign. -/
theorem to_string_double_not_name_all (x : R) :
    to_string_double x ∉ ["sRef", "sTrn", "ar", "full"] := by
  rcases le_or_lt 0 x with hx | hx
  · exact to_string_double_not_name hx
  · intro hmem
    have hlist : ∃ t, (to_string_double x).toList = '-' :: t := by
      simp only [to_string_double, hx, if_true]
      exact ⟨_, rfl⟩
    obtain ⟨t, ht⟩ := hlist
    simp only [List.mem_cons, List.mem_singleton, List.not_mem_nil, or_false] at hmem
    rcases hmem with h | h | h | h <;> rw [h] at ht <;> cases ht

/-- In exact arithmetic the keys of two different multiples of a slice
thickness `dz >= 1e-6` are different. -/
theorem to_string_double_key_ne {dz : R} (hdz : 1 / 10 ^ 6 ≤ dz) {j k : ℕ} (hjk : j ≠ k) :
    to_string_double ((j : R) * dz) ≠ to_string_double ((k : R) * dz) := by
  intro heq
  rcases Nat.lt_or_gt_of_ne hjk with h | h
  · obtain ⟨vj, vk, h1, h2, hlt⟩ := key_values_lt hdz h
    rw [heq, h2] at h1
    cases h1
    exact lt_irrefl _ hlt
  · obtain ⟨vk, vj, h1, h2, hlt⟩ := key_values_lt hdz h
    rw [← heq, h2] at h1
    cases h1
    exact lt_irrefl _ hlt

/-- The key of a non-negative value whose millionths round to zero. -/
theorem to_string_double_of_round_zero {x : R} (hx : 0 ≤ x)
    (h : roundHalfEven (x * 10 ^ 6) = 0) : to_string_double x = "0.000000" := by
  unfold to_string_double
  simp only [abs_of_nonneg hx, h]
  rw [if_neg (not_lt.mpr hx)]
  rfl

end Keys

/-! ## The boundary and interior matrices in closed form -/

section BoundaryForms

variable {R K : Type} [LinearOrderedField R] [Field K] [DecidableEq K] {Nx Ny : ℕ}

/-- `mCalculateScatterRefTrn` when both constructors return and the four
inverses exist: the blocks in terms of `a = W0^-1 W + V0^-1 V` and
`b = W0^-1 W - V0^-1 V` of each side. -/
theorem mCalculateScatterRefTrn_eq (lib : Numerics R K Nx Ny)
    (system : SystemParameters R K Nx Ny)
    (v0 w0 : Matrix (ModeIndex Nx Ny) (ModeIndex Nx Ny) K)
    (eigenRef eigenTrn : EigenValuesVectors R K Nx Ny)
    (hRef : EigenValuesVectors.create lib system
      ⟨ArmaMat.scalar system.param.erRef, ArmaMat.scalar system.param.urRef, 1, ""⟩
        = some eigenRef)
    (hTrn : EigenValuesVectors.create lib system
      ⟨ArmaMat.scalar system.param.erTrn, ArmaMat.scalar system.param.urTrn, 1, ""⟩
        = some eigenTrn)
    (hv0 : v0.det ≠ 0) (hw0 : w0.det ≠ 0)
    (haRef : (w0⁻¹ * eigenRef.getW + v0⁻¹ * eigenRef.getV).det ≠ 0)
    (haTrn : (w0⁻¹ * eigenTrn.getW + v0⁻¹ * eigenTrn.getV).det ≠ 0) :
    mCalculateScatterRefTrn lib system v0 w0 = some
      ({ s11 := -((w0⁻¹ * eigenRef.getW + v0⁻¹ * eigenRef.getV)⁻¹ *
            (w0⁻¹ * eigenRef.getW - v0⁻¹ * eigenRef.getV))
         s12 := (2 : K) • (w0⁻¹ * eigenRef.getW + v0⁻¹ * eigenRef.getV)⁻¹
         s21 := (1 / 2 : K) • ((w0⁻¹ * eigenRef.getW + v0⁻¹ * eigenRef.getV) -
            (w0⁻¹ * eigenRef.getW - v0⁻¹ * eigenRef.getV) *
              (w0⁻¹ * eigenRef.getW + v0⁻¹ * eigenRef.getV)⁻¹ *
              (w0⁻¹ * eigenRef.getW - v0⁻¹ * eigenRef.getV))
         s22 := (w0⁻¹ * eigenRef.getW - v0⁻¹ * eigenRef.getV) *
            (w0⁻¹ * eigenRef.getW + v0⁻¹ * eigenRef.getV)⁻¹ },
       { s11 := (w0⁻¹ * eigenTrn.getW - v0⁻¹ * eigenTrn.getV) *
            (w0⁻¹ * eigenTrn.getW + v0⁻¹ * eigenTrn.getV)⁻¹
         s12 := (1 / 2 : K) • ((w0⁻¹ * eigenTrn.getW + v0⁻¹ * eigenTrn.getV) -
            (w0⁻¹ * eigenTrn.getW - v0⁻¹ * eigenTrn.getV) *
              (w0⁻¹ * eigenTrn.getW + v0⁻¹ * eigenTrn.getV)⁻¹ *
              (w0⁻¹ * eigenTrn.getW - v0⁻¹ * eigenTrn.getV))
         s21 := (2 : K) • (w0⁻¹ * eigenTrn.getW + v0⁻¹ * eigenTrn.getV)⁻¹
         s22 := -((w0⁻¹ * eigenTrn.getW + v0⁻¹ * eigenTrn.getV)⁻¹ *
            (w0⁻¹ * eigenTrn.getW - v0⁻¹ * eigenTrn.getV)) }) := by
  simp only [mCalculateScatterRefTrn, hRef, hTrn, bind, pure, Option.some_bind,
    armaInv_of_det_ne_zero hv0, armaInv_of_det_ne_zero hw0, armaInv_of_det_ne_zero haRef,
    armaInv_of_det_ne_zero haTrn]

/-- `mBuildScatterMatrixInsideVacuum` when the four inverses exist: the blocks
in terms of `a = W^-1 W0 + V^-1 V0`, `b = W^-1 W0 - V^-1 V0` and
`x = expmat(arg)`. -/
theorem mBuildScatterMatrixInsideVacuum_eq (lib : Numerics R K Nx Ny)
    (eigen : EigenValuesVectors R K Nx Ny)
    (v0 w0 : Matrix (ModeIndex Nx Ny) (ModeIndex Nx Ny) K)
    (hv : eigen.getV.det ≠ 0) (hw : eigen.getW.det ≠ 0)
    (ha : (eigen.getW⁻¹ * w0 + eigen.getV⁻¹ * v0).det ≠ 0)
    (hm : ((eigen.getW⁻¹ * w0 + eigen.getV⁻¹ * v0) -
      lib.expmat eigen.getArg * (eigen.getW⁻¹ * w0 - eigen.getV⁻¹ * v0) *
        (eigen.getW⁻¹ * w0 + eigen.getV⁻¹ * v0)⁻¹ * lib.expmat eigen.getArg *
        (eigen.getW⁻¹ * w0 - eigen.getV⁻¹ * v0)).det ≠ 0) :
    mBuildScatterMatrixInsideVacuum lib eigen v0 w0 = some
      { s11 := ((eigen.getW⁻¹ * w0 + eigen.getV⁻¹ * v0) -
            lib.expmat eigen.getArg * (eigen.getW⁻¹ * w0 - eigen.getV⁻¹ * v0) *
              (eigen.getW⁻¹ * w0 + eigen.getV⁻¹ * v0)⁻¹ * lib.expmat eigen.getArg *
              (eigen.getW⁻¹ * w0 - eigen.getV⁻¹ * v0))⁻¹ *
          (lib.expmat eigen.getArg * (eigen.getW⁻¹ * w0 - eigen.getV⁻¹ * v0) *
              (eigen.getW⁻¹ * w0 + eigen.getV⁻¹ * v0)⁻¹ * lib.expmat eigen.getArg *
              (eigen.getW⁻¹ * w0 + eigen.getV⁻¹ * v0) -
            (eigen.getW⁻¹ * w0 - eigen.getV⁻¹ * v0))
        s12 := ((eigen.getW⁻¹ * w0 + eigen.getV⁻¹ * v0) -
            lib.expmat eigen.getArg * (eigen.getW⁻¹ * w0 - eigen.getV⁻¹ * v0) *
              (eigen.getW⁻¹ * w0 + eigen.getV⁻¹ * v0)⁻¹ * lib.expmat eigen.getArg *
              (eigen.getW⁻¹ * w0 - eigen.getV⁻¹ * v0))⁻¹ *
          (lib.expmat eigen.getArg * ((eigen.getW⁻¹ * w0 + eigen.getV⁻¹ * v0) -
            (eigen.getW⁻¹ * w0 - eigen.getV⁻¹ * v0) *
              (eigen.getW⁻¹ * w0 + eigen.getV⁻¹ * v0)⁻¹ *
              (eigen.getW⁻¹ * w0 - eigen.getV⁻¹ * v0)))
        s22 := ((eigen.getW⁻¹ * w0 + eigen.getV⁻¹ * v0) -
            lib.expmat eigen.getArg * (eigen.getW⁻¹ * w0 - eigen.getV⁻¹ * v0) *
              (eigen.getW⁻¹ * w0 + eigen.getV⁻¹ * v0)⁻¹ * lib.expmat eigen.getArg *
              (eigen.getW⁻¹ * w0 - eigen.getV⁻¹ * v0))⁻¹ *
          (lib.expmat eigen.getArg * (eigen.getW⁻¹ * w0 - eigen.getV⁻¹ * v0) *
              (eigen.getW⁻¹ * w0 + eigen.getV⁻¹ * v0)⁻¹ * lib.expmat eigen.getArg *
              (eigen.getW⁻¹ * w0 + eigen.getV⁻¹ * v0) -
            (eigen.getW⁻¹ * w0 - eigen.getV⁻¹ * v0))
        s21 := ((eigen.getW⁻¹ * w0 + eigen.getV⁻¹ * v0) -
            lib.expmat eigen.getArg * (eigen.getW⁻¹ * w0 - eigen.getV⁻¹ * v0) *
              (eigen.getW⁻¹ * w0 + eigen.getV⁻¹ * v0)⁻¹ * lib.expmat eigen.getArg *
              (eigen.getW⁻¹ * w0 - eigen.getV⁻¹ * v0))⁻¹ *
          (lib.expmat eigen.getArg * ((eigen.getW⁻¹ * w0 + eigen.getV⁻¹ * v0) -
            (eigen.getW⁻¹ * w0 - eigen.getV⁻¹ * v0) *
              (eigen.getW⁻¹ * w0 + eigen.getV⁻¹ * v0)⁻¹ *
              (eigen.getW⁻¹ * w0 - eigen.getV⁻¹ * v0))) } := by
  simp only [mBuildScatterMatrixInsideVacuum, bind, pure, Option.some_bind,
    armaInv_of_det_ne_zero hv, armaInv_of_det_ne_zero hw, armaInv_of_det_ne_zero ha,
    armaInv_of_det_ne_zero hm]

omit [DecidableEq K] in
/-- A non-zero multiple of the identity is invertible. -/
theorem det_smul_one_ne_zero {ι : Type} [Fintype ι] [DecidableEq ι] {c : K} (hc : c ≠ 0) :
    (c • (1 : Matrix ι ι K)).det ≠ 0 := by
  rw [Matrix.det_smul, Matrix.det_one, mul_one]
  exact pow_ne_zero _ hc

omit [DecidableEq K] in
/-- The inverse of a non-zero multiple of the identity. -/
theorem inv_smul_one {ι : Type} [Fintype ι] [DecidableEq ι] {c : K} (hc : c ≠ 0) :
    (c • (1 : Matrix ι ι K))⁻¹ = c⁻¹ • (1 : Matrix ι ι K) := by
  apply Matrix.inv_eq_right_inv
  rw [smul_mul_smul_comm, mul_one, mul_inv_cancel₀ hc, one_smul]

/-- A boundary whose mode matrices are those of the reference is transparent:
`a = 2 I`, `b = 0`, and both matrices are `Unity`. -/
theorem mCalculateScatterRefTrn_matched (lib : Numerics R K Nx Ny)
    (system : SystemParameters R K Nx Ny)
    (v0 w0 : Matrix (ModeIndex Nx Ny) (ModeIndex Nx Ny) K)
    (eigenRef eigenTrn : EigenValuesVectors R K Nx Ny) (h2 : (2 : K) ≠ 0)
    (hRef : EigenValuesVectors.create lib system
      ⟨ArmaMat.scalar system.param.erRef, ArmaMat.scalar system.param.urRef, 1, ""⟩
        = some eigenRef)
    (hTrn : EigenValuesVectors.create lib system
      ⟨ArmaMat.scalar system.param.erTrn, ArmaMat.scalar system.param.urTrn, 1, ""⟩
        = some eigenTrn)
    (hVR : eigenRef.getV = v0) (hWR : eigenRef.getW = w0)
    (hVT : eigenTrn.getV = v0) (hWT : eigenTrn.getW = w0)
    (hv0 : v0.det ≠ 0) (hw0 : w0.det ≠ 0) :
    mCalculateScatterRefTrn lib system v0 w0
      = some (ScatterMatrix.Unity, ScatterMatrix.Unity) := by
  have hvv : v0⁻¹ * v0 = 1 := Matrix.nonsing_inv_mul _ (isUnit_iff_ne_zero.mpr hv0)
  have hww : w0⁻¹ * w0 = 1 := Matrix.nonsing_inv_mul _ (isUnit_iff_ne_zero.mpr hw0)
  have ha : w0⁻¹ * w0 + v0⁻¹ * v0 = (2 : K) • (1 : Matrix (ModeIndex Nx Ny) (ModeIndex Nx Ny) K) := by
    rw [hvv, hww, two_smul]
  have hb : w0⁻¹ * w0 - v0⁻¹ * v0 = (0 : Matrix (ModeIndex Nx Ny) (ModeIndex Nx Ny) K) := by
    rw [hvv, hww, sub_self]
  have hdet : (w0⁻¹ * w0 + v0⁻¹ * v0).det ≠ 0 := by
    rw [ha]
    exact det_smul_one_ne_zero h2
  rw [mCalculateScatterRefTrn_eq lib system v0 w0 eigenRef eigenTrn hRef hTrn hv0 hw0
    (by rw [hVR, hWR]; exact hdet) (by rw [hVT, hWT]; exact hdet)]
  simp only [hVR, hWR, hVT, hWT, ha, hb, inv_smul_one h2, mul_zero, zero_mul, neg_zero, sub_zero,
    smul_smul, mul_inv_cancel₀ h2, one_smul, one_div, inv_mul_cancel₀ h2, ScatterMatrix.Unity]

end BoundaryForms

namespace VolumeHologram3D

open ScatterMatrix

variable {ι K R : Type} [Fintype ι] [DecidableEq ι] [Field K] [DecidableEq K]
  [LinearOrderedField R] [FloorRing R]

/-- With transparent boundaries the final assembly returns the interior stack:
the product of the power and residual stages, wrapped in the coating layer when
one is requested. -/
theorem mCalcGlobalScatterMatrix_of_Unity (mPram : VolumeHologram3DParameter R K)
    (P Rm : ScatterMatrix ι K) (accumulatedMatrices : StdMap (ScatterMatrix ι K))
    (hRef : accumulatedMatrices.get "sRef" = some Unity)
    (hTrn : accumulatedMatrices.get "sTrn" = some Unity) :
    mCalcGlobalScatterMatrix mPram P Rm accumulatedMatrices
      = if mPram.addArLayer then
          (accumulatedMatrices.get "ar").bind fun sAr =>
            (redhefferStarProduct P Rm).bind fun d =>
              (redhefferStarProduct d sAr).bind fun d => redhefferStarProduct sAr d
        else redhefferStarProduct P Rm := by
  simp only [mCalcGlobalScatterMatrix, hRef, hTrn, bind, pure, Option.some_bind]
  cases hPR : redhefferStarProduct P Rm with
  | none =>
    cases accumulatedMatrices.get "ar" <;> cases mPram.addArLayer <;> simp
  | some d =>
    cases har : mPram.addArLayer with
    | false =>
      simp [redhefferStarProduct_Unity, Unity_redhefferStarProduct]
    | true =>
      cases accumulatedMatrices.get "ar" with
      | none => simp
      | some sAr =>
        simp only [if_true, Option.some_bind]
        cases h1 : redhefferStarProduct d sAr with
        | none => simp
        | some d1 =>
          simp only [Option.some_bind]
          cases h2 : redhefferStarProduct sAr d1 with
          | none => simp
          | some d2 => simp [redhefferStarProduct_Unity, Unity_redhefferStarProduct]

end VolumeHologram3D

/-! ## The boundaries at normal incidence -/

section NormalIncidence

variable {Nx Ny : ℕ}

/-- The inverse of `c J` for `c ≠ 0`. -/
theorem inv_smul_J {c : ℂ} (hc : c ≠ 0) :
    (c • blockJ (HarmonicIndex Nx Ny) ℂ)⁻¹ = (-c⁻¹) • blockJ (HarmonicIndex Nx Ny) ℂ := by
  apply Matrix.inv_eq_right_inv
  rw [smul_J_mul_smul_J, mul_neg, neg_neg, mul_inv_cancel₀ hc, one_smul]

theorem det_smul_J_ne_zero {c : ℂ} (hc : c ≠ 0) :
    (c • blockJ (HarmonicIndex Nx Ny) ℂ).det ≠ 0 := by
  apply ScatterMatrix.det_ne_zero_of_mul_eq_one (Y := (-c⁻¹) • blockJ (HarmonicIndex Nx Ny) ℂ)
  rw [smul_J_mul_smul_J, mul_neg, neg_neg, mul_inv_cancel₀ hc, one_smul]

/-- `A^-1 B` for `A = I`, `c J` and `B = I`, `d J`. -/
theorem inv_smul_J_mul_smul_J {c : ℂ} (hc : c ≠ 0) (d : ℂ) :
    (c • blockJ (HarmonicIndex Nx Ny) ℂ)⁻¹ * (d • blockJ (HarmonicIndex Nx Ny) ℂ)
      = (d / c) • (1 : Matrix (ModeIndex Nx Ny) (ModeIndex Nx Ny) ℂ) := by
  rw [inv_smul_J hc, smul_J_mul_smul_J]
  congr 1
  field_simp

/-- The boundaries at normal incidence, harmonic order 0, between vacuum and a
medium of refractive index `n`: the reference is `V0 = i J`, `W0 = I`, both
constructors return, and `a = W0^-1 W + V0^-1 V`, `b = W0^-1 W - V0^-1 V` are
`2 I`, `0` on the reflection side and `(1 + n) I`, `(1 - n) I` on the
transmission side, while `W^-1 W0 + V^-1 V0` is `(1 + 1/n) I` there. -/
theorem fresnel_boundary_setup (lib : Numerics ℝ ℂ 0 0) (hlib : lib.IsExact)
    (k0 n : ℝ) (hn : 0 < n) (hbig : 1 / 10 ^ 8 ≤ n ^ 2) (system : SystemParameters ℝ ℂ 0 0)
    (hsys : system = SystemParameterCreator.createSystemParameters lib
      ⟨k0, 0, 0, (k0 : ℂ), 0, 0, 0, 0, 1, 1, (n : ℂ) ^ 2, 1⟩) :
    ∃ eigenRef eigenTrn : EigenValuesVectors ℝ ℂ 0 0,
      mEigenVectorsVacuumV0W0 lib system
        = some (Complex.I • blockJ (HarmonicIndex 0 0) ℂ, 1) ∧
      EigenValuesVectors.create lib system
        ⟨ArmaMat.scalar system.param.erRef, ArmaMat.scalar system.param.urRef, 1, ""⟩
          = some eigenRef ∧
      EigenValuesVectors.create lib system
        ⟨ArmaMat.scalar system.param.erTrn, ArmaMat.scalar system.param.urTrn, 1, ""⟩
          = some eigenTrn ∧
      (Complex.I • blockJ (HarmonicIndex 0 0) ℂ).det ≠ 0 ∧
      (1 : Matrix (ModeIndex 0 0) (ModeIndex 0 0) ℂ).det ≠ 0 ∧
      eigenRef.getV = Complex.I • blockJ (HarmonicIndex 0 0) ℂ ∧ eigenRef.getW = 1 ∧
      (1 : Matrix (ModeIndex 0 0) (ModeIndex 0 0) ℂ)⁻¹ * eigenRef.getW
        + (Complex.I • blockJ (HarmonicIndex 0 0) ℂ)⁻¹ * eigenRef.getV = (2 : ℂ) • 1 ∧
      (1 : Matrix (ModeIndex 0 0) (ModeIndex 0 0) ℂ)⁻¹ * eigenRef.getW
        - (Complex.I • blockJ (HarmonicIndex 0 0) ℂ)⁻¹ * eigenRef.getV = 0 ∧
      (1 : Matrix (ModeIndex 0 0) (ModeIndex 0 0) ℂ)⁻¹ * eigenTrn.getW
        + (Complex.I • blockJ (HarmonicIndex 0 0) ℂ)⁻¹ * eigenTrn.getV = ((1 : ℂ) + n) • 1 ∧
      (1 : Matrix (ModeIndex 0 0) (ModeIndex 0 0) ℂ)⁻¹ * eigenTrn.getW
        - (Complex.I • blockJ (HarmonicIndex 0 0) ℂ)⁻¹ * eigenTrn.getV = ((1 : ℂ) - n) • 1 ∧
      eigenTrn.getW⁻¹ * (1 : Matrix (ModeIndex 0 0) (ModeIndex 0 0) ℂ)
        + eigenTrn.getV⁻¹ * (Complex.I • blockJ (HarmonicIndex 0 0) ℂ)
          = ((1 : ℂ) + 1 / n) • 1 := by
  rw [SystemParameterCreator.createSystemParameters_fresnel lib hlib k0 n 0 0 0 0 hn] at hsys
  have hkx : system.kxNorm = 0 := by rw [hsys]
  have hky : system.kyNorm = 0 := by rw [hsys]
  have h1 : system.param.erRef = 1 := by rw [hsys]
  have h2 : system.param.urRef = 1 := by rw [hsys]
  have h3 : system.param.erTrn = (n : ℂ) ^ 2 := by rw [hsys]
  have h4 : system.param.urTrn = 1 := by rw [hsys]
  obtain ⟨evR, hevR, hVR, hWR⟩ := EigenValuesVectors.create_dielectric lib hlib system hkx hky 1
    one_pos (by norm_num) 1 (by simp) 1 ""
  obtain ⟨evT, hevT, hVT, hWT⟩ := EigenValuesVectors.create_dielectric lib hlib system hkx hky n
    hn (not_lt.mpr hbig) ((n : ℂ) ^ 2) rfl 1 ""
  have hI : Complex.I ≠ 0 := Complex.I_ne_zero
  have hnC : (n : ℂ) ≠ 0 := Complex.ofReal_ne_zero.mpr hn.ne'
  have hnI : (n : ℂ) * Complex.I ≠ 0 := mul_ne_zero hnC hI
  have hVR' : evR.getV = Complex.I • blockJ (HarmonicIndex 0 0) ℂ := by
    rw [hVR]
    simp
  have hone : ∀ c : ℂ, (1 : Matrix (ModeIndex 0 0) (ModeIndex 0 0) ℂ) + c • 1 = ((1 : ℂ) + c) • 1 := by
    intro c
    rw [add_smul, one_smul]
  have hone' : ∀ c : ℂ, (1 : Matrix (ModeIndex 0 0) (ModeIndex 0 0) ℂ) - c • 1
      = ((1 : ℂ) - c) • 1 := by
    intro c
    rw [sub_smul, one_smul]
  have e1 : Complex.I / Complex.I = 1 := div_self hI
  have e2 : (n : ℂ) * Complex.I / Complex.I = n := by field_simp
  have e3 : Complex.I / ((n : ℂ) * Complex.I) = 1 / n := by
    field_simp
    ring
  refine ⟨evR, evT, mEigenVectorsVacuumV0W0_normal lib hlib system hkx hky, ?_, ?_,
    det_smul_J_ne_zero hI, by rw [Matrix.det_one]; exact one_ne_zero, hVR', hWR, ?_, ?_, ?_, ?_,
    ?_⟩
  · rw [h1, h2]; exact hevR
  · rw [h3, h4]; exact hevT
  · rw [hVR', hWR, inv_smul_J_mul_smul_J hI, inv_one, one_mul, e1, hone]
    norm_num
  · rw [hVR', hWR, inv_smul_J_mul_smul_J hI, inv_one, one_mul, e1, hone']
    norm_num
  · rw [hVT, hWT, inv_smul_J_mul_smul_J hI, inv_one, one_mul, e2, hone]
  · rw [hVT, hWT, inv_smul_J_mul_smul_J hI, inv_one, one_mul, e2, hone']
  · rw [hVT, hWT, inv_smul_J_mul_smul_J hnI, inv_one, one_mul, e3, hone]

end NormalIncidence

/-! ## The harmonic grids and the convolution operator -/

section GridLemmas

/-- Row-major flattening: the row and the column of a flattened index. -/
theorem finProdFinEquiv_symm_val {r c : ℕ} (i : Fin (r * c)) :
    ((finProdFinEquiv.symm i).1 : ℕ) = (i : ℕ) / c ∧
      ((finProdFinEquiv.symm i).2 : ℕ) = (i : ℕ) % c := by
  simp [finProdFinEquiv_symm_apply, Fin.coe_divNat, Fin.coe_modNat]

/-- `arma::reverse` on a flattened grid of `r` rows and `c` columns mirrors the
row and the column. -/
theorem rev_div_mod {r c : ℕ} (j : Fin (r * c)) :
    ((Fin.rev j : Fin (r * c)) : ℕ) / c = r - 1 - (j : ℕ) / c ∧
      ((Fin.rev j : Fin (r * c)) : ℕ) % c = c - 1 - (j : ℕ) % c := by
  have hj := j.isLt
  have hc : 0 < c := by
    rcases Nat.eq_zero_or_pos c with h | h
    · have h0 : r * c = 0 := by simp [h]
      omega
    · exact h
  have ha : (j : ℕ) / c < r := (Nat.div_lt_iff_lt_mul hc).mpr hj
  have hb : (j : ℕ) % c < c := Nat.mod_lt _ hc
  have hsplit := Nat.div_add_mod (j : ℕ) c
  obtain ⟨k, hk⟩ : ∃ k, r = (j : ℕ) / c + 1 + k := ⟨r - 1 - (j : ℕ) / c, by omega⟩
  have hmul : r * c = c * ((j : ℕ) / c) + c + c * k :=
    (congrArg (fun x => x * c) hk).trans (by ring)
  rw [Fin.val_rev]
  have hkk : r - 1 - (j : ℕ) / c = k := by omega
  rw [hkk]
  exact (Nat.div_mod_unique hc).mpr ⟨by omega, by omega⟩

/-- The flattened grids of `mBuildGrids`: `p_i = (i mod (2Nx+1)) - Nx` and
`q_i = (i div (2Nx+1)) - Ny`. -/
theorem vectoriseT_mBuildGrids (Nx Ny : ℕ) (i : HarmonicIndex Nx Ny) :
    vectoriseT (SystemParameterCreator.mBuildGrids Nx Ny).1 i
        = (((i : ℕ) % (2 * Nx + 1) : ℕ) : ℤ) - Nx ∧
      vectoriseT (SystemParameterCreator.mBuildGrids Nx Ny).2 i
        = (((i : ℕ) / (2 * Nx + 1) : ℕ) : ℤ) - Ny := by
  obtain ⟨h1, h2⟩ := finProdFinEquiv_symm_val i
  constructor
  · simp only [vectoriseT, SystemParameterCreator.mBuildGrids, Matrix.of_apply, h2]
    ring
  · simp only [vectoriseT, SystemParameterCreator.mBuildGrids, Matrix.of_apply, h1]
    ring

/-- The middle of the flattened grid is the harmonic `p = 0`, `q = 0`, and no
other index is. -/
theorem middle_index_iff (Nx Ny : ℕ) (i : HarmonicIndex Nx Ny) :
    (i : ℕ) = ((2 * Ny + 1) * (2 * Nx + 1) - 1) / 2 ↔
      vectoriseT (SystemParameterCreator.mBuildGrids Nx Ny).1 i = 0 ∧
        vectoriseT (SystemParameterCreator.mBuildGrids Nx Ny).2 i = 0 := by
  obtain ⟨hp, hq⟩ := vectoriseT_mBuildGrids Nx Ny i
  rw [hp, hq]
  have hM : (2 * Ny + 1) * (2 * Nx + 1) = 2 * (Ny * (2 * Nx + 1) + Nx) + 1 := by ring
  have hmid : ((2 * Ny + 1) * (2 * Nx + 1) - 1) / 2 = Ny * (2 * Nx + 1) + Nx := by
    rw [hM]
    omega
  rw [hmid]
  have hc : 0 < 2 * Nx + 1 := by omega
  have hsplit := Nat.div_add_mod (i : ℕ) (2 * Nx + 1)
  have hb : (i : ℕ) % (2 * Nx + 1) < 2 * Nx + 1 := Nat.mod_lt _ hc
  constructor
  · intro h
    have hdm : (i : ℕ) / (2 * Nx + 1) = Ny ∧ (i : ℕ) % (2 * Nx + 1) = Nx :=
      (Nat.div_mod_unique hc).mpr ⟨by rw [h]; ring, by omega⟩
    rw [hdm.1, hdm.2]
    simp
  · rintro ⟨h1, h2⟩
    have h1' : (i : ℕ) % (2 * Nx + 1) = Nx := by omega
    have h2' : (i : ℕ) / (2 * Nx + 1) = Ny := by omega
    rw [h1', h2'] at hsplit
    rw [← hsplit]
    ring

/-- The middle index exists. -/
theorem middle_index_lt (Nx Ny : ℕ) :
    ((2 * Ny + 1) * (2 * Nx + 1) - 1) / 2 < (2 * Ny + 1) * (2 * Nx + 1) := by
  have hM : (2 * Ny + 1) * (2 * Nx + 1) = 2 * (Ny * (2 * Nx + 1) + Nx) + 1 := by ring
  rw [hM]
  omega

end GridLemmas

namespace EigenValuesVectors

variable {R K : Type} [LinearOrderedField R] [Field K] [DecidableEq K] {Nx Ny : ℕ}

omit [DecidableEq K] in
/-- The row that `mGetRowFromSpectrumForConvolution` returns for the harmonic
`(p, q)` when its window lies inside the spectrum: at the flattened index `j`
the spectrum at the harmonic difference. -/
theorem mGetRowFromSpectrumForConvolution_entries (spec : ArmaMat K) (p q : ℤ)
    (hwin : 0 ≤ (((spec.n_rows - 1) / 2 : ℕ) : ℤ) + q - Ny ∧
      0 ≤ (((spec.n_cols - 1) / 2 : ℕ) : ℤ) + p - Nx ∧
      (((spec.n_rows - 1) / 2 : ℕ) : ℤ) + q + Ny < spec.n_rows ∧
      (((spec.n_cols - 1) / 2 : ℕ) : ℤ) + p + Nx < spec.n_cols) :
    ∃ row : HarmonicIndex Nx Ny → K,
      mGetRowFromSpectrumForConvolution spec p q = some row ∧
      ∀ j : HarmonicIndex Nx Ny, row j = spec.elem
        ((((spec.n_rows - 1) / 2 : ℕ) : ℤ) + q
          - vectoriseT (SystemParameterCreator.mBuildGrids Nx Ny).2 j).toNat
        ((((spec.n_cols - 1) / 2 : ℕ) : ℤ) + p
          - vectoriseT (SystemParameterCreator.mBuildGrids Nx Ny).1 j).toNat := by
  refine ⟨_, by simp only [mGetRowFromSpectrumForConvolution]; rw [if_pos hwin], ?_⟩
  intro j
  obtain ⟨hp, hq⟩ := vectoriseT_mBuildGrids Nx Ny j
  obtain ⟨hr1, hr2⟩ := rev_div_mod j
  obtain ⟨hs1, hs2⟩ := finProdFinEquiv_symm_val (Fin.rev j)
  have hc : 0 < 2 * Nx + 1 := by omega
  have ha : (j : ℕ) / (2 * Nx + 1) < 2 * Ny + 1 := (Nat.div_lt_iff_lt_mul hc).mpr j.isLt
  have hb : (j : ℕ) % (2 * Nx + 1) < 2 * Nx + 1 := Nat.mod_lt _ hc
  rw [hp, hq]
  simp only [vectoriseT, Matrix.of_apply, hs1, hs2, hr1, hr2]
  congr 2 <;> omega

/-- The convolution operator of a profile that is no scalar, when every window
lies inside the centred spectrum `spec`: the entry `(i, j)` is the spectrum at
the harmonic difference `(q_i - q_j, p_i - p_j)` from the centre. -/
theorem mBuildConvolutionMatrixFromErUr_entries (lib : Numerics R K Nx Ny)
    (system : SystemParameters R K Nx Ny)
    (hp : system.pGrid = (SystemParameterCreator.mBuildGrids Nx Ny).1)
    (hq : system.qGrid = (SystemParameterCreator.mBuildGrids Nx Ny).2)
    (eRuR : ArmaMat K) (hsize : ¬ (eRuR.n_rows = 1 ∧ eRuR.n_cols = 1))
    (spec : ArmaMat K)
    (hspec : spec = mFftShift2
      { n_rows := (lib.fft2 eRuR).n_rows
        n_cols := (lib.fft2 eRuR).n_cols
        elem := fun r c => (lib.fft2 eRuR).elem r c / ((eRuR.n_rows * eRuR.n_cols : ℕ) : K) })
    (hwin : ∀ i : HarmonicIndex Nx Ny,
      0 ≤ (((spec.n_rows - 1) / 2 : ℕ) : ℤ)
          + vectoriseT (SystemParameterCreator.mBuildGrids Nx Ny).2 i - Ny ∧
      0 ≤ (((spec.n_cols - 1) / 2 : ℕ) : ℤ)
          + vectoriseT (SystemParameterCreator.mBuildGrids Nx Ny).1 i - Nx ∧
      (((spec.n_rows - 1) / 2 : ℕ) : ℤ)
          + vectoriseT (SystemParameterCreator.mBuildGrids Nx Ny).2 i + Ny < spec.n_rows ∧
      (((spec.n_cols - 1) / 2 : ℕ) : ℤ)
          + vectoriseT (SystemParameterCreator.mBuildGrids Nx Ny).1 i + Nx < spec.n_cols) :
    ∃ M : Matrix (HarmonicIndex Nx Ny) (HarmonicIndex Nx Ny) K,
      mBuildConvolutionMatrixFromErUr lib system eRuR = some M ∧
      ∀ i j, M i j = spec.elem
        ((((spec.n_rows - 1) / 2 : ℕ) : ℤ)
          + vectoriseT (SystemParameterCreator.mBuildGrids Nx Ny).2 i
          - vectoriseT (SystemParameterCreator.mBuildGrids Nx Ny).2 j).toNat
        ((((spec.n_cols - 1) / 2 : ℕ) : ℤ)
          + vectoriseT (SystemParameterCreator.mBuildGrids Nx Ny).1 i
          - vectoriseT (SystemParameterCreator.mBuildGrids Nx Ny).1 j).toNat := by
  have hrow : ∀ i : HarmonicIndex Nx Ny, ∃ row : HarmonicIndex Nx Ny → K,
      mGetRowFromSpectrumForConvolution spec
        (vectoriseT (SystemParameterCreator.mBuildGrids Nx Ny).1 i)
        (vectoriseT (SystemParameterCreator.mBuildGrids Nx Ny).2 i) = some row ∧
      ∀ j : HarmonicIndex Nx Ny, row j = spec.elem
        ((((spec.n_rows - 1) / 2 : ℕ) : ℤ)
          + vectoriseT (SystemParameterCreator.mBuildGrids Nx Ny).2 i
          - vectoriseT (SystemParameterCreator.mBuildGrids Nx Ny).2 j).toNat
        ((((spec.n_cols - 1) / 2 : ℕ) : ℤ)
          + vectoriseT (SystemParameterCreator.mBuildGrids Nx Ny).1 i
          - vectoriseT (SystemParameterCreator.mBuildGrids Nx Ny).1 j).toNat :=
    fun i => mGetRowFromSpectrumForConvolution_entries spec _ _ (hwin i)
  have hall : ∀ i : HarmonicIndex Nx Ny, (mGetRowFromSpectrumForConvolution spec
      (vectoriseT (SystemParameterCreator.mBuildGrids Nx Ny).1 i)
      (vectoriseT (SystemParameterCreator.mBuildGrids Nx Ny).2 i) :
        Option (HarmonicIndex Nx Ny → K)).isSome := by
    intro i
    obtain ⟨row, hr, -⟩ := hrow i
    rw [hr]
    rfl
  subst hspec
  have hall' : ∀ i : HarmonicIndex Nx Ny, (mGetRowFromSpectrumForConvolution
      (mFftShift2
        { n_rows := (lib.fft2 eRuR).n_rows
          n_cols := (lib.fft2 eRuR).n_cols
          elem := fun r c =>
            (lib.fft2 eRuR).elem r c / ((eRuR.n_rows * eRuR.n_cols : ℕ) : K) })
      (vectoriseT system.pGrid i) (vectoriseT system.qGrid i) :
        Option (HarmonicIndex Nx Ny → K)).isSome := by
    intro i
    rw [hp, hq]
    exact hall i
  unfold mBuildConvolutionMatrixFromErUr
  rw [if_neg hsize]
  simp only []
  rw [dif_pos hall']
  refine ⟨_, rfl, ?_⟩
  intro i j
  obtain ⟨row, hr, hj⟩ := hrow i
  rw [← hp, ← hq] at hr
  rw [Matrix.of_apply, ← hj j]
  exact congrFun (Option.get_of_mem _ hr) j

omit [DecidableEq K] in
/-- The spectrum that `mFftShift2` centres has its zero frequency in the middle. -/
theorem mFftShift2_centre (a : ArmaMat K) (hr : 0 < a.n_rows) (hc : 0 < a.n_cols) :
    (mFftShift2 a).elem ((a.n_rows - 1) / 2) ((a.n_cols - 1) / 2) = a.elem 0 0 := by
  have h1 : ((a.n_rows - 1) / 2 + a.n_rows - (a.n_rows - 1) / 2 % a.n_rows) % a.n_rows = 0 := by
    rw [Nat.mod_eq_of_lt (by omega : (a.n_rows - 1) / 2 < a.n_rows)]
    have : (a.n_rows - 1) / 2 + a.n_rows - (a.n_rows - 1) / 2 = a.n_rows := by omega
    rw [this, Nat.mod_self]
  have h2 : ((a.n_cols - 1) / 2 + a.n_cols - (a.n_cols - 1) / 2 % a.n_cols) % a.n_cols = 0 := by
    rw [Nat.mod_eq_of_lt (by omega : (a.n_cols - 1) / 2 < a.n_cols)]
    have : (a.n_cols - 1) / 2 + a.n_cols - (a.n_cols - 1) / 2 = a.n_cols := by omega
    rw [this, Nat.mod_self]
  simp only [mFftShift2, h1, h2]

end EigenValuesVectors

/-! ## Efficiencies over diagonal wavevector matrices -/

section EfficiencyDiagonal

variable {R K : Type} [LinearOrderedField R] [Field K] [DecidableEq K] {Nx Ny : ℕ}

theorem armaInv_diagonal {ι : Type} [Fintype ι] [DecidableEq ι] (d : ι → K)
    (hd : ∀ i, d i ≠ 0) :
    armaInv (Matrix.diagonal d) = some (Matrix.diagonal fun i => (d i)⁻¹) := by
  apply armaInv_eq_some_iff.mpr
  have h : (fun i => d i * (d i)⁻¹) = fun _ => (1 : K) :=
    funext fun i => mul_inv_cancel₀ (hd i)
  rw [Matrix.diagonal_mul_diagonal, h, Matrix.diagonal_one]

/-- The prefactor matrix `real(kz / ur) / down` of a diagonal `kz` is diagonal. -/
theorem pre_diagonal (lib : Numerics R K Nx Ny) (hre : lib.real 0 = 0)
    (kz : HarmonicIndex Nx Ny → K) (ur : K) (down : R) :
    (((Matrix.diagonal kz).map (· / ur)).map lib.real).map (· / down)
      = Matrix.diagonal fun i => lib.real (kz i / ur) / down := by
  ext i j
  by_cases hij : i = j
  · subst hij
    simp only [Matrix.map_apply, Matrix.diagonal_apply_eq]
  · simp only [Matrix.map_apply, Matrix.diagonal_apply_ne _ hij, zero_div, hre]

theorem pre_neg_diagonal (lib : Numerics R K Nx Ny) (hre : lib.real 0 = 0)
    (kz : HarmonicIndex Nx Ny → K) (ur : K) (down : R) :
    ((-((Matrix.diagonal kz).map (· / ur))).map lib.real).map (· / down)
      = Matrix.diagonal fun i => lib.real (-(kz i / ur)) / down := by
  ext i j
  by_cases hij : i = j
  · subst hij
    simp only [Matrix.map_apply, Matrix.neg_apply, Matrix.diagonal_apply_eq]
  · simp only [Matrix.map_apply, Matrix.neg_apply, Matrix.diagonal_apply_ne _ hij, zero_div,
      neg_zero, hre]

/-- `calculateAndFillDiffractionEfficiency` over diagonal `kxNorm`, `kyNorm`,
`kzRefNorm`, `kzTrnNorm` with no zero in the two `kz` diagonals. -/
theorem calculateAndFillDiffractionEfficiency_diagonal (lib : Numerics R K Nx Ny)
    (hre : lib.real 0 = 0) (system : SystemParameters R K Nx Ny)
    (kx ky kzRef kzTrn : HarmonicIndex Nx Ny → K)
    (hkx : system.kxNorm = Matrix.diagonal kx) (hky : system.kyNorm = Matrix.diagonal ky)
    (hkzRef : system.kzRefNorm = Matrix.diagonal kzRef)
    (hkzTrn : system.kzTrnNorm = Matrix.diagonal kzTrn)
    (hRef : ∀ i, kzRef i ≠ 0) (hTrn : ∀ i, kzTrn i ≠ 0)
    (S : ScatterMatrix (ModeIndex Nx Ny) K) (cInc : ModeIndex Nx Ny → K) :
    calculateAndFillDiffractionEfficiency lib system S cInc = some
      (reshapeT fun i =>
        100 * (lib.real (kzTrn i / system.param.urTrn)
            / lib.real (system.param.kzInc / lib.ofReal system.param.k0 / system.param.urRef))
          * (lib.abs (S.s21.mulVec cInc (Sum.inl i)) ^ 2
            + lib.abs (S.s21.mulVec cInc (Sum.inr i)) ^ 2
            + lib.abs (-(kzTrn i)⁻¹ * (kx i * S.s21.mulVec cInc (Sum.inl i)
                + ky i * S.s21.mulVec cInc (Sum.inr i))) ^ 2),
       reshapeT fun i =>
        100 * (lib.real (-(kzRef i / system.param.urRef))
            / lib.real (system.param.kzInc / lib.ofReal system.param.k0 / system.param.urRef))
          * (lib.abs (S.s11.mulVec cInc (Sum.inl i)) ^ 2
            + lib.abs (S.s11.mulVec cInc (Sum.inr i)) ^ 2
            + lib.abs (-(kzRef i)⁻¹ * (kx i * S.s11.mulVec cInc (Sum.inl i)
                + ky i * S.s11.mulVec cInc (Sum.inr i))) ^ 2)) := by
  simp only [calculateAndFillDiffractionEfficiency, hkx, hky, hkzRef, hkzTrn,
    armaInv_diagonal _ hRef, armaInv_diagonal _ hTrn, bind, pure, Option.some_bind,
    pre_diagonal lib hre, pre_neg_diagonal lib hre]
  refine congrArg some (congrArg₂ Prod.mk (congrArg reshapeT (funext fun i => ?_))
    (congrArg reshapeT (funext fun i => ?_)))
  · simp only [Matrix.smul_mulVec_assoc, Pi.smul_apply, Matrix.mulVec_diagonal, smul_eq_mul,
      Matrix.neg_mulVec, Pi.neg_apply, Pi.add_apply, neg_mul, mul_assoc]
  · simp only [Matrix.smul_mulVec_assoc, Pi.smul_apply, Matrix.mulVec_diagonal, smul_eq_mul,
      Matrix.neg_mulVec, Pi.neg_apply, Pi.add_apply, neg_mul, mul_assoc]

end EfficiencyDiagonal

/-! ## The homogeneous layer over diagonal `Kx`, `Ky` -/

namespace EigenValuesVectors

variable {R K : Type} [LinearOrderedField R] [Field K] [DecidableEq K] {Nx Ny : ℕ}

/-- `Omega^2 = P * Q` of a homogeneous layer (`Erc = e I`, `Urc = u I`) over
diagonal `Kx`, `Ky` is the diagonal matrix of `kx_i^2 + ky_i^2 - e u`, twice. -/
theorem mBuildQPOmega2_homogeneous (system : SystemParameters R K Nx Ny)
    (kx ky : HarmonicIndex Nx Ny → K)
    (hkx : system.kxNorm = Matrix.diagonal kx) (hky : system.kyNorm = Matrix.diagonal ky)
    {e u : K} (he : e ≠ 0) (hu : u ≠ 0) :
    ∃ Q P : Matrix (ModeIndex Nx Ny) (ModeIndex Nx Ny) K,
      mBuildQPOmega2 system (e • 1) (u • 1) = some (Q, P, P * Q) ∧
      P * Q = Matrix.diagonal (Sum.elim (fun i => kx i ^ 2 + ky i ^ 2 - e * u)
        (fun i => kx i ^ 2 + ky i ^ 2 - e * u)) := by
  refine ⟨mCombineMatrix (system.kxNorm * u⁻¹ • 1 * system.kyNorm)
      (e • 1 - system.kxNorm * u⁻¹ • 1 * system.kxNorm)
      (system.kyNorm * u⁻¹ • 1 * system.kyNorm - e • 1)
      (-system.kyNorm * u⁻¹ • 1 * system.kxNorm),
    mCombineMatrix (system.kxNorm * e⁻¹ • 1 * system.kyNorm)
      (u • 1 - system.kxNorm * e⁻¹ • 1 * system.kxNorm)
      (system.kyNorm * e⁻¹ • 1 * system.kyNorm - u • 1)
      (-system.kyNorm * e⁻¹ • 1 * system.kxNorm), ?_, ?_⟩
  · simp only [mBuildQPOmega2, armaInv_smul_one he, armaInv_smul_one hu, bind, pure,
      Option.some_bind]
  · simp only [mCombineMatrix, hkx, hky, Matrix.smul_one_eq_diagonal,
      Matrix.diagonal_mul_diagonal, Matrix.diagonal_sub, Matrix.diagonal_neg,
      Matrix.fromBlocks_multiply, Matrix.diagonal_add]
    have h01 : (fun i => kx i * e⁻¹ * ky i * (e - kx i * u⁻¹ * kx i)
        + (u - kx i * e⁻¹ * kx i) * (-ky i * u⁻¹ * kx i)) = fun _ => (0 : K) := by
      funext i
      field_simp
      ring
    have h10 : (fun i => (ky i * e⁻¹ * ky i - u) * (kx i * u⁻¹ * ky i)
        + -ky i * e⁻¹ * kx i * (ky i * u⁻¹ * ky i - e)) = fun _ => (0 : K) := by
      funext i
      field_simp
      ring
    have h00 : (fun i => kx i * e⁻¹ * ky i * (kx i * u⁻¹ * ky i)
        + (u - kx i * e⁻¹ * kx i) * (ky i * u⁻¹ * ky i - e))
        = fun i => kx i ^ 2 + ky i ^ 2 - e * u := by
      funext i
      field_simp
      ring
    have h11 : (fun i => (ky i * e⁻¹ * ky i - u) * (e - kx i * u⁻¹ * kx i)
        + -ky i * e⁻¹ * kx i * (-ky i * u⁻¹ * kx i))
        = fun i => kx i ^ 2 + ky i ^ 2 - e * u := by
      funext i
      field_simp
      ring
    rw [h00, h01, h10, h11, Matrix.diagonal_zero, Matrix.fromBlocks_diagonal]

/-- `mBuildVWLam` when `isDiagonal` holds: `eig_gen` is not called. -/
theorem mBuildVWLam_of_isDiagonal (lib : Numerics R K Nx Ny)
    (system : SystemParameters R K Nx Ny) (li : R)
    (Q mOmega2 : Matrix (ModeIndex Nx Ny) (ModeIndex Nx Ny) K)
    (hacc : (∑ i, ∑ j, lib.abs (mOmega2 i j)) - ∑ i, lib.abs (mOmega2 i i) < 1 / 10 ^ 9) :
    mBuildVWLam lib system li Q mOmega2
      = if mCheckForKzZero lib mOmega2 then none
        else (armaInv (mSignConventionSqrt lib (Matrix.diagonal fun i => mOmega2 i i))).bind
          fun lamInv => some (Q * 1 * lamInv, 1,
            mSignConventionSqrt lib (Matrix.diagonal fun i => mOmega2 i i),
            (-(mSignConventionSqrt lib (Matrix.diagonal fun i => mOmega2 i i))).map
              (· * lib.ofReal system.param.k0 * lib.ofReal li)) := by
  simp only [mBuildVWLam, hacc, decide_True, if_true, bind, pure]
  cases hc : mCheckForKzZero lib mOmega2
  · simp only [Bool.false_eq_true, if_false, Option.some_bind]
  · simp only [if_true, Option.none_bind]

end EigenValuesVectors

/-! ## The residual lookup over the cumulative thicknesses -/

section Residual

variable {R : Type} [LinearOrderedField R] [FloorRing R]

namespace VolumeHologram3D

end VolumeHologram3D

/-- `mBuildGrid` in periodic mode: the slice thickness is `|pi2 / g_z|` over
`dimZ` (the source writes `std::abs` here), and nothing else of the writer
changes. -/
theorem HoeWriter.mBuildGrid_periodic_mDz (pi2 : R) (w : HoeWriter R)
    (hper : w.mWriterParameter.stepsPerCycle = true)
    (hg : ¬ |w.mGratingVectorRot 2| < 1 / 10 ^ 8) :
    (w.mBuildGrid pi2).map Prod.fst
      = some { w with mDz := |pi2 / w.mGratingVectorRot 2| / w.mWriterParameter.dimZ } := by
  unfold HoeWriter.mBuildGrid
  simp only [hper, if_true, hg, if_false, bind, pure, Option.some_bind]
  by_cases h0 : |w.mGratingVectorRot 0| < 1 / 10 ^ 8
  · simp only [h0, if_true, Option.map_some']
  · simp only [h0, if_false, Option.map_some']

/-- `mBuildGrid` in periodic mode, where the unqualified `abs` of
`getCycleLengthZDirection` is `std::abs`: the slice thickness is the z period
of the grating over `dimZ`. -/
theorem HoeWriter.mBuildGrid_periodic (pi2 : R) (hpi : 0 ≤ pi2) (w : HoeWriter R)
    (hper : w.mWriterParameter.stepsPerCycle = true)
    (hg : ¬ |w.mGratingVectorRot 2| < 1 / 10 ^ 8) :
    (w.mBuildGrid pi2).map Prod.fst
      = some { w with
          mDz := w.getCycleLengthZDirection stdAbs pi2 / w.mWriterParameter.dimZ } := by
  rw [HoeWriter.mBuildGrid_periodic_mDz pi2 w hper hg]
  unfold HoeWriter.getCycleLengthZDirection stdAbs
  simp only [abs_div, abs_of_nonneg hpi]

end Residual

/-! ## The window of the spectrum -/

namespace EigenValuesVectors

variable {K : Type} {Nx Ny : ℕ}

/-- `submat` inside `mGetRowFromSpectrumForConvolution` succeeds exactly when
the window lies inside the spectrum. -/
theorem mGetRowFromSpectrumForConvolution_isSome_iff (spec : ArmaMat K) (p q : ℤ) :
    (mGetRowFromSpectrumForConvolution spec p q : Option (HarmonicIndex Nx Ny → K)).isSome ↔
      (0 ≤ (((spec.n_rows - 1) / 2 : ℕ) : ℤ) + q - Ny ∧
        0 ≤ (((spec.n_cols - 1) / 2 : ℕ) : ℤ) + p - Nx ∧
        (((spec.n_rows - 1) / 2 : ℕ) : ℤ) + q + Ny < spec.n_rows ∧
        (((spec.n_cols - 1) / 2 : ℕ) : ℤ) + p + Nx < spec.n_cols) := by
  unfold mGetRowFromSpectrumForConvolution
  simp only []
  split_ifs with h
  · simp only [Option.isSome_some, true_iff]
    exact h
  · simp only [Option.isSome_none, Bool.false_eq_true, false_iff]
    exact h

/-- Every window over the grid of `mBuildGrids` lies inside the spectrum
exactly when twice the harmonic orders reach no further than the centre. -/
theorem windows_inside_iff (Nx Ny : ℕ) (spec : ArmaMat K) :
    (∀ i : HarmonicIndex Nx Ny, (mGetRowFromSpectrumForConvolution spec
        (vectoriseT (SystemParameterCreator.mBuildGrids Nx Ny).1 i)
        (vectoriseT (SystemParameterCreator.mBuildGrids Nx Ny).2 i) :
          Option (HarmonicIndex Nx Ny → K)).isSome) ↔
      (2 * (Nx : ℤ) ≤ ((spec.n_cols : ℤ) - 1) / 2 ∧
        2 * (Ny : ℤ) ≤ ((spec.n_rows : ℤ) - 1) / 2) := by
  have hc : 0 < 2 * Nx + 1 := by omega
  constructor
  · intro h
    have h0 := h ⟨0, Nat.mul_pos (by omega) hc⟩
    rw [mGetRowFromSpectrumForConvolution_isSome_iff] at h0
    obtain ⟨hp, hq⟩ := vectoriseT_mBuildGrids Nx Ny ⟨0, Nat.mul_pos (by omega) hc⟩
    rw [hp, hq] at h0
    simp only [Nat.zero_mod, Nat.zero_div, Nat.cast_zero, zero_sub] at h0
    omega
  · rintro ⟨hx, hy⟩ i
    rw [mGetRowFromSpectrumForConvolution_isSome_iff]
    obtain ⟨hp, hq⟩ := vectoriseT_mBuildGrids Nx Ny i
    rw [hp, hq]
    have ha : (i : ℕ) / (2 * Nx + 1) < 2 * Ny + 1 := (Nat.div_lt_iff_lt_mul hc).mpr i.isLt
    have hb : (i : ℕ) % (2 * Nx + 1) < 2 * Nx + 1 := Nat.mod_lt _ hc
    generalize (i : ℕ) / (2 * Nx + 1) = a at ha
    generalize (i : ℕ) % (2 * Nx + 1) = b at hb
    omega

end EigenValuesVectors

/-! ## Setting the writer parameters -/

namespace HoeWriter

variable {R : Type} [LinearOrderedField R] [FloorRing R]

/-- `mBuildGrid` outside the periodic mode never throws and only assigns
`mDz`. -/
theorem mBuildGrid_of_not_stepsPerCycle (pi2 : R) (w : HoeWriter R)
    (h : w.mWriterParameter.stepsPerCycle = false) :
    ∃ grid : ArmaMat R, w.mBuildGrid pi2
      = some ({ w with mDz := w.mWriterParameter.thickness / w.mWriterParameter.dimZ }, grid) := by
  unfold mBuildGrid
  simp only [h, Bool.false_eq_true, if_false, bind, pure, Option.some_bind]
  by_cases h0 : |w.mGratingVectorRot 0| < 1 / 10 ^ 8
  · simp only [h0, if_true]
    exact ⟨_, rfl⟩
  · simp only [h0, if_false]
    exact ⟨_, rfl⟩

/-- `mBuildGrid`, when it returns, only assigns `mDz`. -/
theorem mBuildGrid_eq_some (pi2 : R) (w w' : HoeWriter R) (grid : ArmaMat R)
    (h : w.mBuildGrid pi2 = some (w', grid)) : w' = { w with mDz := w'.mDz } := by
  unfold mBuildGrid at h
  simp only [bind, pure] at h
  split_ifs at h
  all_goals first
    | (cases h; rfl)
    | cases h

/-- `mBuildMe` outside the periodic mode: the exponent 0 is appended to the
list that the writer already holds, and the residual is NaN. -/
theorem mBuildMe_of_not_stepsPerCycle (m : CMathWriter R) (pi2 degToRad : R) (w : HoeWriter R)
    (h : w.mWriterParameter.stepsPerCycle = false) :
    ∃ (w1 : HoeWriter R) (grid : ArmaMat R), mBuildMe m pi2 degToRad w = some (w1, grid) ∧
      w1.mWriterParameter = w.mWriterParameter ∧
      w1.mThicknessInPowerOfTwoCycles = w.mThicknessInPowerOfTwoCycles ++ [0] ∧
      w1.mThicknessRest = none := by
  have h1 : (mBuildAngleCoordinateRotation m degToRad
      (mBuildGratingVectors m pi2 degToRad w)).mWriterParameter.stepsPerCycle = false := h
  obtain ⟨grid, hgrid⟩ := mBuildGrid_of_not_stepsPerCycle pi2 _ h1
  refine ⟨{ mBuildAngleCoordinateRotation m degToRad (mBuildGratingVectors m pi2 degToRad w) with
      mDz := w.mWriterParameter.thickness / w.mWriterParameter.dimZ
      mThicknessInPowerOfTwoCycles := w.mThicknessInPowerOfTwoCycles ++ [0]
      mThicknessRest := none }, grid, ?_, ?_, ?_, ?_⟩
  · unfold mBuildMe
    simp only [bind, pure]
    rw [hgrid]
    simp only [Option.some_bind, mBuildThicknessInPowerOfTwoCycles, mBuildThicknessRest,
      mBuildAngleCoordinateRotation, mBuildGratingVectors, h, Bool.not_false, if_true]
  · rfl
  · rfl
  · rfl

/-- In periodic mode the step `mBuildThicknessInPowerOfTwoCycles`, when it
returns, only changes the exponent list, and the powers of two of the new list
add up to those of the list the writer held before plus
`n = int(thickness / period)`. -/
theorem mBuildThicknessInPowerOfTwoCycles_sum_any (cabs : R → R) (pi2 : R) (w w' : HoeWriter R)
    (hsteps : w.mWriterParameter.stepsPerCycle = true)
    (h : w.mBuildThicknessInPowerOfTwoCycles cabs pi2 = some w') :
    ∃ n : ℤ, 0 ≤ n ∧
      doubleToInt (w.mWriterParameter.thickness / w.getCycleLengthZDirection cabs pi2) = some n ∧
      w' = { w with mThicknessInPowerOfTwoCycles := w'.mThicknessInPowerOfTwoCycles } ∧
      (((w'.mThicknessInPowerOfTwoCycles.map (2 ^ ·)).sum : ℕ) : ℤ)
        = (((w.mThicknessInPowerOfTwoCycles.map (2 ^ ·)).sum : ℕ) : ℤ) + n := by
  unfold mBuildThicknessInPowerOfTwoCycles at h
  simp only [hsteps, Bool.not_true, Bool.false_eq_true, if_false, bind] at h
  cases hc : doubleToInt (w.mWriterParameter.thickness / w.getCycleLengthZDirection cabs pi2) with
  | none =>
    rw [hc] at h
    cases h
  | some n =>
    rw [hc, Option.some_bind] at h
    by_cases hn0 : n = 0
    · rw [if_pos hn0] at h
      cases h
      exact ⟨0, le_rfl, by rw [hn0], rfl, by simp⟩
    · rw [if_neg hn0] at h
      by_cases hneg : n < 0
      · rw [if_pos hneg] at h
        cases h
      · rw [if_neg hneg] at h
        cases h
        obtain ⟨l, hl, -, -, hsum⟩ :=
          powerOfTwoLoop_spec n.toNat (by omega) w.mThicknessInPowerOfTwoCycles
        refine ⟨n, by omega, rfl, rfl, ?_⟩
        simp only []
        rw [sum_map_two_pow_perm (List.perm_insertionSort (· ≤ ·) _), hl, List.map_append,
          List.sum_append, hsum]
        push_cast
        omega

/-- The period that `mBuildGratingVectors` leaves depends on the parameters
only, not on the rest of the writer. -/
theorem getCycleLengthZDirection_mBuildGratingVectors (m : CMathWriter R) (pi2 degToRad : R)
    (w w' : HoeWriter R) (q : HoeWriterParameter R) :
    (mBuildGratingVectors m pi2 degToRad { w with mWriterParameter := q }).getCycleLengthZDirection
        m.abs pi2
      = (mBuildGratingVectors m pi2 degToRad
          { w' with mWriterParameter := q }).getCycleLengthZDirection m.abs pi2 :=
  rfl

/-- `setWriterParameter` in periodic mode, when it returns: the exponents of
`n = int(thickness / period)` are added to the list the writer held before,
and the residual is taken over the whole list. -/
theorem setWriterParameter_periodic (m : CMathWriter R) (pi2 degToRad : R)
    (w w1 : HoeWriter R) (g1 : ArmaMat R) (q : HoeWriterParameter R)
    (hsteps : q.stepsPerCycle = true)
    (h : setWriterParameter m pi2 degToRad w q = some (w1, g1)) :
    ∃ n : ℤ, 0 ≤ n ∧
      doubleToInt (q.thickness / (mBuildGratingVectors m pi2 degToRad
        { w with mWriterParameter := q }).getCycleLengthZDirection m.abs pi2) = some n ∧
      w1.mWriterParameter = q ∧
      (((w1.mThicknessInPowerOfTwoCycles.map (2 ^ ·)).sum : ℕ) : ℤ)
        = (((w.mThicknessInPowerOfTwoCycles.map (2 ^ ·)).sum : ℕ) : ℤ) + n ∧
      w1.mThicknessRest = some (q.thickness
        - (((w1.mThicknessInPowerOfTwoCycles.map (2 ^ ·)).sum : ℕ) : R)
          * (mBuildGratingVectors m pi2 degToRad
            { w with mWriterParameter := q }).getCycleLengthZDirection m.abs pi2) := by
  unfold setWriterParameter mBuildMe at h
  simp only [bind, pure] at h
  rcases Option.bind_eq_some.mp h with ⟨⟨wg, grid⟩, hgrid, h2⟩
  rcases Option.bind_eq_some.mp h2 with ⟨wp, hpow, h3⟩
  simp only [Option.some.injEq, Prod.mk.injEq] at h3
  have hwg : wg = { mBuildAngleCoordinateRotation m degToRad
      (mBuildGratingVectors m pi2 degToRad { w with mWriterParameter := q }) with
        mDz := wg.mDz } := by
    exact mBuildGrid_eq_some pi2 _ wg grid hgrid
  have hstepsg : wg.mWriterParameter.stepsPerCycle = true := by
    rw [hwg]
    exact hsteps
  obtain ⟨n, hn0, hconv, hwp, hsum⟩ :=
    mBuildThicknessInPowerOfTwoCycles_sum_any m.abs pi2 wg wp hstepsg hpow
  have hlen : wg.getCycleLengthZDirection m.abs pi2 = (mBuildGratingVectors m pi2 degToRad
      { w with mWriterParameter := q }).getCycleLengthZDirection m.abs pi2 := by
    rw [hwg]
    rfl
  have hpar : wg.mWriterParameter = q := by
    rw [hwg]
    rfl
  have hlist : wg.mThicknessInPowerOfTwoCycles = w.mThicknessInPowerOfTwoCycles := by
    rw [hwg]
    rfl
  have hwpp : wp.mWriterParameter = q := by
    rw [hwp]
    exact hpar
  have hwpl : wp.getCycleLengthZDirection m.abs pi2 = (mBuildGratingVectors m pi2 degToRad
      { w with mWriterParameter := q }).getCycleLengthZDirection m.abs pi2 := by
    rw [hwp]
    exact hlen
  refine ⟨n, hn0, ?_, ?_, ?_, ?_⟩
  · rw [← hlen, ← hpar]
    exact hconv
  · rw [← h3.1]
    simp only [mBuildThicknessRest, hwpp, hsteps, Bool.not_true, Bool.false_eq_true, if_false]
  · rw [← h3.1, ← hlist]
    simp only [mBuildThicknessRest, hwpp, hsteps, Bool.not_true, Bool.false_eq_true, if_false]
    exact hsum
  · rw [← h3.1]
    simp only [mBuildThicknessRest, hwpp, hsteps, Bool.not_true, Bool.false_eq_true, if_false,
      foldl_add_two_pow, zero_add, hwpl]

/-- The rotated grating vector that `mBuildGratingVectors` leaves depends on
the parameters only. -/
theorem mGratingVectorRot_mBuildGratingVectors (m : CMathWriter R) (pi2 degToRad : R)
    (w w' : HoeWriter R) (q : HoeWriterParameter R) :
    (mBuildGratingVectors m pi2 degToRad { w with mWriterParameter := q }).mGratingVectorRot
      = (mBuildGratingVectors m pi2 degToRad { w' with mWriterParameter := q }).mGratingVectorRot :=
  rfl

/-- `setWriterParameter` in periodic mode returns when the z component of the
new grating vector passes the guard of `mBuildGrid` and
`n = int(thickness / period)` is positive: the exponents of `n` join the list
that the writer held, and the residual is taken over the whole list. -/
theorem setWriterParameter_periodic_eq (m : CMathWriter R) (pi2 degToRad : R)
    (w : HoeWriter R) (q : HoeWriterParameter R) (n : ℤ)
    (hsteps : q.stepsPerCycle = true)
    (hg : ¬ |(mBuildGratingVectors m pi2 degToRad
      { w with mWriterParameter := q }).mGratingVectorRot 2| < 1 / 10 ^ 8)
    (hconv : doubleToInt (q.thickness / (mBuildGratingVectors m pi2 degToRad
      { w with mWriterParameter := q }).getCycleLengthZDirection m.abs pi2) = some n)
    (hn : 0 < n) :
    ∃ (w1 : HoeWriter R) (g1 : ArmaMat R),
      setWriterParameter m pi2 degToRad w q = some (w1, g1) ∧
      w1.mThicknessInPowerOfTwoCycles
        = (powerOfTwoLoop n.toNat w.mThicknessInPowerOfTwoCycles).insertionSort (· ≤ ·) ∧
      w1.mThicknessRest = some (q.thickness
        - (((w1.mThicknessInPowerOfTwoCycles.map (2 ^ ·)).sum : ℕ) : R)
          * (mBuildGratingVectors m pi2 degToRad
            { w with mWriterParameter := q }).getCycleLengthZDirection m.abs pi2) := by
  have hn0 : ¬ n = 0 := by omega
  have hneg : ¬ n < 0 := by omega
  cases hgrid : (mBuildAngleCoordinateRotation m degToRad (mBuildGratingVectors m pi2 degToRad
      { w with mWriterParameter := q })).mBuildGrid pi2 with
  | none =>
    exfalso
    unfold mBuildGrid at hgrid
    simp only [bind, pure] at hgrid
    have hs : (mBuildAngleCoordinateRotation m degToRad (mBuildGratingVectors m pi2 degToRad
      { w with mWriterParameter := q })).mWriterParameter.stepsPerCycle = true := hsteps
    have hg' : ¬ |(mBuildAngleCoordinateRotation m degToRad (mBuildGratingVectors m pi2
      degToRad { w with mWriterParameter := q })).mGratingVectorRot 2| < 1 / 10 ^ 8 := hg
    rw [if_pos hs, if_neg hg'] at hgrid
    cases hgrid
  | some r =>
    obtain ⟨wg, grid⟩ := r
    have hwg := mBuildGrid_eq_some pi2 _ wg grid hgrid
    have hpar : wg.mWriterParameter = q := by
      rw [hwg]
      rfl
    have hlen : wg.getCycleLengthZDirection m.abs pi2 = (mBuildGratingVectors m pi2 degToRad
        { w with mWriterParameter := q }).getCycleLengthZDirection m.abs pi2 := by
      rw [hwg]
      rfl
    have hlist : wg.mThicknessInPowerOfTwoCycles = w.mThicknessInPowerOfTwoCycles := by
      rw [hwg]
      rfl
    have hpow : wg.mBuildThicknessInPowerOfTwoCycles m.abs pi2 = some { wg with
        mThicknessInPowerOfTwoCycles :=
          (powerOfTwoLoop n.toNat wg.mThicknessInPowerOfTwoCycles).insertionSort (· ≤ ·) } := by
      unfold mBuildThicknessInPowerOfTwoCycles
      simp only [hpar, hsteps, Bool.not_true, Bool.false_eq_true, if_false, bind, hlen, hconv,
        Option.some_bind, hn0, hneg]
    refine ⟨mBuildThicknessRest m.abs pi2
      { wg with
        mThicknessInPowerOfTwoCycles :=
          (powerOfTwoLoop n.toNat wg.mThicknessInPowerOfTwoCycles).insertionSort (· ≤ ·) },
      grid, ?_, ?_, ?_⟩
    · unfold setWriterParameter mBuildMe
      simp only [bind, pure]
      rw [hgrid, Option.some_bind, hpow, Option.some_bind]
    · simp only [mBuildThicknessRest, hpar, hsteps, Bool.not_true, Bool.false_eq_true, if_false,
        hlist]
    · simp only [mBuildThicknessRest, hpar, hsteps, Bool.not_true, Bool.false_eq_true, if_false,
        foldl_add_two_pow, zero_add]
      rw [← hlen]
      rfl

end HoeWriter

/-! ## The fields of the run parameters that are read -/

namespace VolumeHologram3D

open ScatterMatrix

variable {ι R K : Type} [Fintype ι] [DecidableEq ι] [LinearOrderedField R] [FloorRing R]
  [Field K] [DecidableEq K] {Nx : ℕ}

omit [FloorRing R] [DecidableEq K] in
theorem mGetSystemParameter_erTrn_urTrn (lib : Numerics R K Nx 0) (cmath : CMath R)
    (pi2 degToRad : R) (mPram : VolumeHologram3DParameter R K) (erTrn urTrn : K)
    (writer : HoeWriter R) :
    mGetSystemParameter lib cmath pi2 degToRad { mPram with erTrn := erTrn, urTrn := urTrn } writer
      = mGetSystemParameter lib cmath pi2 degToRad mPram writer :=
  rfl

omit [FloorRing R] in
theorem accumulate_erTrn_urTrn (to_string : R → String) (mPram : VolumeHologram3DParameter R K)
    (erTrn urTrn : K) (dz : R) (allMatrices : StdMap (ScatterMatrix ι K)) :
    accumulate to_string { mPram with erTrn := erTrn, urTrn := urTrn } dz allMatrices
      = accumulate to_string mPram dz allMatrices :=
  rfl

omit [FloorRing R] in
theorem mCalcGlobalScatterMatrix_erTrn_urTrn (mPram : VolumeHologram3DParameter R K)
    (erTrn urTrn : K) (powerMatrix restMatrix : ScatterMatrix ι K)
    (accumulatedMatrices : StdMap (ScatterMatrix ι K)) :
    mCalcGlobalScatterMatrix { mPram with erTrn := erTrn, urTrn := urTrn } powerMatrix restMatrix
        accumulatedMatrices
      = mCalcGlobalScatterMatrix mPram powerMatrix restMatrix accumulatedMatrices :=
  rfl

/-- `calculateRCWA` does not read `erTrn` and `urTrn` of its parameters. -/
theorem calculateRCWA_erTrn_urTrn (lib : Numerics R K Nx 0) (cmath : CMath R)
    (pi2 degToRad : R) (to_string : R → String) (stod : String → Option R)
    (mPram : VolumeHologram3DParameter R K) (erTrn urTrn : K) (writer : HoeWriter R)
    (deviceCreator : DeviceCreator R K) :
    calculateRCWA lib cmath pi2 degToRad to_string stod
        { mPram with erTrn := erTrn, urTrn := urTrn } writer deviceCreator
      = calculateRCWA lib cmath pi2 degToRad to_string stod mPram writer deviceCreator := by
  unfold calculateRCWA mGetAccumulatedScatterMatrices
  simp only [mGetSystemParameter_erTrn_urTrn, accumulate_erTrn_urTrn,
    mCalcGlobalScatterMatrix_erTrn_urTrn]

/-- `mGetHoeWriter` does not read `erTrn` and `urTrn` of the parameters. -/
theorem mGetHoeWriter_erTrn_urTrn (m : CMathWriter R) (pi2 degToRad : R)
    (mPram : VolumeHologram3DParameter R K) (erTrn urTrn : K) :
    mGetHoeWriter m pi2 degToRad { mPram with erTrn := erTrn, urTrn := urTrn }
      = mGetHoeWriter m pi2 degToRad mPram :=
  rfl

end VolumeHologram3D

/-! ## The evaluator and its per-harmonic vectors -/

section EfficiencyVectors

variable {R K : Type} [LinearOrderedField R] [Field K] [DecidableEq K] {Nx Ny : ℕ}

/-- `calculateAndFillDiffractionEfficiency` is its per-harmonic vectors, each
laid out by `reshape(v, dimX, dimY).t()`. -/
theorem calculateAndFillDiffractionEfficiency_eq_reshapeT (lib : Numerics R K Nx Ny)
    (system : SystemParameters R K Nx Ny) (S : ScatterMatrix (ModeIndex Nx Ny) K)
    (cInc : ModeIndex Nx Ny → K) :
    calculateAndFillDiffractionEfficiency lib system S cInc
      = (diffractionEfficiencyVectors lib system S cInc).map
          fun p => (reshapeT p.1, reshapeT p.2) := by
  unfold calculateAndFillDiffractionEfficiency diffractionEfficiencyVectors
  simp only [bind, pure]
  cases armaInv system.kzRefNorm with
  | none => rfl
  | some a =>
    cases armaInv system.kzTrnNorm with
    | none => rfl
    | some b => rfl

/-- `calculateDiffractionEfficiency` through the per-harmonic vectors of the
two polarisations. -/
theorem calculateDiffractionEfficiency_eq_some (lib : Numerics R K Nx Ny)
    (system : SystemParameters R K Nx Ny) (S : ScatterMatrix (ModeIndex Nx Ny) K)
    (e : DiffractionEfficiency R Nx Ny)
    (h : calculateDiffractionEfficiency lib system S = some e) :
    ∃ tS rS tP rP : HarmonicIndex Nx Ny → R,
      diffractionEfficiencyVectors lib system S system.cIncSPol = some (tS, rS) ∧
      diffractionEfficiencyVectors lib system S system.cIncPPol = some (tP, rP) ∧
      e = { RS := reshapeT rS, RP := reshapeT rP, TS := reshapeT tS, TP := reshapeT tP } := by
  unfold calculateDiffractionEfficiency at h
  simp only [bind, pure, calculateAndFillDiffractionEfficiency_eq_reshapeT] at h
  cases hs : diffractionEfficiencyVectors lib system S system.cIncSPol with
  | none =>
    rw [hs] at h
    cases h
  | some s =>
    cases hp : diffractionEfficiencyVectors lib system S system.cIncPPol with
    | none =>
      rw [hs, hp] at h
      cases h
    | some p =>
      rw [hs, hp] at h
      simp only [Option.map_some', Option.some_bind, Option.some.injEq] at h
      exact ⟨s.1, s.2, p.1, p.2, rfl, rfl, h.symm⟩

end EfficiencyVectors

namespace VolumeHologram3D

variable {R K : Type} [LinearOrderedField R] [Field K] [DecidableEq K] {Nx : ℕ}

/-- The efficiencies that `calculateRCWA` returns are those of
`calculateDiffractionEfficiency` on the system of `mGetSystemParameter` and a
scatter matrix, the global matrix of the stack. -/
theorem calculateRCWA_eq_some (lib : Numerics R K Nx 0) (cmath : CMath R) (pi2 degToRad : R)
    (to_string : R → String) (stod : String → Option R)
    (mPram : VolumeHologram3DParameter R K) (writer : HoeWriter R)
    (deviceCreator : DeviceCreator R K) (e : DiffractionEfficiency R Nx 0)
    (h : calculateRCWA lib cmath pi2 degToRad to_string stod mPram writer deviceCreator
      = some e) :
    ∃ S : ScatterMatrix (ModeIndex Nx 0) K,
      calculateDiffractionEfficiency lib
        (mGetSystemParameter lib cmath pi2 degToRad mPram writer) S = some e := by
  unfold calculateRCWA at h
  simp only [bind] at h
  rcases Option.bind_eq_some.mp h with ⟨acc, -, h1⟩
  rcases Option.bind_eq_some.mp h1 with ⟨pw, -, h2⟩
  rcases Option.bind_eq_some.mp h2 with ⟨rm, -, h3⟩
  rcases Option.bind_eq_some.mp h3 with ⟨S, -, h4⟩
  exact ⟨S, h4⟩

end VolumeHologram3D

/-! ## The claims -/

section Claims

open ScatterMatrix

/-- C1. For every dimension `d` (in particular `d >= 1`) and every
ScatterMatrix `X` with `d x d` blocks, `redhefferStarProduct(Unity(d), X)` and
`redhefferStarProduct(X, Unity(d))` both return `X`, block for block, and
`Unity(d)` has `s11 = s22 = 0` and `s12 = s21 = I`. -/
theorem C1_unity_is_identity {K : Type} [Field K] [DecidableEq K] (d : ℕ)
    (X : ScatterMatrix (Fin d) K) :
    redhefferStarProduct (Unity : ScatterMatrix (Fin d) K) X = some X ∧
    redhefferStarProduct X (Unity : ScatterMatrix (Fin d) K) = some X ∧
    (Unity : ScatterMatrix (Fin d) K).s11 = 0 ∧ (Unity : ScatterMatrix (Fin d) K).s22 = 0 ∧
    (Unity : ScatterMatrix (Fin d) K).s12 = 1 ∧ (Unity : ScatterMatrix (Fin d) K).s21 = 1 :=
  ⟨Unity_redhefferStarProduct X, redhefferStarProduct_Unity X, rfl, rfl, rfl, rfl⟩

/-- C4. For `sa`, `sb` of equal block dimension with `I - sb.s11*sa.s22`
invertible, `redhefferStarProduct(sa, sb)` returns the four blocks of the
specification, written with the matrix inverses
`bracket1 = (I - sb.s11*sa.s22)^-1` and `bracket2 = (I - sa.s22*sb.s11)^-1`. -/
theorem C4_star_product_blocks {K : Type} [Field K] [DecidableEq K] (d : ℕ)
    (sa sb : ScatterMatrix (Fin d) K) (h : (1 - sb.s11 * sa.s22).det ≠ 0) :
    redhefferStarProduct sa sb = some
      { s11 := sa.s11 + sa.s12 * (1 - sb.s11 * sa.s22)⁻¹ * sb.s11 * sa.s21
        s12 := sa.s12 * (1 - sb.s11 * sa.s22)⁻¹ * sb.s12
        s21 := sb.s21 * (1 - sa.s22 * sb.s11)⁻¹ * sa.s21
        s22 := sb.s22 + sb.s21 * (1 - sa.s22 * sb.s11)⁻¹ * sa.s22 * sb.s12 } := by
  have h2 : (1 - sa.s22 * sb.s11).det ≠ 0 := by rwa [← det_bracket_comm]
  refine redhefferStarProduct_eq_some_iff.mpr ⟨_, _, ?_, ?_, ?_, rfl, rfl, ?_⟩
  · exact Matrix.mul_nonsing_inv _ (isUnit_iff_ne_zero.mpr h)
  · exact Matrix.mul_nonsing_inv _ (isUnit_iff_ne_zero.mpr h2)
  · simp only [Matrix.mul_assoc]
  · simp only [Matrix.mul_assoc]

/-- Witness of C4 on 1 x 1 blocks over the rationals. -/
theorem C4_star_product_blocks_witness :
    (1 - (⟨!![1 / 2], !![1], !![1], !![1 / 3]⟩ : ScatterMatrix (Fin 1) ℚ).s11 *
        (⟨!![1 / 5], !![1], !![1], !![1 / 7]⟩ : ScatterMatrix (Fin 1) ℚ).s22).det ≠ 0 ∧
    redhefferStarProduct (⟨!![1 / 5], !![1], !![1], !![1 / 7]⟩ : ScatterMatrix (Fin 1) ℚ)
        ⟨!![1 / 2], !![1], !![1], !![1 / 3]⟩ = some
      { s11 := !![1 / 5] + !![1] * (1 - !![1 / 2] * !![1 / 7])⁻¹ * !![1 / 2] * !![1]
        s12 := !![1] * (1 - !![1 / 2] * !![1 / 7])⁻¹ * !![1]
        s21 := !![1] * (1 - !![1 / 7] * !![1 / 2])⁻¹ * !![1]
        s22 := !![1 / 3] + !![1] * (1 - !![1 / 7] * !![1 / 2])⁻¹ * !![1 / 7] * !![1] } :=
  have h : (1 - (⟨!![1 / 2], !![1], !![1], !![1 / 3]⟩ : ScatterMatrix (Fin 1) ℚ).s11 *
        (⟨!![1 / 5], !![1], !![1], !![1 / 7]⟩ : ScatterMatrix (Fin 1) ℚ).s22).det ≠ 0 := by
    simp [Matrix.det_fin_one]
    norm_num
  ⟨h, C4_star_product_blocks 1 _ _ h⟩


/-- C2. The star product is associative: when `A * B` and `B * C` are defined
(their brackets `I - B.s11*A.s22` and `I - C.s11*B.s22` are invertible) and the
bracket of the outer product `(A * B) * C` is invertible, the bracket of
`A * (B * C)` is invertible as well and both bracketings return the same
ScatterMatrix. -/
theorem C2_star_product_assoc {K : Type} [Field K] [DecidableEq K] (d : ℕ)
    (A B C AB BC : ScatterMatrix (Fin d) K)
    (hAB : redhefferStarProduct A B = some AB) (hBC : redhefferStarProduct B C = some BC)
    (hL : (1 - C.s11 * AB.s22).det ≠ 0) :
    (1 - BC.s11 * A.s22).det ≠ 0 ∧
    ∃ L, redhefferStarProduct AB C = some L ∧ redhefferStarProduct A BC = some L ∧
      optStar (optStar (some A) (some B)) (some C) = optStar (some A) (optStar (some B) (some C)) := by
  obtain ⟨L, hLs⟩ := Option.isSome_iff_exists.mp (redhefferStarProduct_isSome_iff.mpr hL)
  have hR := redhefferStarProduct_assoc_right hAB hBC hLs
  refine ⟨redhefferStarProduct_isSome_iff.mp (by rw [hR]; rfl), L, hLs, hR, ?_⟩
  simp [optStar, hAB, hBC, hLs, hR]

/-- Witness of C2 on 1 x 1 blocks over the rationals, with `B` the identity. -/
theorem C2_star_product_assoc_witness :
    (1 - (⟨!![1 / 3], !![2], !![3], !![1 / 5]⟩ : ScatterMatrix (Fin 1) ℚ).s11 *
        (⟨!![1 / 2], !![5], !![7], !![1 / 4]⟩ : ScatterMatrix (Fin 1) ℚ).s22).det ≠ 0 ∧
    ∃ L, redhefferStarProduct (⟨!![1 / 2], !![5], !![7], !![1 / 4]⟩ : ScatterMatrix (Fin 1) ℚ)
          ⟨!![1 / 3], !![2], !![3], !![1 / 5]⟩ = some L ∧
      redhefferStarProduct (⟨!![1 / 2], !![5], !![7], !![1 / 4]⟩ : ScatterMatrix (Fin 1) ℚ)
          ⟨!![1 / 3], !![2], !![3], !![1 / 5]⟩ = some L ∧
      optStar (optStar (some (⟨!![1 / 2], !![5], !![7], !![1 / 4]⟩ : ScatterMatrix (Fin 1) ℚ))
          (some Unity)) (some ⟨!![1 / 3], !![2], !![3], !![1 / 5]⟩) =
        optStar (some ⟨!![1 / 2], !![5], !![7], !![1 / 4]⟩)
          (optStar (some Unity) (some ⟨!![1 / 3], !![2], !![3], !![1 / 5]⟩)) :=
  C2_star_product_assoc 1 ⟨!![1 / 2], !![5], !![7], !![1 / 4]⟩ Unity
    ⟨!![1 / 3], !![2], !![3], !![1 / 5]⟩ ⟨!![1 / 2], !![5], !![7], !![1 / 4]⟩
    ⟨!![1 / 3], !![2], !![3], !![1 / 5]⟩
    (redhefferStarProduct_Unity _) (Unity_redhefferStarProduct _)
    (by simp [Matrix.det_fin_one]; norm_num)

/-- C3. Periodic-doubling equivalence: for every `n >= 1` and every
full-period matrix `F`, when the exponent list of the writer is the set of
set-bit positions of `n` and the straight-line sequential star-combination of
`n` copies of `F` (left fold seeded with Unity) meets only invertible brackets
and gives `S`, `mCalcPowerScatterMatrix` meets only invertible brackets and
returns the same `S`. This covers `n` in {1, 2, 3, 5, 8, 13}. -/
theorem C3_periodic_doubling {K R : Type} [Field K] [DecidableEq K]
    [LinearOrderedField R] [FloorRing R] (d n : ℕ) (hn : 1 ≤ n) (writer : HoeWriter R)
    (hbits : ∀ x, x ∈ writer.getThicknessInPowerOfTwoCycles ↔ n.testBit x = true)
    (accumulatedMatrices : StdMap (ScatterMatrix (Fin d) K)) (sRef F S : ScatterMatrix (Fin d) K)
    (hRef : accumulatedMatrices.get "sRef" = some sRef)
    (hfull : accumulatedMatrices.get "full" = some F)
    (hS : sequentialStar F n = some S) :
    VolumeHologram3D.mCalcPowerScatterMatrix writer accumulatedMatrices = some S :=
  VolumeHologram3D.mCalcPowerScatterMatrix_eq_sequentialStar hn writer hbits
    accumulatedMatrices hRef hfull hS

/-- Witness of C3: three copies of a 1 x 1 matrix over the rationals. -/
theorem C3_periodic_doubling_witness :
    VolumeHologram3D.mCalcPowerScatterMatrix
      (⟨⟨1, 0, 0, 0, 0, 1, 0, true, 3, false, 0, 1⟩, 0, ![0, 0, 1], ![0, 0, 1], [0, 1], none, 1⟩ :
        HoeWriter ℚ)
      ([("full", ⟨0, !![3], !![2], 0⟩), ("sRef", Unity)] : StdMap (ScatterMatrix (Fin 1) ℚ))
      = some ⟨0, !![3] * (!![3] * (!![3] * 1)), 1 * !![2] * !![2] * !![2], 0⟩ :=
  C3_periodic_doubling 1 3 (by decide)
    ⟨⟨1, 0, 0, 0, 0, 1, 0, true, 3, false, 0, 1⟩, 0, ![0, 0, 1], ![0, 0, 1], [0, 1], none, 1⟩
    mem_bits_three _ Unity ⟨0, !![3], !![2], 0⟩ _
    (by rfl) (by rfl) sequentialStar_three

/-- C5. Final assembly: for every power matrix `P`, residual matrix `R` and
stored boundary entries, `mCalcGlobalScatterMatrix` returns
`sRef * ((P * R) * sTrn)` when no coating layer is requested and
`sRef * ((sAr * ((P * R) * sAr)) * sTrn)` when `addArLayer` is set, `*` being
`redhefferStarProduct`: the reflection boundary is the leftmost and the
transmission boundary the rightmost factor. -/
theorem C5_final_assembly {K R : Type} [Field K] [DecidableEq K]
    [LinearOrderedField R] [FloorRing R] (d : ℕ)
    (mPram : VolumeHologram3DParameter R K) (P Rm : ScatterMatrix (Fin d) K)
    (accumulatedMatrices : StdMap (ScatterMatrix (Fin d) K)) (sRef sTrn : ScatterMatrix (Fin d) K)
    (hRef : accumulatedMatrices.get "sRef" = some sRef)
    (hTrn : accumulatedMatrices.get "sTrn" = some sTrn) :
    (mPram.addArLayer = false →
      VolumeHologram3D.mCalcGlobalScatterMatrix mPram P Rm accumulatedMatrices =
        optStar (some sRef) (optStar (optStar (some P) (some Rm)) (some sTrn))) ∧
    (mPram.addArLayer = true → ∀ sAr, accumulatedMatrices.get "ar" = some sAr →
      VolumeHologram3D.mCalcGlobalScatterMatrix mPram P Rm accumulatedMatrices =
        optStar (some sRef)
          (optStar (optStar (some sAr) (optStar (optStar (some P) (some Rm)) (some sAr))) (some sTrn))) := by
  constructor
  · intro har
    simp only [VolumeHologram3D.mCalcGlobalScatterMatrix, hRef, hTrn, har, optStar, bind, pure,
      Option.some_bind, Bool.false_eq_true, if_false]
    cases h1 : redhefferStarProduct P Rm with
    | none => simp
    | some pr =>
      cases h2 : redhefferStarProduct pr sTrn <;> simp [h2]
  · intro har sAr hAr
    simp only [VolumeHologram3D.mCalcGlobalScatterMatrix, hRef, hTrn, har, hAr, optStar, bind,
      pure, Option.some_bind, if_true]
    cases h1 : redhefferStarProduct P Rm with
    | none => simp
    | some pr =>
      cases h2 : redhefferStarProduct pr sAr with
      | none => simp [h2]
      | some pra =>
        cases h3 : redhefferStarProduct sAr pra with
        | none => simp [h2, h3]
        | some apra =>
          cases h4 : redhefferStarProduct apra sTrn <;> simp [h2, h3, h4]

/-- Witness of C5: 1 x 1 blocks over the rationals, coating layer requested. -/
theorem C5_final_assembly_witness :
    ((⟨45, 0, 1 / 2, 2, 1, 1, 1 / 2, 45, 0, 20, 0, 3 / 2, 1 / 100, 101, true, 100, true⟩ :
        VolumeHologram3DParameter ℚ ℚ).addArLayer = false →
      VolumeHologram3D.mCalcGlobalScatterMatrix
        (⟨45, 0, 1 / 2, 2, 1, 1, 1 / 2, 45, 0, 20, 0, 3 / 2, 1 / 100, 101, true, 100, true⟩ :
          VolumeHologram3DParameter ℚ ℚ)
        (⟨!![1 / 2], !![5], !![7], !![1 / 4]⟩ : ScatterMatrix (Fin 1) ℚ)
        ⟨!![1 / 3], !![2], !![3], !![1 / 5]⟩
        [("ar", ⟨!![1 / 7], !![1], !![1], !![1 / 7]⟩), ("sRef", Unity),
          ("sTrn", ⟨!![1 / 9], !![1], !![2], !![1 / 8]⟩)] =
        optStar (some Unity) (optStar (optStar (some ⟨!![1 / 2], !![5], !![7], !![1 / 4]⟩)
          (some ⟨!![1 / 3], !![2], !![3], !![1 / 5]⟩))
          (some ⟨!![1 / 9], !![1], !![2], !![1 / 8]⟩))) ∧
    ((⟨45, 0, 1 / 2, 2, 1, 1, 1 / 2, 45, 0, 20, 0, 3 / 2, 1 / 100, 101, true, 100, true⟩ :
        VolumeHologram3DParameter ℚ ℚ).addArLayer = true →
      ∀ sAr, StdMap.get ([("ar", ⟨!![1 / 7], !![1], !![1], !![1 / 7]⟩), ("sRef", Unity),
          ("sTrn", ⟨!![1 / 9], !![1], !![2], !![1 / 8]⟩)] : StdMap (ScatterMatrix (Fin 1) ℚ))
          "ar" = some sAr →
      VolumeHologram3D.mCalcGlobalScatterMatrix
        (⟨45, 0, 1 / 2, 2, 1, 1, 1 / 2, 45, 0, 20, 0, 3 / 2, 1 / 100, 101, true, 100, true⟩ :
          VolumeHologram3DParameter ℚ ℚ)
        (⟨!![1 / 2], !![5], !![7], !![1 / 4]⟩ : ScatterMatrix (Fin 1) ℚ)
        ⟨!![1 / 3], !![2], !![3], !![1 / 5]⟩
        [("ar", ⟨!![1 / 7], !![1], !![1], !![1 / 7]⟩), ("sRef", Unity),
          ("sTrn", ⟨!![1 / 9], !![1], !![2], !![1 / 8]⟩)] =
        optStar (some Unity) (optStar (optStar (some sAr)
          (optStar (optStar (some ⟨!![1 / 2], !![5], !![7], !![1 / 4]⟩)
            (some ⟨!![1 / 3], !![2], !![3], !![1 / 5]⟩)) (some sAr)))
          (some ⟨!![1 / 9], !![1], !![2], !![1 / 8]⟩))) :=
  C5_final_assembly 1 _ _ _ _ Unity ⟨!![1 / 9], !![1], !![2], !![1 / 8]⟩ (by rfl) (by rfl)

/-- C6. Binary decomposition: in periodic mode (`stepsPerCycle` true), for a
freshly constructed writer (empty exponent list) and
`n = floor(thickness / period) >= 1` (an `int`, so below `2^31`),
`mBuildThicknessInPowerOfTwoCycles` returns, and the exponent list it leaves
is strictly ascending, hence pairwise distinct, with the sum of `2^x` over its
entries equal to `n`. -/
theorem C6_binary_decomposition {R : Type} [LinearOrderedField R] [FloorRing R]
    (cabs : R → R) (pi2 : R) (w : HoeWriter R) (n : ℤ)
    (hsteps : w.mWriterParameter.stepsPerCycle = true)
    (hfresh : w.mThicknessInPowerOfTwoCycles = [])
    (hfloor : ⌊w.mWriterParameter.thickness / w.getCycleLengthZDirection cabs pi2⌋ = n)
    (h1 : 1 ≤ n) (hint : n < 2 ^ 31) :
    ∃ w', w.mBuildThicknessInPowerOfTwoCycles cabs pi2 = some w' ∧
      w'.getThicknessInPowerOfTwoCycles.Sorted (· < ·) ∧
      w'.getThicknessInPowerOfTwoCycles.Nodup ∧
      (((w'.getThicknessInPowerOfTwoCycles.map (2 ^ ·)).sum : ℕ) : ℤ) = n := by
  have hconv := doubleToInt_of_floor hfloor h1 hint
  have hn0 : ¬ n = 0 := by omega
  have hneg : ¬ n < 0 := by omega
  obtain ⟨l, hl, hsorted, -, hsum⟩ := powerOfTwoLoop_spec n.toNat (by omega) []
  refine ⟨{ w with mThicknessInPowerOfTwoCycles :=
      (powerOfTwoLoop n.toNat w.mThicknessInPowerOfTwoCycles).insertionSort (· ≤ ·) }, ?_, ?_⟩
  · simp [HoeWriter.mBuildThicknessInPowerOfTwoCycles, hsteps, hconv, hn0, hneg]
  · simp only [HoeWriter.getThicknessInPowerOfTwoCycles, hfresh, hl, List.nil_append]
    have hperm := List.perm_insertionSort (· ≤ ·) l
    have hnodup : (l.insertionSort (· ≤ ·)).Nodup := hperm.nodup_iff.mpr hsorted.nodup
    refine ⟨(List.sorted_insertionSort (· ≤ ·) l).lt_of_le hnodup, hnodup, ?_⟩
    rw [sum_map_two_pow_perm hperm, hsum]
    omega

/-- Witness of C6: thickness 40 over a period of 3 gives `n = 13`. -/
theorem C6_binary_decomposition_witness :
    ∃ w', (⟨⟨1, 0, 0, 0, 0, 1, 0, true, 40, false, 0, 1⟩, 0, ![0, 0, 1], ![0, 0, 1], [], none, 1⟩ :
        HoeWriter ℚ).mBuildThicknessInPowerOfTwoCycles stdAbs 3 = some w' ∧
      w'.getThicknessInPowerOfTwoCycles.Sorted (· < ·) ∧
      w'.getThicknessInPowerOfTwoCycles.Nodup ∧
      (((w'.getThicknessInPowerOfTwoCycles.map (2 ^ ·)).sum : ℕ) : ℤ) = 13 :=
  C6_binary_decomposition stdAbs 3
    ⟨⟨1, 0, 0, 0, 0, 1, 0, true, 40, false, 0, 1⟩, 0, ![0, 0, 1], ![0, 0, 1], [], none, 1⟩ 13
    rfl rfl
    (by
      rw [Int.floor_eq_iff]
      simp only [HoeWriter.getCycleLengthZDirection, stdAbs]
      norm_num)
    (by decide) (by decide)

/-- C7 fails as stated: the map holds the numeric key "0.000000" and the
residual `std::numeric_limits<double>::max()` is finite, but the distance is
not below the initial `minDiff`, the best key stays empty and `mFindClosed`
throws. -/
theorem C7_closest_key_counterexample :
    (∃ k ∈ StdMap.keys ([("0.000000", ())] : StdMap Unit),
      VolumeHologram3D.mIsNumber stodDecimal k = true) ∧
    VolumeHologram3D.mFindClosed stodDecimal ([("0.000000", ())] : StdMap Unit)
      (doubleMax : ℚ) = none := by
  have h0 : stodDecimal "0.000000" = some 0 := by simp [stodDecimal, digitsValue]
  refine ⟨⟨"0.000000", by simp [StdMap.keys], by simp [VolumeHologram3D.mIsNumber, h0]⟩, ?_⟩
  apply VolumeHologram3D.mFindClosed_eq_none
  intro e he ev hev
  have he' : e = ("0.000000", ()) := by simpa using he
  subst he'
  have hev' : stodDecimal "0.000000" = some ev := hev
  rw [h0] at hev'
  cases hev'
  rw [zero_sub, abs_neg, abs_of_pos VolumeHologram3D.doubleMax_pos]

/-- C7, amended. Residual lookup: for every map holding at least one numeric
key whose value lies within less than `std::numeric_limits<double>::max()`
(the initial `minDiff`) of the residual `rest`, `mFindClosed` returns a numeric
key `k` of the map such that `|value(k) - rest| <= |value(k') - rest|` for every
numeric key `k'` of the map; the named entries sRef, sTrn, ar and full, which
`std::stod` does not convert, are never returned. -/
theorem C7_closest_key {V R : Type} [LinearOrderedField R] (stod : String → Option R)
    (hempty : stod "" = none)
    (hnamed : stod "sRef" = none ∧ stod "sTrn" = none ∧ stod "ar" = none ∧ stod "full" = none)
    (accumulatedMatrices : StdMap V) (rest : R)
    (hex : ∃ k ∈ accumulatedMatrices.keys, ∃ kv, stod k = some kv ∧ |kv - rest| < doubleMax) :
    ∃ k kv, VolumeHologram3D.mFindClosed stod accumulatedMatrices rest = some k ∧
      k ∈ accumulatedMatrices.keys ∧ stod k = some kv ∧
      VolumeHologram3D.mIsNumber stod k = true ∧
      (∀ k' ∈ accumulatedMatrices.keys, ∀ kv', stod k' = some kv' →
        |kv - rest| ≤ |kv' - rest|) ∧
      k ≠ "sRef" ∧ k ≠ "sTrn" ∧ k ≠ "ar" ∧ k ≠ "full" := by
  have hex' : ∃ e ∈ accumulatedMatrices, ∃ ev, stod e.1 = some ev ∧ |ev - rest| < doubleMax := by
    obtain ⟨k, hk, kv, hkv, hlt⟩ := hex
    obtain ⟨e, he, rfl⟩ := List.mem_map.mp hk
    exact ⟨e, he, kv, hkv, hlt⟩
  obtain ⟨l1, k, v, l2, kv, hm, hk, hres, h1, h2⟩ :=
    VolumeHologram3D.mFindClosed_spec stod hempty accumulatedMatrices rest hex'
  have hne : ∀ s, stod s = none → k ≠ s := by
    intro s hs hks
    rw [hks, hs] at hk
    cases hk
  refine ⟨k, kv, hres, ?_, hk, by simp [VolumeHologram3D.mIsNumber, hk], ?_,
    hne _ hnamed.1, hne _ hnamed.2.1, hne _ hnamed.2.2.1, hne _ hnamed.2.2.2⟩
  · rw [hm]
    simp [StdMap.keys]
  · intro k' hk' kv' hkv'
    obtain ⟨e, he, rfl⟩ := List.mem_map.mp hk'
    rw [hm] at he
    rcases List.mem_append.mp he with h | h
    · exact (h1 e h kv' hkv').le
    · rcases List.mem_cons.mp h with h | h
      · subst h
        rw [hk] at hkv'
        cases hkv'
        exact le_rfl
      · exact h2 e h kv' hkv'

/-- Witness of the amended C7: a period of two slices of 0.5 and the residual 0.2. -/
theorem C7_closest_key_witness :
    ∃ k kv, VolumeHologram3D.mFindClosed stodDecimal
        ([("0.000000", ()), ("0.500000", ()), ("1.000000", ()), ("full", ()), ("sRef", ()),
          ("sTrn", ())] : StdMap Unit) (1 / 5) = some k ∧
      k ∈ StdMap.keys ([("0.000000", ()), ("0.500000", ()), ("1.000000", ()), ("full", ()),
          ("sRef", ()), ("sTrn", ())] : StdMap Unit) ∧
      stodDecimal k = some kv ∧
      VolumeHologram3D.mIsNumber stodDecimal k = true ∧
      (∀ k' ∈ StdMap.keys ([("0.000000", ()), ("0.500000", ()), ("1.000000", ()), ("full", ()),
          ("sRef", ()), ("sTrn", ())] : StdMap Unit), ∀ kv', stodDecimal k' = some kv' →
        |kv - 1 / 5| ≤ |kv' - 1 / 5|) ∧
      k ≠ "sRef" ∧ k ≠ "sTrn" ∧ k ≠ "ar" ∧ k ≠ "full" :=
  C7_closest_key stodDecimal (by rfl) ⟨by rfl, by rfl, by rfl, by rfl⟩ _ (1 / 5)
    ⟨"0.000000", by simp [StdMap.keys], 0, by simp [stodDecimal, digitsValue], by
      rw [zero_sub, abs_neg, abs_of_pos (by norm_num)]
      unfold doubleMax
      norm_num⟩

/-- C8 fails as stated: with the recorded thicknesses 0, 5 and 10 and the
residual 7.5, the keys "5.000000" and "10.000000" are equally close, and
`mFindClosed` returns "10.000000", the larger thickness, because the map
iterates its keys in lexicographic order. -/
theorem C8_tie_break_counterexample :
    StdMap.Ordered ([("0.000000", ()), ("10.000000", ()), ("5.000000", ()), ("full", ()),
      ("sRef", ()), ("sTrn", ())] : StdMap Unit) ∧
    stodDecimal "5.000000" = some 5 ∧ stodDecimal "10.000000" = some 10 ∧
    |(5 : ℚ) - 15 / 2| = |(10 : ℚ) - 15 / 2| ∧
    VolumeHologram3D.mFindClosed stodDecimal
      ([("0.000000", ()), ("10.000000", ()), ("5.000000", ()), ("full", ()), ("sRef", ()),
        ("sTrn", ())] : StdMap Unit) (15 / 2) = some "10.000000" := by
  have h0 : stodDecimal "0.000000" = some 0 := by simp [stodDecimal, digitsValue]
  have h5 : stodDecimal "5.000000" = some 5 := by simp [stodDecimal, digitsValue]
  have h10 : stodDecimal "10.000000" = some 10 := by simp [stodDecimal, digitsValue]
  have hnone : ∀ (s : String) (d : ℚ), stodDecimal s = none →
      ∀ ev, stodDecimal s = some ev → d ≤ |ev - 15 / 2| := by
    intro s d hs ev hev
    rw [hs] at hev
    cases hev
  have e1 : |(0 : ℚ) - 15 / 2| = 15 / 2 := by rw [zero_sub, abs_neg, abs_of_pos (by norm_num)]
  have e2 : |(10 : ℚ) - 15 / 2| = 5 / 2 := by rw [abs_of_pos (by norm_num)]; norm_num
  have e3 : |(5 : ℚ) - 15 / 2| = 5 / 2 := by rw [abs_of_neg (by norm_num)]; norm_num
  refine ⟨?_, h5, h10, by rw [e2, e3], ?_⟩
  · simp only [StdMap.Ordered, StdMap.keys, List.map, String.lt_iff_toList_lt]
    decide
  · unfold VolumeHologram3D.mFindClosed
    simp only [List.foldl_cons, List.foldl_nil]
    rw [VolumeHologram3D.findClosedStep_of_closer stodDecimal (15 / 2) ("", doubleMax)
      ("0.000000", ()) h0 (by rw [e1]; unfold doubleMax; norm_num)]
    rw [VolumeHologram3D.findClosedStep_of_closer stodDecimal (15 / 2) _
      ("10.000000", ()) h10 (by rw [e1, e2]; norm_num)]
    rw [VolumeHologram3D.findClosedStep_of_not_closer stodDecimal (15 / 2) _
      ("5.000000", ()) (by
        intro ev hev
        have hev' : stodDecimal "5.000000" = some ev := hev
        rw [h5] at hev'
        cases hev'
        rw [e2, e3])]
    rw [VolumeHologram3D.findClosedStep_of_not_closer stodDecimal (15 / 2) _
      ("full", ()) (hnone "full" _ (by rfl))]
    rw [VolumeHologram3D.findClosedStep_of_not_closer stodDecimal (15 / 2) _
      ("sRef", ()) (hnone "sRef" _ (by rfl))]
    rw [VolumeHologram3D.findClosedStep_of_not_closer stodDecimal (15 / 2) _
      ("sTrn", ()) (hnone "sTrn" _ (by rfl))]
    rfl

/-- C8, amended. Tie-break of the residual lookup: whenever several recorded
keys are equally close to the residual, `mFindClosed` resolves the tie by a
fixed deterministic order, the ascending lexicographic order of the key texts
in which `std::map` iterates: the key returned is a numeric key of the map, no
numeric key of the map is closer to the residual, and it is the least, as a
string, of the numeric keys that are as close (which is the smallest thickness
only where the order of the texts agrees with the order of the values). -/
theorem C8_tie_break {V R : Type} [LinearOrderedField R] (stod : String → Option R)
    (hempty : stod "" = none) (accumulatedMatrices : StdMap V)
    (hord : accumulatedMatrices.Ordered) (rest : R)
    (hex : ∃ k ∈ accumulatedMatrices.keys, ∃ kv, stod k = some kv ∧ |kv - rest| < doubleMax) :
    ∃ k kv, VolumeHologram3D.mFindClosed stod accumulatedMatrices rest = some k ∧
      k ∈ accumulatedMatrices.keys ∧ stod k = some kv ∧
      (∀ k' ∈ accumulatedMatrices.keys, ∀ kv', stod k' = some kv' →
        |kv - rest| ≤ |kv' - rest|) ∧
      ∀ k' ∈ accumulatedMatrices.keys, ∀ kv', stod k' = some kv' →
        |kv' - rest| = |kv - rest| → k ≤ k' := by
  have hex' : ∃ e ∈ accumulatedMatrices, ∃ ev, stod e.1 = some ev ∧ |ev - rest| < doubleMax := by
    obtain ⟨k, hk, kv, hkv, hlt⟩ := hex
    obtain ⟨e, he, rfl⟩ := List.mem_map.mp hk
    exact ⟨e, he, kv, hkv, hlt⟩
  obtain ⟨l1, k, v, l2, kv, hm, hk, hres, h1, h2⟩ :=
    VolumeHologram3D.mFindClosed_spec stod hempty accumulatedMatrices rest hex'
  refine ⟨k, kv, hres, ?_, hk, ?_, ?_⟩
  · rw [hm]
    simp [StdMap.keys]
  · intro k' hk' kv' hkv'
    obtain ⟨e, he, rfl⟩ := List.mem_map.mp hk'
    rw [hm] at he
    rcases List.mem_append.mp he with h | h
    · exact (h1 e h kv' hkv').le
    · rcases List.mem_cons.mp h with h | h
      · subst h
        rw [hk] at hkv'
        cases hkv'
        exact le_rfl
      · exact h2 e h kv' hkv'
  intro k' hk' kv' hkv' heq
  obtain ⟨e, he, rfl⟩ := List.mem_map.mp hk'
  rw [hm] at he
  rcases List.mem_append.mp he with h | h
  · exact absurd heq (ne_of_gt (h1 e h kv' hkv'))
  · rcases List.mem_cons.mp h with h | h
    · rw [h]
    · have hsorted : (StdMap.keys (l1 ++ (k, v) :: l2)).Sorted (· < ·) := by
        rw [← hm]; exact hord
      simp only [StdMap.keys, List.map_append, List.map_cons] at hsorted
      have h2s := (List.pairwise_append.mp hsorted).2.1
      exact ((List.pairwise_cons.mp h2s).1 e.1 (List.mem_map_of_mem _ h)).le

/-- Witness of the amended C8 on the map of the counterexample. -/
theorem C8_tie_break_witness :
    ∃ k kv, VolumeHologram3D.mFindClosed stodDecimal
        ([("0.000000", ()), ("10.000000", ()), ("5.000000", ()), ("full", ()), ("sRef", ()),
          ("sTrn", ())] : StdMap Unit) (15 / 2) = some k ∧
      k ∈ StdMap.keys ([("0.000000", ()), ("10.000000", ()), ("5.000000", ()), ("full", ()),
          ("sRef", ()), ("sTrn", ())] : StdMap Unit) ∧
      stodDecimal k = some kv ∧
      (∀ k' ∈ StdMap.keys ([("0.000000", ()), ("10.000000", ()), ("5.000000", ()), ("full", ()),
          ("sRef", ()), ("sTrn", ())] : StdMap Unit), ∀ kv', stodDecimal k' = some kv' →
        |kv - 15 / 2| ≤ |kv' - 15 / 2|) ∧
      ∀ k' ∈ StdMap.keys ([("0.000000", ()), ("10.000000", ()), ("5.000000", ()), ("full", ()),
          ("sRef", ()), ("sTrn", ())] : StdMap Unit), ∀ kv', stodDecimal k' = some kv' →
        |kv' - 15 / 2| = |kv - 15 / 2| → k ≤ k' :=
  C8_tie_break stodDecimal (by rfl) _
    (by
      simp only [StdMap.Ordered, StdMap.keys, List.map, String.lt_iff_toList_lt]
      decide)
    (15 / 2)
    ⟨"0.000000", by simp [StdMap.keys], 0, by simp [stodDecimal, digitsValue], by
      rw [zero_sub, abs_neg, abs_of_pos (by norm_num)]
      unfold doubleMax
      norm_num⟩

/-- C9 fails as stated: for the real refractive index `n = 1e-5 > 0` the
coupling operator of the transmission half-space is `-n^2 I` with
`n^2 = 1e-10 < 1e-8`, `mCheckForKzZero` throws while the half-space is set up
and `mCalculateScatterRefTrn` returns no boundary matrices, in exact
arithmetic, although the free-space reference is built. -/
theorem C9_fresnel_reduction_counterexample :
    (∃ lib : Numerics ℝ ℂ 0 0, lib.IsExact) ∧
    ((0 : ℝ) < 1 / 100000) ∧
    ∀ lib : Numerics ℝ ℂ 0 0, lib.IsExact →
      mEigenVectorsVacuumV0W0 lib (SystemParameterCreator.createSystemParameters lib
          ⟨1, 0, 0, ((1 : ℝ) : ℂ), 0, 0, 0, 0, 1, 1, (((1 / 100000 : ℝ)) : ℂ) ^ 2, 1⟩)
        = some (Complex.I • blockJ (HarmonicIndex 0 0) ℂ, 1) ∧
      mCalculateScatterRefTrn lib (SystemParameterCreator.createSystemParameters lib
          ⟨1, 0, 0, ((1 : ℝ) : ℂ), 0, 0, 0, 0, 1, 1, (((1 / 100000 : ℝ)) : ℂ) ^ 2, 1⟩)
        (Complex.I • blockJ (HarmonicIndex 0 0) ℂ) 1 = none := by
  refine ⟨⟨⟨Complex.re, Complex.im, Complex.ofReal, starRingEnd ℂ, Complex.abs,
    fun z => z ^ (1 / 2 : ℂ), Real.sqrt, id, fun _ => none, id⟩,
    rfl, rfl, rfl, rfl, rfl, rfl, rfl⟩, by norm_num, ?_⟩
  intro lib hlib
  have hn : (0 : ℝ) < 1 / 100000 := by norm_num
  rw [SystemParameterCreator.createSystemParameters_fresnel lib hlib 1 (1 / 100000) 0 0 0 0 hn]
  refine ⟨mEigenVectorsVacuumV0W0_normal lib hlib _ rfl rfl, ?_⟩
  obtain ⟨evR, hevR, -, -⟩ := EigenValuesVectors.create_dielectric lib hlib
    (⟨⟨1, 0, 0, ((1 : ℝ) : ℂ), 0, 0, 0, 0, 1, 1, (((1 / 100000 : ℝ)) : ℂ) ^ 2, 1⟩,
      (SystemParameterCreator.mBuildGrids 0 0).1, (SystemParameterCreator.mBuildGrids 0 0).2,
      0, 0, (-1 : ℂ) • 1, (((1 / 100000 : ℝ)) : ℂ) • 1,
      fun s => Sum.elim (fun _ => 0) (fun _ => 1) s,
      fun s => Sum.elim (fun _ => 1) (fun _ => 0) s⟩ : SystemParameters ℝ ℂ 0 0)
    rfl rfl 1 one_pos (by norm_num) 1 (by simp) 1 ""
  have hevT := EigenValuesVectors.create_dielectric_throws lib hlib
    (⟨⟨1, 0, 0, ((1 : ℝ) : ℂ), 0, 0, 0, 0, 1, 1, (((1 / 100000 : ℝ)) : ℂ) ^ 2, 1⟩,
      (SystemParameterCreator.mBuildGrids 0 0).1, (SystemParameterCreator.mBuildGrids 0 0).2,
      0, 0, (-1 : ℂ) • 1, (((1 / 100000 : ℝ)) : ℂ) • 1,
      fun s => Sum.elim (fun _ => 0) (fun _ => 1) s,
      fun s => Sum.elim (fun _ => 1) (fun _ => 0) s⟩ : SystemParameters ℝ ℂ 0 0)
    rfl rfl (1 / 100000) hn (by norm_num) ((((1 / 100000 : ℝ)) : ℂ) ^ 2) rfl 1 ""
  simp only [mCalculateScatterRefTrn, hevR, hevT, bind, Option.some_bind, Option.none_bind]

/-- C9, amended. Fresnel reduction: with harmonic order 0 (`Nx = Ny = 0`),
normal incidence (`kxInc = kyInc = 0`, `kzInc = k0 > 0`), vacuum on the
reflection side, a transmission half-space of real refractive index `n > 0`
with `n^2 >= 1e-8` (`erTrn = n^2`, `urTrn = 1`; below that the zero-wavevector
check throws) and no interior layers, the free-space reference and the
boundary matrices are built, the global matrix `sRef * sTrn` is defined, and
`calculateDiffractionEfficiency` gives `RS = RP = 100*((1-n)/(1+n))^2` and
`TS = TP = 100*4n/(1+n)^2` in exact arithmetic. -/
theorem C9_fresnel_reduction (lib : Numerics ℝ ℂ 0 0) (hlib : lib.IsExact)
    (k0 n t1X t1Y t2X t2Y : ℝ) (hk0 : 0 < k0) (hn : 0 < n) (hbig : 1 / 10 ^ 8 ≤ n ^ 2)
    (system : SystemParameters ℝ ℂ 0 0)
    (hsys : system = SystemParameterCreator.createSystemParameters lib
      ⟨k0, 0, 0, (k0 : ℂ), t1X, t1Y, t2X, t2Y, 1, 1, (n : ℂ) ^ 2, 1⟩) :
    ∃ v0 w0 sRef sTrn globalMatrix efficiency,
      mEigenVectorsVacuumV0W0 lib system = some (v0, w0) ∧
      mCalculateScatterRefTrn lib system v0 w0 = some (sRef, sTrn) ∧
      redhefferStarProduct sRef sTrn = some globalMatrix ∧
      calculateDiffractionEfficiency lib system globalMatrix = some efficiency ∧
      ∀ i j, efficiency.RS i j = 100 * ((1 - n) / (1 + n)) ^ 2 ∧
        efficiency.RP i j = 100 * ((1 - n) / (1 + n)) ^ 2 ∧
        efficiency.TS i j = 100 * 4 * n / (1 + n) ^ 2 ∧
        efficiency.TP i j = 100 * 4 * n / (1 + n) ^ 2 := by
  rw [SystemParameterCreator.createSystemParameters_fresnel lib hlib k0 n t1X t1Y t2X t2Y hn]
    at hsys
  have hkx : system.kxNorm = 0 := by rw [hsys]
  have hky : system.kyNorm = 0 := by rw [hsys]
  have h1n : (1 : ℝ) + n ≠ 0 := by linarith
  have hRT := mCalculateScatterRefTrn_normal lib hlib system hkx hky n hn (not_lt.mpr hbig)
    (by rw [hsys]) (by rw [hsys]) (by rw [hsys]) (by rw [hsys])
  have hfill := calculateAndFillDiffractionEfficiency_scalar lib hlib system hkx hky n hn
    (by rw [hsys]) (by rw [hsys]) (by rw [hsys]) (by rw [hsys])
    (by rw [hsys]; exact hk0.ne') (by rw [hsys])
    { s11 := (((1 : ℂ) - n) / (1 + n)) • 1
      s21 := ((2 : ℂ) / (1 + n)) • 1
      s12 := ((2 : ℂ) * n / (1 + n)) • 1
      s22 := (-(((1 : ℂ) - n) / (1 + n))) • 1 }
    ((1 - n) / (1 + n)) (2 / (1 + n)) (by push_cast; rfl) (by push_cast; rfl)
  have hcalc : calculateDiffractionEfficiency lib system
      { s11 := (((1 : ℂ) - n) / (1 + n)) • 1
        s21 := ((2 : ℂ) / (1 + n)) • 1
        s12 := ((2 : ℂ) * n / (1 + n)) • 1
        s22 := (-(((1 : ℂ) - n) / (1 + n))) • 1 }
      = some
        { RS := reshapeT fun i => 100 * (((1 - n) / (1 + n)) ^ 2 *
            (Complex.abs (system.cIncSPol (Sum.inl i)) ^ 2 +
              Complex.abs (system.cIncSPol (Sum.inr i)) ^ 2))
          RP := reshapeT fun i => 100 * (((1 - n) / (1 + n)) ^ 2 *
            (Complex.abs (system.cIncPPol (Sum.inl i)) ^ 2 +
              Complex.abs (system.cIncPPol (Sum.inr i)) ^ 2))
          TS := reshapeT fun i => 100 * n * ((2 / (1 + n)) ^ 2 *
            (Complex.abs (system.cIncSPol (Sum.inl i)) ^ 2 +
              Complex.abs (system.cIncSPol (Sum.inr i)) ^ 2))
          TP := reshapeT fun i => 100 * n * ((2 / (1 + n)) ^ 2 *
            (Complex.abs (system.cIncPPol (Sum.inl i)) ^ 2 +
              Complex.abs (system.cIncPPol (Sum.inr i)) ^ 2)) } := by
    simp only [calculateDiffractionEfficiency, hfill, bind, pure, Option.some_bind]
  refine ⟨_, _, _, _, _, _, mEigenVectorsVacuumV0W0_normal lib hlib system hkx hky, hRT,
    Unity_redhefferStarProduct _, hcalc, ?_⟩
  intro i j
  rw [hsys]
  simp only [reshapeT, Matrix.of_apply, Sum.elim_inl, Sum.elim_inr, map_zero, map_one]
  refine ⟨by ring, by ring, ?_, ?_⟩
  · field_simp
    ring
  · field_simp
    ring

/-- Witness of the amended C9: wavenumber 1 and refractive index 3/2. -/
theorem C9_fresnel_reduction_witness :
    ∃ lib : Numerics ℝ ℂ 0 0, lib.IsExact ∧
      ∃ v0 w0 sRef sTrn globalMatrix efficiency,
        mEigenVectorsVacuumV0W0 lib (SystemParameterCreator.createSystemParameters lib
          ⟨1, 0, 0, ((1 : ℝ) : ℂ), 0, 0, 0, 0, 1, 1, (((3 / 2 : ℝ)) : ℂ) ^ 2, 1⟩)
          = some (v0, w0) ∧
        mCalculateScatterRefTrn lib (SystemParameterCreator.createSystemParameters lib
          ⟨1, 0, 0, ((1 : ℝ) : ℂ), 0, 0, 0, 0, 1, 1, (((3 / 2 : ℝ)) : ℂ) ^ 2, 1⟩) v0 w0
          = some (sRef, sTrn) ∧
        redhefferStarProduct sRef sTrn = some globalMatrix ∧
        calculateDiffractionEfficiency lib (SystemParameterCreator.createSystemParameters lib
          ⟨1, 0, 0, ((1 : ℝ) : ℂ), 0, 0, 0, 0, 1, 1, (((3 / 2 : ℝ)) : ℂ) ^ 2, 1⟩) globalMatrix
          = some efficiency ∧
        ∀ i j, efficiency.RS i j = 100 * ((1 - 3 / 2) / (1 + 3 / 2)) ^ 2 ∧
          efficiency.RP i j = 100 * ((1 - 3 / 2) / (1 + 3 / 2)) ^ 2 ∧
          efficiency.TS i j = 100 * 4 * (3 / 2) / (1 + 3 / 2) ^ 2 ∧
          efficiency.TP i j = 100 * 4 * (3 / 2) / (1 + 3 / 2) ^ 2 :=
  ⟨⟨Complex.re, Complex.im, Complex.ofReal, starRingEnd ℂ, Complex.abs,
      fun z => z ^ (1 / 2 : ℂ), Real.sqrt, id, fun _ => none, id⟩,
    ⟨rfl, rfl, rfl, rfl, rfl, rfl, rfl⟩,
    C9_fresnel_reduction _ ⟨rfl, rfl, rfl, rfl, rfl, rfl, rfl⟩ 1 (3 / 2) 0 0 0 0
      (by norm_num) (by norm_num) (by norm_num) _ rfl⟩
/-- C11. `redhefferStarProduct(sa, sb)` fails (the `std::runtime_error` of
`arma::inv`) if and only if the bracket `I - sb.s11*sa.s22` is singular; the
second bracket `I - sa.s22*sb.s11` is singular exactly when the first one is,
and on every other input of equal block dimension a result is returned. -/
theorem C11_star_product_failure {K : Type} [Field K] [DecidableEq K] (d : ℕ)
    (sa sb : ScatterMatrix (Fin d) K) :
    (redhefferStarProduct sa sb = none ↔ (1 - sb.s11 * sa.s22).det = 0) ∧
    ((1 - sa.s22 * sb.s11).det = 0 ↔ (1 - sb.s11 * sa.s22).det = 0) ∧
    ((redhefferStarProduct sa sb).isSome ↔ (1 - sb.s11 * sa.s22).det ≠ 0) := by
  refine ⟨?_, by rw [det_bracket_comm], redhefferStarProduct_isSome_iff⟩
  rw [← not_iff_not, ← ne_eq, Option.ne_none_iff_isSome]
  exact redhefferStarProduct_isSome_iff

/-- C12 fails as stated: with harmonic order 1 the coupling operator of vacuum
whose orders -1 and +1 are grazing (`kx = -1, 0, 1`, `ky = 0`) is the diagonal
matrix with the entries `0, -1, 0` in both halves. It is diagonal, the middle
entry has magnitude `1 >= 1e-8`, so the zero-wavevector check passes, and yet
`mBuildVWLam` fails: `Lambda` has a zero on its diagonal and `arma::inv`
throws. -/
theorem C12_zero_wavevector_counterexample :
    (∃ lib : Numerics ℝ ℂ 1 0, lib.IsExact) ∧
    ∀ (lib : Numerics ℝ ℂ 1 0) (system : SystemParameters ℝ ℂ 1 0) (mLi : ℝ)
      (mQ : Matrix (ModeIndex 1 0) (ModeIndex 1 0) ℂ), lib.IsExact →
      ((∑ i, ∑ j, lib.abs ((Matrix.diagonal (fun i : ModeIndex 1 0 =>
            Sum.elim ![(0 : ℂ), -1, 0] ![(0 : ℂ), -1, 0] i)) i j))
          - ∑ i, lib.abs ((Matrix.diagonal (fun i : ModeIndex 1 0 =>
            Sum.elim ![(0 : ℂ), -1, 0] ![(0 : ℂ), -1, 0] i)) i i) < 1 / 10 ^ 9) ∧
      (∃ i, ¬ lib.abs ((Matrix.diagonal (fun i : ModeIndex 1 0 =>
            Sum.elim ![(0 : ℂ), -1, 0] ![(0 : ℂ), -1, 0] i)) i i) < 1 / 10 ^ 8) ∧
      EigenValuesVectors.mCheckForKzZero lib (Matrix.diagonal (fun i : ModeIndex 1 0 =>
            Sum.elim ![(0 : ℂ), -1, 0] ![(0 : ℂ), -1, 0] i)) = false ∧
      EigenValuesVectors.mBuildVWLam lib system mLi mQ (Matrix.diagonal (fun i : ModeIndex 1 0 =>
            Sum.elim ![(0 : ℂ), -1, 0] ![(0 : ℂ), -1, 0] i)) = none := by
  refine ⟨⟨⟨Complex.re, Complex.im, Complex.ofReal, starRingEnd ℂ, Complex.abs,
    fun z => z ^ (1 / 2 : ℂ), Real.sqrt, id, fun _ => none, id⟩,
    rfl, rfl, rfl, rfl, rfl, rfl, rfl⟩, ?_⟩
  intro lib system mLi mQ hlib
  have habs0 : lib.abs 0 = 0 := hlib.abs_zero
  have haccu := EigenValuesVectors.accu_diagonal lib habs0
    (fun i : ModeIndex 1 0 => Sum.elim ![(0 : ℂ), -1, 0] ![(0 : ℂ), -1, 0] i)
  have hnear : ¬ lib.abs ((Matrix.diagonal (fun i : ModeIndex 1 0 =>
      Sum.elim ![(0 : ℂ), -1, 0] ![(0 : ℂ), -1, 0] i)) (Sum.inl 1) (Sum.inl 1)) < 1 / 10 ^ 8 := by
    obtain ⟨-, -, -, -, habs, -, -⟩ := hlib
    rw [habs]
    simp only [Matrix.diagonal_apply_eq, Sum.elim_inl]
    norm_num
  have hcheck : EigenValuesVectors.mCheckForKzZero lib (Matrix.diagonal (fun i : ModeIndex 1 0 =>
      Sum.elim ![(0 : ℂ), -1, 0] ![(0 : ℂ), -1, 0] i)) = false := by
    simp only [EigenValuesVectors.mCheckForKzZero, decide_eq_false_iff_not]
    exact fun hall => hnear (hall _)
  have hpos : (0 : ℝ) < 1 / 10 ^ 9 := by positivity
  refine ⟨by rw [haccu]; exact hpos, ⟨_, hnear⟩, hcheck, ?_⟩
  have hsing : armaInv (EigenValuesVectors.mSignConventionSqrt lib
      (Matrix.diagonal fun i : ModeIndex 1 0 =>
        (Matrix.diagonal (fun i : ModeIndex 1 0 =>
          Sum.elim ![(0 : ℂ), -1, 0] ![(0 : ℂ), -1, 0] i)) i i)) = none := by
    apply armaInv_of_det_eq_zero
    rw [EigenValuesVectors.mSignConventionSqrt_diagonal lib hlib.sqrt_zero hlib.imag_zero,
      Matrix.det_diagonal]
    apply Finset.prod_eq_zero (Finset.mem_univ (Sum.inl 0))
    simp [hlib.sqrt_zero]
  simp only [EigenValuesVectors.mBuildVWLam, haccu, hpos, decide_True, if_true, hcheck,
    Bool.false_eq_true, if_false, bind, Option.some_bind, hsing, Option.none_bind]

/-- C12, amended. Zero-wavevector failure: when `Omega^2` is numerically
diagonal (sum of the off-diagonal magnitudes below `1e-9`), the
zero-wavevector check throws if and only if every diagonal entry has magnitude
below `1e-8`, and then the construction fails; when at least one diagonal
entry is not near zero the check passes and, without a call of `eig_gen`, `W`
is the identity and the eigenvalues are the diagonal of `Omega^2`: the
construction returns `V = Q W Lambda^-1`, `W = I`, `Lambda` and
`arg = -Lambda k0 L` exactly when `Lambda`, the signed square roots of the
diagonal, is invertible, and fails in `arma::inv` otherwise. -/
theorem C12_zero_wavevector {R K : Type} [LinearOrderedField R] [Field K] [DecidableEq K]
    {Nx Ny : ℕ} (lib : Numerics R K Nx Ny) (system : SystemParameters R K Nx Ny) (mLi : R)
    (mQ mOmega2 : Matrix (ModeIndex Nx Ny) (ModeIndex Nx Ny) K)
    (hdiag : (∑ i, ∑ j, lib.abs (mOmega2 i j)) - ∑ i, lib.abs (mOmega2 i i) < 1 / 10 ^ 9) :
    (EigenValuesVectors.mCheckForKzZero lib mOmega2 = true ↔
      ∀ i, lib.abs (mOmega2 i i) < 1 / 10 ^ 8) ∧
    ((∀ i, lib.abs (mOmega2 i i) < 1 / 10 ^ 8) →
      EigenValuesVectors.mBuildVWLam lib system mLi mQ mOmega2 = none) ∧
    ((∃ i, ¬ lib.abs (mOmega2 i i) < 1 / 10 ^ 8) →
      EigenValuesVectors.mBuildVWLam lib system mLi mQ mOmega2
        = (armaInv (EigenValuesVectors.mSignConventionSqrt lib
            (Matrix.diagonal fun i => mOmega2 i i))).map fun lamInv =>
          (mQ * 1 * lamInv, 1,
            EigenValuesVectors.mSignConventionSqrt lib (Matrix.diagonal fun i => mOmega2 i i),
            (-(EigenValuesVectors.mSignConventionSqrt lib
              (Matrix.diagonal fun i => mOmega2 i i))).map
                (· * lib.ofReal system.param.k0 * lib.ofReal mLi))) := by
  have hiff : EigenValuesVectors.mCheckForKzZero lib mOmega2 = true ↔
      ∀ i, lib.abs (mOmega2 i i) < 1 / 10 ^ 8 := by
    simp [EigenValuesVectors.mCheckForKzZero]
  refine ⟨hiff, ?_, ?_⟩
  · intro hall
    simp only [EigenValuesVectors.mBuildVWLam, hdiag, decide_True, if_true, hiff.mpr hall,
      bind, Option.none_bind]
  · intro hex
    have hcheck : EigenValuesVectors.mCheckForKzZero lib mOmega2 = false := by
      rw [← Bool.not_eq_true, hiff]
      push_neg
      obtain ⟨i, hi⟩ := hex
      exact ⟨i, not_lt.mp hi⟩
    simp only [EigenValuesVectors.mBuildVWLam, hdiag, decide_True, if_true, hcheck,
      Bool.false_eq_true, if_false, bind, Option.some_bind, pure]
    cases armaInv (EigenValuesVectors.mSignConventionSqrt lib
      (Matrix.diagonal fun i => mOmega2 i i)) <;> rfl

/-- Witness of the amended C12: the coupling operator `-I` of vacuum at normal
incidence, harmonic order 0, in exact arithmetic. -/
theorem C12_zero_wavevector_witness :
    ∃ lib : Numerics ℝ ℂ 0 0, lib.IsExact ∧
      ((∑ i, ∑ j, lib.abs (((-1 : ℂ) • (1 : Matrix (ModeIndex 0 0) (ModeIndex 0 0) ℂ)) i j))
          - ∑ i, lib.abs (((-1 : ℂ) • (1 : Matrix (ModeIndex 0 0) (ModeIndex 0 0) ℂ)) i i)
            < 1 / 10 ^ 9) ∧
      ((EigenValuesVectors.mCheckForKzZero lib
          ((-1 : ℂ) • (1 : Matrix (ModeIndex 0 0) (ModeIndex 0 0) ℂ)) = true ↔
        ∀ i, lib.abs (((-1 : ℂ) • (1 : Matrix (ModeIndex 0 0) (ModeIndex 0 0) ℂ)) i i)
          < 1 / 10 ^ 8)) :=
  have h : ∀ lib : Numerics ℝ ℂ 0 0, lib.IsExact →
      (∑ i, ∑ j, lib.abs (((-1 : ℂ) • (1 : Matrix (ModeIndex 0 0) (ModeIndex 0 0) ℂ)) i j))
        - ∑ i, lib.abs (((-1 : ℂ) • (1 : Matrix (ModeIndex 0 0) (ModeIndex 0 0) ℂ)) i i)
          < 1 / 10 ^ 9 := by
    intro lib hlib
    rw [EigenValuesVectors.sum_abs_smul_one lib hlib.abs_zero]
    positivity
  ⟨⟨Complex.re, Complex.im, Complex.ofReal, starRingEnd ℂ, Complex.abs,
      fun z => z ^ (1 / 2 : ℂ), Real.sqrt, id, fun _ => none, id⟩,
    ⟨rfl, rfl, rfl, rfl, rfl, rfl, rfl⟩,
    h _ ⟨rfl, rfl, rfl, rfl, rfl, rfl, rfl⟩,
    (C12_zero_wavevector _
      (SystemParameterCreator.createSystemParameters
        ⟨Complex.re, Complex.im, Complex.ofReal, starRingEnd ℂ, Complex.abs,
          fun z => z ^ (1 / 2 : ℂ), Real.sqrt, id, fun _ => none, id⟩
        ⟨1, 0, 0, 1, 0, 0, 0, 0, 1, 1, 1, 1⟩)
      1 0 _ (h _ ⟨rfl, rfl, rfl, rfl, rfl, rfl, rfl⟩)).1⟩

/-- C13. Zero whole sub-periods: in periodic mode (`stepsPerCycle` true) with
`0 <= thickness < period`, `mBuildThicknessInPowerOfTwoCycles` leaves the
exponent list of a freshly constructed writer empty, and with that writer
`mCalcPowerScatterMatrix` returns `Unity(dim)`, for every full-period matrix
stored under "full". -/
theorem C13_zero_sub_periods {K R : Type} [Field K] [DecidableEq K]
    [LinearOrderedField R] [FloorRing R] (d : ℕ) (cabs : R → R) (pi2 : R) (w : HoeWriter R)
    (hsteps : w.mWriterParameter.stepsPerCycle = true)
    (hfresh : w.mThicknessInPowerOfTwoCycles = [])
    (hperiod : 0 < w.getCycleLengthZDirection cabs pi2)
    (h0 : 0 ≤ w.mWriterParameter.thickness)
    (hlt : w.mWriterParameter.thickness < w.getCycleLengthZDirection cabs pi2)
    (accumulatedMatrices : StdMap (ScatterMatrix (Fin d) K)) (sRef F : ScatterMatrix (Fin d) K)
    (hRef : accumulatedMatrices.get "sRef" = some sRef)
    (hfull : accumulatedMatrices.get "full" = some F) :
    ∃ w', w.mBuildThicknessInPowerOfTwoCycles cabs pi2 = some w' ∧
      w'.getThicknessInPowerOfTwoCycles = [] ∧
      VolumeHologram3D.mCalcPowerScatterMatrix w' accumulatedMatrices = some Unity := by
  have hq0 : 0 ≤ w.mWriterParameter.thickness / w.getCycleLengthZDirection cabs pi2 :=
    div_nonneg h0 hperiod.le
  have hq1 : w.mWriterParameter.thickness / w.getCycleLengthZDirection cabs pi2 < 1 :=
    (div_lt_one hperiod).mpr hlt
  have hfloor : ⌊w.mWriterParameter.thickness / w.getCycleLengthZDirection cabs pi2⌋ = 0 :=
    Int.floor_eq_iff.mpr ⟨by simpa using hq0, by simpa using hq1⟩
  have hconv : doubleToInt (w.mWriterParameter.thickness / w.getCycleLengthZDirection cabs pi2)
      = some 0 := by
    simp only [doubleToInt, hq0, if_true, hfloor]
    rfl
  refine ⟨w, ?_, hfresh, ?_⟩
  · simp [HoeWriter.mBuildThicknessInPowerOfTwoCycles, hsteps, hconv]
  · simp [VolumeHologram3D.mCalcPowerScatterMatrix, HoeWriter.getThicknessInPowerOfTwoCycles,
      hfresh, hRef, hfull]

/-- Witness of C13: thickness 2 over a period of 3. -/
theorem C13_zero_sub_periods_witness :
    ∃ w', (⟨⟨1, 0, 0, 0, 0, 1, 0, true, 2, false, 0, 1⟩, 0, ![0, 0, 1], ![0, 0, 1], [], none, 1⟩ :
        HoeWriter ℚ).mBuildThicknessInPowerOfTwoCycles stdAbs 3 = some w' ∧
      w'.getThicknessInPowerOfTwoCycles = [] ∧
      VolumeHologram3D.mCalcPowerScatterMatrix w'
        ([("full", ⟨0, !![3], !![2], 0⟩), ("sRef", Unity)] : StdMap (ScatterMatrix (Fin 1) ℚ))
        = some Unity :=
  C13_zero_sub_periods 1 stdAbs 3
    ⟨⟨1, 0, 0, 0, 0, 1, 0, true, 2, false, 0, 1⟩, 0, ![0, 0, 1], ![0, 0, 1], [], none, 1⟩
    rfl rfl
    (by simp only [HoeWriter.getCycleLengthZDirection, stdAbs]; norm_num)
    (by norm_num)
    (by simp only [HoeWriter.getCycleLengthZDirection, stdAbs]; norm_num)
    _ Unity ⟨0, !![3], !![2], 0⟩ (by rfl) (by rfl)

/-- C14. Non-periodic request: when `stepsPerCycle` is false, a freshly
constructed writer gets the exponent list `[0]` and no residual (NaN), the
power stage returns the matrix stored under "full", the residual stage returns
Unity, and their star product (`optStar`: the product of the two results), the
stack interior of the final assembly, is the "full" matrix itself, for every
full matrix. -/
theorem C14_non_periodic {K R : Type} [Field K] [DecidableEq K]
    [LinearOrderedField R] [FloorRing R] (d : ℕ) (cabs : R → R) (pi2 : R) (stod : String → Option R)
    (w : HoeWriter R)
    (hsteps : w.mWriterParameter.stepsPerCycle = false)
    (hfresh : w.mThicknessInPowerOfTwoCycles = [])
    (accumulatedMatrices : StdMap (ScatterMatrix (Fin d) K)) (sRef F : ScatterMatrix (Fin d) K)
    (hRef : accumulatedMatrices.get "sRef" = some sRef)
    (hfull : accumulatedMatrices.get "full" = some F) :
    ∃ w', w.mBuildThicknessInPowerOfTwoCycles cabs pi2 = some w' ∧
      VolumeHologram3D.mCalcPowerScatterMatrix (w'.mBuildThicknessRest cabs pi2) accumulatedMatrices
        = some F ∧
      VolumeHologram3D.mCalcRestScatterMatrix stod (w'.mBuildThicknessRest cabs pi2)
        accumulatedMatrices = some Unity ∧
      optStar
        (VolumeHologram3D.mCalcPowerScatterMatrix (w'.mBuildThicknessRest cabs pi2)
          accumulatedMatrices)
        (VolumeHologram3D.mCalcRestScatterMatrix stod (w'.mBuildThicknessRest cabs pi2)
          accumulatedMatrices) = some F := by
  have hr : List.range 1 = [0] := rfl
  have hP : VolumeHologram3D.mCalcPowerScatterMatrix
      (({ w with mThicknessInPowerOfTwoCycles := [0] } : HoeWriter R).mBuildThicknessRest cabs pi2)
      accumulatedMatrices = some F := by
    simp [VolumeHologram3D.mCalcPowerScatterMatrix, HoeWriter.getThicknessInPowerOfTwoCycles,
      HoeWriter.mBuildThicknessRest, hsteps, hRef, hfull, VolumeHologram3D.powerStep,
      Unity_redhefferStarProduct, hr]
  have hR : VolumeHologram3D.mCalcRestScatterMatrix stod
      (({ w with mThicknessInPowerOfTwoCycles := [0] } : HoeWriter R).mBuildThicknessRest cabs pi2)
      accumulatedMatrices = some Unity := by
    simp [VolumeHologram3D.mCalcRestScatterMatrix, HoeWriter.getBuildThicknessRest,
      HoeWriter.mBuildThicknessRest, hsteps, hRef]
  refine ⟨{ w with mThicknessInPowerOfTwoCycles := [0] }, ?_, hP, hR, ?_⟩
  · simp [HoeWriter.mBuildThicknessInPowerOfTwoCycles, hsteps, hfresh]
  · rw [hP, hR]
    exact redhefferStarProduct_Unity F

/-- Witness of C14: a 1 x 1 full matrix over the rationals. -/
theorem C14_non_periodic_witness :
    ∃ w', (⟨⟨1, 0, 0, 0, 0, 1, 0, false, 2, false, 0, 1⟩, 0, ![0, 0, 1], ![0, 0, 1], [], none, 1⟩ :
        HoeWriter ℚ).mBuildThicknessInPowerOfTwoCycles stdAbs 3 = some w' ∧
      VolumeHologram3D.mCalcPowerScatterMatrix (w'.mBuildThicknessRest stdAbs 3)
        ([("full", ⟨!![1 / 2], !![3], !![2], !![1 / 5]⟩), ("sRef", Unity)] :
          StdMap (ScatterMatrix (Fin 1) ℚ))
        = some ⟨!![1 / 2], !![3], !![2], !![1 / 5]⟩ ∧
      VolumeHologram3D.mCalcRestScatterMatrix stodDecimal (w'.mBuildThicknessRest stdAbs 3)
        ([("full", ⟨!![1 / 2], !![3], !![2], !![1 / 5]⟩), ("sRef", Unity)] :
          StdMap (ScatterMatrix (Fin 1) ℚ)) = some Unity ∧
      optStar
        (VolumeHologram3D.mCalcPowerScatterMatrix (w'.mBuildThicknessRest stdAbs 3)
          ([("full", ⟨!![1 / 2], !![3], !![2], !![1 / 5]⟩), ("sRef", Unity)] :
            StdMap (ScatterMatrix (Fin 1) ℚ)))
        (VolumeHologram3D.mCalcRestScatterMatrix stodDecimal (w'.mBuildThicknessRest stdAbs 3)
          ([("full", ⟨!![1 / 2], !![3], !![2], !![1 / 5]⟩), ("sRef", Unity)] :
            StdMap (ScatterMatrix (Fin 1) ℚ)))
        = some ⟨!![1 / 2], !![3], !![2], !![1 / 5]⟩ :=
  C14_non_periodic 1 stdAbs 3 stodDecimal
    ⟨⟨1, 0, 0, 0, 0, 1, 0, false, 2, false, 0, 1⟩, 0, ![0, 0, 1], ![0, 0, 1], [], none, 1⟩
    rfl rfl _ Unity ⟨!![1 / 2], !![3], !![2], !![1 / 5]⟩ (by rfl) (by rfl)

/-- C20 fails as stated: for the eigenvalue `z = -1` the principal square root
is `i`, with imaginary part `1 >= 0`, and the entry of `Lambda` that
`mSignConventionSqrt` returns is `-i`, with negative imaginary part. -/
theorem C20_branch_selection_counterexample :
    (∃ lib : Numerics ℝ ℂ 0 0, lib.IsExact) ∧
    ∀ (lib : Numerics ℝ ℂ 0 0) (i : ModeIndex 0 0), lib.IsExact →
      lib.sqrt (-1) = Complex.I ∧ (0 : ℝ) ≤ (lib.sqrt (-1)).im ∧
      EigenValuesVectors.mSignConventionSqrt lib (Matrix.diagonal fun _ => (-1 : ℂ)) i i
        = -Complex.I ∧
      (EigenValuesVectors.mSignConventionSqrt lib (Matrix.diagonal fun _ => (-1 : ℂ)) i i).im
        < 0 := by
  refine ⟨⟨⟨Complex.re, Complex.im, Complex.ofReal, starRingEnd ℂ, Complex.abs,
    fun z => z ^ (1 / 2 : ℂ), Real.sqrt, id, fun _ => none, id⟩,
    rfl, rfl, rfl, rfl, rfl, rfl, rfl⟩, ?_⟩
  intro lib i hlib
  have hsq : lib.sqrt (-1) = Complex.I := by
    have := hlib.sqrt_neg_sq_of_pos (r := 1) one_pos
    simpa using this
  have hsq2 : (-1 : ℂ) ^ (1 / 2 : ℂ) = Complex.I := by
    rw [← hsq, hlib.2.2.2.2.2.1]
  have hentry := (EigenValuesVectors.mSignConventionSqrt_diagonal_exact lib hlib
    (fun _ => (-1 : ℂ)) i).1 (by rw [hsq2]; simp)
  rw [hsq2] at hentry
  refine ⟨hsq, by rw [hsq]; simp, hentry, by rw [hentry]; simp⟩

/-- C20, amended. Branch selection: in exact arithmetic, for every eigenvalue
`z` on the diagonal that `mBuildVWLam` passes, the corresponding entry of
`Lambda` returned by `mSignConventionSqrt` is `-r` when the principal square
root `r` of `z` has `Im r >= 0` and `r` when `Im r < 0`, so that every entry
of `Lambda` is a square root of `z` with non-positive imaginary part. -/
theorem C20_branch_selection {Nx Ny : ℕ} (lib : Numerics ℝ ℂ Nx Ny) (hlib : lib.IsExact)
    (d : ModeIndex Nx Ny → ℂ) (i : ModeIndex Nx Ny) :
    lib.sqrt (d i) = (d i) ^ (1 / 2 : ℂ) ∧
    (0 ≤ (lib.sqrt (d i)).im →
      EigenValuesVectors.mSignConventionSqrt lib (Matrix.diagonal d) i i = -lib.sqrt (d i)) ∧
    ((lib.sqrt (d i)).im < 0 →
      EigenValuesVectors.mSignConventionSqrt lib (Matrix.diagonal d) i i = lib.sqrt (d i)) ∧
    (EigenValuesVectors.mSignConventionSqrt lib (Matrix.diagonal d) i i) ^ 2 = d i ∧
    (EigenValuesVectors.mSignConventionSqrt lib (Matrix.diagonal d) i i).im ≤ 0 := by
  have hs : lib.sqrt (d i) = (d i) ^ (1 / 2 : ℂ) := by rw [hlib.2.2.2.2.2.1]
  obtain ⟨h1, h2⟩ := EigenValuesVectors.mSignConventionSqrt_diagonal_exact lib hlib d i
  have hsq : ((d i) ^ (1 / 2 : ℂ)) ^ 2 = d i := by
    have := Complex.cpow_nat_inv_pow (d i) (n := 2) (by norm_num)
    simp only [Nat.cast_ofNat] at this
    rw [one_div]
    exact this
  rw [hs]
  refine ⟨rfl, h1, h2, ?_, ?_⟩
  · rcases le_or_lt 0 ((d i) ^ (1 / 2 : ℂ)).im with h | h
    · rw [h1 h, neg_sq, hsq]
    · rw [h2 h, hsq]
  · rcases le_or_lt 0 ((d i) ^ (1 / 2 : ℂ)).im with h | h
    · rw [h1 h]
      simpa using h
    · rw [h2 h]
      exact h.le

/-- Witness of the amended C20: the eigenvalues `-1` of vacuum at normal
incidence, harmonic order 0. -/
theorem C20_branch_selection_witness :
    ∃ lib : Numerics ℝ ℂ 0 0, lib.IsExact ∧
      (EigenValuesVectors.mSignConventionSqrt lib (Matrix.diagonal fun _ => (-1 : ℂ))
        (Sum.inl 0) (Sum.inl 0)) ^ 2 = -1 ∧
      (EigenValuesVectors.mSignConventionSqrt lib (Matrix.diagonal fun _ => (-1 : ℂ))
        (Sum.inl 0) (Sum.inl 0)).im ≤ 0 :=
  ⟨⟨Complex.re, Complex.im, Complex.ofReal, starRingEnd ℂ, Complex.abs,
      fun z => z ^ (1 / 2 : ℂ), Real.sqrt, id, fun _ => none, id⟩,
    ⟨rfl, rfl, rfl, rfl, rfl, rfl, rfl⟩,
    (C20_branch_selection _ ⟨rfl, rfl, rfl, rfl, rfl, rfl, rfl⟩ (fun _ => (-1 : ℂ))
      (Sum.inl 0)).2.2.2⟩

/-- C15. Output row layout: for every harmonic order `N`, `calculateRCWAAsRow`
returns (when `calculateRCWA` returns) a row of length `4*(2N+1)` that is the
concatenation RS, RP, TS, TP in that order; within each block entry `j`
(`0 <= j <= 2N`) is the entry `(0, j)` of the grid, the efficiency of the
harmonic with flattened index `j`, whose diffraction order is `p = j - N`; and
the reshape-and-transpose of the evaluator followed by the
transpose-and-vectorise of the row builder is the identity on the
per-harmonic efficiency vector: `calculateAndFillDiffractionEfficiency`
returns its vectors `100 * pre * TTemp` and `100 * pre * RTemp` laid out by
`reshape(v, dimX, dimY).t()`, and a row that `calculateRCWAAsRow` returns is
the concatenation of these vectors themselves, those of reflection for the s
and the p polarisation and then those of transmission, taken at the system of
`mGetSystemParameter` and one scatter matrix, so that entry `j` of a block is
the evaluator's efficiency of harmonic `j`. -/
theorem C15_row_layout {R K : Type} [LinearOrderedField R] [FloorRing R] [Field K]
    [DecidableEq K] (N : ℕ) (lib : Numerics R K N 0) (cmath : CMath R) (pi2 degToRad : R)
    (to_string : R → String) (stod : String → Option R)
    (mPram : VolumeHologram3DParameter R K) (writer : HoeWriter R)
    (deviceCreator : DeviceCreator R K) :
    VolumeHologram3D.calculateRCWAAsRow lib cmath pi2 degToRad to_string stod mPram writer
        deviceCreator
      = (VolumeHologram3D.calculateRCWA lib cmath pi2 degToRad to_string stod mPram writer
          deviceCreator).map (fun e =>
        List.ofFn (vectoriseT e.RS) ++ List.ofFn (vectoriseT e.RP)
          ++ List.ofFn (vectoriseT e.TS) ++ List.ofFn (vectoriseT e.TP)) ∧
    (∀ e : DiffractionEfficiency R N 0,
      (List.ofFn (vectoriseT e.RS) ++ List.ofFn (vectoriseT e.RP)
          ++ List.ofFn (vectoriseT e.TS) ++ List.ofFn (vectoriseT e.TP)).length
        = 4 * (2 * N + 1) ∧
      ∀ j : Fin (2 * N + 1),
        (List.ofFn (vectoriseT e.RS) ++ List.ofFn (vectoriseT e.RP)
          ++ List.ofFn (vectoriseT e.TS) ++ List.ofFn (vectoriseT e.TP))[j.val]?
            = some (e.RS 0 j) ∧
        (List.ofFn (vectoriseT e.RS) ++ List.ofFn (vectoriseT e.RP)
          ++ List.ofFn (vectoriseT e.TS) ++ List.ofFn (vectoriseT e.TP))[(2 * N + 1) + j.val]?
            = some (e.RP 0 j) ∧
        (List.ofFn (vectoriseT e.RS) ++ List.ofFn (vectoriseT e.RP)
          ++ List.ofFn (vectoriseT e.TS) ++ List.ofFn (vectoriseT e.TP))[2 * (2 * N + 1) + j.val]?
            = some (e.TS 0 j) ∧
        (List.ofFn (vectoriseT e.RS) ++ List.ofFn (vectoriseT e.RP)
          ++ List.ofFn (vectoriseT e.TS) ++ List.ofFn (vectoriseT e.TP))[3 * (2 * N + 1) + j.val]?
            = some (e.TP 0 j)) ∧
    (∀ v : HarmonicIndex N 0 → R, vectoriseT (reshapeT v) = v) ∧
    (∀ j : HarmonicIndex N 0,
      vectoriseT (SystemParameterCreator.mBuildGrids N 0).1 j = (j.val : ℤ) - N) ∧
    (∀ (system : SystemParameters R K N 0) (S : ScatterMatrix (ModeIndex N 0) K)
        (cInc : ModeIndex N 0 → K),
      calculateAndFillDiffractionEfficiency lib system S cInc
        = (diffractionEfficiencyVectors lib system S cInc).map
            fun p => (reshapeT p.1, reshapeT p.2)) ∧
    (∀ row : List R,
      VolumeHologram3D.calculateRCWAAsRow lib cmath pi2 degToRad to_string stod mPram writer
          deviceCreator = some row →
      ∃ (S : ScatterMatrix (ModeIndex N 0) K) (tS rS tP rP : HarmonicIndex N 0 → R),
        diffractionEfficiencyVectors lib
          (VolumeHologram3D.mGetSystemParameter lib cmath pi2 degToRad mPram writer) S
          (VolumeHologram3D.mGetSystemParameter lib cmath pi2 degToRad mPram writer).cIncSPol
            = some (tS, rS) ∧
        diffractionEfficiencyVectors lib
          (VolumeHologram3D.mGetSystemParameter lib cmath pi2 degToRad mPram writer) S
          (VolumeHologram3D.mGetSystemParameter lib cmath pi2 degToRad mPram writer).cIncPPol
            = some (tP, rP) ∧
        VolumeHologram3D.calculateRCWA lib cmath pi2 degToRad to_string stod mPram writer
          deviceCreator
            = some { RS := reshapeT rS, RP := reshapeT rP, TS := reshapeT tS,
                     TP := reshapeT tP } ∧
        row = List.ofFn rS ++ List.ofFn rP ++ List.ofFn tS ++ List.ofFn tP ∧
        ∀ j : HarmonicIndex N 0,
          row[j.val]? = some (rS j) ∧ row[(2 * N + 1) + j.val]? = some (rP j) ∧
          row[2 * (2 * N + 1) + j.val]? = some (tS j) ∧
          row[3 * (2 * N + 1) + j.val]? = some (tP j)) := by
  have hrow : VolumeHologram3D.calculateRCWAAsRow lib cmath pi2 degToRad to_string stod mPram
      writer deviceCreator
        = (VolumeHologram3D.calculateRCWA lib cmath pi2 degToRad to_string stod mPram writer
            deviceCreator).map (fun e =>
          List.ofFn (vectoriseT e.RS) ++ List.ofFn (vectoriseT e.RP)
            ++ List.ofFn (vectoriseT e.TS) ++ List.ofFn (vectoriseT e.TP)) := by
    simp only [VolumeHologram3D.calculateRCWAAsRow, bind, pure, List.nil_append]
    cases VolumeHologram3D.calculateRCWA lib cmath pi2 degToRad to_string stod mPram writer
      deviceCreator <;> rfl
  refine ⟨hrow, ?_, vectoriseT_reshapeT, vectoriseT_pGrid N,
    calculateAndFillDiffractionEfficiency_eq_reshapeT lib, ?_⟩
  rotate_left
  · intro row hr
    rw [hrow] at hr
    obtain ⟨e, he, hre⟩ := Option.map_eq_some'.mp hr
    obtain ⟨S, hS⟩ := VolumeHologram3D.calculateRCWA_eq_some lib cmath pi2 degToRad to_string
      stod mPram writer deviceCreator e he
    obtain ⟨tS, rS, tP, rP, hs, hp, hE⟩ := calculateDiffractionEfficiency_eq_some lib _ S e hS
    have hlen : ∀ v : HarmonicIndex N 0 → R, (List.ofFn v).length = 2 * N + 1 := by
      intro v
      rw [List.length_ofFn]
      omega
    have hget : ∀ (v : HarmonicIndex N 0 → R) (j : HarmonicIndex N 0),
        (List.ofFn v)[j.val]? = some (v j) := by
      intro v j
      rw [List.getElem?_ofFn, List.ofFnNthVal, dif_pos j.isLt]
    have hrow2 : row = List.ofFn rS ++ List.ofFn rP ++ List.ofFn tS ++ List.ofFn tP := by
      rw [← hre, hE]
      simp only [vectoriseT_reshapeT]
    refine ⟨S, tS, rS, tP, rP, hs, hp, by rw [he, hE], hrow2, ?_⟩
    intro j
    have hj : j.val < 2 * N + 1 := by have := j.isLt; omega
    rw [hrow2]
    refine ⟨?_, ?_, ?_, ?_⟩
    · rw [List.append_assoc, List.append_assoc, List.getElem?_append_left (by rw [hlen]; exact hj)]
      exact hget _ j
    · rw [List.append_assoc, List.append_assoc,
        List.getElem?_append_right (by rw [hlen]; omega), hlen,
        List.getElem?_append_left (by rw [hlen]; omega)]
      simp only [Nat.add_sub_cancel_left]
      exact hget _ j
    · rw [List.append_assoc, List.append_assoc,
        List.getElem?_append_right (by rw [hlen]; omega), hlen,
        List.getElem?_append_right (by rw [hlen]; omega), hlen,
        List.getElem?_append_left (by rw [hlen]; omega)]
      have : 2 * (2 * N + 1) + j.val - (2 * N + 1) - (2 * N + 1) = j.val := by omega
      rw [this]
      exact hget _ j
    · rw [List.append_assoc, List.append_assoc,
        List.getElem?_append_right (by rw [hlen]; omega), hlen,
        List.getElem?_append_right (by rw [hlen]; omega), hlen,
        List.getElem?_append_right (by rw [hlen]; omega), hlen]
      have : 3 * (2 * N + 1) + j.val - (2 * N + 1) - (2 * N + 1) - (2 * N + 1) = j.val := by
        omega
      rw [this]
      exact hget _ j
  · intro e
    have hlen : ∀ A : Matrix (Fin (2 * 0 + 1)) (Fin (2 * N + 1)) R,
        (List.ofFn (vectoriseT A)).length = 2 * N + 1 := by
      intro A
      rw [List.length_ofFn]
      omega
    have hget : ∀ (A : Matrix (Fin (2 * 0 + 1)) (Fin (2 * N + 1)) R) (j : Fin (2 * N + 1)),
        (List.ofFn (vectoriseT A))[j.val]? = some (A 0 j) := by
      intro A j
      have hj : j.val < (2 * 0 + 1) * (2 * N + 1) := by have := j.isLt; omega
      rw [List.getElem?_ofFn, List.ofFnNthVal, dif_pos hj, vectoriseT_one_row]
    constructor
    · simp only [List.length_append, hlen]
      ring
    · intro j
      have hj := j.isLt
      refine ⟨?_, ?_, ?_, ?_⟩
      · rw [List.append_assoc, List.append_assoc, List.getElem?_append_left (by rw [hlen]; exact hj)]
        exact hget _ j
      · rw [List.append_assoc, List.append_assoc,
          List.getElem?_append_right (by rw [hlen]; omega), hlen,
          List.getElem?_append_left (by rw [hlen]; omega)]
        simp only [Nat.add_sub_cancel_left]
        exact hget _ j
      · rw [List.append_assoc, List.append_assoc,
          List.getElem?_append_right (by rw [hlen]; omega), hlen,
          List.getElem?_append_right (by rw [hlen]; omega), hlen,
          List.getElem?_append_left (by rw [hlen]; omega)]
        have : 2 * (2 * N + 1) + j.val - (2 * N + 1) - (2 * N + 1) = j.val := by omega
        rw [this]
        exact hget _ j
      · rw [List.append_assoc, List.append_assoc,
          List.getElem?_append_right (by rw [hlen]; omega), hlen,
          List.getElem?_append_right (by rw [hlen]; omega), hlen,
          List.getElem?_append_right (by rw [hlen]; omega), hlen]
        have : 3 * (2 * N + 1) + j.val - (2 * N + 1) - (2 * N + 1) - (2 * N + 1) = j.val := by
          omega
        rw [this]
        exact hget _ j

/-- C16. Logarithmic cost: the counted run returns what `mCalcPowerScatterMatrix`
returns, and for every `n >= 1`, when the exponent list of the writer is the set
of set-bit positions of `n` and the run returns `S`, it has performed exactly
`floor(log2 n)` self-combinations `temp = temp * temp` and `popcount(n)`
accumulating combinations `device = device * temp`, together at most
`2 * floor(log2 n) + 1` calls of `redhefferStarProduct`. -/
theorem C16_logarithmic_cost {K R : Type} [Field K] [DecidableEq K]
    [LinearOrderedField R] [FloorRing R] (d n : ℕ) (hn : 1 ≤ n) (writer : HoeWriter R)
    (hbits : ∀ x, x ∈ writer.getThicknessInPowerOfTwoCycles ↔ n.testBit x = true)
    (accumulatedMatrices : StdMap (ScatterMatrix (Fin d) K)) (S : ScatterMatrix (Fin d) K)
    (hS : VolumeHologram3D.mCalcPowerScatterMatrix writer accumulatedMatrices = some S) :
    (VolumeHologram3D.mCalcPowerScatterMatrixCounted writer accumulatedMatrices).map
        (fun r => r.1)
      = VolumeHologram3D.mCalcPowerScatterMatrix writer accumulatedMatrices ∧
    VolumeHologram3D.mCalcPowerScatterMatrixCounted writer accumulatedMatrices
      = some (S, Nat.log2 n, popcount n) ∧
    Nat.log2 n + popcount n ≤ 2 * Nat.log2 n + 1 := by
  refine ⟨VolumeHologram3D.mCalcPowerScatterMatrixCounted_fst writer accumulatedMatrices,
    VolumeHologram3D.mCalcPowerScatterMatrixCounted_of_bits hn writer hbits accumulatedMatrices hS,
    ?_⟩
  have := VolumeHologram3D.popcount_le n
  omega

/-- Witness of C16: `n = 3`, one self-combination and two accumulating
combinations on a 1 x 1 matrix over the rationals. -/
theorem C16_logarithmic_cost_witness :
    (Nat.log2 3 = 1 ∧ popcount 3 = 2) ∧
    VolumeHologram3D.mCalcPowerScatterMatrixCounted
      (⟨⟨1, 0, 0, 0, 0, 1, 0, true, 3, false, 0, 1⟩, 0, ![0, 0, 1], ![0, 0, 1], [0, 1], none, 1⟩ :
        HoeWriter ℚ)
      ([("full", ⟨0, !![3], !![2], 0⟩), ("sRef", Unity)] : StdMap (ScatterMatrix (Fin 1) ℚ))
      = some (⟨0, !![3] * (!![3] * (!![3] * 1)), 1 * !![2] * !![2] * !![2], 0⟩,
          Nat.log2 3, popcount 3) :=
  ⟨⟨by simp [Nat.log2], by simp [popcount, Nat.log2, List.range_succ, Nat.testBit]⟩,
    (C16_logarithmic_cost 1 3 (by decide)
      ⟨⟨1, 0, 0, 0, 0, 1, 0, true, 3, false, 0, 1⟩, 0, ![0, 0, 1], ![0, 0, 1], [0, 1], none, 1⟩
      mem_bits_three _ _
      mCalcPowerScatterMatrix_three).2.1⟩

/-- C17. Accumulation: `mGetAccumulatedScatterMatrices` is the call of
`calcAllScatterMatricesOfSystem` followed by the accumulating statements, and
for every layer sequence `S_0 .. S_{dimZ-1}` that the layer keys `"0"`, `"1"`,
... hold and whose left fold meets only invertible brackets, these statements
return a map that holds under the key `std::to_string(k * dz)` the left fold
`Unity * S_0 * ... * S_{k-1}` of the first `k` layer matrices for every `k` in
`0..dimZ` (Unity for `k = 0`), under `"full"` the fold over all `dimZ` layers,
and the two boundary matrices under their names, provided the thickness keys
are pairwise distinct. -/
theorem C17_accumulation {R K : Type} [LinearOrderedField R] [FloorRing R] [Field K]
    [DecidableEq K] (Nx : ℕ) (lib : Numerics R K Nx 0) (mPram : VolumeHologram3DParameter R K)
    (writer : HoeWriter R) (deviceCreator : DeviceCreator R K) (system : SystemParameters R K Nx 0)
    (allMatrices : StdMap (ScatterMatrix (ModeIndex Nx 0) K))
    (S : ℕ → ScatterMatrix (ModeIndex Nx 0) K) (sRef sTrn F : ScatterMatrix (ModeIndex Nx 0) K)
    (hRef : allMatrices.get "sRef" = some sRef) (hTrn : allMatrices.get "sTrn" = some sTrn)
    (hAr : mPram.addArLayer = true → (allMatrices.get "ar").isSome)
    (hS : ∀ i, i < mPram.dimZ.toNat → allMatrices.get (toString i) = some (S i))
    (hF : starFold S mPram.dimZ.toNat = some F)
    (hdist : ∀ j k, j ≤ mPram.dimZ.toNat → k ≤ mPram.dimZ.toNat → j ≠ k →
      to_string_double ((j : R) * writer.mDz) ≠ to_string_double ((k : R) * writer.mDz)) :
    VolumeHologram3D.mGetAccumulatedScatterMatrices lib to_string_double mPram writer
        deviceCreator system
      = (calcAllScatterMatricesOfSystem lib system deviceCreator).bind
          (VolumeHologram3D.accumulate to_string_double mPram writer.mDz) ∧
    ∃ acc, VolumeHologram3D.accumulate to_string_double mPram writer.mDz allMatrices = some acc ∧
      (∀ k, k ≤ mPram.dimZ.toNat →
        ∃ Fk, starFold S k = some Fk ∧
          acc.get (to_string_double ((k : R) * writer.mDz)) = some Fk) ∧
      starFold S 0 = some Unity ∧
      acc.get "full" = some F ∧ acc.get "sRef" = some sRef ∧ acc.get "sTrn" = some sTrn :=
  ⟨rfl, by
    obtain ⟨acc, hacc, hk, hfull, hr, ht⟩ :=
      VolumeHologram3D.accumulate_spec to_string_double mPram writer.mDz allMatrices S sRef sTrn F
        hRef hTrn hAr hS hF hdist (fun k _ => to_string_double_not_name_all _)
    exact ⟨acc, hacc, hk, rfl, hfull, hr, ht⟩⟩

/-- Witness of C17: two layers with the transmission blocks `s21 = 2`, `s12 = 3`,
`dz = 1/2`, over the rationals with harmonic order 0. -/
theorem C17_accumulation_witness :
    ∃ acc, VolumeHologram3D.accumulate to_string_double
        (⟨0, 0, 1, 0, 1, 1, 1, 0, 0, 0, 0, 1, 0, 2, true, 1, false⟩ :
          VolumeHologram3DParameter ℚ ℚ)
        (1 / 2 : ℚ)
        ([("0", ⟨0, (2 : ℚ) • 1, (3 : ℚ) • 1, 0⟩), ("1", ⟨0, (2 : ℚ) • 1, (3 : ℚ) • 1, 0⟩),
          ("sRef", Unity), ("sTrn", Unity)] : StdMap (ScatterMatrix (ModeIndex 0 0) ℚ)) = some acc ∧
      (∀ k, k ≤ (2 : ℤ).toNat →
        ∃ Fk, starFold (fun _ => (⟨0, (2 : ℚ) • 1, (3 : ℚ) • 1, 0⟩ :
            ScatterMatrix (ModeIndex 0 0) ℚ)) k = some Fk ∧
          acc.get (to_string_double ((k : ℚ) * (1 / 2 : ℚ))) = some Fk) ∧
      starFold (fun _ => (⟨0, (2 : ℚ) • 1, (3 : ℚ) • 1, 0⟩ :
            ScatterMatrix (ModeIndex 0 0) ℚ)) 0 = some Unity ∧
      acc.get "full" = some
        { s11 := 0 + (3 : ℚ) • 1 * (0 * (2 : ℚ) • 1)
          s21 := (2 : ℚ) • 1 * (2 : ℚ) • 1
          s12 := (3 : ℚ) • 1 * (3 : ℚ) • 1
          s22 := 0 } ∧
      acc.get "sRef" = some Unity ∧ acc.get "sTrn" = some Unity :=
  (C17_accumulation 0
    (⟨id, fun _ => 0, id, id, fun x => |x|, id, id, id, fun _ => none, id⟩ : Numerics ℚ ℚ 0 0)
    ⟨0, 0, 1, 0, 1, 1, 1, 0, 0, 0, 0, 1, 0, 2, true, 1, false⟩
    ⟨⟨1, 0, 0, 0, 0, 1, 0, true, 3, false, 0, 1⟩, 0, ![0, 0, 1], ![0, 0, 1], [0, 1], none, 1 / 2⟩
    ⟨0, fun l _ => l⟩
    (SystemParameterCreator.createSystemParameters
      (⟨id, fun _ => 0, id, id, fun x => |x|, id, id, id, fun _ => none, id⟩ : Numerics ℚ ℚ 0 0)
      ⟨1, 0, 0, 1, 0, 0, 0, 0, 1, 1, 1, 1⟩)
    [("0", ⟨0, (2 : ℚ) • 1, (3 : ℚ) • 1, 0⟩), ("1", ⟨0, (2 : ℚ) • 1, (3 : ℚ) • 1, 0⟩),
      ("sRef", Unity), ("sTrn", Unity)]
    (fun _ => ⟨0, (2 : ℚ) • 1, (3 : ℚ) • 1, 0⟩) Unity Unity _
    (by rfl) (by rfl) (fun h => Bool.noConfusion h)
    (by
      intro i hi
      have hi2 : i < 2 := hi
      interval_cases i <;> rfl)
    (by
      show starFold _ 2 = _
      rw [starFold, starFold, starFold, Option.some_bind, Unity_redhefferStarProduct,
        Option.some_bind, redhefferStarProduct_of_s22_eq_zero _ _ rfl])
    (fun j k _ _ hjk => to_string_double_key_ne (by norm_num) hjk)).2

/-- C18 fails as stated: with the slice thickness `dz = 1e-7 > 0` and
`dimZ = 1` the two cumulative keys, the texts of `0` and of `dz`, are both
`"0.000000"`. The second `insert` leaves the map unchanged: the map holds one
numeric entry, Unity, and the cumulative matrix after the first layer is
recorded under `"full"` only. -/
theorem C18_no_key_collisions_counterexample :
    ((0 : ℚ) < 1 / 10 ^ 7 ∧ (1 : ℤ) ≤ 1) ∧
    to_string_double (((0 : ℕ) : ℚ) * (1 / 10 ^ 7)) = "0.000000" ∧
    to_string_double (((1 : ℕ) : ℚ) * (1 / 10 ^ 7)) = "0.000000" ∧
    VolumeHologram3D.accumulate to_string_double
        (⟨0, 0, 1, 0, 1, 1, 1, 0, 0, 0, 0, 1, 0, 1, true, 1, false⟩ :
          VolumeHologram3DParameter ℚ ℚ)
        (1 / 10 ^ 7 : ℚ)
        ([("0", ⟨0, !![3], !![2], 0⟩), ("sRef", Unity), ("sTrn", Unity)] :
          StdMap (ScatterMatrix (Fin 1) ℚ))
      = some [("0.000000", Unity), ("full", ⟨0, !![3], !![2], 0⟩), ("sRef", Unity),
          ("sTrn", Unity)] ∧
    starFold (fun _ => (⟨0, !![3], !![2], 0⟩ : ScatterMatrix (Fin 1) ℚ)) 1
      = some ⟨0, !![3], !![2], 0⟩ ∧
    (⟨0, !![3], !![2], 0⟩ : ScatterMatrix (Fin 1) ℚ) ≠ Unity := by
  have hk0 : to_string_double (((0 : ℕ) : ℚ) * (1 / 10 ^ 7)) = "0.000000" := by
    apply to_string_double_of_round_zero (by norm_num)
    have hv : (((0 : ℕ) : ℚ) * (1 / 10 ^ 7)) * 10 ^ 6 = 0 := by norm_num
    rw [hv]
    unfold roundHalfEven
    rw [Int.floor_zero, if_pos (by norm_num)]
  have hk1 : to_string_double (((1 : ℕ) : ℚ) * (1 / 10 ^ 7)) = "0.000000" := by
    apply to_string_double_of_round_zero (by norm_num)
    have hv : (((1 : ℕ) : ℚ) * (1 / 10 ^ 7)) * 10 ^ 6 = 1 / 10 := by norm_num
    have hf : ⌊(1 / 10 : ℚ)⌋ = 0 := by
      rw [Int.floor_eq_iff]
      norm_num
    rw [hv]
    unfold roundHalfEven
    rw [hf, if_pos (by norm_num)]
  have hz : to_string_double (0 : ℚ) = "0.000000" := by
    have := hk0
    simpa using this
  have hz1 : to_string_double ((0 : ℚ) + 1 / 10 ^ 7) = "0.000000" := by
    have := hk1
    simpa using this
  have c1 : ¬ ("sTrn" < "sRef") := by rw [String.lt_iff_toList_lt]; decide
  have c2 : "0.000000" < "sRef" := by rw [String.lt_iff_toList_lt]; decide
  have c3 : ¬ ("0.000000" < "0.000000") := by rw [String.lt_iff_toList_lt]; decide
  have c4 : ¬ ("full" < "0.000000") := by rw [String.lt_iff_toList_lt]; decide
  have c5 : "full" < "sRef" := by rw [String.lt_iff_toList_lt]; decide
  have hstar : starFold (fun _ => (⟨0, !![3], !![2], 0⟩ : ScatterMatrix (Fin 1) ℚ)) 1
      = some ⟨0, !![3], !![2], 0⟩ := by
    rw [starFold, starFold, Option.some_bind, Unity_redhefferStarProduct]
  refine ⟨⟨by norm_num, le_refl _⟩, hk0, hk1, ?_, hstar, ?_⟩
  · have hr : List.range (1 : ℤ).toNat = [0] := rfl
    have hg0 : StdMap.get ([("0", ⟨0, !![3], !![2], 0⟩), ("sRef", Unity), ("sTrn", Unity)] :
        StdMap (ScatterMatrix (Fin 1) ℚ)) (toString 0) = some ⟨0, !![3], !![2], 0⟩ := by rfl
    have hgR : StdMap.get ([("0", ⟨0, !![3], !![2], 0⟩), ("sRef", Unity), ("sTrn", Unity)] :
        StdMap (ScatterMatrix (Fin 1) ℚ)) "sRef" = some Unity := by rfl
    have hgT : StdMap.get ([("0", ⟨0, !![3], !![2], 0⟩), ("sRef", Unity), ("sTrn", Unity)] :
        StdMap (ScatterMatrix (Fin 1) ℚ)) "sTrn" = some Unity := by rfl
    simp only [VolumeHologram3D.accumulate, VolumeHologram3D.accumulateStep, hr, hg0, hgR, hgT,
      bind, pure, Option.some_bind, Option.bind, List.foldlM, Bool.false_eq_true, if_false,
      Unity_redhefferStarProduct, hz, hz1, StdMap.insert, c1, c2, c3, c4, c5, if_true,
      String.reduceEq]
  · intro h
    have := congrArg (fun s => s.s12 0 0) h
    simp [Unity] at this

/-- C18, amended. No key collisions for `dz >= 1e-6`: in exact arithmetic, for
every slice thickness `dz >= 0.000001` and every `dimZ`, the `dimZ + 1`
cumulative-thickness keys (the `std::to_string` text of `0, dz, ..., dimZ * dz`)
are read back by `std::stod` as strictly increasing values, are pairwise
distinct and are no names of the map; and for layers `S_0 .. S_{dimZ-1}` whose
left fold meets only invertible brackets the accumulating statements of
`mGetAccumulatedScatterMatrices` return a map in which every one of the
`dimZ + 1` keys holds its own cumulative matrix, so that none is lost. -/
theorem C18_no_key_collisions {R K ι : Type} [LinearOrderedField R] [FloorRing R] [Field K]
    [DecidableEq K] [Fintype ι] [DecidableEq ι] (mPram : VolumeHologram3DParameter R K) (dz : R)
    (hdz : 1 / 10 ^ 6 ≤ dz)
    (allMatrices : StdMap (ScatterMatrix ι K))
    (S : ℕ → ScatterMatrix ι K) (sRef sTrn F : ScatterMatrix ι K)
    (hRef : allMatrices.get "sRef" = some sRef) (hTrn : allMatrices.get "sTrn" = some sTrn)
    (hAr : mPram.addArLayer = true → (allMatrices.get "ar").isSome)
    (hS : ∀ i, i < mPram.dimZ.toNat → allMatrices.get (toString i) = some (S i))
    (hF : starFold S mPram.dimZ.toNat = some F) :
    (∀ j k : ℕ, j < k → k ≤ mPram.dimZ.toNat →
      ∃ vj vk : ℚ, stodDecimal (to_string_double ((j : R) * dz)) = some vj ∧
        stodDecimal (to_string_double ((k : R) * dz)) = some vk ∧ vj < vk) ∧
    ((List.range (mPram.dimZ.toNat + 1)).map fun k : ℕ => to_string_double ((k : R) * dz)).Nodup ∧
    ((List.range (mPram.dimZ.toNat + 1)).map
      fun k : ℕ => to_string_double ((k : R) * dz)).length = mPram.dimZ.toNat + 1 ∧
    (∀ k : ℕ, to_string_double ((k : R) * dz) ∉ ["sRef", "sTrn", "ar", "full"]) ∧
    ∃ acc, VolumeHologram3D.accumulate to_string_double mPram dz allMatrices = some acc ∧
      ∀ k, k ≤ mPram.dimZ.toNat →
        ∃ Fk, starFold S k = some Fk ∧ acc.get (to_string_double ((k : R) * dz)) = some Fk := by
  refine ⟨fun j k hjk _ => key_values_lt hdz hjk, ?_, by simp,
    fun k => to_string_double_not_name_all _, ?_⟩
  · refine (List.nodup_map_iff_inj_on (List.nodup_range _)).mpr ?_
    intro j _ k _ hjk
    by_contra hne
    exact to_string_double_key_ne hdz hne hjk
  · obtain ⟨acc, hacc, hk, -⟩ :=
      VolumeHologram3D.accumulate_spec to_string_double mPram dz allMatrices S sRef sTrn F
        hRef hTrn hAr hS hF (fun j k _ _ hjk => to_string_double_key_ne hdz hjk)
        (fun k _ => to_string_double_not_name_all _)
    exact ⟨acc, hacc, hk⟩

/-- Witness of C18: one layer on the boundary `dz = 1e-6`, over the rationals. -/
theorem C18_no_key_collisions_witness :
    (1 / 10 ^ 6 : ℚ) ≤ 1 / 10 ^ 6 ∧
    ∃ acc, VolumeHologram3D.accumulate to_string_double
        (⟨0, 0, 1, 0, 1, 1, 1, 0, 0, 0, 0, 1, 0, 1, true, 1, false⟩ :
          VolumeHologram3DParameter ℚ ℚ)
        (1 / 10 ^ 6 : ℚ)
        ([("0", ⟨0, !![3], !![2], 0⟩), ("sRef", Unity), ("sTrn", Unity)] :
          StdMap (ScatterMatrix (Fin 1) ℚ)) = some acc ∧
      ∀ k, k ≤ (1 : ℤ).toNat →
        ∃ Fk, starFold (fun _ => (⟨0, !![3], !![2], 0⟩ : ScatterMatrix (Fin 1) ℚ)) k = some Fk ∧
          acc.get (to_string_double ((k : ℚ) * (1 / 10 ^ 6 : ℚ))) = some Fk :=
  ⟨le_refl _,
    (C18_no_key_collisions
      (⟨0, 0, 1, 0, 1, 1, 1, 0, 0, 0, 0, 1, 0, 1, true, 1, false⟩ : VolumeHologram3DParameter ℚ ℚ)
      (1 / 10 ^ 6 : ℚ) (le_refl _)
      ([("0", ⟨0, !![3], !![2], 0⟩), ("sRef", Unity), ("sTrn", Unity)] :
        StdMap (ScatterMatrix (Fin 1) ℚ))
      (fun _ => ⟨0, !![3], !![2], 0⟩) Unity Unity ⟨0, !![3], !![2], 0⟩
      (by rfl) (by rfl) (fun h => Bool.noConfusion h)
      (by
        intro i hi
        have hi1 : i < 1 := hi
        interval_cases i
        rfl)
      (by
        show starFold _ 1 = _
        rw [starFold, starFold, Option.some_bind, Unity_redhefferStarProduct])).2.2.2.2⟩

/-- C21 fails as stated: at normal incidence with harmonic order 0 and a
transmission half-space of refractive index 2, the transmission-side block
`s21 = 2 a^-1` that `mCalculateScatterRefTrn` returns is built from
`a = W0^-1 W + V0^-1 V = 3 I` (the reference is inverted), and it differs from
`2 a^-1` for the interior-layer formula `a = W^-1 W0 + V^-1 V0 = (3/2) I`. -/
theorem C21_boundary_ab_counterexample :
    ∃ lib : Numerics ℝ ℂ 0 0, lib.IsExact ∧
      ∃ (v0 w0 : Matrix (ModeIndex 0 0) (ModeIndex 0 0) ℂ)
        (eigenTrn : EigenValuesVectors ℝ ℂ 0 0) (sRef sTrn : ScatterMatrix (ModeIndex 0 0) ℂ),
        mEigenVectorsVacuumV0W0 lib (SystemParameterCreator.createSystemParameters lib
          ⟨1, 0, 0, ((1 : ℝ) : ℂ), 0, 0, 0, 0, 1, 1, ((2 : ℝ) : ℂ) ^ 2, 1⟩) = some (v0, w0) ∧
        EigenValuesVectors.create lib (SystemParameterCreator.createSystemParameters lib
          ⟨1, 0, 0, ((1 : ℝ) : ℂ), 0, 0, 0, 0, 1, 1, ((2 : ℝ) : ℂ) ^ 2, 1⟩)
          ⟨ArmaMat.scalar (SystemParameterCreator.createSystemParameters lib
              ⟨1, 0, 0, ((1 : ℝ) : ℂ), 0, 0, 0, 0, 1, 1, ((2 : ℝ) : ℂ) ^ 2, 1⟩).param.erTrn,
            ArmaMat.scalar (SystemParameterCreator.createSystemParameters lib
              ⟨1, 0, 0, ((1 : ℝ) : ℂ), 0, 0, 0, 0, 1, 1, ((2 : ℝ) : ℂ) ^ 2, 1⟩).param.urTrn,
            1, ""⟩ = some eigenTrn ∧
        mCalculateScatterRefTrn lib (SystemParameterCreator.createSystemParameters lib
          ⟨1, 0, 0, ((1 : ℝ) : ℂ), 0, 0, 0, 0, 1, 1, ((2 : ℝ) : ℂ) ^ 2, 1⟩) v0 w0
          = some (sRef, sTrn) ∧
        sTrn.s21 = (2 : ℂ) • (w0⁻¹ * eigenTrn.getW + v0⁻¹ * eigenTrn.getV)⁻¹ ∧
        sTrn.s21 ≠ (2 : ℂ) • (eigenTrn.getW⁻¹ * w0 + eigenTrn.getV⁻¹ * v0)⁻¹ := by
  have key : ∀ lib : Numerics ℝ ℂ 0 0, lib.IsExact → ∀ system : SystemParameters ℝ ℂ 0 0,
      system = SystemParameterCreator.createSystemParameters lib
        ⟨1, 0, 0, ((1 : ℝ) : ℂ), 0, 0, 0, 0, 1, 1, ((2 : ℝ) : ℂ) ^ 2, 1⟩ →
      ∃ (v0 w0 : Matrix (ModeIndex 0 0) (ModeIndex 0 0) ℂ)
        (eigenTrn : EigenValuesVectors ℝ ℂ 0 0) (sRef sTrn : ScatterMatrix (ModeIndex 0 0) ℂ),
        mEigenVectorsVacuumV0W0 lib system = some (v0, w0) ∧
        EigenValuesVectors.create lib system
          ⟨ArmaMat.scalar system.param.erTrn, ArmaMat.scalar system.param.urTrn, 1, ""⟩
            = some eigenTrn ∧
        mCalculateScatterRefTrn lib system v0 w0 = some (sRef, sTrn) ∧
        sTrn.s21 = (2 : ℂ) • (w0⁻¹ * eigenTrn.getW + v0⁻¹ * eigenTrn.getV)⁻¹ ∧
        sTrn.s21 ≠ (2 : ℂ) • (eigenTrn.getW⁻¹ * w0 + eigenTrn.getV⁻¹ * v0)⁻¹ := by
    intro lib hlib system hsys
    obtain ⟨eR, eT, hv0w0, hcR, hcT, hdv, hdw, -, -, haR, -, haT, -, haT'⟩ :=
      fresnel_boundary_setup lib hlib 1 2 (by norm_num) (by norm_num) system hsys
    have h3 : ((1 : ℂ) + ((2 : ℝ) : ℂ)) ≠ 0 := by norm_num
    have h32 : ((1 : ℂ) + 1 / ((2 : ℝ) : ℂ)) ≠ 0 := by norm_num
    have hres := mCalculateScatterRefTrn_eq lib system (Complex.I • blockJ (HarmonicIndex 0 0) ℂ)
      1 eR eT hcR hcT hdv hdw
      (by rw [haR]; exact det_smul_one_ne_zero (by norm_num))
      (by rw [haT]; exact det_smul_one_ne_zero h3)
    refine ⟨_, _, eT, _, _, hv0w0, hcT, hres, ?_, ?_⟩
    · ext i j
      simp only [Matrix.smul_apply, smul_eq_mul, Algebra.id.smul_eq_mul]
    · simp only [haT, haT']
      rw [inv_smul_one h3, inv_smul_one h32]
      intro h
      have := congrFun (congrFun h (Sum.inl 0)) (Sum.inl 0)
      simp only [Matrix.smul_apply, Matrix.one_apply_eq, smul_eq_mul, Algebra.id.smul_eq_mul,
        mul_one] at this
      norm_num at this
  exact ⟨⟨Complex.re, Complex.im, Complex.ofReal, starRingEnd ℂ, Complex.abs,
    fun z => z ^ (1 / 2 : ℂ), Real.sqrt, id, fun _ => none, id⟩,
    ⟨rfl, rfl, rfl, rfl, rfl, rfl, rfl⟩, key _ ⟨rfl, rfl, rfl, rfl, rfl, rfl, rfl⟩ _ rfl⟩

/-- C21, amended. Boundary `a` and `b`: for each boundary side with its own
mode matrices `V`, `W` and the free-space reference `V0`, `W0`,
`mCalculateScatterRefTrn` uses `a = W0^-1*W + V0^-1*V` and
`b = W0^-1*W - V0^-1*V`, that is the formulas of the interior layers with the
roles of `(V, W)` and `(V0, W0)` exchanged: the returned blocks built from `a`
and `b` alone are `sRef.s12 = 2 a^-1`, `sRef.s22 = b a^-1` on the reflection
side and `sTrn.s21 = 2 a^-1`, `sTrn.s11 = b a^-1` on the transmission side. -/
theorem C21_boundary_ab {R K : Type} [LinearOrderedField R] [Field K] [DecidableEq K]
    {Nx Ny : ℕ} (lib : Numerics R K Nx Ny) (system : SystemParameters R K Nx Ny)
    (v0 w0 : Matrix (ModeIndex Nx Ny) (ModeIndex Nx Ny) K)
    (eigenRef eigenTrn : EigenValuesVectors R K Nx Ny)
    (hRef : EigenValuesVectors.create lib system
      ⟨ArmaMat.scalar system.param.erRef, ArmaMat.scalar system.param.urRef, 1, ""⟩
        = some eigenRef)
    (hTrn : EigenValuesVectors.create lib system
      ⟨ArmaMat.scalar system.param.erTrn, ArmaMat.scalar system.param.urTrn, 1, ""⟩
        = some eigenTrn)
    (hv0 : v0.det ≠ 0) (hw0 : w0.det ≠ 0)
    (haRef : (w0⁻¹ * eigenRef.getW + v0⁻¹ * eigenRef.getV).det ≠ 0)
    (haTrn : (w0⁻¹ * eigenTrn.getW + v0⁻¹ * eigenTrn.getV).det ≠ 0) :
    ∃ sRef sTrn, mCalculateScatterRefTrn lib system v0 w0 = some (sRef, sTrn) ∧
      sRef.s12 = (2 : K) • (w0⁻¹ * eigenRef.getW + v0⁻¹ * eigenRef.getV)⁻¹ ∧
      sRef.s22 = (w0⁻¹ * eigenRef.getW - v0⁻¹ * eigenRef.getV) *
        (w0⁻¹ * eigenRef.getW + v0⁻¹ * eigenRef.getV)⁻¹ ∧
      sTrn.s21 = (2 : K) • (w0⁻¹ * eigenTrn.getW + v0⁻¹ * eigenTrn.getV)⁻¹ ∧
      sTrn.s11 = (w0⁻¹ * eigenTrn.getW - v0⁻¹ * eigenTrn.getV) *
        (w0⁻¹ * eigenTrn.getW + v0⁻¹ * eigenTrn.getV)⁻¹ :=
  ⟨_, _, mCalculateScatterRefTrn_eq lib system v0 w0 eigenRef eigenTrn hRef hTrn hv0 hw0 haRef
    haTrn, rfl, rfl, rfl, rfl⟩

/-- Witness of the amended C21: normal incidence on a medium of refractive
index 2, harmonic order 0, in exact arithmetic. -/
theorem C21_boundary_ab_witness :
    ∃ lib : Numerics ℝ ℂ 0 0, lib.IsExact ∧
      ∃ (eigenRef eigenTrn : EigenValuesVectors ℝ ℂ 0 0)
        (sRef sTrn : ScatterMatrix (ModeIndex 0 0) ℂ),
        mCalculateScatterRefTrn lib (SystemParameterCreator.createSystemParameters lib
          ⟨1, 0, 0, ((1 : ℝ) : ℂ), 0, 0, 0, 0, 1, 1, ((2 : ℝ) : ℂ) ^ 2, 1⟩)
          (Complex.I • blockJ (HarmonicIndex 0 0) ℂ) 1 = some (sRef, sTrn) ∧
        sRef.s12 = (2 : ℂ) • ((1 : Matrix (ModeIndex 0 0) (ModeIndex 0 0) ℂ)⁻¹ * eigenRef.getW
          + (Complex.I • blockJ (HarmonicIndex 0 0) ℂ)⁻¹ * eigenRef.getV)⁻¹ ∧
        sRef.s22 = ((1 : Matrix (ModeIndex 0 0) (ModeIndex 0 0) ℂ)⁻¹ * eigenRef.getW
            - (Complex.I • blockJ (HarmonicIndex 0 0) ℂ)⁻¹ * eigenRef.getV) *
          ((1 : Matrix (ModeIndex 0 0) (ModeIndex 0 0) ℂ)⁻¹ * eigenRef.getW
            + (Complex.I • blockJ (HarmonicIndex 0 0) ℂ)⁻¹ * eigenRef.getV)⁻¹ ∧
        sTrn.s21 = (2 : ℂ) • ((1 : Matrix (ModeIndex 0 0) (ModeIndex 0 0) ℂ)⁻¹ * eigenTrn.getW
          + (Complex.I • blockJ (HarmonicIndex 0 0) ℂ)⁻¹ * eigenTrn.getV)⁻¹ ∧
        sTrn.s11 = ((1 : Matrix (ModeIndex 0 0) (ModeIndex 0 0) ℂ)⁻¹ * eigenTrn.getW
            - (Complex.I • blockJ (HarmonicIndex 0 0) ℂ)⁻¹ * eigenTrn.getV) *
          ((1 : Matrix (ModeIndex 0 0) (ModeIndex 0 0) ℂ)⁻¹ * eigenTrn.getW
            + (Complex.I • blockJ (HarmonicIndex 0 0) ℂ)⁻¹ * eigenTrn.getV)⁻¹ := by
  have key : ∀ lib : Numerics ℝ ℂ 0 0, lib.IsExact → ∀ system : SystemParameters ℝ ℂ 0 0,
      system = SystemParameterCreator.createSystemParameters lib
        ⟨1, 0, 0, ((1 : ℝ) : ℂ), 0, 0, 0, 0, 1, 1, ((2 : ℝ) : ℂ) ^ 2, 1⟩ →
      ∃ (eigenRef eigenTrn : EigenValuesVectors ℝ ℂ 0 0)
        (sRef sTrn : ScatterMatrix (ModeIndex 0 0) ℂ),
        mCalculateScatterRefTrn lib system
          (Complex.I • blockJ (HarmonicIndex 0 0) ℂ) 1 = some (sRef, sTrn) ∧
        sRef.s12 = (2 : ℂ) • ((1 : Matrix (ModeIndex 0 0) (ModeIndex 0 0) ℂ)⁻¹ * eigenRef.getW
          + (Complex.I • blockJ (HarmonicIndex 0 0) ℂ)⁻¹ * eigenRef.getV)⁻¹ ∧
        sRef.s22 = ((1 : Matrix (ModeIndex 0 0) (ModeIndex 0 0) ℂ)⁻¹ * eigenRef.getW
            - (Complex.I • blockJ (HarmonicIndex 0 0) ℂ)⁻¹ * eigenRef.getV) *
          ((1 : Matrix (ModeIndex 0 0) (ModeIndex 0 0) ℂ)⁻¹ * eigenRef.getW
            + (Complex.I • blockJ (HarmonicIndex 0 0) ℂ)⁻¹ * eigenRef.getV)⁻¹ ∧
        sTrn.s21 = (2 : ℂ) • ((1 : Matrix (ModeIndex 0 0) (ModeIndex 0 0) ℂ)⁻¹ * eigenTrn.getW
          + (Complex.I • blockJ (HarmonicIndex 0 0) ℂ)⁻¹ * eigenTrn.getV)⁻¹ ∧
        sTrn.s11 = ((1 : Matrix (ModeIndex 0 0) (ModeIndex 0 0) ℂ)⁻¹ * eigenTrn.getW
            - (Complex.I • blockJ (HarmonicIndex 0 0) ℂ)⁻¹ * eigenTrn.getV) *
          ((1 : Matrix (ModeIndex 0 0) (ModeIndex 0 0) ℂ)⁻¹ * eigenTrn.getW
            + (Complex.I • blockJ (HarmonicIndex 0 0) ℂ)⁻¹ * eigenTrn.getV)⁻¹ := by
    intro lib hlib system hsys
    obtain ⟨eR, eT, -, hcR, hcT, hdv, hdw, -, -, haR, -, haT, -, -⟩ :=
      fresnel_boundary_setup lib hlib 1 2 (by norm_num) (by norm_num) system hsys
    obtain ⟨sRef, sTrn, h, h1, h2, h3, h4⟩ := C21_boundary_ab lib system
      (Complex.I • blockJ (HarmonicIndex 0 0) ℂ) 1 eR eT hcR hcT hdv hdw
      (by rw [haR]; exact det_smul_one_ne_zero (by norm_num))
      (by rw [haT]; exact det_smul_one_ne_zero (by norm_num))
    refine ⟨eR, eT, sRef, sTrn, h, ?_, ?_, ?_, ?_⟩
    · rw [h1]
    · rw [h2]
    · rw [h3]
    · rw [h4]
  exact ⟨⟨Complex.re, Complex.im, Complex.ofReal, starRingEnd ℂ, Complex.abs,
    fun z => z ^ (1 / 2 : ℂ), Real.sqrt, id, fun _ => none, id⟩,
    ⟨rfl, rfl, rfl, rfl, rfl, rfl, rfl⟩, key _ ⟨rfl, rfl, rfl, rfl, rfl, rfl, rfl⟩ _ rfl⟩

/-- C22. Boundary blocks: with `a = W0^-1*W + V0^-1*V` and
`b = W0^-1*W - V0^-1*V` as `mCalculateScatterRefTrn` computes them for each
side, and `a` invertible, the reflection-side matrix has `s11 = -a^-1*b`,
`s12 = 2*a^-1`, `s21 = (a - b*a^-1*b)/2`, `s22 = b*a^-1`, and the
transmission-side matrix is its mirror: `s11 = b*a^-1`,
`s12 = (a - b*a^-1*b)/2`, `s21 = 2*a^-1`, `s22 = -a^-1*b`. -/
theorem C22_boundary_blocks {R K : Type} [LinearOrderedField R] [Field K] [DecidableEq K]
    {Nx Ny : ℕ} (lib : Numerics R K Nx Ny) (system : SystemParameters R K Nx Ny)
    (v0 w0 : Matrix (ModeIndex Nx Ny) (ModeIndex Nx Ny) K)
    (eigenRef eigenTrn : EigenValuesVectors R K Nx Ny)
    (aRef bRef aTrn bTrn : Matrix (ModeIndex Nx Ny) (ModeIndex Nx Ny) K)
    (hRef : EigenValuesVectors.create lib system
      ⟨ArmaMat.scalar system.param.erRef, ArmaMat.scalar system.param.urRef, 1, ""⟩
        = some eigenRef)
    (hTrn : EigenValuesVectors.create lib system
      ⟨ArmaMat.scalar system.param.erTrn, ArmaMat.scalar system.param.urTrn, 1, ""⟩
        = some eigenTrn)
    (hv0 : v0.det ≠ 0) (hw0 : w0.det ≠ 0)
    (haR : aRef = w0⁻¹ * eigenRef.getW + v0⁻¹ * eigenRef.getV)
    (hbR : bRef = w0⁻¹ * eigenRef.getW - v0⁻¹ * eigenRef.getV)
    (haT : aTrn = w0⁻¹ * eigenTrn.getW + v0⁻¹ * eigenTrn.getV)
    (hbT : bTrn = w0⁻¹ * eigenTrn.getW - v0⁻¹ * eigenTrn.getV)
    (hdR : aRef.det ≠ 0) (hdT : aTrn.det ≠ 0) :
    mCalculateScatterRefTrn lib system v0 w0 = some
      ({ s11 := -(aRef⁻¹ * bRef)
         s12 := (2 : K) • aRef⁻¹
         s21 := (1 / 2 : K) • (aRef - bRef * aRef⁻¹ * bRef)
         s22 := bRef * aRef⁻¹ },
       { s11 := bTrn * aTrn⁻¹
         s12 := (1 / 2 : K) • (aTrn - bTrn * aTrn⁻¹ * bTrn)
         s21 := (2 : K) • aTrn⁻¹
         s22 := -(aTrn⁻¹ * bTrn) }) := by
  subst haR hbR haT hbT
  exact mCalculateScatterRefTrn_eq lib system v0 w0 eigenRef eigenTrn hRef hTrn hv0 hw0 hdR hdT

/-- Witness of C22: normal incidence on a medium of refractive index 3/2,
harmonic order 0, in exact arithmetic, where `a = 2 I`, `b = 0` on the
reflection side and `a = (5/2) I`, `b = -(1/2) I` on the transmission side. -/
theorem C22_boundary_blocks_witness :
    ∃ lib : Numerics ℝ ℂ 0 0, lib.IsExact ∧
      ∃ sRef sTrn : ScatterMatrix (ModeIndex 0 0) ℂ,
        mCalculateScatterRefTrn lib (SystemParameterCreator.createSystemParameters lib
          ⟨1, 0, 0, ((1 : ℝ) : ℂ), 0, 0, 0, 0, 1, 1, ((3 / 2 : ℝ) : ℂ) ^ 2, 1⟩)
          (Complex.I • blockJ (HarmonicIndex 0 0) ℂ) 1 = some (sRef, sTrn) ∧
        sRef.s12 = 1 ∧ sRef.s22 = 0 ∧
        sTrn.s21 = (4 / 5 : ℂ) • 1 ∧ sTrn.s11 = (-1 / 5 : ℂ) • 1 := by
  have key : ∀ lib : Numerics ℝ ℂ 0 0, lib.IsExact → ∀ system : SystemParameters ℝ ℂ 0 0,
      system = SystemParameterCreator.createSystemParameters lib
        ⟨1, 0, 0, ((1 : ℝ) : ℂ), 0, 0, 0, 0, 1, 1, ((3 / 2 : ℝ) : ℂ) ^ 2, 1⟩ →
      ∃ sRef sTrn : ScatterMatrix (ModeIndex 0 0) ℂ,
        mCalculateScatterRefTrn lib system
          (Complex.I • blockJ (HarmonicIndex 0 0) ℂ) 1 = some (sRef, sTrn) ∧
        sRef.s12 = 1 ∧ sRef.s22 = 0 ∧
        sTrn.s21 = (4 / 5 : ℂ) • 1 ∧ sTrn.s11 = (-1 / 5 : ℂ) • 1 := by
    intro lib hlib system hsys
    obtain ⟨eR, eT, -, hcR, hcT, hdv, hdw, -, -, haR, hbR, haT, hbT, -⟩ :=
      fresnel_boundary_setup lib hlib 1 (3 / 2) (by norm_num) (by norm_num) system hsys
    have h2 : (2 : ℂ) ≠ 0 := by norm_num
    have h52 : ((1 : ℂ) + ((3 / 2 : ℝ) : ℂ)) ≠ 0 := by norm_num
    have h := C22_boundary_blocks lib system (Complex.I • blockJ (HarmonicIndex 0 0) ℂ) 1
      eR eT _ _ _ _ hcR hcT hdv hdw haR.symm hbR.symm haT.symm hbT.symm
      (det_smul_one_ne_zero h2) (det_smul_one_ne_zero h52)
    refine ⟨_, _, h, ?_, ?_, ?_, ?_⟩
    · ext i j
      simp only [inv_smul_one h2, Matrix.smul_apply, smul_eq_mul, Algebra.id.smul_eq_mul]
      field_simp
    · simp
    · ext i j
      simp only [inv_smul_one h52, Matrix.smul_apply, smul_eq_mul, Algebra.id.smul_eq_mul]
      push_cast
      ring
    · ext i j
      simp only [inv_smul_one h52, smul_mul_smul_comm, mul_one, Matrix.smul_apply, smul_eq_mul,
        Algebra.id.smul_eq_mul]
      push_cast
      ring
  exact ⟨⟨Complex.re, Complex.im, Complex.ofReal, starRingEnd ℂ, Complex.abs,
    fun z => z ^ (1 / 2 : ℂ), Real.sqrt, id, fun _ => none, id⟩,
    ⟨rfl, rfl, rfl, rfl, rfl, rfl, rfl⟩, key _ ⟨rfl, rfl, rfl, rfl, rfl, rfl, rfl⟩ _ rfl⟩

/-- C23. Interior layer matrix: for every eigen-solution `(V, W, arg)` and
reference `(V0, W0)` with `V`, `W`, `a` and `a - x*b*a^-1*x*b` invertible,
where `a = W^-1*W0 + V^-1*V0`, `b = W^-1*W0 - V^-1*V0` and `x = expmat(arg)`,
`mBuildScatterMatrixInsideVacuum` returns a symmetric `ScatterMatrix` with
`s11 = s22 = (a - x*b*a^-1*x*b)^-1 * (x*b*a^-1*x*a - b)` and
`s12 = s21 = (a - x*b*a^-1*x*b)^-1 * x * (a - b*a^-1*b)`. -/
theorem C23_interior_layer {R K : Type} [LinearOrderedField R] [Field K] [DecidableEq K]
    {Nx Ny : ℕ} (lib : Numerics R K Nx Ny) (eigen : EigenValuesVectors R K Nx Ny)
    (v0 w0 a b x : Matrix (ModeIndex Nx Ny) (ModeIndex Nx Ny) K)
    (hv : eigen.getV.det ≠ 0) (hw : eigen.getW.det ≠ 0)
    (ha : a = eigen.getW⁻¹ * w0 + eigen.getV⁻¹ * v0)
    (hb : b = eigen.getW⁻¹ * w0 - eigen.getV⁻¹ * v0)
    (hx : x = lib.expmat eigen.getArg)
    (hda : a.det ≠ 0) (hdm : (a - x * b * a⁻¹ * x * b).det ≠ 0) :
    ∃ s : ScatterMatrix (ModeIndex Nx Ny) K,
      mBuildScatterMatrixInsideVacuum lib eigen v0 w0 = some s ∧
      s.s11 = (a - x * b * a⁻¹ * x * b)⁻¹ * (x * b * a⁻¹ * x * a - b) ∧
      s.s22 = s.s11 ∧
      s.s12 = (a - x * b * a⁻¹ * x * b)⁻¹ * x * (a - b * a⁻¹ * b) ∧
      s.s21 = s.s12 := by
  subst ha hb hx
  refine ⟨_, mBuildScatterMatrixInsideVacuum_eq lib eigen v0 w0 hv hw hda hdm, rfl, rfl, ?_, rfl⟩
  exact (Matrix.mul_assoc _ _ _).symm

/-- Witness of C23: a layer of zero optical thickness (`arg = 0`, `x = I`) with
`V = 2 I`, `W = I` against the reference `V0 = W0 = I`, over the rationals:
`a = (3/2) I`, `b = (1/2) I`. -/
theorem C23_interior_layer_witness :
    ∃ s : ScatterMatrix (ModeIndex 0 0) ℚ,
      mBuildScatterMatrixInsideVacuum
        (⟨id, fun _ => 0, id, id, fun x => |x|, id, id, id, fun _ => none, fun A => 1 + A⟩ :
          Numerics ℚ ℚ 0 0)
        (⟨0, 1, 1, 1, 1, 1, (2 : ℚ) • 1, 1, 1, 0⟩ : EigenValuesVectors ℚ ℚ 0 0) 1 1 = some s ∧
      s.s22 = s.s11 ∧ s.s21 = s.s12 := by
  have h2 : (2 : ℚ) ≠ 0 := by norm_num
  have ha : (3 / 2 : ℚ) • (1 : Matrix (ModeIndex 0 0) (ModeIndex 0 0) ℚ)
      = (1 : Matrix (ModeIndex 0 0) (ModeIndex 0 0) ℚ)⁻¹ * 1
        + ((2 : ℚ) • (1 : Matrix (ModeIndex 0 0) (ModeIndex 0 0) ℚ))⁻¹ * 1 := by
    rw [inv_one, inv_smul_one h2, mul_one, mul_one]
    nth_rewrite 2 [← one_smul ℚ (1 : Matrix (ModeIndex 0 0) (ModeIndex 0 0) ℚ)]
    rw [← add_smul]
    norm_num
  have hb : (1 / 2 : ℚ) • (1 : Matrix (ModeIndex 0 0) (ModeIndex 0 0) ℚ)
      = (1 : Matrix (ModeIndex 0 0) (ModeIndex 0 0) ℚ)⁻¹ * 1
        - ((2 : ℚ) • (1 : Matrix (ModeIndex 0 0) (ModeIndex 0 0) ℚ))⁻¹ * 1 := by
    rw [inv_one, inv_smul_one h2, mul_one, mul_one]
    nth_rewrite 2 [← one_smul ℚ (1 : Matrix (ModeIndex 0 0) (ModeIndex 0 0) ℚ)]
    rw [← sub_smul]
    norm_num
  have hx : (1 : Matrix (ModeIndex 0 0) (ModeIndex 0 0) ℚ) = 1 + 0 := (add_zero 1).symm
  have hm : (3 / 2 : ℚ) • (1 : Matrix (ModeIndex 0 0) (ModeIndex 0 0) ℚ)
      - 1 * (1 / 2 : ℚ) • 1 * ((3 / 2 : ℚ) • 1)⁻¹ * 1 * (1 / 2 : ℚ) • 1
        = (4 / 3 : ℚ) • (1 : Matrix (ModeIndex 0 0) (ModeIndex 0 0) ℚ) := by
    rw [inv_smul_one (by norm_num : (3 / 2 : ℚ) ≠ 0), one_mul, mul_one, smul_mul_smul_comm,
      smul_mul_smul_comm, mul_one, mul_one, ← sub_smul]
    norm_num
  obtain ⟨s, hs, -, h22, -, h21⟩ := C23_interior_layer
    (⟨id, fun _ => 0, id, id, fun x => |x|, id, id, id, fun _ => none, fun A => 1 + A⟩ :
      Numerics ℚ ℚ 0 0)
    (⟨0, 1, 1, 1, 1, 1, (2 : ℚ) • 1, 1, 1, 0⟩ : EigenValuesVectors ℚ ℚ 0 0) 1 1
    ((3 / 2 : ℚ) • 1) ((1 / 2 : ℚ) • 1) 1
    (det_smul_one_ne_zero h2) (by rw [EigenValuesVectors.getW, Matrix.det_one]; exact one_ne_zero)
    ha hb hx (det_smul_one_ne_zero (by norm_num))
    (by rw [hm]; exact det_smul_one_ne_zero (by norm_num))
  exact ⟨s, hs, h22, h21⟩

/-- C24. Convolution operator: for a profile that is no scalar, with the
harmonic grids of `mBuildGrids`, `spec` the centred spectrum
`mFftShift2(fft2(eRuR) / dim)`, `my = (rows-1)/2`, `mx = (cols-1)/2`, and every
window of `mGetRowFromSpectrumForConvolution` inside the spectrum,
`mBuildConvolutionMatrixFromErUr` returns the matrix whose entry `(i, j)` is
`spec(my + q_i - q_j, mx + p_i - p_j)` for all harmonic indices `i`, `j`; the
zero frequency of the transform sits at `(my, mx)`, and the operator is
block-Toeplitz: entries of equal harmonic differences are equal. -/
theorem C24_convolution_operator {R K : Type} [LinearOrderedField R] [Field K] [DecidableEq K]
    (Nx Ny : ℕ) (lib : Numerics R K Nx Ny) (system : SystemParameters R K Nx Ny)
    (hp : system.pGrid = (SystemParameterCreator.mBuildGrids Nx Ny).1)
    (hq : system.qGrid = (SystemParameterCreator.mBuildGrids Nx Ny).2)
    (eRuR : ArmaMat K) (hsize : ¬ (eRuR.n_rows = 1 ∧ eRuR.n_cols = 1))
    (spec : ArmaMat K)
    (hspec : spec = EigenValuesVectors.mFftShift2
      { n_rows := (lib.fft2 eRuR).n_rows
        n_cols := (lib.fft2 eRuR).n_cols
        elem := fun r c => (lib.fft2 eRuR).elem r c / ((eRuR.n_rows * eRuR.n_cols : ℕ) : K) })
    (hwin : ∀ i : HarmonicIndex Nx Ny,
      0 ≤ (((spec.n_rows - 1) / 2 : ℕ) : ℤ)
          + vectoriseT (SystemParameterCreator.mBuildGrids Nx Ny).2 i - Ny ∧
      0 ≤ (((spec.n_cols - 1) / 2 : ℕ) : ℤ)
          + vectoriseT (SystemParameterCreator.mBuildGrids Nx Ny).1 i - Nx ∧
      (((spec.n_rows - 1) / 2 : ℕ) : ℤ)
          + vectoriseT (SystemParameterCreator.mBuildGrids Nx Ny).2 i + Ny < spec.n_rows ∧
      (((spec.n_cols - 1) / 2 : ℕ) : ℤ)
          + vectoriseT (SystemParameterCreator.mBuildGrids Nx Ny).1 i + Nx < spec.n_cols) :
    ∃ M : Matrix (HarmonicIndex Nx Ny) (HarmonicIndex Nx Ny) K,
      EigenValuesVectors.mBuildConvolutionMatrixFromErUr lib system eRuR = some M ∧
      (∀ i j, M i j = spec.elem
        ((((spec.n_rows - 1) / 2 : ℕ) : ℤ)
          + vectoriseT (SystemParameterCreator.mBuildGrids Nx Ny).2 i
          - vectoriseT (SystemParameterCreator.mBuildGrids Nx Ny).2 j).toNat
        ((((spec.n_cols - 1) / 2 : ℕ) : ℤ)
          + vectoriseT (SystemParameterCreator.mBuildGrids Nx Ny).1 i
          - vectoriseT (SystemParameterCreator.mBuildGrids Nx Ny).1 j).toNat) ∧
      spec.elem ((spec.n_rows - 1) / 2) ((spec.n_cols - 1) / 2)
        = (lib.fft2 eRuR).elem 0 0 / ((eRuR.n_rows * eRuR.n_cols : ℕ) : K) ∧
      ∀ i j i' j' : HarmonicIndex Nx Ny,
        vectoriseT (SystemParameterCreator.mBuildGrids Nx Ny).1 i
            - vectoriseT (SystemParameterCreator.mBuildGrids Nx Ny).1 j
          = vectoriseT (SystemParameterCreator.mBuildGrids Nx Ny).1 i'
            - vectoriseT (SystemParameterCreator.mBuildGrids Nx Ny).1 j' →
        vectoriseT (SystemParameterCreator.mBuildGrids Nx Ny).2 i
            - vectoriseT (SystemParameterCreator.mBuildGrids Nx Ny).2 j
          = vectoriseT (SystemParameterCreator.mBuildGrids Nx Ny).2 i'
            - vectoriseT (SystemParameterCreator.mBuildGrids Nx Ny).2 j' →
        M i j = M i' j' := by
  obtain ⟨M, hM, hent⟩ := EigenValuesVectors.mBuildConvolutionMatrixFromErUr_entries lib system
    hp hq eRuR hsize spec hspec hwin
  refine ⟨M, hM, hent, ?_, ?_⟩
  · have h0 := hwin ⟨0, Nat.mul_pos (Nat.succ_pos _) (Nat.succ_pos _)⟩
    have hrows : 0 < spec.n_rows := by omega
    have hcols : 0 < spec.n_cols := by omega
    have hc := EigenValuesVectors.mFftShift2_centre
      ({ n_rows := (lib.fft2 eRuR).n_rows
         n_cols := (lib.fft2 eRuR).n_cols
         elem := fun r c =>
          (lib.fft2 eRuR).elem r c / ((eRuR.n_rows * eRuR.n_cols : ℕ) : K) } : ArmaMat K)
      (by rw [hspec] at hrows; exact hrows) (by rw [hspec] at hcols; exact hcols)
    rw [hspec]
    exact hc
  · intro i j i' j' h1 h2
    rw [hent i j, hent i' j']
    have e1 : ∀ a : ℤ, a + vectoriseT (SystemParameterCreator.mBuildGrids Nx Ny).1 i
        - vectoriseT (SystemParameterCreator.mBuildGrids Nx Ny).1 j
        = a + vectoriseT (SystemParameterCreator.mBuildGrids Nx Ny).1 i'
        - vectoriseT (SystemParameterCreator.mBuildGrids Nx Ny).1 j' := by
      intro a
      linarith
    have e2 : ∀ a : ℤ, a + vectoriseT (SystemParameterCreator.mBuildGrids Nx Ny).2 i
        - vectoriseT (SystemParameterCreator.mBuildGrids Nx Ny).2 j
        = a + vectoriseT (SystemParameterCreator.mBuildGrids Nx Ny).2 i'
        - vectoriseT (SystemParameterCreator.mBuildGrids Nx Ny).2 j' := by
      intro a
      linarith
    rw [e1, e2]

/-- Witness of C24: harmonic order 1 in x on a spectrum of one row and five
columns, over the rationals. -/
theorem C24_convolution_operator_witness :
    ∃ M : Matrix (HarmonicIndex 1 0) (HarmonicIndex 1 0) ℚ,
      EigenValuesVectors.mBuildConvolutionMatrixFromErUr
        (⟨id, fun _ => 0, id, id, fun x => |x|, id, id, id, fun _ => none, id⟩ :
          Numerics ℚ ℚ 1 0)
        (SystemParameterCreator.createSystemParameters
          (⟨id, fun _ => 0, id, id, fun x => |x|, id, id, id, fun _ => none, id⟩ :
            Numerics ℚ ℚ 1 0)
          ⟨1, 0, 0, 1, 1, 0, 0, 0, 1, 1, 1, 1⟩)
        ⟨1, 5, fun _ c => (c : ℚ) + 1⟩ = some M ∧
      ∀ i j : HarmonicIndex 1 0, M i j =
        (EigenValuesVectors.mFftShift2
          ({ n_rows := 1, n_cols := 5, elem := fun _ c => ((c : ℚ) + 1) / ((1 * 5 : ℕ) : ℚ) } :
            ArmaMat ℚ)).elem
          ((((1 - 1) / 2 : ℕ) : ℤ)
            + vectoriseT (SystemParameterCreator.mBuildGrids 1 0).2 i
            - vectoriseT (SystemParameterCreator.mBuildGrids 1 0).2 j).toNat
          ((((5 - 1) / 2 : ℕ) : ℤ)
            + vectoriseT (SystemParameterCreator.mBuildGrids 1 0).1 i
            - vectoriseT (SystemParameterCreator.mBuildGrids 1 0).1 j).toNat := by
  obtain ⟨M, hM, hent, -, -⟩ := C24_convolution_operator 1 0
    (⟨id, fun _ => 0, id, id, fun x => |x|, id, id, id, fun _ => none, id⟩ : Numerics ℚ ℚ 1 0)
    (SystemParameterCreator.createSystemParameters
      (⟨id, fun _ => 0, id, id, fun x => |x|, id, id, id, fun _ => none, id⟩ : Numerics ℚ ℚ 1 0)
      ⟨1, 0, 0, 1, 1, 0, 0, 0, 1, 1, 1, 1⟩)
    rfl rfl ⟨1, 5, fun _ c => (c : ℚ) + 1⟩ (by decide)
    (EigenValuesVectors.mFftShift2
      ({ n_rows := 1, n_cols := 5, elem := fun _ c => ((c : ℚ) + 1) / ((1 * 5 : ℕ) : ℚ) } :
        ArmaMat ℚ))
    rfl
    (by
      intro i
      obtain ⟨h1, h2⟩ := vectoriseT_mBuildGrids 1 0 i
      have hi := i.isLt
      rw [h1, h2]
      simp only [EigenValuesVectors.mFftShift2]
      omega)
  exact ⟨M, hM, hent⟩

/-- C25. Zero-order injection: for all harmonic orders `Nx`, `Ny` with
`M = (2Nx+1)(2Ny+1)`, the incident vectors that `mCalcSPol` builds have `2M`
entries, the index `(M-1)/2` exists and is the one harmonic with `p = 0` and
`q = 0` in the flattened grid, both vectors are zero at every other harmonic
in their x half and their y half, and at that harmonic they hold the x and y
components of the polarisation vectors `sPol`, `pPol` of the code (the unit
vectors `y`, `x` at parallel incidence, the normalised cross products
otherwise). The x slot of the harmonic `i` is `Sum.inl i` (index `i`) and its
y slot `Sum.inr i` (index `i + M`). -/
theorem C25_zero_order_injection {R K : Type} [LinearOrderedField R] [Field K]
    (Nx Ny : ℕ) (lib : Numerics R K Nx Ny) (pram : Parameter R K) :
    Fintype.card (ModeIndex Nx Ny) = 2 * ((2 * Nx + 1) * (2 * Ny + 1)) ∧
    (SystemParameterCreator.createSystemParameters lib pram).cIncSPol
      = (SystemParameterCreator.mCalcSPol lib pram).1 ∧
    (SystemParameterCreator.createSystemParameters lib pram).cIncPPol
      = (SystemParameterCreator.mCalcSPol lib pram).2 ∧
    (∃ i0 : HarmonicIndex Nx Ny, (i0 : ℕ) = ((2 * Ny + 1) * (2 * Nx + 1) - 1) / 2) ∧
    (∀ i : HarmonicIndex Nx Ny, (i : ℕ) = ((2 * Ny + 1) * (2 * Nx + 1) - 1) / 2 ↔
      vectoriseT (SystemParameterCreator.mBuildGrids Nx Ny).1 i = 0 ∧
        vectoriseT (SystemParameterCreator.mBuildGrids Nx Ny).2 i = 0) ∧
    (∀ i : HarmonicIndex Nx Ny, (i : ℕ) ≠ ((2 * Ny + 1) * (2 * Nx + 1) - 1) / 2 →
      (SystemParameterCreator.mCalcSPol lib pram).1 (Sum.inl i) = 0 ∧
      (SystemParameterCreator.mCalcSPol lib pram).1 (Sum.inr i) = 0 ∧
      (SystemParameterCreator.mCalcSPol lib pram).2 (Sum.inl i) = 0 ∧
      (SystemParameterCreator.mCalcSPol lib pram).2 (Sum.inr i) = 0) ∧
    (∀ i : HarmonicIndex Nx Ny, (i : ℕ) = ((2 * Ny + 1) * (2 * Nx + 1) - 1) / 2 →
      (SystemParameterCreator.mCalcSPol lib pram).1 (Sum.inl i)
        = (if lib.abs pram.kxInc + lib.abs pram.kyInc < 1 / 10 ^ 6 then ![0, 1, 0]
            else armaNormalise lib
              (armaCross ![pram.kxInc, pram.kyInc, pram.kzInc] ![0, 0, 1])) 0 ∧
      (SystemParameterCreator.mCalcSPol lib pram).1 (Sum.inr i)
        = (if lib.abs pram.kxInc + lib.abs pram.kyInc < 1 / 10 ^ 6 then ![0, 1, 0]
            else armaNormalise lib
              (armaCross ![pram.kxInc, pram.kyInc, pram.kzInc] ![0, 0, 1])) 1 ∧
      (SystemParameterCreator.mCalcSPol lib pram).2 (Sum.inl i)
        = (if lib.abs pram.kxInc + lib.abs pram.kyInc < 1 / 10 ^ 6 then ![1, 0, 0]
            else armaNormalise lib
              (armaCross ![pram.kxInc, pram.kyInc, pram.kzInc]
                (armaNormalise lib
                  (armaCross ![pram.kxInc, pram.kyInc, pram.kzInc] ![0, 0, 1])))) 0 ∧
      (SystemParameterCreator.mCalcSPol lib pram).2 (Sum.inr i)
        = (if lib.abs pram.kxInc + lib.abs pram.kyInc < 1 / 10 ^ 6 then ![1, 0, 0]
            else armaNormalise lib
              (armaCross ![pram.kxInc, pram.kyInc, pram.kzInc]
                (armaNormalise lib
                  (armaCross ![pram.kxInc, pram.kyInc, pram.kzInc] ![0, 0, 1])))) 1) := by
  refine ⟨?_, rfl, rfl, ⟨⟨_, middle_index_lt Nx Ny⟩, rfl⟩, middle_index_iff Nx Ny, ?_, ?_⟩
  · simp only [Fintype.card_sum, Fintype.card_fin]
    ring
  · intro i hi
    simp only [SystemParameterCreator.mCalcSPol, hi, if_false, and_self]
  · intro i hi
    by_cases hpar : lib.abs pram.kxInc + lib.abs pram.kyInc < 1 / 10 ^ 6
    · simp only [SystemParameterCreator.mCalcSPol, hi, if_true, hpar, decide_True, and_self]
    · simp only [SystemParameterCreator.mCalcSPol, hi, if_true, hpar, decide_False, if_false,
        Bool.false_eq_true, and_self]

/-- C26. Harmonic grid and Kx, Ky: for all `Nx`, `Ny` the flattened grids of
`createSystemParameters` have `M = (2Nx+1)(2Ny+1)` entries in row-major order,
`p_i = (i mod (2Nx+1)) - Nx` and `q_i = (i div (2Nx+1)) - Ny`, and `kxNorm`,
`kyNorm` are the `M x M` diagonal matrices with
`kxNorm[i,i] = (kxInc - p_i*t1X - q_i*t2X)/k0` and
`kyNorm[i,i] = (kyInc - p_i*t1Y - q_i*t2Y)/k0`. -/
theorem C26_harmonic_grid {R K : Type} [LinearOrderedField R] [Field K]
    (Nx Ny : ℕ) (lib : Numerics R K Nx Ny) (pram : Parameter R K) :
    Fintype.card (HarmonicIndex Nx Ny) = (2 * Nx + 1) * (2 * Ny + 1) ∧
    (∀ i : HarmonicIndex Nx Ny,
      vectoriseT (SystemParameterCreator.createSystemParameters lib pram).pGrid i
          = (((i : ℕ) % (2 * Nx + 1) : ℕ) : ℤ) - Nx ∧
        vectoriseT (SystemParameterCreator.createSystemParameters lib pram).qGrid i
          = (((i : ℕ) / (2 * Nx + 1) : ℕ) : ℤ) - Ny) ∧
    (SystemParameterCreator.createSystemParameters lib pram).kxNorm
      = Matrix.diagonal (fun i : HarmonicIndex Nx Ny =>
          (pram.kxInc
            - lib.ofReal ((((((i : ℕ) % (2 * Nx + 1) : ℕ) : ℤ) - Nx : ℤ) : R) * pram.t1X)
            - lib.ofReal ((((((i : ℕ) / (2 * Nx + 1) : ℕ) : ℤ) - Ny : ℤ) : R) * pram.t2X))
          / lib.ofReal pram.k0) ∧
    (SystemParameterCreator.createSystemParameters lib pram).kyNorm
      = Matrix.diagonal (fun i : HarmonicIndex Nx Ny =>
          (pram.kyInc
            - lib.ofReal ((((((i : ℕ) % (2 * Nx + 1) : ℕ) : ℤ) - Nx : ℤ) : R) * pram.t1Y)
            - lib.ofReal ((((((i : ℕ) / (2 * Nx + 1) : ℕ) : ℤ) - Ny : ℤ) : R) * pram.t2Y))
          / lib.ofReal pram.k0) := by
  refine ⟨?_, fun i => vectoriseT_mBuildGrids Nx Ny i, ?_, ?_⟩
  · simp only [Fintype.card_fin]
    ring
  · simp only [SystemParameterCreator.createSystemParameters,
      SystemParameterCreator.mBuildKxyNorm]
    simp only [fun i => (vectoriseT_mBuildGrids Nx Ny i).1,
      fun i => (vectoriseT_mBuildGrids Nx Ny i).2]
  · simp only [SystemParameterCreator.createSystemParameters,
      SystemParameterCreator.mBuildKxyNorm]
    simp only [fun i => (vectoriseT_mBuildGrids Nx Ny i).1,
      fun i => (vectoriseT_mBuildGrids Nx Ny i).2]

/-- C27. Efficiency formula: over diagonal `kxNorm`, `kyNorm`, `kzRefNorm`,
`kzTrnNorm` (diagonals `kx`, `ky`, `kzRef`, `kzTrn`, no `kz` entry zero, and
the real part of zero being zero), `calculateAndFillDiffractionEfficiency`
returns grids whose entry for the harmonic `i` (row-major position of the
entry) is, with `r = S.s11 * c` and `t = S.s21 * c` split into the first and
the last `M` entries and `r_z[i] = -(kx_i r_x[i] + ky_i r_y[i]) / kzRef_i`,
`t_z[i]` likewise with `kzTrn_i`:
`R_i = 100 * Re(-kzRef_i/urRef) / Re(kzInc/(k0*urRef)) * (|r_x|^2+|r_y|^2+|r_z|^2)`,
`T_i = 100 * Re(kzTrn_i/urTrn) / Re(kzInc/(k0*urRef)) * (|t_x|^2+|t_y|^2+|t_z|^2)`. -/
theorem C27_efficiency_formula {R K : Type} [LinearOrderedField R] [Field K] [DecidableEq K]
    {Nx Ny : ℕ} (lib : Numerics R K Nx Ny) (hre : lib.real 0 = 0)
    (system : SystemParameters R K Nx Ny) (kx ky kzRef kzTrn : HarmonicIndex Nx Ny → K)
    (hkx : system.kxNorm = Matrix.diagonal kx) (hky : system.kyNorm = Matrix.diagonal ky)
    (hkzRef : system.kzRefNorm = Matrix.diagonal kzRef)
    (hkzTrn : system.kzTrnNorm = Matrix.diagonal kzTrn)
    (hRef : ∀ i, kzRef i ≠ 0) (hTrn : ∀ i, kzTrn i ≠ 0)
    (S : ScatterMatrix (ModeIndex Nx Ny) K) (cInc : ModeIndex Nx Ny → K) :
    ∃ Tout Rout : Matrix (Fin (2 * Ny + 1)) (Fin (2 * Nx + 1)) R,
      calculateAndFillDiffractionEfficiency lib system S cInc = some (Tout, Rout) ∧
      ∀ (row : Fin (2 * Ny + 1)) (col : Fin (2 * Nx + 1)),
        Rout row col
          = 100 * lib.real (-kzRef (finProdFinEquiv (row, col)) / system.param.urRef)
              / lib.real (system.param.kzInc / (lib.ofReal system.param.k0 * system.param.urRef))
            * (lib.abs (S.s11.mulVec cInc (Sum.inl (finProdFinEquiv (row, col)))) ^ 2
              + lib.abs (S.s11.mulVec cInc (Sum.inr (finProdFinEquiv (row, col)))) ^ 2
              + lib.abs (-(kx (finProdFinEquiv (row, col))
                      * S.s11.mulVec cInc (Sum.inl (finProdFinEquiv (row, col)))
                    + ky (finProdFinEquiv (row, col))
                      * S.s11.mulVec cInc (Sum.inr (finProdFinEquiv (row, col))))
                  / kzRef (finProdFinEquiv (row, col))) ^ 2) ∧
        Tout row col
          = 100 * lib.real (kzTrn (finProdFinEquiv (row, col)) / system.param.urTrn)
              / lib.real (system.param.kzInc / (lib.ofReal system.param.k0 * system.param.urRef))
            * (lib.abs (S.s21.mulVec cInc (Sum.inl (finProdFinEquiv (row, col)))) ^ 2
              + lib.abs (S.s21.mulVec cInc (Sum.inr (finProdFinEquiv (row, col)))) ^ 2
              + lib.abs (-(kx (finProdFinEquiv (row, col))
                      * S.s21.mulVec cInc (Sum.inl (finProdFinEquiv (row, col)))
                    + ky (finProdFinEquiv (row, col))
                      * S.s21.mulVec cInc (Sum.inr (finProdFinEquiv (row, col))))
                  / kzTrn (finProdFinEquiv (row, col))) ^ 2) := by
  refine ⟨_, _, calculateAndFillDiffractionEfficiency_diagonal lib hre system kx ky kzRef kzTrn
    hkx hky hkzRef hkzTrn hRef hTrn S cInc, fun row col => ⟨?_, ?_⟩⟩
  · simp only [reshapeT, Matrix.of_apply]
    rw [neg_div, div_div, mul_div_assoc, neg_mul, neg_div, inv_mul_eq_div]
  · simp only [reshapeT, Matrix.of_apply]
    rw [div_div, mul_div_assoc, neg_mul, neg_div, inv_mul_eq_div]

/-- Witness of C27: harmonic order 0 over the rationals, `kx = ky = 0`,
`kzRef = -1`, `kzTrn = 2`, a response `s11 = (1/3) I`, `s21 = (2/3) I` and
the incident vector `(0, 1)`: `R = 100/9`, `T = 800/9`. -/
theorem C27_efficiency_formula_witness :
    ∃ Tout Rout : Matrix (Fin (2 * 0 + 1)) (Fin (2 * 0 + 1)) ℚ,
      calculateAndFillDiffractionEfficiency
        (⟨id, fun _ => 0, id, id, fun x => |x|, id, id, id, fun _ => none, id⟩ :
          Numerics ℚ ℚ 0 0)
        (⟨⟨1, 0, 0, 1, 0, 0, 0, 0, 1, 1, 4, 1⟩, Matrix.of (fun _ _ => 0),
          Matrix.of (fun _ _ => 0), Matrix.diagonal (fun _ => 0), Matrix.diagonal (fun _ => 0),
          Matrix.diagonal (fun _ => -1), Matrix.diagonal (fun _ => 2),
          Sum.elim (fun _ => 0) (fun _ => 1), Sum.elim (fun _ => 1) (fun _ => 0)⟩ :
          SystemParameters ℚ ℚ 0 0)
        (⟨(1 / 3 : ℚ) • 1, (2 / 3 : ℚ) • 1, 0, 0⟩ : ScatterMatrix (ModeIndex 0 0) ℚ)
        (Sum.elim (fun _ => 0) (fun _ => 1)) = some (Tout, Rout) ∧
      Rout 0 0 = 100 / 9 ∧ Tout 0 0 = 800 / 9 := by
  obtain ⟨Tout, Rout, h, hRT⟩ := C27_efficiency_formula
    (⟨id, fun _ => 0, id, id, fun x => |x|, id, id, id, fun _ => none, id⟩ : Numerics ℚ ℚ 0 0)
    rfl
    (⟨⟨1, 0, 0, 1, 0, 0, 0, 0, 1, 1, 4, 1⟩, Matrix.of (fun _ _ => 0),
      Matrix.of (fun _ _ => 0), Matrix.diagonal (fun _ => 0), Matrix.diagonal (fun _ => 0),
      Matrix.diagonal (fun _ => -1), Matrix.diagonal (fun _ => 2),
      Sum.elim (fun _ => 0) (fun _ => 1), Sum.elim (fun _ => 1) (fun _ => 0)⟩ :
      SystemParameters ℚ ℚ 0 0)
    (fun _ => 0) (fun _ => 0) (fun _ => -1) (fun _ => 2) rfl rfl rfl rfl
    (fun _ => by norm_num) (fun _ => by norm_num)
    (⟨(1 / 3 : ℚ) • 1, (2 / 3 : ℚ) • 1, 0, 0⟩ : ScatterMatrix (ModeIndex 0 0) ℚ)
    (Sum.elim (fun _ => 0) (fun _ => 1))
  refine ⟨Tout, Rout, h, ?_, ?_⟩
  · rw [(hRT 0 0).1]
    simp only [Matrix.smul_mulVec_assoc, Matrix.one_mulVec, Pi.smul_apply, Sum.elim_inl,
      Sum.elim_inr, smul_eq_mul, id]
    norm_num
  · rw [(hRT 0 0).2]
    simp only [Matrix.smul_mulVec_assoc, Matrix.one_mulVec, Pi.smul_apply, Sum.elim_inl,
      Sum.elim_inr, smul_eq_mul, id]
    norm_num

/-- C28. Matched boundary is transparent: whenever both boundary half-spaces
have the mode matrices of the free-space reference (`V = V0`, `W = W0`, both
invertible), both matrices that `mCalculateScatterRefTrn` returns are
`Unity(dim)`; this is so for the vacuum boundaries that `mGetSystemParameter`
always sets (`erRef = urRef = erTrn = urTrn = 1`), whose constructor call is
the one of `mEigenVectorsVacuumV0W0`; and with `Unity` stored under `"sRef"`
and `"sTrn"` the global matrix of `mCalcGlobalScatterMatrix` is the interior
stack alone. -/
theorem C28_matched_boundary {R K : Type} [LinearOrderedField R] [FloorRing R] [Field K]
    [DecidableEq K] {Nx Ny : ℕ} (lib : Numerics R K Nx Ny) (system : SystemParameters R K Nx Ny)
    (v0 w0 : Matrix (ModeIndex Nx Ny) (ModeIndex Nx Ny) K)
    (eigenRef eigenTrn : EigenValuesVectors R K Nx Ny) (h2 : (2 : K) ≠ 0)
    (hRef : EigenValuesVectors.create lib system
      ⟨ArmaMat.scalar system.param.erRef, ArmaMat.scalar system.param.urRef, 1, ""⟩
        = some eigenRef)
    (hTrn : EigenValuesVectors.create lib system
      ⟨ArmaMat.scalar system.param.erTrn, ArmaMat.scalar system.param.urTrn, 1, ""⟩
        = some eigenTrn)
    (hVR : eigenRef.getV = v0) (hWR : eigenRef.getW = w0)
    (hVT : eigenTrn.getV = v0) (hWT : eigenTrn.getW = w0)
    (hv0 : v0.det ≠ 0) (hw0 : w0.det ≠ 0) :
    mCalculateScatterRefTrn lib system v0 w0 = some (Unity, Unity) ∧
    (system.param.erRef = 1 → system.param.urRef = 1 → system.param.erTrn = 1 →
      system.param.urTrn = 1 → ∀ v w, mEigenVectorsVacuumV0W0 lib system = some (v, w) →
        v.det ≠ 0 → w.det ≠ 0 → mCalculateScatterRefTrn lib system v w = some (Unity, Unity)) ∧
    ∀ (mPram : VolumeHologram3DParameter R K) (P Rm : ScatterMatrix (ModeIndex Nx Ny) K)
      (accumulatedMatrices : StdMap (ScatterMatrix (ModeIndex Nx Ny) K)),
      accumulatedMatrices.get "sRef" = some Unity →
      accumulatedMatrices.get "sTrn" = some Unity →
      VolumeHologram3D.mCalcGlobalScatterMatrix mPram P Rm accumulatedMatrices
        = if mPram.addArLayer then
            (accumulatedMatrices.get "ar").bind fun sAr =>
              (redhefferStarProduct P Rm).bind fun d =>
                (redhefferStarProduct d sAr).bind fun d => redhefferStarProduct sAr d
          else redhefferStarProduct P Rm := by
  refine ⟨mCalculateScatterRefTrn_matched lib system v0 w0 eigenRef eigenTrn h2 hRef hTrn hVR hWR
    hVT hWT hv0 hw0, ?_, ?_⟩
  · intro e1 e2 e3 e4 v w hvw hv hw
    have hvac := hvw
    simp only [mEigenVectorsVacuumV0W0, bind, pure] at hvac
    cases hc : EigenValuesVectors.create lib system
        ⟨ArmaMat.scalar 1, ArmaMat.scalar 1, 1, ""⟩ with
    | none =>
      rw [hc] at hvac
      cases hvac
    | some e =>
      rw [hc] at hvac
      simp only [Option.some_bind, Option.some.injEq, Prod.mk.injEq] at hvac
      exact mCalculateScatterRefTrn_matched lib system v w e e h2 (by rw [e1, e2]; exact hc)
        (by rw [e3, e4]; exact hc) hvac.1 hvac.2 hvac.1 hvac.2 hv hw
  · intro mPram P Rm accumulatedMatrices hR hT
    exact VolumeHologram3D.mCalcGlobalScatterMatrix_of_Unity mPram P Rm accumulatedMatrices hR hT

/-- Witness of C28: the vacuum boundaries at normal incidence, harmonic order
0, in exact arithmetic. -/
theorem C28_matched_boundary_witness :
    ∃ lib : Numerics ℝ ℂ 0 0, lib.IsExact ∧
      mCalculateScatterRefTrn lib (SystemParameterCreator.createSystemParameters lib
        ⟨1, 0, 0, ((1 : ℝ) : ℂ), 0, 0, 0, 0, 1, 1, ((1 : ℝ) : ℂ) ^ 2, 1⟩)
        (Complex.I • blockJ (HarmonicIndex 0 0) ℂ) 1 = some (Unity, Unity) := by
  have key : ∀ lib : Numerics ℝ ℂ 0 0, lib.IsExact → ∀ system : SystemParameters ℝ ℂ 0 0,
      system = SystemParameterCreator.createSystemParameters lib
        ⟨1, 0, 0, ((1 : ℝ) : ℂ), 0, 0, 0, 0, 1, 1, ((1 : ℝ) : ℂ) ^ 2, 1⟩ →
      mCalculateScatterRefTrn lib system
        (Complex.I • blockJ (HarmonicIndex 0 0) ℂ) 1 = some (Unity, Unity) := by
    intro lib hlib system hsys
    obtain ⟨eR, eT, -, hcR, hcT, hdv, hdw, hVR, hWR, -, -, -, -, -⟩ :=
      fresnel_boundary_setup lib hlib 1 1 (by norm_num) (by norm_num) system hsys
    have hcT' : EigenValuesVectors.create lib system
        ⟨ArmaMat.scalar system.param.erTrn, ArmaMat.scalar system.param.urTrn, 1, ""⟩
          = some eR := by
      have e1 : system.param.erTrn = 1 := by rw [hsys]; simp [SystemParameterCreator.createSystemParameters]
      have e2 : system.param.urTrn = 1 := by rw [hsys]; rfl
      have e3 : system.param.erRef = 1 := by rw [hsys]; rfl
      have e4 : system.param.urRef = 1 := by rw [hsys]; rfl
      rw [e1, e2]
      rw [e3, e4] at hcR
      exact hcR
    exact (C28_matched_boundary lib system (Complex.I • blockJ (HarmonicIndex 0 0) ℂ) 1 eR eR
      (by norm_num) hcR hcT' hVR hWR hVR hWR hdv hdw).1
  exact ⟨⟨Complex.re, Complex.im, Complex.ofReal, starRingEnd ℂ, Complex.abs,
    fun z => z ^ (1 / 2 : ℂ), Real.sqrt, id, fun _ => none, id⟩,
    ⟨rfl, rfl, rfl, rfl, rfl, rfl, rfl⟩, key _ ⟨rfl, rfl, rfl, rfl, rfl, rfl, rfl⟩ _ rfl⟩

/-- C29. Homogeneous layer gives a diagonal coupling operator: for every
uniform scalar profile `er = e`, `ur = u` (both non-zero, given as 1x1
matrices) the convolution operators are `e I` and `u I`, and over diagonal
`Kx`, `Ky` the matrix `Omega^2 = P * Q` built by `mBuildQPOmega2` has
`kx_i^2 + ky_i^2 - e u` as its `i`-th and `(M+i)`-th diagonal entries and zero
everywhere else, so (the modulus of zero being zero) `mBuildVWLam` takes its
diagonal path: `W = I`, the eigenvalues are the diagonal of `Omega^2`, and
`eig_gen` is not called. -/
theorem C29_homogeneous_diagonal {R K : Type} [LinearOrderedField R] [Field K] [DecidableEq K]
    {Nx Ny : ℕ} (lib : Numerics R K Nx Ny) (habs0 : lib.abs 0 = 0)
    (system : SystemParameters R K Nx Ny) (kx ky : HarmonicIndex Nx Ny → K)
    (hkx : system.kxNorm = Matrix.diagonal kx) (hky : system.kyNorm = Matrix.diagonal ky)
    (e u : K) (he : e ≠ 0) (hu : u ≠ 0) (li : R) :
    EigenValuesVectors.mBuildConvolutionMatrixFromErUr lib system (ArmaMat.scalar e)
      = some (e • 1) ∧
    EigenValuesVectors.mBuildConvolutionMatrixFromErUr lib system (ArmaMat.scalar u)
      = some (u • 1) ∧
    ∃ Q P mOmega2 : Matrix (ModeIndex Nx Ny) (ModeIndex Nx Ny) K,
      EigenValuesVectors.mBuildQPOmega2 system (e • 1) (u • 1) = some (Q, P, mOmega2) ∧
      mOmega2 = P * Q ∧
      (∀ i, mOmega2 (Sum.inl i) (Sum.inl i) = kx i ^ 2 + ky i ^ 2 - e * u ∧
        mOmega2 (Sum.inr i) (Sum.inr i) = kx i ^ 2 + ky i ^ 2 - e * u) ∧
      (∀ a b, a ≠ b → mOmega2 a b = 0) ∧
      EigenValuesVectors.mBuildVWLam lib system li Q mOmega2
        = if EigenValuesVectors.mCheckForKzZero lib mOmega2 then none
          else (armaInv (EigenValuesVectors.mSignConventionSqrt lib
              (Matrix.diagonal fun i => mOmega2 i i))).bind
            fun lamInv => some (Q * 1 * lamInv, 1,
              EigenValuesVectors.mSignConventionSqrt lib (Matrix.diagonal fun i => mOmega2 i i),
              (-(EigenValuesVectors.mSignConventionSqrt lib
                  (Matrix.diagonal fun i => mOmega2 i i))).map
                (· * lib.ofReal system.param.k0 * lib.ofReal li)) := by
  obtain ⟨Q, P, hQP, hdiag⟩ :=
    EigenValuesVectors.mBuildQPOmega2_homogeneous system kx ky hkx hky he hu
  refine ⟨EigenValuesVectors.mBuildConvolutionMatrixFromErUr_scalar lib system e,
    EigenValuesVectors.mBuildConvolutionMatrixFromErUr_scalar lib system u,
    Q, P, P * Q, hQP, rfl, ?_, ?_, ?_⟩
  · intro i
    rw [hdiag]
    exact ⟨by rw [Matrix.diagonal_apply_eq, Sum.elim_inl],
      by rw [Matrix.diagonal_apply_eq, Sum.elim_inr]⟩
  · intro a b hab
    rw [hdiag]
    exact Matrix.diagonal_apply_ne _ hab
  · apply EigenValuesVectors.mBuildVWLam_of_isDiagonal
    rw [hdiag, EigenValuesVectors.accu_diagonal lib habs0]
    positivity

/-- Witness of C29: harmonic order 0 over the rationals, `Kx = Ky = 0`,
`e = 4`, `u = 1`: both diagonal entries of `Omega^2` are `-4`. -/
theorem C29_homogeneous_diagonal_witness :
    ∃ Q P mOmega2 : Matrix (ModeIndex 0 0) (ModeIndex 0 0) ℚ,
      EigenValuesVectors.mBuildQPOmega2
        (⟨⟨1, 0, 0, 1, 0, 0, 0, 0, 1, 1, 4, 1⟩, Matrix.of (fun _ _ => 0),
          Matrix.of (fun _ _ => 0), Matrix.diagonal (fun _ => 0), Matrix.diagonal (fun _ => 0),
          Matrix.diagonal (fun _ => -1), Matrix.diagonal (fun _ => 2),
          Sum.elim (fun _ => 0) (fun _ => 1), Sum.elim (fun _ => 1) (fun _ => 0)⟩ :
          SystemParameters ℚ ℚ 0 0) ((4 : ℚ) • 1) ((1 : ℚ) • 1) = some (Q, P, mOmega2) ∧
      mOmega2 = P * Q ∧ mOmega2 (Sum.inl 0) (Sum.inl 0) = -4 ∧
      mOmega2 (Sum.inr 0) (Sum.inr 0) = -4 ∧ mOmega2 (Sum.inl 0) (Sum.inr 0) = 0 := by
  obtain ⟨-, -, Q, P, mOmega2, h, hPQ, hd, ho, -⟩ := C29_homogeneous_diagonal
    (⟨id, fun _ => 0, id, id, fun x => |x|, id, id, id, fun _ => none, id⟩ : Numerics ℚ ℚ 0 0)
    abs_zero
    (⟨⟨1, 0, 0, 1, 0, 0, 0, 0, 1, 1, 4, 1⟩, Matrix.of (fun _ _ => 0),
      Matrix.of (fun _ _ => 0), Matrix.diagonal (fun _ => 0), Matrix.diagonal (fun _ => 0),
      Matrix.diagonal (fun _ => -1), Matrix.diagonal (fun _ => 2),
      Sum.elim (fun _ => 0) (fun _ => 1), Sum.elim (fun _ => 1) (fun _ => 0)⟩ :
      SystemParameters ℚ ℚ 0 0)
    (fun _ => 0) (fun _ => 0) rfl rfl 4 1 (by norm_num) one_ne_zero 1
  refine ⟨Q, P, mOmega2, h, hPQ, ?_, ?_, ho _ _ Sum.inl_ne_inr⟩
  · rw [(hd 0).1]
    norm_num
  · rw [(hd 0).2]
    norm_num

/-- C31. Spectrum window stays in bounds: for a spectrum of size rows x cols
and harmonic orders `Nx`, `Ny`, `mGetRowFromSpectrumForConvolution` finds its
window inside the spectrum (`submat` does not throw) for every harmonic
`(p, q)` of the grid if and only if `2*Nx <= floor((cols-1)/2)` and
`2*Ny <= floor((rows-1)/2)`; for a 3 x 101 spectrum with `Ny = 0` this holds
exactly when the harmonic order is at most 25; and the sample grid that
`mBuildGrid` of `HoeWriter` returns has 3 rows and, unless the x component of
the grating vector is below 1e-8, 101 columns. -/
theorem C31_spectrum_window {R K : Type} [LinearOrderedField R] [FloorRing R] (Nx Ny : ℕ)
    (spec : ArmaMat K) :
    ((∀ i : HarmonicIndex Nx Ny, (EigenValuesVectors.mGetRowFromSpectrumForConvolution spec
        (vectoriseT (SystemParameterCreator.mBuildGrids Nx Ny).1 i)
        (vectoriseT (SystemParameterCreator.mBuildGrids Nx Ny).2 i) :
          Option (HarmonicIndex Nx Ny → K)).isSome) ↔
      (2 * (Nx : ℤ) ≤ ((spec.n_cols : ℤ) - 1) / 2 ∧
        2 * (Ny : ℤ) ≤ ((spec.n_rows : ℤ) - 1) / 2)) ∧
    (∀ elem : ℕ → ℕ → K,
      (∀ i : HarmonicIndex Nx 0, (EigenValuesVectors.mGetRowFromSpectrumForConvolution
        (⟨3, 101, elem⟩ : ArmaMat K)
        (vectoriseT (SystemParameterCreator.mBuildGrids Nx 0).1 i)
        (vectoriseT (SystemParameterCreator.mBuildGrids Nx 0).2 i) :
          Option (HarmonicIndex Nx 0 → K)).isSome) ↔ Nx ≤ 25) ∧
    (∀ (pi2 : R) (w w' : HoeWriter R) (grid : ArmaMat R),
      w.mBuildGrid pi2 = some (w', grid) →
        grid.n_rows = 3 ∧
          grid.n_cols = if |w.mGratingVectorRot 0| < 1 / 10 ^ 8 then 3 else 101) := by
  refine ⟨EigenValuesVectors.windows_inside_iff Nx Ny spec, ?_, ?_⟩
  · intro elem
    rw [EigenValuesVectors.windows_inside_iff Nx 0 (⟨3, 101, elem⟩ : ArmaMat K)]
    simp only [Nat.cast_ofNat]
    omega
  · intro pi2 w w' grid h
    unfold HoeWriter.mBuildGrid at h
    simp only [bind, pure] at h
    by_cases h0 : |w.mGratingVectorRot 0| < 1 / 10 ^ 8
    · simp only [h0, if_true] at h ⊢
      split_ifs at h
      · simp at h
      · simp only [Option.some_bind, Option.some.injEq, Prod.mk.injEq] at h
        rw [← h.2]
        exact ⟨rfl, rfl⟩
      · simp only [Option.some_bind, Option.some.injEq, Prod.mk.injEq] at h
        rw [← h.2]
        exact ⟨rfl, rfl⟩
    · simp only [h0, if_false] at h ⊢
      split_ifs at h
      · simp at h
      · simp only [Option.some_bind, Option.some.injEq, Prod.mk.injEq] at h
        rw [← h.2]
        exact ⟨rfl, rfl⟩
      · simp only [Option.some_bind, Option.some.injEq, Prod.mk.injEq] at h
        rw [← h.2]
        exact ⟨rfl, rfl⟩

/-- C32, the code at the failing inputs. `setWriterParameter` is not
idempotent, because `mBuildMe` appends to `mThicknessInPowerOfTwoCycles`
without clearing it. Outside the periodic mode every writer returns from both
calls, and the exponent list grows by a 0 with each call: it differs after two
calls from the list after one. In periodic mode, whenever both calls return,
the powers of two of the list add up to those of the list held before plus
`n = int(thickness / period)` after one call and plus `2 n` after two, and
`getBuildThicknessRest` is `thickness` minus that sum times the period: for
`n >= 1` the second call lowers the residual by `n` periods. -/
theorem C32_setWriterParameter_accumulates {R : Type} [LinearOrderedField R] [FloorRing R]
    (m : CMathWriter R) (pi2 degToRad : R) (w : HoeWriter R) (p : HoeWriterParameter R) :
    (∃ (w1 : HoeWriter R) (g1 : ArmaMat R) (w2 : HoeWriter R) (g2 : ArmaMat R),
      HoeWriter.setWriterParameter m pi2 degToRad w { p with stepsPerCycle := false }
        = some (w1, g1) ∧
      HoeWriter.setWriterParameter m pi2 degToRad w1 { p with stepsPerCycle := false }
        = some (w2, g2) ∧
      w1.getThicknessInPowerOfTwoCycles = w.getThicknessInPowerOfTwoCycles ++ [0] ∧
      w2.getThicknessInPowerOfTwoCycles = w.getThicknessInPowerOfTwoCycles ++ [0, 0] ∧
      w2.getThicknessInPowerOfTwoCycles ≠ w1.getThicknessInPowerOfTwoCycles ∧
      w1.getBuildThicknessRest = none ∧ w2.getBuildThicknessRest = none) ∧
    (∀ (w1 : HoeWriter R) (g1 : ArmaMat R) (w2 : HoeWriter R) (g2 : ArmaMat R),
      p.stepsPerCycle = true →
      HoeWriter.setWriterParameter m pi2 degToRad w p = some (w1, g1) →
      HoeWriter.setWriterParameter m pi2 degToRad w1 p = some (w2, g2) →
      ∃ n : ℤ, 0 ≤ n ∧
        doubleToInt (p.thickness / (HoeWriter.mBuildGratingVectors m pi2 degToRad
          { w with mWriterParameter := p }).getCycleLengthZDirection m.abs pi2) = some n ∧
        (((w1.getThicknessInPowerOfTwoCycles.map (2 ^ ·)).sum : ℕ) : ℤ)
          = (((w.getThicknessInPowerOfTwoCycles.map (2 ^ ·)).sum : ℕ) : ℤ) + n ∧
        (((w2.getThicknessInPowerOfTwoCycles.map (2 ^ ·)).sum : ℕ) : ℤ)
          = (((w.getThicknessInPowerOfTwoCycles.map (2 ^ ·)).sum : ℕ) : ℤ) + 2 * n ∧
        w1.getBuildThicknessRest = some (p.thickness
          - (((w1.getThicknessInPowerOfTwoCycles.map (2 ^ ·)).sum : ℕ) : R)
            * (HoeWriter.mBuildGratingVectors m pi2 degToRad
              { w with mWriterParameter := p }).getCycleLengthZDirection m.abs pi2) ∧
        w2.getBuildThicknessRest = some (p.thickness
          - (((w2.getThicknessInPowerOfTwoCycles.map (2 ^ ·)).sum : ℕ) : R)
            * (HoeWriter.mBuildGratingVectors m pi2 degToRad
              { w with mWriterParameter := p }).getCycleLengthZDirection m.abs pi2)) := by
  constructor
  · obtain ⟨w1, g1, h1, hp1, hl1, hr1⟩ := HoeWriter.mBuildMe_of_not_stepsPerCycle m pi2 degToRad
      { w with mWriterParameter := { p with stepsPerCycle := false } } rfl
    obtain ⟨w2, g2, h2, -, hl2, hr2⟩ := HoeWriter.mBuildMe_of_not_stepsPerCycle m pi2 degToRad
      { w1 with mWriterParameter := { p with stepsPerCycle := false } } rfl
    have e1 : w1.getThicknessInPowerOfTwoCycles = w.getThicknessInPowerOfTwoCycles ++ [0] := hl1
    have e2 : w2.getThicknessInPowerOfTwoCycles
        = w.getThicknessInPowerOfTwoCycles ++ [0, 0] := by
      have h : w2.getThicknessInPowerOfTwoCycles = w1.getThicknessInPowerOfTwoCycles ++ [0] := hl2
      rw [h, e1, List.append_assoc]
      rfl
    refine ⟨w1, g1, w2, g2, h1, h2, e1, e2, ?_, hr1, hr2⟩
    intro h
    have hlen := congrArg List.length h
    rw [e1, e2, List.length_append, List.length_append] at hlen
    simp only [List.length_cons, List.length_nil] at hlen
    omega
  · intro w1 g1 w2 g2 hsteps h1 h2
    obtain ⟨n, hn0, hconv, -, hs1, hr1⟩ :=
      HoeWriter.setWriterParameter_periodic m pi2 degToRad w w1 g1 p hsteps h1
    obtain ⟨n', -, hconv', -, hs2, hr2⟩ :=
      HoeWriter.setWriterParameter_periodic m pi2 degToRad w1 w2 g2 p hsteps h2
    rw [HoeWriter.getCycleLengthZDirection_mBuildGratingVectors m pi2 degToRad w1 w p] at hconv' hr2
    have hnn : n' = n := by
      rw [hconv] at hconv'
      exact (Option.some.inj hconv').symm
    subst hnn
    refine ⟨n', hn0, hconv, hs1, ?_, hr1, hr2⟩
    have hs2' : (((w2.getThicknessInPowerOfTwoCycles.map (2 ^ ·)).sum : ℕ) : ℤ)
        = (((w1.getThicknessInPowerOfTwoCycles.map (2 ^ ·)).sum : ℕ) : ℤ) + n' := hs2
    have hs1' : (((w1.getThicknessInPowerOfTwoCycles.map (2 ^ ·)).sum : ℕ) : ℤ)
        = (((w.getThicknessInPowerOfTwoCycles.map (2 ^ ·)).sum : ℕ) : ℤ) + n' := hs1
    rw [hs2', hs1']
    ring

/-- C32, a periodic instance in exact arithmetic: recording angles 0 and 90
degrees at `n = 1` and `lamHoe = pi2` give the grating vector `(-1, 0, 1)` and
the period `pi2`; with `thickness = pi2` a fresh writer holds the exponents
`[0]` and the residual 0 after one call of `setWriterParameter`, and `[0, 0]`
and the residual `-pi2` after the second call with the same parameters. -/
theorem C32_setWriterParameter_accumulates_periodic :
    ∃ (w1 : HoeWriter ℝ) (g1 : ArmaMat ℝ) (w2 : HoeWriter ℝ) (g2 : ArmaMat ℝ),
      HoeWriter.setWriterParameter
        ({ sin := Real.sin, cos := Real.cos, sqrt := Real.sqrt,
           atan2 := fun y x => Complex.arg ⟨x, y⟩, abs := stdAbs } : CMathWriter ℝ)
        (2 * Real.pi) (Real.pi / 180) HoeWriter.init
        ⟨2 * Real.pi, 0, 0, 90, 0, 1, 0, true, 2 * Real.pi, false, 0, 1⟩ = some (w1, g1) ∧
      HoeWriter.setWriterParameter
        ({ sin := Real.sin, cos := Real.cos, sqrt := Real.sqrt,
           atan2 := fun y x => Complex.arg ⟨x, y⟩, abs := stdAbs } : CMathWriter ℝ)
        (2 * Real.pi) (Real.pi / 180) w1
        ⟨2 * Real.pi, 0, 0, 90, 0, 1, 0, true, 2 * Real.pi, false, 0, 1⟩ = some (w2, g2) ∧
      w1.getThicknessInPowerOfTwoCycles = [0] ∧ w1.getBuildThicknessRest = some 0 ∧
      w2.getThicknessInPowerOfTwoCycles = [0, 0] ∧
      w2.getBuildThicknessRest = some (-(2 * Real.pi)) := by
  have key : ∀ (m : CMathWriter ℝ) (q : HoeWriterParameter ℝ),
      m = ({ sin := Real.sin, cos := Real.cos, sqrt := Real.sqrt,
             atan2 := fun y x => Complex.arg ⟨x, y⟩, abs := stdAbs } : CMathWriter ℝ) →
      q = ⟨2 * Real.pi, 0, 0, 90, 0, 1, 0, true, 2 * Real.pi, false, 0, 1⟩ →
      ∃ (w1 : HoeWriter ℝ) (g1 : ArmaMat ℝ) (w2 : HoeWriter ℝ) (g2 : ArmaMat ℝ),
        HoeWriter.setWriterParameter m (2 * Real.pi) (Real.pi / 180) HoeWriter.init q
          = some (w1, g1) ∧
        HoeWriter.setWriterParameter m (2 * Real.pi) (Real.pi / 180) w1 q = some (w2, g2) ∧
        w1.getThicknessInPowerOfTwoCycles = [0] ∧ w1.getBuildThicknessRest = some 0 ∧
        w2.getThicknessInPowerOfTwoCycles = [0, 0] ∧
        w2.getBuildThicknessRest = some (-(2 * Real.pi)) := by
    intro m q hm hq
    have hpi : (2 * Real.pi) ≠ 0 := mul_ne_zero two_ne_zero Real.pi_ne_zero
    have hsteps : q.stepsPerCycle = true := by rw [hq]
    have hthick : q.thickness = 2 * Real.pi := by rw [hq]
    have hrot : ∀ w : HoeWriter ℝ, (HoeWriter.mBuildGratingVectors m (2 * Real.pi)
        (Real.pi / 180) { w with mWriterParameter := q }).mGratingVectorRot 2 = 1 := by
      intro w
      have h90 : Real.pi / 180 * 90 = Real.pi / 2 := by ring
      rw [hm, hq]
      simp [HoeWriter.mBuildGratingVectors, HoeWriter.mCalcKInMaterie, Real.pi_ne_zero, h90]
    have hlen : ∀ w : HoeWriter ℝ, (HoeWriter.mBuildGratingVectors m (2 * Real.pi)
        (Real.pi / 180) { w with mWriterParameter := q }).getCycleLengthZDirection m.abs
          (2 * Real.pi) = 2 * Real.pi := by
      intro w
      have habs : m.abs 1 = 1 := by rw [hm]; exact abs_one
      unfold HoeWriter.getCycleLengthZDirection
      simp only [hrot w, habs, div_one]
    have hg : ∀ w : HoeWriter ℝ, ¬ |(HoeWriter.mBuildGratingVectors m (2 * Real.pi)
        (Real.pi / 180) { w with mWriterParameter := q }).mGratingVectorRot 2| < 1 / 10 ^ 8 := by
      intro w
      rw [hrot w, abs_one]
      norm_num
    have hconv : ∀ w : HoeWriter ℝ, doubleToInt (q.thickness / (HoeWriter.mBuildGratingVectors m
        (2 * Real.pi) (Real.pi / 180)
        { w with mWriterParameter := q }).getCycleLengthZDirection m.abs (2 * Real.pi)) = some 1 := by
      intro w
      rw [hlen w, hthick, div_self hpi]
      exact doubleToInt_of_floor Int.floor_one le_rfl (by norm_num)
    have hloop : ∀ l : List ℕ, powerOfTwoLoop (1 : ℤ).toNat l = l ++ [0] := by
      intro l
      rw [Int.toNat_one, powerOfTwoLoop]
      simp [Nat.log2]
    obtain ⟨w1, g1, h1, hl1, -⟩ := HoeWriter.setWriterParameter_periodic_eq m (2 * Real.pi)
      (Real.pi / 180) HoeWriter.init q 1 hsteps (hg _) (hconv _) one_pos
    obtain ⟨w2, g2, h2, hl2, -⟩ := HoeWriter.setWriterParameter_periodic_eq m (2 * Real.pi)
      (Real.pi / 180) w1 q 1 hsteps (hg _) (hconv _) one_pos
    have e1 : w1.getThicknessInPowerOfTwoCycles = [0] := by
      unfold HoeWriter.getThicknessInPowerOfTwoCycles
      rw [hl1, hloop]
      rfl
    have e2 : w2.getThicknessInPowerOfTwoCycles = [0, 0] := by
      have e1' : w1.mThicknessInPowerOfTwoCycles = [0] := e1
      unfold HoeWriter.getThicknessInPowerOfTwoCycles
      rw [hl2, hloop, e1']
      simp [List.insertionSort, List.orderedInsert]
    obtain ⟨n, -, -, -, -, hr1, hr2⟩ :=
      (C32_setWriterParameter_accumulates m (2 * Real.pi) (Real.pi / 180) HoeWriter.init q).2
        w1 g1 w2 g2 hsteps h1 h2
    refine ⟨w1, g1, w2, g2, h1, h2, e1, ?_, e2, ?_⟩
    · rw [hr1, e1, hlen, hthick]
      norm_num
    · rw [hr2, e2, hlen, hthick]
      congr 1
      norm_num
      ring
  exact key _ _ rfl rfl

/-- C33. Transmission-medium fields are not read: for every
`VolumeHologram3DParameter` and every other pair of values for its `erTrn` and
`urTrn`, the run `VolumeHologram3D(pram).calculateRCWA()` returns the same
`RS`, `RP`, `TS` and `TP` grids (or fails on both sides), and the system that
`mGetSystemParameter` builds has `erRef = urRef = erTrn = urTrn = 1` whatever
the parameters are. -/
theorem C33_transmission_medium_not_read {R K : Type} [LinearOrderedField R] [FloorRing R]
    [Field K] [DecidableEq K] {Nx : ℕ} (lib : Numerics R K Nx 0) (m : CMathWriter R)
    (pi2 degToRad : R) (to_string : R → String) (stod : String → Option R)
    (mPram : VolumeHologram3DParameter R K) (erTrn urTrn : K) :
    VolumeHologram3D.calculateRCWAOfParameter lib m pi2 degToRad to_string stod
        { mPram with erTrn := erTrn, urTrn := urTrn }
      = VolumeHologram3D.calculateRCWAOfParameter lib m pi2 degToRad to_string stod mPram ∧
    ∀ writer : HoeWriter R,
      (VolumeHologram3D.mGetSystemParameter lib m.toCMath pi2 degToRad mPram writer).param.erRef
        = 1 ∧
      (VolumeHologram3D.mGetSystemParameter lib m.toCMath pi2 degToRad mPram writer).param.urRef
        = 1 ∧
      (VolumeHologram3D.mGetSystemParameter lib m.toCMath pi2 degToRad mPram writer).param.erTrn
        = 1 ∧
      (VolumeHologram3D.mGetSystemParameter lib m.toCMath pi2 degToRad mPram writer).param.urTrn
        = 1 := by
  constructor
  · unfold VolumeHologram3D.calculateRCWAOfParameter
    simp only [VolumeHologram3D.mGetHoeWriter_erTrn_urTrn,
      VolumeHologram3D.calculateRCWA_erTrn_urTrn]
  · intro writer
    exact ⟨rfl, rfl, rfl, rfl⟩


end Claims

end rcwa
